import Mathlib

/-!
Distributed slice engine (`oneflow/user/kernels/slice_kernel.cpp`).

A shallow embedding of the slice parameter builders, of the copy engine
`WriteSlice`, of `CreateSliceCache` and of the kernels, followed by theorems
about them.

Conventions of the embedding.

* `int64_t` values (extents, bounds, strides, offsets) are integers (`Int`); C++
  `/` and `%` are the truncating `Int.tdiv` and `Int.tmod`. The definitions with
  the names of the source compute over the integers: they are the code on every
  input on which no operation leaves the range of `int64_t`. The definitions named
  `_int64` convert the result of every operation to 64 bits (two's complement),
  the value that the machine leaves when the stride alignment of line 82,
  `GetSizeInSlice` or the cross-check of lines 167 and 169 overflows.
* The run length `cnt` and the loop counter `i` of `WriteSlice`, declared `int`,
  keep their 32 bits: the `int64_t` product stored to `cnt` is converted by
  `int32_wrap`; a sum `i + cnt` past the range of `int` is a signed overflow and
  the loop then yields no result. The definitions named `_exact` are the same scan,
  loop and kernels over the integers; the code agrees with them below `2^31`
  elements (`WriteSlice_eq_exact`).
* A `CHECK_*` failure, `UNIMPLEMENTED()` and an out-of-range `.at(i)` end the
  process; the embedding returns `Except.error` with the check that fired.
* The fixed arrays of `SliceParams` are lists of `kSliceMaxDims` integers,
  zeroed by `memset`; `a[i]` is `a.getD i 0`.
* A buffer is a map from element offset to value; a tensor shape is the list of
  its extents, and `shape().elem_cnt()` is the product of the list.
* The distribution annotation `NdSbp` is the list of its `SbpParallel` entries.
-/

namespace oneflow

/-! ## Data model -/

/-- The checks of the source whose failure is fatal. -/
inductive CheckFailure where
  /-- `CHECK_LE(ndim, kSliceMaxDims)` -/
  | rank_exceeds_max
  /-- `CHECK_EQ(start_vec.size(), ndim)` and its two siblings, or `.at(i)` past the end -/
  | attr_size
  /-- `CHECK_LE(sliced rank, 1)` / `CHECK_EQ(sliced rank, ndim)` -/
  | sliced_rank
  /-- `CHECK_GT(step, 0)` -/
  | step_not_positive
  /-- `CHECK_NE(step, 0)` -/
  | step_zero
  /-- `CHECK_LT(start + step * (slice_size - 1), stop)` or its `CHECK_GT` sibling -/
  | size_cross_check
  /-- `CHECK_EQ(large->shape().At(split_axis), upper - lower)` -/
  | split_extent
  /-- `CHECK_EQ(large_slice_param.elem_cnt(), small_slice_param.elem_cnt())` -/
  | elem_cnt_mismatch
  /-- `shape.At(i)` with `i` outside the shape -/
  | shape_axis
  /-- `CHECK(std::all_of(...))` of `CreateSliceCache`: "nd_sbp must be broadcast or
  partial_sum" -/
  | nd_sbp_not_broadcast
  /-- `in_nd_sbp.sbp_parallel(0)` on an annotation without entries -/
  | sbp_index
  /-- `UNIMPLEMENTED()` -/
  | unimplemented
  deriving DecidableEq, Repr

deriving instance DecidableEq for Except

/-- The sentinel `SPLIT_AXIS_FOR_NON_SPLIT`. -/
def SPLIT_AXIS_FOR_NON_SPLIT : Int := -1

/-- Modelled from the spec: the rank ceiling `kSliceMaxDims` is declared in
`slice_util.h`; the spec gives "a small fixed constant, e.g. 8". -/
def kSliceMaxDims : Nat := 8

/-- The function `GetSizeInSlice`: size of `[start, end)` walked with `step`, over
the integers. It is the code when `end - start` is a value of `int64_t`
(`GetSizeInSlice_int64_eq`), as for bounds normalised into `[0, extent]`; the
function in 64 bits is `GetSizeInSlice_int64`. -/
def GetSizeInSlice (start end_ step : Int) : Int :=
  if end_ ≤ start then 0 else Int.tdiv (end_ - start - 1) step + 1

/-- The struct `SliceContext`. -/
structure SliceContext where
  split_axis : Int
  lower : Int
  upper : Int
  logical_length : Int
  deriving DecidableEq, Repr

/-- Modelled from the spec: the struct `SliceParams` is declared in
`slice_util.h`; the spec gives "a fixed-capacity descriptor (dims, start,
step, resulting size, per-axis)" with an explicit rank field. -/
structure SliceParams where
  ndim : Nat
  dims : List Int
  start : List Int
  step : List Int
  size : List Int
  deriving DecidableEq, Repr

/-- The effect of `std::memset(slice_param, 0, sizeof(SliceParams))`. -/
def SliceParams.zeroed : SliceParams :=
  { ndim := 0
    dims := List.replicate kSliceMaxDims 0
    start := List.replicate kSliceMaxDims 0
    step := List.replicate kSliceMaxDims 0
    size := List.replicate kSliceMaxDims 0 }

/-- The four assignments `dims[i] = d; start[i] = s; step[i] = st; size[i] = sz`. -/
def SliceParams.setAxis (p : SliceParams) (i : Nat) (d s st sz : Int) : SliceParams :=
  { p with
    dims := p.dims.set i d
    start := p.start.set i s
    step := p.step.set i st
    size := p.size.set i sz }

/-- Modelled from the spec: `SliceParams::elem_cnt()` is declared in
`slice_util.h`; the spec gives "`elem_cnt()` = product of `size[i]`". -/
def SliceParams.elem_cnt (p : SliceParams) : Int :=
  ((List.range p.ndim).map (fun i => p.size.getD i 0)).prod

/-- Modelled from the spec: `SliceParams::IsFullSlice` is declared in
`slice_util.h`; the spec gives "`IsFullSlice(i)` ⇔ `start[i]==0 ∧ step[i]==1 ∧
size[i]==dims[i]`". -/
def SliceParams.IsFullSlice (p : SliceParams) (i : Nat) : Bool :=
  decide (p.start.getD i 0 = 0) && decide (p.step.getD i 0 = 1)
    && decide (p.size.getD i 0 = p.dims.getD i 0)

/-- The loop `FOR_RANGE(int, i, 0, n) { body }` of the builders (the macro is declared
in `util.h`): the axes `0, ..., n - 1` in increasing order; the body may abort, and
the abort ends the loop. -/
def FOR_RANGE {σ : Type} (n : Nat) (body : Nat → σ → Except CheckFailure σ) (init : σ) :
    Except CheckFailure σ :=
  match n with
  | 0 => .ok init
  | k + 1 =>
    match FOR_RANGE k body init with
    | .ok s => body k s
    | .error e => .error e

/-! ## `ConstructSliceParamsLarge` -/

/-- Line 82: the right-hand side
`ctx.lower + (step - (ctx.lower - start_in_splitted_large) % step) % step`, over the
integers. It is the code when the sum stays in `int64_t`; the expression in 64 bits
is `advanced_start_int64`. -/
def advanced_start (lower start step : Int) : Int :=
  lower + Int.tmod (step - Int.tmod (lower - start) step) step

/-- Lines 76-88, start: `start_in_splitted_large` after the split-axis block, over
the integers (in 64 bits: `start_in_splitted_large_int64`). -/
def start_in_splitted_large (ctx : SliceContext) (i : Nat) (start_in_full_large step : Int) :
    Int :=
  if (i : Int) = ctx.split_axis then
    let s0 := start_in_full_large
    let s1 := if s0 < ctx.lower then advanced_start ctx.lower s0 step else s0
    let s2 := min (max s1 ctx.lower) ctx.upper
    s2 - ctx.lower
  else start_in_full_large

/-- Lines 77-88, stop: `stop_in_splitted_large` after the split-axis block. -/
def stop_in_splitted_large (ctx : SliceContext) (i : Nat) (stop_in_full_large : Int) : Int :=
  if (i : Int) = ctx.split_axis then
    min (max stop_in_full_large ctx.lower) ctx.upper - ctx.lower
  else stop_in_full_large

/-- The body of the loop of `ConstructSliceParamsLarge` (lines 71-94). -/
def ConstructSliceParamsLarge_body (ctx : SliceContext) (start_vec stop_vec step_vec : List Int)
    (shape : List Int) (i : Nat) (p : SliceParams) : Except CheckFailure SliceParams :=
  let dim_size := shape.getD i 0
  let step := step_vec.getD i 0
  if ¬ (step > 0) then .error .step_not_positive
  else
    let s := start_in_splitted_large ctx i (start_vec.getD i 0) step
    let e := stop_in_splitted_large ctx i (stop_vec.getD i 0)
    let slice_size := GetSizeInSlice s e step
    .ok (p.setAxis i dim_size s step slice_size)

/-- The function `ConstructSliceParamsLarge`. -/
def ConstructSliceParamsLarge (ctx : SliceContext) (start_vec stop_vec step_vec : List Int)
    (shape : List Int) : Except CheckFailure SliceParams :=
  let ndim := shape.length
  if ¬ (ndim ≤ kSliceMaxDims) then .error .rank_exceeds_max
  else if start_vec.length ≠ ndim then .error .attr_size
  else if stop_vec.length ≠ ndim then .error .attr_size
  else if step_vec.length ≠ ndim then .error .attr_size
  else
    FOR_RANGE ndim (ConstructSliceParamsLarge_body ctx start_vec stop_vec step_vec shape)
      { SliceParams.zeroed with ndim := ndim }

/-! ## `ConstructSliceParamsSmall` -/

/-- Lines 116-122, start: `start_in_full_small`. -/
def start_in_full_small (ctx : SliceContext) (i : Nat) (start_in_full_large step dim_size : Int) :
    Int :=
  if (i : Int) = ctx.split_axis then
    min (max (GetSizeInSlice start_in_full_large ctx.lower step) 0) dim_size
  else 0

/-- Lines 117-122, stop: `stop_in_full_small`. -/
def stop_in_full_small (ctx : SliceContext) (i : Nat) (start_in_full_large step dim_size : Int) :
    Int :=
  if (i : Int) = ctx.split_axis then
    min (max (GetSizeInSlice start_in_full_large ctx.upper step) 0) dim_size
  else dim_size

/-- The body of the loop of `ConstructSliceParamsSmall` (lines 111-128). -/
def ConstructSliceParamsSmall_body (ctx : SliceContext) (start_vec step_vec : List Int)
    (shape : List Int) (i : Nat) (p : SliceParams) : Except CheckFailure SliceParams :=
  let start_in_full_large := start_vec.getD i 0
  let step := step_vec.getD i 0
  if ¬ (step > 0) then .error .step_not_positive
  else
    let dim_size := shape.getD i 0
    let s := start_in_full_small ctx i start_in_full_large step dim_size
    let e := stop_in_full_small ctx i start_in_full_large step dim_size
    let slice_size := e - s
    .ok (p.setAxis i dim_size s 1 slice_size)

/-- The function `ConstructSliceParamsSmall`. -/
def ConstructSliceParamsSmall (ctx : SliceContext) (start_vec stop_vec step_vec : List Int)
    (shape : List Int) : Except CheckFailure SliceParams :=
  let ndim := shape.length
  if ¬ (ndim ≤ kSliceMaxDims) then .error .rank_exceeds_max
  else if start_vec.length ≠ ndim then .error .attr_size
  else if stop_vec.length ≠ ndim then .error .attr_size
  else if step_vec.length ≠ ndim then .error .attr_size
  else
    FOR_RANGE ndim (ConstructSliceParamsSmall_body ctx start_vec step_vec shape)
      { SliceParams.zeroed with ndim := ndim }

/-! ## `WriteSlice`: normalisation and the two parameter blocks -/

/-- Modelled from the spec: the accessor `ShapeView::At(i)` is declared in
`shape_view.h`; the spec gives the "tensor shape" as an input of the engine. It
reads `shape[i]`; an index outside the shape fails its range check. -/
def ShapeView_At (shape : List Int) (i : Int) : Except CheckFailure Int :=
  if 0 ≤ i ∧ i < shape.length then .ok (shape.getD i.toNat 0) else .error .shape_axis

/-- The extent against which `WriteSlice` normalises axis `i` (lines 237 and 239):
`i == slice_ctx.split_axis ? slice_ctx.logical_length : dim_size`. -/
def normalize_extent (slice_ctx : SliceContext) (large_shape : List Int) (i : Nat) : Int :=
  if (i : Int) = slice_ctx.split_axis then slice_ctx.logical_length else large_shape.getD i 0

/-- The body of the normalisation loop of `WriteSlice` (lines 235-239). The
helpers `RegulateSliceStart` and `RegulateSliceStop` of `slice_util.h` are the
parameters `regulateStart` and `regulateStop`. -/
def WriteSlice_normalize_body (regulateStart regulateStop : Int → Int → Int)
    (slice_ctx : SliceContext) (start_attr stop_attr large_shape : List Int) (i : Nat)
    (acc : List Int × List Int) : Except CheckFailure (List Int × List Int) :=
  if ¬ (i < large_shape.length) then .error .shape_axis
  else if ¬ (i < stop_attr.length) then .error .attr_size
  else
    .ok (acc.1 ++ [regulateStart (start_attr.getD i 0)
                    (normalize_extent slice_ctx large_shape i)],
         acc.2 ++ [regulateStop (stop_attr.getD i 0)
                    (normalize_extent slice_ctx large_shape i)])

/-- Lines 224-247 of `WriteSlice`: the split-extent check, the normalisation of
start and stop, the two parameter blocks and the element-count check. The result
is the pair `(large_slice_param, small_slice_param)`. -/
def WriteSlice_params (regulateStart regulateStop : Int → Int → Int)
    (slice_ctx : SliceContext) (start_attr stop_attr step_attr : List Int)
    (large_shape small_shape : List Int) : Except CheckFailure (SliceParams × SliceParams) :=
  let split_check : Except CheckFailure Unit :=
    if slice_ctx.split_axis ≠ SPLIT_AXIS_FOR_NON_SPLIT then
      match ShapeView_At large_shape slice_ctx.split_axis with
      | .ok extent =>
        if extent = slice_ctx.upper - slice_ctx.lower then .ok () else .error .split_extent
      | .error e => .error e
    else .ok ()
  match split_check with
  | .error e => .error e
  | .ok _ =>
    match FOR_RANGE start_attr.length
        (WriteSlice_normalize_body regulateStart regulateStop slice_ctx
          start_attr stop_attr large_shape) ([], []) with
    | .error e => .error e
    | .ok (positive_start_vec, positive_stop_vec) =>
      match ConstructSliceParamsLarge slice_ctx positive_start_vec positive_stop_vec step_attr
          large_shape with
      | .error e => .error e
      | .ok large_slice_param =>
        match ConstructSliceParamsSmall slice_ctx positive_start_vec positive_stop_vec step_attr
            small_shape with
        | .error e => .error e
        | .ok small_slice_param =>
          if large_slice_param.elem_cnt = small_slice_param.elem_cnt then
            .ok (large_slice_param, small_slice_param)
          else .error .elem_cnt_mismatch

/-! ## `ConstructSliceParams` -/

/-- Modelled from the spec: `RegulateSliceStart` is declared in `slice_util.h`;
the spec gives "negative indices count from the end, as `index + dims[i]`, then
clamped" into `[0, dims[i]]`. -/
def RegulateSliceStart (start size : Int) : Int :=
  min (max (if start < 0 then start + size else start) 0) size

/-- Modelled from the spec: `RegulateSliceStop` is declared in `slice_util.h`;
the spec gives "negative `start`/`stop` normalize via `+dim_size` before clamping
to `[0, dim_size]`". -/
def RegulateSliceStop (stop size : Int) : Int :=
  min (max (if stop < 0 then stop + size else stop) 0) size

/-- The body of the loop of `ConstructSliceParams` (lines 160-174), the cross-check
`start + step * (slice_size - 1)` over the integers. It is the code when the
cross-check stays in `int64_t` (`ConstructSliceParams_body_int64_eq`); the body in
64 bits is `ConstructSliceParams_body_int64`. -/
def ConstructSliceParams_body (regulateStart regulateStop : Int → Int → Int)
    (start_vec stop_vec step_vec : List Int) (entire_shape sliced_shape : List Int)
    (i : Nat) (params : SliceParams) : Except CheckFailure SliceParams :=
  let dim_size := entire_shape.getD i 0
  let slice_size := sliced_shape.getD i 0
  let step := step_vec.getD i 0
  if ¬ (step ≠ 0) then .error .step_zero
  else
    let start := regulateStart (start_vec.getD i 0) dim_size
    let stop := regulateStop (stop_vec.getD i 0) dim_size
    if step > 0 then
      if ¬ (start + step * (slice_size - 1) < stop) then .error .size_cross_check
      else .ok (params.setAxis i dim_size start step slice_size)
    else
      if ¬ (start + step * (slice_size - 1) > stop) then .error .size_cross_check
      else .ok (params.setAxis i dim_size start step slice_size)

/-- The function `ConstructSliceParams`; `entire_shape` and `sliced_shape` are the
shapes of the tensors `entire` and `sliced`, the three vectors are the attributes
`start`, `stop`, `step` of the kernel context. The helpers `RegulateSliceStart`
and `RegulateSliceStop` of `slice_util.h` are the parameters `regulateStart` and
`regulateStop`. -/
def ConstructSliceParams (regulateStart regulateStop : Int → Int → Int)
    (start_vec stop_vec step_vec : List Int) (entire_shape sliced_shape : List Int) :
    Except CheckFailure SliceParams :=
  let ndim := entire_shape.length
  if ¬ (ndim ≤ kSliceMaxDims) then .error .rank_exceeds_max
  else if (if entire_shape.length = 1 then ¬ (sliced_shape.length ≤ 1)
           else ¬ (sliced_shape.length = ndim)) then .error .sliced_rank
  else if start_vec.length ≠ ndim then .error .attr_size
  else if stop_vec.length ≠ ndim then .error .attr_size
  else if step_vec.length ≠ ndim then .error .attr_size
  else if entire_shape.length = 1 ∧ sliced_shape.length = 0 then
    .ok (({ SliceParams.zeroed with ndim := ndim }).setAxis 0
      (entire_shape.getD 0 0) (regulateStart (start_vec.getD 0 0) (entire_shape.getD 0 0))
      (step_vec.getD 0 0) 1)
  else
    FOR_RANGE ndim
      (ConstructSliceParams_body regulateStart regulateStop start_vec stop_vec step_vec
        entire_shape sliced_shape)
      { SliceParams.zeroed with ndim := ndim }

/-! ## Index conversion and the run length of `WriteSlice` -/

/-- The first `NDIM` entries of a fixed array of `SliceParams`. -/
def first_entries (NDIM : Nat) (a : List Int) : List Int :=
  (List.range NDIM).map (fun i => a.getD i 0)

/-- Modelled from the spec: `SliceIndexHelper<NDIM>::OffsetToNdIndex` is declared in
`nd_index_offset_helper.h`; the spec gives a "mapping between an n-dimensional
coordinate and a linear offset, given a shape", innermost axis last. The index of
an axis is the remaining offset divided by the stride of the axis, the product of
the inner extents; the last axis takes what remains. -/
def OffsetToNdIndex : List Int → Int → List Int
  | [], _ => []
  | [_], remaining => [remaining]
  | _ :: d :: ds, remaining =>
    let stride := (d :: ds).prod
    let idx := Int.tdiv remaining stride
    idx :: OffsetToNdIndex (d :: ds) (remaining - idx * stride)

/-- Modelled from the spec: `SliceIndexHelper<NDIM>::NdIndexToOffset` is declared in
`nd_index_offset_helper.h`; the spec gives a "mapping between an n-dimensional
coordinate and a linear offset, given a shape": the sum of `index[i] * stride[i]`. -/
def NdIndexToOffset : List Int → List Int → Int
  | _ :: ds, x :: xs => x * ds.prod + NdIndexToOffset ds xs
  | _, _ => 0

/-- Modelled from the spec: `SliceOffsetToEntireOffset<NDIM>` is declared in
`slice_util.h`; the spec gives "slice-offset → nd-coordinate → entire-buffer
offset": the offset is split over `params.size`, each index `idx[i]` becomes
`start[i] + step[i] * idx[i]`, and the result is linearised over `params.dims`. -/
def SliceOffsetToEntireOffset (NDIM : Nat) (offset : Int) (params : SliceParams) : Int :=
  let nd_index := OffsetToNdIndex (first_entries NDIM params.size) offset
  let entire_index := (List.range NDIM).map
    (fun i => params.start.getD i 0 + params.step.getD i 0 * nd_index.getD i 0)
  NdIndexToOffset (first_entries NDIM params.dims) entire_index

/-- The value of an integer after conversion to `int` (32 bits, two's
complement): the representative of `x` modulo `2^32` in `[-2^31, 2^31)`. -/
def int32_wrap (x : Int) : Int :=
  (x + 2147483648) % 4294967296 - 2147483648

/-- Lines 255-259 of `WriteSlice`, the scan `for (int i = NDIM - 1; i >= 0; i--)`
with `k = i + 1` axes left and the running value of `int cnt`: in
`cnt *= large_slice_param.size[i]` the product is taken in `int64_t` and stored to
`int`. A product past 64 bits has the same value in `int`, so the product is the
one of the integers. -/
def WriteSlice_cnt_scan (large_slice_param small_slice_param : SliceParams) :
    Nat → Int → Int
  | 0, cnt => cnt
  | i + 1, cnt =>
    let cnt1 := if large_slice_param.step.getD i 0 = 1
      then int32_wrap (cnt * large_slice_param.size.getD i 0) else cnt
    if !large_slice_param.IsFullSlice i || !small_slice_param.IsFullSlice i then cnt1
    else WriteSlice_cnt_scan large_slice_param small_slice_param i cnt1

/-- Lines 255-259 of `WriteSlice`: the length `cnt` of the continuous part, the
value of `int cnt` after the scan. -/
def WriteSlice_cnt (NDIM : Nat) (large_slice_param small_slice_param : SliceParams) :
    Int :=
  WriteSlice_cnt_scan large_slice_param small_slice_param NDIM 1

/-! ## The copy loop of `WriteSlice` and the logical slice kernel

A buffer is a map from element offset to value. -/

/-- Modelled from the spec: `AutoMemcpy` is declared in `kernel_util.h`; the spec
gives "one bulk byte copy per run". In the call `AutoMemcpy(dst_ptr + dst_offset,
src_ptr + src_offset, cnt * sizeof(T), ...)`, `cnt` consecutive elements of `src`
from `src_offset` are written to `dst` from `dst_offset`. -/
def AutoMemcpy {α : Type} (dst src : Int → α) (dst_offset src_offset cnt : Int) : Int → α :=
  fun p =>
    if dst_offset ≤ p ∧ p < dst_offset + cnt then src (src_offset + (p - dst_offset))
    else dst p

/-- Modelled from the spec: `AutoMemset` is declared in `kernel_util.h`; the spec
gives "zero-fill the destination first". In the call `AutoMemset(ptr, 0, elem_cnt *
sizeof(T), ...)` the first `elem_cnt` elements are zeroed. -/
def AutoMemset {α : Type} [Zero α] (dst : Int → α) (elem_cnt : Int) : Int → α :=
  fun p => if 0 ≤ p ∧ p < elem_cnt then 0 else dst p

/-- Whether an integer is a value of `int` (32 bits, two's complement). -/
def in_int32 (x : Int) : Bool :=
  decide (-2147483648 ≤ x) && decide (x < 2147483648)

/-- Lines 262-271 of `WriteSlice`: the loop `for (int i = 0; i < elem_cnt; i += cnt)`
from the value `i`, with the current destination buffer. The test compares in
`int64_t`. The result is `none` when the loop yields no result: it has not ended
after `fuel` rounds; or the body runs with a negative `cnt`, which
`cnt * GetSizeOfDataType(...)` converts to `size_t`, a length past every buffer; or
the sum `i + cnt` leaves the range of `int`, a signed overflow, whose behaviour is
undefined (a build may wrap the counter or keep it in 64 bits). -/
def WriteSlice_copy_loop {α : Type} (NDIM : Nat) (large_slice_param small_slice_param :
    SliceParams) (from_large_to_small : Bool) (elem_cnt cnt : Int) (src : Int → α) :
    Nat → Int → (Int → α) → Option (Int → α)
  | 0, i, dst => if i < elem_cnt then none else some dst
  | fuel + 1, i, dst =>
    if i < elem_cnt then
      if cnt < 0 then none
      else if in_int32 (i + cnt) then
        let large_offset := SliceOffsetToEntireOffset NDIM i large_slice_param
        let small_offset := SliceOffsetToEntireOffset NDIM i small_slice_param
        let src_offset := if from_large_to_small then large_offset else small_offset
        let dst_offset := if from_large_to_small then small_offset else large_offset
        WriteSlice_copy_loop NDIM large_slice_param small_slice_param from_large_to_small
          elem_cnt cnt src fuel (i + cnt) (AutoMemcpy dst src dst_offset src_offset cnt)
      else none
    else some dst

/-- The function `WriteSlice<NDIM, T>`: `src_shape` and `dst_shape` are the shapes of
the tensors `src` and `dst`, `src` and `dst` their buffers. The result is the
destination buffer after the copy, `none` when the copy loop yields no result (see
`WriteSlice_copy_loop`). -/
def WriteSlice {α : Type} (regulateStart regulateStop : Int → Int → Int) (fuel : Nat)
    (NDIM : Nat) (slice_ctx : SliceContext) (start_attr stop_attr step_attr : List Int)
    (src_shape dst_shape : List Int) (src dst : Int → α) (from_large_to_small : Bool) :
    Except CheckFailure (Option (Int → α)) :=
  let large_shape := if from_large_to_small then src_shape else dst_shape
  let small_shape := if from_large_to_small then dst_shape else src_shape
  match WriteSlice_params regulateStart regulateStop slice_ctx start_attr stop_attr step_attr
      large_shape small_shape with
  | .error e => .error e
  | .ok (large_slice_param, small_slice_param) =>
    let elem_cnt := large_slice_param.elem_cnt
    let cnt := WriteSlice_cnt NDIM large_slice_param small_slice_param
    .ok (WriteSlice_copy_loop NDIM large_slice_param small_slice_param
      from_large_to_small elem_cnt cnt src fuel 0 dst)

/-- The method `LogicalSliceKernel::Compute` (lines 343-354): `y` is zeroed over the
`elem_cnt` of its shape, then `WriteSlice` copies from `x` (large) to `y` (small),
with `NDIM` the rank of `y`. -/
def LogicalSliceKernel_Compute {α : Type} [Zero α] (regulateStart regulateStop : Int → Int → Int)
    (fuel : Nat) (slice_ctx : SliceContext) (start_attr stop_attr step_attr : List Int)
    (x_shape y_shape : List Int) (x y : Int → α) : Except CheckFailure (Option (Int → α)) :=
  WriteSlice regulateStart regulateStop fuel y_shape.length slice_ctx start_attr stop_attr
    step_attr x_shape y_shape x (AutoMemset y y_shape.prod) true

/-- The element-by-element copy that one run of `WriteSlice` stands for: for
`j = 0, ..., k - 1` in turn, `dst[dst_off (i + j)] = src[src_off (i + j)]`. -/
def copy_run_elementwise {α : Type} (dst_off src_off : Int → Int) (src : Int → α) (i : Int) :
    Nat → (Int → α) → (Int → α)
  | 0, dst => dst
  | k + 1, dst =>
    fun p =>
      if p = dst_off (i + k) then src (src_off (i + k))
      else copy_run_elementwise dst_off src_off src i k dst p

/-- Entry `i` of `positive_start_vec` in `WriteSlice` (line 236). -/
def positive_start_at (regulateStart : Int → Int → Int) (slice_ctx : SliceContext)
    (start_attr large_shape : List Int) (i : Nat) : Int :=
  regulateStart (start_attr.getD i 0) (normalize_extent slice_ctx large_shape i)

/-- Entry `i` of `positive_stop_vec` in `WriteSlice` (line 238). -/
def positive_stop_at (regulateStop : Int → Int → Int) (slice_ctx : SliceContext)
    (stop_attr large_shape : List Int) (i : Nat) : Int :=
  regulateStop (stop_attr.getD i 0) (normalize_extent slice_ctx large_shape i)

/-- Modelled from the spec: the local shard of a tensor distributed with
`Split(axis)`; the spec gives "the concatenation (along `axis`, in rank order) of
each worker's local shard reproduces the unsharded tensor". The element at index
`I` of the shard `[lower, upper)` is the element of the logical tensor `x` at the
index `I` moved by `lower` on the split axis. -/
def shard_buffer {α : Type} (shape : List Int) (split_axis : Nat) (lower upper : Int)
    (x : Int → α) : Int → α :=
  fun q =>
    let index := OffsetToNdIndex (shape.set split_axis (upper - lower)) q
    x (NdIndexToOffset shape
      ((List.range shape.length).map
        (fun t => if t = split_axis then index.getD t 0 + lower else index.getD t 0)))

/-! ### Auxiliary functions of the proofs on index conversion -/

/-- The copy loop of `WriteSlice` with the two offset conversions given as
functions of the slice offset. -/
def copy_loop_fn {α : Type} (dst_off src_off : Int → Int) (elem_cnt cnt : Int) (src : Int → α) :
    Nat → Int → (Int → α) → Option (Int → α)
  | 0, i, dst => if i < elem_cnt then none else some dst
  | fuel + 1, i, dst =>
    if i < elem_cnt then
      copy_loop_fn dst_off src_off elem_cnt cnt src fuel (i + cnt)
        (AutoMemcpy dst src (dst_off i) (src_off i) cnt)
    else some dst


/-- The product `f 0 * ... * f (n - 1)`. -/
def prod_upto (f : Nat → Int) (n : Nat) : Int :=
  ((List.range n).map f).prod

/-- The accessor of the axes after the first: `shift f t = f (t + 1)`. -/
def shift {α : Type} (f : Nat → α) : Nat → α :=
  fun t => f (t + 1)

/-- The computation of `SliceOffsetToEntireOffset` with the four arrays given by
their accessors. -/
def entire_offset_fn (n : Nat) (dims start step size : Nat → Int) (off : Int) : Int :=
  NdIndexToOffset ((List.range n).map dims)
    ((List.range n).map
      (fun i => start i + step i * (OffsetToNdIndex ((List.range n).map size) off).getD i 0))

/-- The index of axis `t` in `OffsetToNdIndex` of `off`, the extents given by
their accessor. -/
def nd_index_fn (n : Nat) (size : Nat → Int) (off : Int) (t : Nat) : Int :=
  (OffsetToNdIndex ((List.range n).map size) off).getD t 0

/-- The value of `NdIndexToOffset`, extents and index given by their accessors. -/
def nd_offset_fn (n : Nat) (dims : Nat → Int) (index : Nat → Int) : Int :=
  NdIndexToOffset ((List.range n).map dims) ((List.range n).map index)

/-- The scan of `WriteSlice_cnt_scan_exact` with the step test, the sizes and the
full-slice test given by their accessors. -/
def cnt_scan_fn_exact (mul : Nat → Bool) (size : Nat → Int) (full : Nat → Bool) : Nat → Int → Int
  | 0, cnt => cnt
  | i + 1, cnt =>
    let cnt1 := if mul i then cnt * size i else cnt
    if !full i then cnt1 else cnt_scan_fn_exact mul size full i cnt1

/-- The range of the claim on the plain builder, in its words: an index lies "in
`[start, stop)` for positive step or in `(stop, start]` for negative step". -/
def in_slice_range (start stop step x : Int) : Prop :=
  if step > 0 then start ≤ x ∧ x < stop else stop < x ∧ x ≤ start

instance (start stop step x : Int) : Decidable (in_slice_range start stop step x) := by
  unfold in_slice_range
  infer_instance

/-! ## `CreateSliceCache` -/

/-- Modelled from the spec: the message `SbpParallel` is declared in
`sbp_parallel.proto`; the spec gives the distribution annotation as "one of
`Split(axis)`, `Broadcast`, `PartialSum`". The three are the cases of a oneof
field; `unset` is the message in which none of them is set. -/
inductive SbpParallel where
  | split_parallel (axis : Int)
  | broadcast_parallel
  | partial_sum_parallel
  | unset
  deriving DecidableEq, Repr

/-- The accessor `has_split_parallel()`. -/
def SbpParallel.has_split_parallel : SbpParallel → Bool
  | .split_parallel _ => true
  | _ => false

/-- The accessor `has_broadcast_parallel()`. -/
def SbpParallel.has_broadcast_parallel : SbpParallel → Bool
  | .broadcast_parallel => true
  | _ => false

/-- The accessor `has_partial_sum_parallel()`. -/
def SbpParallel.has_partial_sum_parallel : SbpParallel → Bool
  | .partial_sum_parallel => true
  | _ => false

/-- The accessor `split_parallel().axis()`; the default of the field is `0`. -/
def SbpParallel.axis : SbpParallel → Int
  | .split_parallel a => a
  | _ => 0

/-- Modelled from the spec: the class `BalancedSplitter` is declared in
`balanced_splitter.h`; the spec gives "a balanced, gapless, non-overlapping
partition of that axis's logical length into `group_size` nearly-equal contiguous
ranges, ordered by rank". The value is the range `(begin, end)` of part `idx` of
`total_num` elements in `split_num` parts: every part has `total_num / split_num`
elements, and the first `total_num % split_num` parts have one more. -/
def BalancedSplitter_At (total_num split_num idx : Int) : Int × Int :=
  let base_part_size := total_num / split_num
  let base_begin_idx := total_num % split_num
  if idx < base_begin_idx then
    ((base_part_size + 1) * idx, (base_part_size + 1) * idx + (base_part_size + 1))
  else
    ((base_part_size + 1) * base_begin_idx + base_part_size * (idx - base_begin_idx),
     (base_part_size + 1) * base_begin_idx + base_part_size * (idx - base_begin_idx)
       + base_part_size)

/-- The function `CreateSliceCache` (lines 284-317), its result the `SliceContext`
that the cache wraps. `parallel_num` and `parallel_id` are the fields of
`ctx->parallel_ctx()`, `in_nd_sbp` the entries of `NdSbp4ArgNameAndIndex`,
`logical_shape` the shape of `LogicalTensorDesc4ArgNameAndIndex`. The class
`BalancedSplitter` of `balanced_splitter.h` is the parameter `balanced_range`:
`balanced_range total_num split_num idx` is the pair `(bs.At(idx).begin(),
bs.At(idx).end())` of `BalancedSplitter bs(total_num, split_num)`. -/
def CreateSliceCache (balanced_range : Int → Int → Int → Int × Int)
    (parallel_num parallel_id : Int) (in_nd_sbp : List SbpParallel)
    (logical_shape : List Int) : Except CheckFailure SliceContext :=
  if parallel_num = 1 then .ok ⟨SPLIT_AXIS_FOR_NON_SPLIT, 0, 0, 0⟩
  else if in_nd_sbp.length > 1 then
    if in_nd_sbp.all
        (fun sbp => sbp.has_broadcast_parallel || sbp.has_partial_sum_parallel) then
      .ok ⟨SPLIT_AXIS_FOR_NON_SPLIT, 0, 0, 0⟩
    else .error .nd_sbp_not_broadcast
  else
    match in_nd_sbp.head? with
    | none => .error .sbp_index
    | some in_sbp =>
      if in_sbp.has_split_parallel then
        let split_axis := in_sbp.axis
        match ShapeView_At logical_shape split_axis with
        | .error e => .error e
        | .ok split_dim_size =>
          .ok ⟨split_axis, (balanced_range split_dim_size parallel_num parallel_id).1,
            (balanced_range split_dim_size parallel_num parallel_id).2, split_dim_size⟩
      else if in_sbp.has_broadcast_parallel || in_sbp.has_partial_sum_parallel then
        .ok ⟨SPLIT_AXIS_FOR_NON_SPLIT, 0, 0, 0⟩
      else .error .unimplemented

/-! ## The plain kernels: `SliceKernel`, `SliceGradKernel`, `SliceUpdateKernel` -/

/-- Modelled from the spec: `Memset<device_type>` is declared in `kernel_util.h`;
the spec gives "zero-fills the full input-gradient buffer". In the call
`Memset(stream, ptr, 0, elem_cnt * sizeof(T))` the first `elem_cnt` elements are
zeroed. -/
def Memset {α : Type} [Zero α] (dst : Int → α) (elem_cnt : Int) : Int → α :=
  fun p => if 0 ≤ p ∧ p < elem_cnt then 0 else dst p

/-- Modelled from the spec: `Memcpy<device_type>` is declared in `kernel_util.h`;
the spec gives "copies the base tensor into the output buffer wholesale". In the
call `Memcpy(stream, dst, src, elem_cnt * sizeof(T))` the first `elem_cnt` elements
of `src` are written to `dst`. -/
def Memcpy {α : Type} (dst src : Int → α) (elem_cnt : Int) : Int → α :=
  fun p => if 0 ≤ p ∧ p < elem_cnt then src p else dst p

/-- The first `k` rounds of the element loop of `SliceKernelUtil::Forward`: for
`i = 0, ..., k - 1` in turn, `sliced[i] = entire[offset]` with `offset` the
entire-buffer offset of the slice offset `i`. -/
def SliceKernelUtil_Forward_loop {α : Type} (params : SliceParams) (entire : Int → α) :
    Nat → (Int → α) → (Int → α)
  | 0, sliced => sliced
  | k + 1, sliced =>
    fun p =>
      if p = (k : Int) then entire (SliceOffsetToEntireOffset params.ndim k params)
      else SliceKernelUtil_Forward_loop params entire k sliced p

/-- Modelled from the spec: `SliceKernelUtil::Forward` is declared in `slice_util.h`
and defined in `slice_util.cpp`; the spec gives "copies selected elements from
input to output", the selected element of the slice offset `i` found by
"slice-offset → nd-coordinate → entire-buffer offset". The loop runs over the
`params.elem_cnt()` slice offsets. -/
def SliceKernelUtil_Forward {α : Type} (params : SliceParams) (entire sliced : Int → α) :
    Int → α :=
  SliceKernelUtil_Forward_loop params entire params.elem_cnt.toNat sliced

/-- The first `k` rounds of the element loop of `SliceKernelUtil::Backward`: for
`i = 0, ..., k - 1` in turn, `entire[offset] = sliced[i]` with `offset` the
entire-buffer offset of the slice offset `i`. -/
def SliceKernelUtil_Backward_loop {α : Type} (params : SliceParams) (sliced : Int → α) :
    Nat → (Int → α) → (Int → α)
  | 0, entire => entire
  | k + 1, entire =>
    fun p =>
      if p = SliceOffsetToEntireOffset params.ndim k params then sliced k
      else SliceKernelUtil_Backward_loop params sliced k entire p

/-- Modelled from the spec: `SliceKernelUtil::Backward` is declared in
`slice_util.h` and defined in `slice_util.cpp`; the spec gives "scatters it back
into the corresponding positions using the same `SliceParams` construction as
forward but reversed direction; accumulation is overwrite, not add". The loop
runs over the `params.elem_cnt()` slice offsets. -/
def SliceKernelUtil_Backward {α : Type} (params : SliceParams) (sliced entire : Int → α) :
    Int → α :=
  SliceKernelUtil_Backward_loop params sliced params.elem_cnt.toNat entire

/-- The method `SliceKernel::Compute` (lines 188-194): the buffer of `y` after the
call; `x_shape` and `y_shape` are the shapes of the tensors `x` and `y`. -/
def SliceKernel_Compute {α : Type} (regulateStart regulateStop : Int → Int → Int)
    (start_vec stop_vec step_vec : List Int) (x_shape y_shape : List Int) (x y : Int → α) :
    Except CheckFailure (Int → α) :=
  match ConstructSliceParams regulateStart regulateStop start_vec stop_vec step_vec
      x_shape y_shape with
  | .error e => .error e
  | .ok params => .ok (SliceKernelUtil_Forward params x y)

/-- The method `SliceGradKernel::Compute` (lines 205-214): the buffer of `dx` after
the call; `dx_shape` and `dy_shape` are the shapes of the tensors `dx` and `dy`. -/
def SliceGradKernel_Compute {α : Type} [Zero α] (regulateStart regulateStop : Int → Int → Int)
    (start_vec stop_vec step_vec : List Int) (dx_shape dy_shape : List Int)
    (dy dx : Int → α) : Except CheckFailure (Int → α) :=
  let dx0 := Memset dx dx_shape.prod
  if dy_shape.prod = 0 then .ok dx0
  else
    match ConstructSliceParams regulateStart regulateStop start_vec stop_vec step_vec
        dx_shape dy_shape with
    | .error e => .error e
    | .ok params => .ok (SliceKernelUtil_Backward params dy dx0)

/-- The method `SliceUpdateKernel::Compute` (lines 405-414): the buffer of `y` after the call; `x`
is copied to `y` over the `elem_cnt` of the shape of `y`, then the tensor `update`
is written to the sliced region. -/
def SliceUpdateKernel_Compute {α : Type} (regulateStart regulateStop : Int → Int → Int)
    (start_vec stop_vec step_vec : List Int) (y_shape update_shape : List Int)
    (x update y : Int → α) : Except CheckFailure (Int → α) :=
  let y0 := Memcpy y x y_shape.prod
  match ConstructSliceParams regulateStart regulateStop start_vec stop_vec step_vec
      y_shape update_shape with
  | .error e => .error e
  | .ok params => .ok (SliceKernelUtil_Backward params update y0)

/-! ## The logical slice-assign kernel and the offsets of the copy loop -/

/-- The method `LogicalSliceAssignKernel::Compute` (lines 378-394): the buffer of
`y` after the call. `ref_is_y` is the outcome of the pointer test
`ref_tensor->dptr<T>() == y_tensor->dptr<T>()`; when the two differ, `ref` is
copied to `y` over the `elem_cnt` of the shape of `y`. Then `WriteSlice` copies
from `value` (small) to `y` (large), with `NDIM` the rank of `value`. -/
def LogicalSliceAssignKernel_Compute {α : Type} (regulateStart regulateStop : Int → Int → Int)
    (fuel : Nat) (slice_ctx : SliceContext) (start_attr stop_attr step_attr : List Int)
    (value_shape y_shape : List Int) (value ref y : Int → α) (ref_is_y : Bool) :
    Except CheckFailure (Option (Int → α)) :=
  let y1 := if ref_is_y then y else AutoMemcpy y ref 0 0 y_shape.prod
  WriteSlice regulateStart regulateStop fuel value_shape.length slice_ctx start_attr stop_attr
    step_attr value_shape y_shape value y1 false

/-- The values of `int i` at which the body of the loop
`for (int i = 0; i < elem_cnt; i += cnt)` of `WriteSlice` (line 262) runs, from
the value `i` on, in the order of the rounds; the test compares in `int64_t`. The
result is `none` in the cases of `WriteSlice_copy_loop`: the loop has not ended
after `fuel` rounds, the body runs with a negative `cnt`, or the sum `i + cnt`
leaves the range of `int` (undefined behaviour). -/
def WriteSlice_loop_offsets (elem_cnt cnt : Int) : Nat → Int → Option (List Int)
  | 0, i => if i < elem_cnt then none else some []
  | fuel + 1, i =>
    if i < elem_cnt then
      if cnt < 0 then none
      else if in_int32 (i + cnt) then
        (WriteSlice_loop_offsets elem_cnt cnt fuel (i + cnt)).map (fun rest => i :: rest)
      else none
    else some []

/-- The source offset that a run of length `cnt` pairs with the slice offset `o`:
the source offset of the start of the run, moved by the place of `o` in the run. -/
def run_paired_offset (src_off : Int → Int) (cnt : Int) (o : Int) : Int :=
  src_off (o - o % cnt) + o % cnt

/-! ## The copy over the integers

In `WriteSlice` the run length `cnt` and the loop counter `i` are declared `int`,
the sizes and `elem_cnt` are `int64_t`. The definitions of this section are the
scan of lines 255-259, the loop of lines 262-271 and the two logical kernels with
`cnt` and `i` as integers that are not narrowed to 32 bits. They are the means of
the proofs: below `2^31` elements the code agrees with them. -/

/-- The scan of `WriteSlice_cnt_scan` over the integers: `cnt` is not narrowed to the
32 bits of `int`. -/
def WriteSlice_cnt_scan_exact (large_slice_param small_slice_param : SliceParams) : Nat → Int → Int
  | 0, cnt => cnt
  | i + 1, cnt =>
    let cnt1 := if large_slice_param.step.getD i 0 = 1 then cnt * large_slice_param.size.getD i 0
      else cnt
    if !large_slice_param.IsFullSlice i || !small_slice_param.IsFullSlice i then cnt1
    else WriteSlice_cnt_scan_exact large_slice_param small_slice_param i cnt1

/-- The run length of `WriteSlice_cnt` over the integers. -/
def WriteSlice_cnt_exact (NDIM : Nat) (large_slice_param small_slice_param : SliceParams) : Int :=
  WriteSlice_cnt_scan_exact large_slice_param small_slice_param NDIM 1

/-- The loop of `WriteSlice_copy_loop` with the counter over the integers: the sum
`i + cnt` is not narrowed to 32 bits. The result is `none` when the loop has not
ended after `fuel` rounds. -/
def WriteSlice_copy_loop_exact {α : Type} (NDIM : Nat) (large_slice_param small_slice_param :
    SliceParams) (from_large_to_small : Bool) (elem_cnt cnt : Int) (src : Int → α) :
    Nat → Int → (Int → α) → Option (Int → α)
  | 0, i, dst => if i < elem_cnt then none else some dst
  | fuel + 1, i, dst =>
    if i < elem_cnt then
      let large_offset := SliceOffsetToEntireOffset NDIM i large_slice_param
      let small_offset := SliceOffsetToEntireOffset NDIM i small_slice_param
      let src_offset := if from_large_to_small then large_offset else small_offset
      let dst_offset := if from_large_to_small then small_offset else large_offset
      WriteSlice_copy_loop_exact NDIM large_slice_param small_slice_param from_large_to_small
        elem_cnt cnt src fuel (i + cnt) (AutoMemcpy dst src dst_offset src_offset cnt)
    else some dst

/-- The function `WriteSlice` with the run length and the loop counter over the
integers; the arguments and the result are those of `WriteSlice`. -/
def WriteSlice_exact {α : Type} (regulateStart regulateStop : Int → Int → Int) (fuel : Nat)
    (NDIM : Nat) (slice_ctx : SliceContext) (start_attr stop_attr step_attr : List Int)
    (src_shape dst_shape : List Int) (src dst : Int → α) (from_large_to_small : Bool) :
    Except CheckFailure (Option (Int → α)) :=
  let large_shape := if from_large_to_small then src_shape else dst_shape
  let small_shape := if from_large_to_small then dst_shape else src_shape
  match WriteSlice_params regulateStart regulateStop slice_ctx start_attr stop_attr step_attr
      large_shape small_shape with
  | .error e => .error e
  | .ok (large_slice_param, small_slice_param) =>
    let elem_cnt := large_slice_param.elem_cnt
    let cnt := WriteSlice_cnt_exact NDIM large_slice_param small_slice_param
    .ok (WriteSlice_copy_loop_exact NDIM large_slice_param small_slice_param from_large_to_small
      elem_cnt cnt src fuel 0 dst)

/-- The kernel `LogicalSliceKernel_Compute` with `WriteSlice_exact` in the place of
`WriteSlice`. -/
def LogicalSliceKernel_Compute_exact {α : Type} [Zero α] (regulateStart regulateStop : Int → Int → Int)
    (fuel : Nat) (slice_ctx : SliceContext) (start_attr stop_attr step_attr : List Int)
    (x_shape y_shape : List Int) (x y : Int → α) : Except CheckFailure (Option (Int → α)) :=
  WriteSlice_exact regulateStart regulateStop fuel y_shape.length slice_ctx start_attr stop_attr
    step_attr x_shape y_shape x (AutoMemset y y_shape.prod) true

/-- The kernel `LogicalSliceAssignKernel_Compute` with `WriteSlice_exact` in the place
of `WriteSlice`. -/
def LogicalSliceAssignKernel_Compute_exact {α : Type} (regulateStart regulateStop : Int → Int → Int)
    (fuel : Nat) (slice_ctx : SliceContext) (start_attr stop_attr step_attr : List Int)
    (value_shape y_shape : List Int) (value ref y : Int → α) (ref_is_y : Bool) :
    Except CheckFailure (Option (Int → α)) :=
  let y1 := if ref_is_y then y else AutoMemcpy y ref 0 0 y_shape.prod
  WriteSlice_exact regulateStart regulateStop fuel value_shape.length slice_ctx start_attr stop_attr
    step_attr value_shape y_shape value y1 false

/-- The loop counter of `WriteSlice_loop_offsets` over the integers: the sum
`i + cnt` is not narrowed to 32 bits. The result is `none` when the loop has not
ended after `fuel` rounds. -/
def WriteSlice_loop_offsets_exact (elem_cnt cnt : Int) : Nat → Int → Option (List Int)
  | 0, i => if i < elem_cnt then none else some []
  | fuel + 1, i =>
    if i < elem_cnt then
      (WriteSlice_loop_offsets_exact elem_cnt cnt fuel (i + cnt)).map (fun rest => i :: rest)
    else some []

/-- The scan of `WriteSlice_cnt_scan` with the step test, the sizes and the
full-slice test given by their accessors. -/
def cnt_scan_fn (mul : Nat → Bool) (size : Nat → Int) (full : Nat → Bool) :
    Nat → Int → Int
  | 0, cnt => cnt
  | i + 1, cnt =>
    let cnt1 := if mul i then int32_wrap (cnt * size i) else cnt
    if !full i then cnt1 else cnt_scan_fn mul size full i cnt1

/-! ## The builders in 64 bits

The arithmetic of `GetSizeInSlice` and of the three builders is `int64_t`
arithmetic. The definitions with the names of the source compute over the integers:
they are the code on every input on which no operation of the source leaves the
range of `int64_t`. The definitions of this section, named `_int64`, are the same
functions with the result of every addition, subtraction, multiplication and
division converted to 64 bits (two's complement), the value that the operation
leaves on the machine when it overflows. The attributes and the extents of the
shapes are `int64_t` values. -/

/-- The value of an integer after conversion to `int64_t` (64 bits, two's
complement): the representative of `x` modulo `2^64` in `[-2^63, 2^63)`. -/
def int64_wrap (x : Int) : Int :=
  (x + 9223372036854775808) % 18446744073709551616 - 9223372036854775808

/-- Whether an integer is a value of `int64_t`. -/
def in_int64 (x : Int) : Bool :=
  decide (-9223372036854775808 ≤ x) && decide (x < 9223372036854775808)

/-- The function `GetSizeInSlice` (lines 33-36) in 64 bits:
`(end - start - 1) / step + 1`, each operation in `int64_t`. -/
def GetSizeInSlice_int64 (start end_ step : Int) : Int :=
  if end_ ≤ start then 0
  else
    int64_wrap
      (int64_wrap (Int.tdiv (int64_wrap (int64_wrap (end_ - start) - 1)) step) + 1)

/-- Line 82 in 64 bits: the right-hand side
`ctx.lower + (step - (ctx.lower - start_in_splitted_large) % step) % step`, each
operation in `int64_t`. -/
def advanced_start_int64 (lower start step : Int) : Int :=
  int64_wrap
    (lower + Int.tmod (int64_wrap (step - Int.tmod (int64_wrap (lower - start)) step)) step)

/-- Lines 76-88, start, in 64 bits: `start_in_splitted_large` after the split-axis
block. -/
def start_in_splitted_large_int64 (ctx : SliceContext) (i : Nat)
    (start_in_full_large step : Int) : Int :=
  if (i : Int) = ctx.split_axis then
    let s0 := start_in_full_large
    let s1 := if s0 < ctx.lower then advanced_start_int64 ctx.lower s0 step else s0
    let s2 := min (max s1 ctx.lower) ctx.upper
    int64_wrap (s2 - ctx.lower)
  else start_in_full_large

/-- Lines 77-88, stop, in 64 bits: `stop_in_splitted_large` after the split-axis
block. -/
def stop_in_splitted_large_int64 (ctx : SliceContext) (i : Nat) (stop_in_full_large : Int) :
    Int :=
  if (i : Int) = ctx.split_axis then
    int64_wrap (min (max stop_in_full_large ctx.lower) ctx.upper - ctx.lower)
  else stop_in_full_large

/-- The body of the loop of `ConstructSliceParamsLarge` (lines 71-94) in 64 bits. -/
def ConstructSliceParamsLarge_body_int64 (ctx : SliceContext)
    (start_vec stop_vec step_vec : List Int) (shape : List Int) (i : Nat) (p : SliceParams) :
    Except CheckFailure SliceParams :=
  let dim_size := shape.getD i 0
  let step := step_vec.getD i 0
  if ¬ (step > 0) then .error .step_not_positive
  else
    let s := start_in_splitted_large_int64 ctx i (start_vec.getD i 0) step
    let e := stop_in_splitted_large_int64 ctx i (stop_vec.getD i 0)
    let slice_size := GetSizeInSlice_int64 s e step
    .ok (p.setAxis i dim_size s step slice_size)

/-- The function `ConstructSliceParamsLarge` in 64 bits. -/
def ConstructSliceParamsLarge_int64 (ctx : SliceContext)
    (start_vec stop_vec step_vec : List Int) (shape : List Int) :
    Except CheckFailure SliceParams :=
  let ndim := shape.length
  if ¬ (ndim ≤ kSliceMaxDims) then .error .rank_exceeds_max
  else if start_vec.length ≠ ndim then .error .attr_size
  else if stop_vec.length ≠ ndim then .error .attr_size
  else if step_vec.length ≠ ndim then .error .attr_size
  else
    FOR_RANGE ndim (ConstructSliceParamsLarge_body_int64 ctx start_vec stop_vec step_vec shape)
      { SliceParams.zeroed with ndim := ndim }

/-- Lines 116-122, start, in 64 bits: `start_in_full_small`. -/
def start_in_full_small_int64 (ctx : SliceContext) (i : Nat)
    (start_in_full_large step dim_size : Int) : Int :=
  if (i : Int) = ctx.split_axis then
    min (max (GetSizeInSlice_int64 start_in_full_large ctx.lower step) 0) dim_size
  else 0

/-- Lines 117-122, stop, in 64 bits: `stop_in_full_small`. -/
def stop_in_full_small_int64 (ctx : SliceContext) (i : Nat)
    (start_in_full_large step dim_size : Int) : Int :=
  if (i : Int) = ctx.split_axis then
    min (max (GetSizeInSlice_int64 start_in_full_large ctx.upper step) 0) dim_size
  else dim_size

/-- The body of the loop of `ConstructSliceParamsSmall` (lines 111-128) in 64 bits. -/
def ConstructSliceParamsSmall_body_int64 (ctx : SliceContext) (start_vec step_vec : List Int)
    (shape : List Int) (i : Nat) (p : SliceParams) : Except CheckFailure SliceParams :=
  let start_in_full_large := start_vec.getD i 0
  let step := step_vec.getD i 0
  if ¬ (step > 0) then .error .step_not_positive
  else
    let dim_size := shape.getD i 0
    let s := start_in_full_small_int64 ctx i start_in_full_large step dim_size
    let e := stop_in_full_small_int64 ctx i start_in_full_large step dim_size
    let slice_size := int64_wrap (e - s)
    .ok (p.setAxis i dim_size s 1 slice_size)

/-- The function `ConstructSliceParamsSmall` in 64 bits. -/
def ConstructSliceParamsSmall_int64 (ctx : SliceContext)
    (start_vec stop_vec step_vec : List Int) (shape : List Int) :
    Except CheckFailure SliceParams :=
  let ndim := shape.length
  if ¬ (ndim ≤ kSliceMaxDims) then .error .rank_exceeds_max
  else if start_vec.length ≠ ndim then .error .attr_size
  else if stop_vec.length ≠ ndim then .error .attr_size
  else if step_vec.length ≠ ndim then .error .attr_size
  else
    FOR_RANGE ndim (ConstructSliceParamsSmall_body_int64 ctx start_vec step_vec shape)
      { SliceParams.zeroed with ndim := ndim }

/-- Lines 224-247 of `WriteSlice` with the builders in 64 bits: the split-extent
check, the normalisation of start and stop, the two parameter blocks and the
element-count check. -/
def WriteSlice_params_int64 (regulateStart regulateStop : Int → Int → Int)
    (slice_ctx : SliceContext) (start_attr stop_attr step_attr : List Int)
    (large_shape small_shape : List Int) : Except CheckFailure (SliceParams × SliceParams) :=
  let split_check : Except CheckFailure Unit :=
    if slice_ctx.split_axis ≠ SPLIT_AXIS_FOR_NON_SPLIT then
      match ShapeView_At large_shape slice_ctx.split_axis with
      | .ok extent =>
        if extent = int64_wrap (slice_ctx.upper - slice_ctx.lower) then .ok ()
        else .error .split_extent
      | .error e => .error e
    else .ok ()
  match split_check with
  | .error e => .error e
  | .ok _ =>
    match FOR_RANGE start_attr.length
        (WriteSlice_normalize_body regulateStart regulateStop slice_ctx
          start_attr stop_attr large_shape) ([], []) with
    | .error e => .error e
    | .ok (positive_start_vec, positive_stop_vec) =>
      match ConstructSliceParamsLarge_int64 slice_ctx positive_start_vec positive_stop_vec
          step_attr large_shape with
      | .error e => .error e
      | .ok large_slice_param =>
        match ConstructSliceParamsSmall_int64 slice_ctx positive_start_vec positive_stop_vec
            step_attr small_shape with
        | .error e => .error e
        | .ok small_slice_param =>
          if large_slice_param.elem_cnt = small_slice_param.elem_cnt then
            .ok (large_slice_param, small_slice_param)
          else .error .elem_cnt_mismatch

/-- The left-hand side `start + step * (slice_size - 1)` of the cross-check of
`ConstructSliceParams` (lines 167 and 169), each operation in `int64_t`. -/
def cross_check_lhs_int64 (start step slice_size : Int) : Int :=
  int64_wrap (start + int64_wrap (step * int64_wrap (slice_size - 1)))

/-- Whether the three operations of `start + step * (slice_size - 1)` stay in the
range of `int64_t`. -/
def cross_check_in_int64 (start step slice_size : Int) : Bool :=
  in_int64 (slice_size - 1) && in_int64 (step * (slice_size - 1))
    && in_int64 (start + step * (slice_size - 1))

/-- The body of the loop of `ConstructSliceParams` (lines 160-174) in 64 bits. -/
def ConstructSliceParams_body_int64 (regulateStart regulateStop : Int → Int → Int)
    (start_vec stop_vec step_vec : List Int) (entire_shape sliced_shape : List Int)
    (i : Nat) (params : SliceParams) : Except CheckFailure SliceParams :=
  let dim_size := entire_shape.getD i 0
  let slice_size := sliced_shape.getD i 0
  let step := step_vec.getD i 0
  if ¬ (step ≠ 0) then .error .step_zero
  else
    let start := regulateStart (start_vec.getD i 0) dim_size
    let stop := regulateStop (stop_vec.getD i 0) dim_size
    if step > 0 then
      if ¬ (cross_check_lhs_int64 start step slice_size < stop) then .error .size_cross_check
      else .ok (params.setAxis i dim_size start step slice_size)
    else
      if ¬ (cross_check_lhs_int64 start step slice_size > stop) then .error .size_cross_check
      else .ok (params.setAxis i dim_size start step slice_size)

/-- The function `ConstructSliceParams` in 64 bits; the arguments are those of
`ConstructSliceParams`. -/
def ConstructSliceParams_int64 (regulateStart regulateStop : Int → Int → Int)
    (start_vec stop_vec step_vec : List Int) (entire_shape sliced_shape : List Int) :
    Except CheckFailure SliceParams :=
  let ndim := entire_shape.length
  if ¬ (ndim ≤ kSliceMaxDims) then .error .rank_exceeds_max
  else if (if entire_shape.length = 1 then ¬ (sliced_shape.length ≤ 1)
           else ¬ (sliced_shape.length = ndim)) then .error .sliced_rank
  else if start_vec.length ≠ ndim then .error .attr_size
  else if stop_vec.length ≠ ndim then .error .attr_size
  else if step_vec.length ≠ ndim then .error .attr_size
  else if entire_shape.length = 1 ∧ sliced_shape.length = 0 then
    .ok (({ SliceParams.zeroed with ndim := ndim }).setAxis 0
      (entire_shape.getD 0 0) (regulateStart (start_vec.getD 0 0) (entire_shape.getD 0 0))
      (step_vec.getD 0 0) 1)
  else
    FOR_RANGE ndim
      (ConstructSliceParams_body_int64 regulateStart regulateStop start_vec stop_vec step_vec
        entire_shape sliced_shape)
      { SliceParams.zeroed with ndim := ndim }

theorem getD_set_int (l : List Int) (i j : Nat) (a : Int) :
    (l.set i a).getD j 0 = if i = j ∧ i < l.length then a else l.getD j 0 := by
  simp only [List.getD_eq_getElem?_getD, List.getElem?_set]
  by_cases hij : i = j
  · subst hij
    by_cases hl : i < l.length
    · simp [hl]
    · simp [hl, List.getElem?_eq_none (Nat.le_of_not_lt hl)]
  · simp [hij]

theorem loop_step_aux (k i len : Nat) (f : Nat → Int) (x : Int) :
    (if k = i ∧ k < len then f k else (if i < k ∧ i < len then f i else x))
      = (if i < k + 1 ∧ i < len then f i else x) := by
  by_cases hki : k = i
  · subst hki
    by_cases hlen : k < len <;> simp [hlen]
  · have h1 : (i < k + 1) ↔ (i < k) := by omega
    simp [hki, h1]

/-- A loop whose body only assigns the four arrays at index `i` fills the
first `n` entries and leaves the rest as they were. -/
theorem FOR_RANGE_setAxis (n : Nat) (body : Nat → SliceParams → Except CheckFailure SliceParams)
    (d s st sz : Nat → Int) (init : SliceParams)
    (hbody : ∀ i, i < n → ∀ p, body i p = .ok (p.setAxis i (d i) (s i) (st i) (sz i))) :
    ∃ p, FOR_RANGE n body init = .ok p ∧ p.ndim = init.ndim ∧
      p.dims.length = init.dims.length ∧ p.start.length = init.start.length ∧
      p.step.length = init.step.length ∧ p.size.length = init.size.length ∧
      ∀ i,
        p.dims.getD i 0 = (if i < n ∧ i < init.dims.length then d i else init.dims.getD i 0) ∧
        p.start.getD i 0 = (if i < n ∧ i < init.start.length then s i else init.start.getD i 0) ∧
        p.step.getD i 0 = (if i < n ∧ i < init.step.length then st i else init.step.getD i 0) ∧
        p.size.getD i 0 = (if i < n ∧ i < init.size.length then sz i else init.size.getD i 0) := by
  induction n with
  | zero => exact ⟨init, rfl, rfl, rfl, rfl, rfl, rfl, fun i => by simp⟩
  | succ k ih =>
    obtain ⟨p, hp, hn, hl1, hl2, hl3, hl4, hget⟩ :=
      ih (fun i hi p => hbody i (Nat.lt_succ_of_lt hi) p)
    refine ⟨p.setAxis k (d k) (s k) (st k) (sz k), ?_, hn, ?_, ?_, ?_, ?_, ?_⟩
    · simp only [FOR_RANGE, hp]
      exact hbody k (Nat.lt_succ_self k) p
    · simp [SliceParams.setAxis, hl1]
    · simp [SliceParams.setAxis, hl2]
    · simp [SliceParams.setAxis, hl3]
    · simp [SliceParams.setAxis, hl4]
    · intro i
      obtain ⟨g1, g2, g3, g4⟩ := hget i
      simp only [SliceParams.setAxis, getD_set_int, g1, g2, g3, g4, hl1, hl2, hl3, hl4]
      exact ⟨loop_step_aux k i _ d _, loop_step_aux k i _ s _, loop_step_aux k i _ st _,
        loop_step_aux k i _ sz _⟩

/-- What `ConstructSliceParamsLarge` returns on input that passes its checks. -/
theorem ConstructSliceParamsLarge_ok (ctx : SliceContext) (start_vec stop_vec step_vec : List Int)
    (shape : List Int) (hrank : shape.length ≤ kSliceMaxDims)
    (hstart : start_vec.length = shape.length) (hstop : stop_vec.length = shape.length)
    (hstep : step_vec.length = shape.length)
    (hpos : ∀ i, i < shape.length → 0 < step_vec.getD i 0) :
    ∃ L, ConstructSliceParamsLarge ctx start_vec stop_vec step_vec shape = .ok L ∧
      L.ndim = shape.length ∧
      ∀ i, i < shape.length →
        L.dims.getD i 0 = shape.getD i 0 ∧
        L.start.getD i 0
          = start_in_splitted_large ctx i (start_vec.getD i 0) (step_vec.getD i 0) ∧
        L.step.getD i 0 = step_vec.getD i 0 ∧
        L.size.getD i 0
          = GetSizeInSlice
              (start_in_splitted_large ctx i (start_vec.getD i 0) (step_vec.getD i 0))
              (stop_in_splitted_large ctx i (stop_vec.getD i 0)) (step_vec.getD i 0) := by
  obtain ⟨p, hp, hn, -, -, -, -, hget⟩ :=
    FOR_RANGE_setAxis shape.length
      (ConstructSliceParamsLarge_body ctx start_vec stop_vec step_vec shape)
      (fun i => shape.getD i 0)
      (fun i => start_in_splitted_large ctx i (start_vec.getD i 0) (step_vec.getD i 0))
      (fun i => step_vec.getD i 0)
      (fun i => GetSizeInSlice
        (start_in_splitted_large ctx i (start_vec.getD i 0) (step_vec.getD i 0))
        (stop_in_splitted_large ctx i (stop_vec.getD i 0)) (step_vec.getD i 0))
      { SliceParams.zeroed with ndim := shape.length }
      (fun i hi p => by
        have := hpos i hi
        simp only [ConstructSliceParamsLarge_body, gt_iff_lt, this, not_true_eq_false,
          if_false])
  refine ⟨p, ?_, hn, ?_⟩
  · simp only [ConstructSliceParamsLarge, hstart, hstop, hstep]
    simp [hrank, hp]
  · intro i hi
    have hi8 : i < kSliceMaxDims := Nat.lt_of_lt_of_le hi hrank
    obtain ⟨g1, g2, g3, g4⟩ := hget i
    simp only [SliceParams.zeroed, List.length_replicate, hi, hi8, and_self, if_true]
      at g1 g2 g3 g4
    exact ⟨g1, g2, g3, g4⟩

/-- What `ConstructSliceParamsSmall` returns on input that passes its checks. -/
theorem ConstructSliceParamsSmall_ok (ctx : SliceContext) (start_vec stop_vec step_vec : List Int)
    (shape : List Int) (hrank : shape.length ≤ kSliceMaxDims)
    (hstart : start_vec.length = shape.length) (hstop : stop_vec.length = shape.length)
    (hstep : step_vec.length = shape.length)
    (hpos : ∀ i, i < shape.length → 0 < step_vec.getD i 0) :
    ∃ S, ConstructSliceParamsSmall ctx start_vec stop_vec step_vec shape = .ok S ∧
      S.ndim = shape.length ∧
      ∀ i, i < shape.length →
        S.dims.getD i 0 = shape.getD i 0 ∧
        S.start.getD i 0
          = start_in_full_small ctx i (start_vec.getD i 0) (step_vec.getD i 0)
              (shape.getD i 0) ∧
        S.step.getD i 0 = 1 ∧
        S.size.getD i 0
          = stop_in_full_small ctx i (start_vec.getD i 0) (step_vec.getD i 0) (shape.getD i 0)
            - start_in_full_small ctx i (start_vec.getD i 0) (step_vec.getD i 0)
                (shape.getD i 0) := by
  obtain ⟨p, hp, hn, -, -, -, -, hget⟩ :=
    FOR_RANGE_setAxis shape.length
      (ConstructSliceParamsSmall_body ctx start_vec step_vec shape)
      (fun i => shape.getD i 0)
      (fun i => start_in_full_small ctx i (start_vec.getD i 0) (step_vec.getD i 0)
        (shape.getD i 0))
      (fun _ => 1)
      (fun i =>
        stop_in_full_small ctx i (start_vec.getD i 0) (step_vec.getD i 0) (shape.getD i 0)
          - start_in_full_small ctx i (start_vec.getD i 0) (step_vec.getD i 0)
              (shape.getD i 0))
      { SliceParams.zeroed with ndim := shape.length }
      (fun i hi p => by
        have := hpos i hi
        simp only [ConstructSliceParamsSmall_body, gt_iff_lt, this, not_true_eq_false,
          if_false])
  refine ⟨p, ?_, hn, ?_⟩
  · simp only [ConstructSliceParamsSmall, hstart, hstop, hstep]
    simp [hrank, hp]
  · intro i hi
    have hi8 : i < kSliceMaxDims := Nat.lt_of_lt_of_le hi hrank
    obtain ⟨g1, g2, g3, g4⟩ := hget i
    simp only [SliceParams.zeroed, List.length_replicate, hi, hi8, and_self, if_true]
      at g1 g2 g3 g4
    exact ⟨g1, g2, g3, g4⟩

/-! ## Arithmetic of `GetSizeInSlice` and of the stride alignment -/

theorem GetSizeInSlice_nonneg (start end_ step : Int) (hstep : 0 < step) :
    0 ≤ GetSizeInSlice start end_ step := by
  unfold GetSizeInSlice
  split_ifs with h
  · exact le_refl 0
  · have h1 : 0 ≤ end_ - start - 1 := by omega
    rw [Int.tdiv_eq_ediv h1 (le_of_lt hstep)]
    have := Int.ediv_nonneg h1 (le_of_lt hstep)
    omega

/-- For a positive step, `k < GetSizeInSlice start end step` exactly when the
`k`-th strided position lies before `end`. -/
theorem lt_GetSizeInSlice_iff (start end_ step k : Int) (hstep : 0 < step) (hk : 0 ≤ k) :
    k < GetSizeInSlice start end_ step ↔ start + k * step < end_ := by
  unfold GetSizeInSlice
  split_ifs with h
  · constructor
    · intro h0; omega
    · intro h1
      have : 0 ≤ k * step := mul_nonneg hk (le_of_lt hstep)
      omega
  · have h1 : 0 ≤ end_ - start - 1 := by omega
    rw [Int.tdiv_eq_ediv h1 (le_of_lt hstep), Int.lt_add_one_iff,
      Int.le_ediv_iff_mul_le hstep]
    constructor <;> intro h2 <;> omega

/-- The advanced start lies in `[lower, lower + step)` and on the stride of `start`. -/
theorem advanced_start_spec (lower start step : Int) (hstep : 0 < step) (hlt : start < lower) :
    lower ≤ advanced_start lower start step ∧
      advanced_start lower start step < lower + step ∧
      step ∣ advanced_start lower start step - start := by
  unfold advanced_start
  have h0 : 0 ≤ lower - start := by omega
  rw [Int.tmod_eq_emod h0 (le_of_lt hstep)]
  have hr1 : 0 ≤ (lower - start) % step := Int.emod_nonneg _ (ne_of_gt hstep)
  have hr1' : (lower - start) % step < step := Int.emod_lt_of_pos _ hstep
  have h1 : 0 ≤ step - (lower - start) % step := by omega
  rw [Int.tmod_eq_emod h1 (le_of_lt hstep)]
  have hr : 0 ≤ (step - (lower - start) % step) % step := Int.emod_nonneg _ (ne_of_gt hstep)
  have hr' : (step - (lower - start) % step) % step < step := Int.emod_lt_of_pos _ hstep
  refine ⟨by omega, by omega, ?_⟩
  have e1 := Int.emod_add_ediv (lower - start) step
  have e2 := Int.emod_add_ediv (step - (lower - start) % step) step
  refine ⟨(lower - start) / step + 1 - (step - (lower - start) % step) / step, ?_⟩
  linear_combination (-1 : Int) * e1 + e2

/-- Two integers on the same stride that are less than one step apart are equal or
ordered by a whole step. -/
theorem stride_gap (step a b : Int) (hstep : 0 < step) (hdvd : step ∣ b - a) (hlt : a < b) :
    a + step ≤ b := by
  obtain ⟨c, hc⟩ := hdvd
  have hc1 : 1 ≤ c := by
    by_contra hcon
    have hc0 : c ≤ 0 := by omega
    have : step * c ≤ 0 := mul_nonpos_of_nonneg_of_nonpos (le_of_lt hstep) hc0
    omega
  have : step * 1 ≤ step * c := mul_le_mul_of_nonneg_left hc1 (le_of_lt hstep)
  omega

theorem dvd_nonneg_quot (step d : Int) (hstep : 0 < step) (hd : 0 ≤ d) (h : step ∣ d) :
    ∃ c, 0 ≤ c ∧ d = c * step := by
  obtain ⟨c, hc⟩ := h
  refine ⟨c, ?_, by rw [hc, mul_comm]⟩
  by_contra hneg
  have hc1 : c ≤ -1 := by omega
  have : step * c ≤ step * (-1) := mul_le_mul_of_nonneg_left hc1 (le_of_lt hstep)
  omega

/-- The first value the large builder can select on the split axis: `start`
itself, or the advanced start when `start` lies below the shard. -/
theorem first_in_shard_spec (lo start step : Int) (hstep : 0 < step) :
    let s1 := if start < lo then advanced_start lo start step else start
    lo ≤ max s1 lo ∧ (lo ≤ start → s1 = start) ∧
      (∃ c, 0 ≤ c ∧ s1 = start + c * step) ∧
      (∀ x m, 0 ≤ m → x = start + m * step → lo ≤ x → s1 ≤ x ∧ step ∣ x - s1) := by
  intro s1
  refine ⟨le_max_right _ _, ?_, ?_, ?_⟩
  · intro h
    simp only [s1, not_lt.mpr h, if_false]
  · by_cases h : start < lo
    · obtain ⟨h1, -, h3⟩ := advanced_start_spec lo start step hstep h
      obtain ⟨c, hc0, hc⟩ := dvd_nonneg_quot step _ hstep (by omega) h3
      exact ⟨c, hc0, by simp only [s1, h, if_true]; omega⟩
    · exact ⟨0, le_refl 0, by simp only [s1, h, if_false]; ring⟩
  · intro x m hm hx hlo
    by_cases h : start < lo
    · obtain ⟨h1, h2, h3⟩ := advanced_start_spec lo start step hstep h
      simp only [s1, h, if_true]
      have hd : step ∣ x - advanced_start lo start step := by
        have : x - advanced_start lo start step
            = m * step - (advanced_start lo start step - start) := by rw [hx]; ring
        rw [this]
        exact dvd_sub (Dvd.intro_left m rfl) h3
      refine ⟨?_, hd⟩
      by_contra hcon
      have hlt : x < advanced_start lo start step := by omega
      have hd' : step ∣ advanced_start lo start step - x := by
        have := hd.neg_right
        simpa using this
      have := stride_gap step x _ hstep hd' hlt
      omega
    · simp only [s1, h, if_false]
      have : 0 ≤ m * step := mul_nonneg hm (le_of_lt hstep)
      exact ⟨by omega, ⟨m, by rw [hx]; ring⟩⟩

/-- Split axis of the large builder, as a statement on integers: the local
indices it selects, shifted by `lo`, are the strided positions of the logical
slice that fall inside the shard `[lo, up)`. -/
theorem split_axis_selection (lo up start stop step x : Int) (hstep : 0 < step) :
    let s1 := if start < lo then advanced_start lo start step else start
    let s2 := min (max s1 lo) up
    let e2 := min (max stop lo) up
    (∃ k, 0 ≤ k ∧ k < GetSizeInSlice (s2 - lo) (e2 - lo) step ∧ x = lo + (s2 - lo) + k * step)
      ↔ (∃ m, 0 ≤ m ∧ x = start + m * step ∧ x < stop ∧ lo ≤ x ∧ x < up) := by
  intro s1 s2 e2
  obtain ⟨hmax, -, ⟨c, hc0, hc⟩, hmin⟩ := first_in_shard_spec lo start step hstep
  change lo ≤ max s1 lo at hmax
  change s1 = start + c * step at hc
  change ∀ x m, 0 ≤ m → x = start + m * step → lo ≤ x → s1 ≤ x ∧ step ∣ x - s1 at hmin
  have hs1lo : lo ≤ s1 := by
    by_cases h : start < lo
    · have := (advanced_start_spec lo start step hstep h).1
      simp only [s1, h, if_true]; exact this
    · simp only [s1, h, if_false]; omega
  have hmaxeq : max s1 lo = s1 := max_eq_left hs1lo
  constructor
  · rintro ⟨k, hk0, hk, hx⟩
    rw [lt_GetSizeInSlice_iff _ _ _ _ hstep hk0] at hk
    have hkn : 0 ≤ k * step := mul_nonneg hk0 (le_of_lt hstep)
    have he2up : e2 ≤ up := min_le_right _ _
    have he2max : e2 ≤ max stop lo := min_le_left _ _
    have hs2 : s2 = s1 := by
      simp only [s2, hmaxeq]
      apply min_eq_left
      by_contra hcon
      have : min s1 up = up := min_eq_right (by omega)
      simp only [s2, hmaxeq, this] at hk
      omega
    rw [hs2] at hk hx
    have hxlo : lo ≤ x := by omega
    have hxstop : x < stop := by
      rcases le_total stop lo with h | h
      · rw [max_eq_right h] at he2max; omega
      · rw [max_eq_left h] at he2max; omega
    refine ⟨c + k, by omega, ?_, hxstop, hxlo, by omega⟩
    rw [hx, hc]; ring
  · rintro ⟨m, hm0, hx, hxstop, hxlo, hxup⟩
    obtain ⟨hle, hd⟩ := hmin x m hm0 hx hxlo
    obtain ⟨k, hk0, hk⟩ := dvd_nonneg_quot step _ hstep (by omega) hd
    have hs2 : s2 = s1 := by
      simp only [s2, hmaxeq]
      exact min_eq_left (by omega)
    have he2 : x < e2 := by
      simp only [e2]
      exact lt_min (lt_of_lt_of_le hxstop (le_max_left _ _)) hxup
    refine ⟨k, hk0, ?_, ?_⟩
    · rw [lt_GetSizeInSlice_iff _ _ _ _ hstep hk0, hs2]
      omega
    · rw [hs2]; omega

/-- The advanced start is the position of index `GetSizeInSlice start lo step` of
the logical slice: as many positions lie below the shard as the small builder
skips. -/
theorem first_in_shard_eq (lo start step : Int) (hstep : 0 < step) :
    (if start < lo then advanced_start lo start step else start)
      = start + GetSizeInSlice start lo step * step := by
  obtain ⟨-, hge, ⟨c, hc0, hc⟩, hmin⟩ := first_in_shard_spec lo start step hstep
  have hn0 := GetSizeInSlice_nonneg start lo step hstep
  by_cases h : start < lo
  · simp only [h, if_true] at hc hmin ⊢
    have hlo := (advanced_start_spec lo start step hstep h).1
    -- position `n0` is not below `lo`
    have h1 : ¬ (start + GetSizeInSlice start lo step * step < lo) := by
      rw [← lt_GetSizeInSlice_iff start lo step _ hstep hn0]; exact lt_irrefl _
    obtain ⟨hle, -⟩ := hmin _ _ hn0 rfl (not_lt.mp h1)
    -- position `c` is not below `lo`, so `n0 ≤ c`
    have h2 : ¬ (c < GetSizeInSlice start lo step) := by
      rw [lt_GetSizeInSlice_iff start lo step c hstep hc0]; omega
    have h3 : GetSizeInSlice start lo step * step ≤ c * step :=
      mul_le_mul_of_nonneg_right (not_lt.mp h2) (le_of_lt hstep)
    omega
  · simp only [h, if_false]
    have : GetSizeInSlice start lo step = 0 := by
      unfold GetSizeInSlice
      rw [if_pos (not_lt.mp h)]
    rw [this]; ring

theorem GetSizeInSlice_mono (start e1 e2 step : Int) (hstep : 0 < step) (h : e1 ≤ e2) :
    GetSizeInSlice start e1 step ≤ GetSizeInSlice start e2 step := by
  by_contra hcon
  have hlt := not_le.mp hcon
  have h0 := GetSizeInSlice_nonneg start e2 step hstep
  have h1 := (lt_GetSizeInSlice_iff start e1 step _ hstep h0).mp hlt
  have h2 := (lt_GetSizeInSlice_iff start e2 step _ hstep h0).mpr (by omega)
  exact lt_irrefl _ h2

/-- Large/small pairing on the split axis, as a statement on integers. -/
theorem split_axis_pairing (lo up start step d j : Int) (hstep : 0 < step)
    (hj0 : 0 ≤ j)
    (hj : j < min (max (GetSizeInSlice start up step) 0) d
            - min (max (GetSizeInSlice start lo step) 0) d) :
    lo + (min (max (if start < lo then advanced_start lo start step else start) lo) up - lo)
        + j * step
      = start + (min (max (GetSizeInSlice start lo step) 0) d + j) * step := by
  have hn0 := GetSizeInSlice_nonneg start lo step hstep
  have hn1 := GetSizeInSlice_nonneg start up step hstep
  rw [max_eq_left hn0] at hj ⊢
  rw [max_eq_left hn1] at hj
  have hse : min (GetSizeInSlice start up step) d ≤ d := min_le_right _ _
  have hse1 : min (GetSizeInSlice start up step) d ≤ GetSizeInSlice start up step :=
    min_le_left _ _
  have hss : min (GetSizeInSlice start lo step) d = GetSizeInSlice start lo step := by
    apply min_eq_left
    by_contra hcon
    rw [min_eq_right (le_of_lt (not_le.mp hcon))] at hj
    omega
  rw [hss] at hj ⊢
  have hup : start + GetSizeInSlice start lo step * step < up := by
    rw [← lt_GetSizeInSlice_iff start up step _ hstep hn0]; omega
  have hlo : ¬ (start + GetSizeInSlice start lo step * step < lo) := by
    rw [← lt_GetSizeInSlice_iff start lo step _ hstep hn0]; exact lt_irrefl _
  rw [first_in_shard_eq lo start step hstep, max_eq_left (not_lt.mp hlo),
    min_eq_left (le_of_lt hup)]
  ring

theorem int_eq_of_lt_iff (a b : Int) (ha : 0 ≤ a) (hb : 0 ≤ b)
    (h : ∀ k, 0 ≤ k → (k < a ↔ k < b)) : a = b := by
  rcases lt_trichotomy a b with hlt | heq | hgt
  · exact absurd ((h a ha).mpr hlt) (lt_irrefl a)
  · exact heq
  · exact absurd ((h b hb).mp hgt) (lt_irrefl b)

/-- Split axis: the large builder and the small builder select the same number
of positions, as a statement on integers. -/
theorem split_axis_size_eq (lo up start stop step : Int) (hstep : 0 < step) (hlu : lo ≤ up) :
    GetSizeInSlice
        (min (max (if start < lo then advanced_start lo start step else start) lo) up - lo)
        (min (max stop lo) up - lo) step
      = min (max (GetSizeInSlice start up step) 0) (GetSizeInSlice start stop step)
        - min (max (GetSizeInSlice start lo step) 0) (GetSizeInSlice start stop step) := by
  have hn0 := GetSizeInSlice_nonneg start lo step hstep
  have hn1 := GetSizeInSlice_nonneg start up step hstep
  have hd := GetSizeInSlice_nonneg start stop step hstep
  have hmono := GetSizeInSlice_mono start lo up step hstep hlu
  rw [max_eq_left hn0, max_eq_left hn1, first_in_shard_eq lo start step hstep]
  have hx0 : ¬ (start + GetSizeInSlice start lo step * step < lo) := by
    rw [← lt_GetSizeInSlice_iff start lo step _ hstep hn0]; exact lt_irrefl _
  rw [max_eq_left (not_lt.mp hx0)]
  generalize hn0' : GetSizeInSlice start lo step = n0 at *
  generalize hn1' : GetSizeInSlice start up step = n1 at *
  generalize hd' : GetSizeInSlice start stop step = d at *
  have hB : 0 ≤ min n1 d - min n0 d := by
    have : min n0 d ≤ min n1 d := min_le_min hmono (le_refl d)
    omega
  apply int_eq_of_lt_iff _ _ (GetSizeInSlice_nonneg _ _ _ hstep) hB
  intro k hk
  rw [lt_GetSizeInSlice_iff _ _ _ _ hstep hk]
  have hks : 0 ≤ k * step := mul_nonneg hk (le_of_lt hstep)
  have he2up : min (max stop lo) up ≤ up := min_le_right _ _
  rcases le_or_lt n0 d with hcase | hcase
  · rw [min_eq_left hcase]
    have hk' : 0 ≤ n0 + k := by omega
    have e1 : start + (n0 + k) * step < up ↔ n0 + k < n1 := by
      rw [← hn1']; exact (lt_GetSizeInSlice_iff start up step _ hstep hk').symm
    have e2 : start + (n0 + k) * step < stop ↔ n0 + k < d := by
      rw [← hd']; exact (lt_GetSizeInSlice_iff start stop step _ hstep hk').symm
    have ering : start + (n0 + k) * step = start + n0 * step + k * step := by ring
    rw [ering] at e1 e2
    rcases le_or_lt (start + n0 * step) up with hup | hup
    · rw [min_eq_left hup]
      constructor
      · intro h
        have h1 : start + n0 * step + k * step < min (max stop lo) up := by omega
        have h2 := lt_of_lt_of_le h1 (min_le_left _ _)
        have h3 : start + n0 * step + k * step < stop := by
          rcases le_total stop lo with hsl | hsl
          · rw [max_eq_right hsl] at h2; omega
          · rw [max_eq_left hsl] at h2; exact h2
        have h4 : start + n0 * step + k * step < up := by omega
        have := e1.mp h4
        have := e2.mp h3
        have : n0 + k < min n1 d := lt_min (by assumption) (by assumption)
        omega
      · intro h
        have h1 : n0 + k < min n1 d := by omega
        have h2 := e1.mpr (lt_of_lt_of_le h1 (min_le_left _ _))
        have h3 := e2.mpr (lt_of_lt_of_le h1 (min_le_right _ _))
        have : start + n0 * step + k * step < min (max stop lo) up :=
          lt_min (lt_of_lt_of_le h3 (le_max_left _ _)) h2
        omega
    · rw [min_eq_right (le_of_lt hup)]
      constructor
      · intro h; omega
      · intro h
        have h1 : n0 + k < min n1 d := by omega
        have h2 := e1.mpr (lt_of_lt_of_le h1 (min_le_left _ _))
        omega
  · rw [min_eq_right (le_of_lt hcase), min_eq_right (by omega : d ≤ n1)]
    have h1 : start + d * step < lo := by
      rw [← lt_GetSizeInSlice_iff start lo step _ hstep hd, hn0']; exact hcase
    have h2 : ¬ (start + d * step < stop) := by
      rw [← lt_GetSizeInSlice_iff start stop step _ hstep hd, hd']; exact lt_irrefl _
    have hsl : stop ≤ lo := by omega
    rw [max_eq_right hsl, min_eq_left hlu]
    have : lo ≤ min (start + n0 * step) up := le_min (not_lt.mp hx0) hlu
    constructor
    · intro h; omega
    · intro h; omega

/-! ## The distribution-aware builders on the split axis -/

/-- The statement of C1 for the builder over the integers, which is the code when
the sum of line 82 stays in `int64_t`. For positive steps, the logical indices
`lower + start[a] + k * step[a]`, `0 ≤ k < size[a]`, described on the split axis
`a` by the result of `ConstructSliceParamsLarge` are exactly the positions
`start + m * step`, `m ≥ 0`, below `stop` of the logical slice that lie in the
shard `[lower, upper)`. The bounds `0 ≤ lower ≤ upper ≤ logical_length` and
`0 ≤ start, stop ≤ logical_length` of the claim are not needed. -/
theorem large_split_axis_selects_shard_positions (ctx : SliceContext)
    (start_vec stop_vec step_vec shape : List Int) (a : Nat)
    (hrank : shape.length ≤ kSliceMaxDims)
    (hstart : start_vec.length = shape.length) (hstop : stop_vec.length = shape.length)
    (hstep : step_vec.length = shape.length)
    (hpos : ∀ i, i < shape.length → 0 < step_vec.getD i 0)
    (ha : a < shape.length) (hax : (a : Int) = ctx.split_axis) :
    ∃ L, ConstructSliceParamsLarge ctx start_vec stop_vec step_vec shape = .ok L ∧
      {x : Int | ∃ k : Int, 0 ≤ k ∧ k < L.size.getD a 0 ∧
          x = ctx.lower + L.start.getD a 0 + k * L.step.getD a 0}
        = {x : Int | ∃ m : Int, 0 ≤ m ∧ x = start_vec.getD a 0 + m * step_vec.getD a 0 ∧
            x < stop_vec.getD a 0} ∩ Set.Ico ctx.lower ctx.upper := by
  obtain ⟨L, hL, -, hget⟩ :=
    ConstructSliceParamsLarge_ok ctx start_vec stop_vec step_vec shape hrank hstart hstop hstep
      hpos
  refine ⟨L, hL, ?_⟩
  obtain ⟨-, g2, g3, g4⟩ := hget a ha
  ext x
  have key := split_axis_selection ctx.lower ctx.upper (start_vec.getD a 0)
    (stop_vec.getD a 0) (step_vec.getD a 0) x (hpos a ha)
  simp only [Set.mem_setOf_eq, Set.mem_inter_iff, Set.mem_Ico, g2, g3, g4,
    start_in_splitted_large, stop_in_splitted_large, hax, if_true]
  refine Iff.trans key ?_
  constructor
  · rintro ⟨m, h1, h2, h3, h4, h5⟩
    exact ⟨⟨m, h1, h2, h3⟩, h4, h5⟩
  · rintro ⟨⟨m, h1, h2, h3⟩, h4, h5⟩
    exact ⟨m, h1, h2, h3, h4, h5⟩

theorem large_split_axis_selects_shard_positions_witness :
    ∃ L, ConstructSliceParamsLarge ⟨0, 2, 4, 8⟩ [1] [7] [2] [2] = .ok L ∧
      {x : Int | ∃ k : Int, 0 ≤ k ∧ k < L.size.getD 0 0 ∧
          x = (2 : Int) + L.start.getD 0 0 + k * L.step.getD 0 0}
        = {x : Int | ∃ m : Int, 0 ≤ m ∧ x = ([1] : List Int).getD 0 0
              + m * ([2] : List Int).getD 0 0 ∧
            x < ([7] : List Int).getD 0 0} ∩ Set.Ico (2 : Int) 4 :=
  large_split_axis_selects_shard_positions ⟨0, 2, 4, 8⟩ [1] [7] [2] [2] 0 (by decide) rfl rfl rfl
    (by intro i hi; have h0 : i = 0 := by simpa using hi
        subst h0; decide) (by decide) rfl

/-- C2. For positive steps, with `L` the result of `ConstructSliceParamsLarge` and
`S` the result of `ConstructSliceParamsSmall`, for every `j < S.size[a]` on the
split axis `a` the logical input index addressed by the large side,
`lower + L.start[a] + j * step`, equals `start + (S.start[a] + j) * step`, the
logical index of output position `S.start[a] + j`. The bounds on the shard range
and on start and stop, and the value of the small extent, are not needed. -/
theorem large_small_pairing_on_split_axis (ctx : SliceContext)
    (start_vec stop_vec step_vec large_shape small_shape : List Int) (a : Nat)
    (hrank : large_shape.length ≤ kSliceMaxDims)
    (hsmall : small_shape.length = large_shape.length)
    (hstart : start_vec.length = large_shape.length)
    (hstop : stop_vec.length = large_shape.length)
    (hstep : step_vec.length = large_shape.length)
    (hpos : ∀ i, i < large_shape.length → 0 < step_vec.getD i 0)
    (ha : a < large_shape.length) (hax : (a : Int) = ctx.split_axis) :
    ∃ L S, ConstructSliceParamsLarge ctx start_vec stop_vec step_vec large_shape = .ok L ∧
      ConstructSliceParamsSmall ctx start_vec stop_vec step_vec small_shape = .ok S ∧
      ∀ j : Int, 0 ≤ j → j < S.size.getD a 0 →
        ctx.lower + L.start.getD a 0 + j * L.step.getD a 0
          = start_vec.getD a 0 + (S.start.getD a 0 + j) * step_vec.getD a 0 := by
  obtain ⟨L, hL, -, hgetL⟩ :=
    ConstructSliceParamsLarge_ok ctx start_vec stop_vec step_vec large_shape hrank hstart hstop
      hstep hpos
  obtain ⟨S, hS, -, hgetS⟩ :=
    ConstructSliceParamsSmall_ok ctx start_vec stop_vec step_vec small_shape
      (by rw [hsmall]; exact hrank) (by rw [hsmall]; exact hstart)
      (by rw [hsmall]; exact hstop) (by rw [hsmall]; exact hstep)
      (by rw [hsmall]; exact hpos)
  refine ⟨L, S, hL, hS, ?_⟩
  obtain ⟨-, l2, l3, -⟩ := hgetL a ha
  obtain ⟨-, s2, -, s4⟩ := hgetS a (by rw [hsmall]; exact ha)
  intro j hj0 hj
  rw [s4] at hj
  simp only [start_in_full_small, stop_in_full_small, hax, if_true] at hj s2
  rw [l2, l3, s2]
  simp only [start_in_splitted_large, hax, if_true]
  exact split_axis_pairing ctx.lower ctx.upper _ _ _ j (hpos a ha) hj0 hj

theorem large_small_pairing_on_split_axis_witness :
    ∃ L S, ConstructSliceParamsLarge ⟨0, 2, 4, 8⟩ [1] [7] [2] [2] = .ok L ∧
      ConstructSliceParamsSmall ⟨0, 2, 4, 8⟩ [1] [7] [2] [3] = .ok S ∧
      ∀ j : Int, 0 ≤ j → j < S.size.getD 0 0 →
        (2 : Int) + L.start.getD 0 0 + j * L.step.getD 0 0
          = ([1] : List Int).getD 0 0 + (S.start.getD 0 0 + j) * ([2] : List Int).getD 0 0 :=
  large_small_pairing_on_split_axis ⟨0, 2, 4, 8⟩ [1] [7] [2] [2] [3] 0 (by decide) rfl rfl rfl rfl
    (by intro i hi; have h0 : i = 0 := by simpa using hi
        subst h0; decide) (by decide) rfl

/-- The statement of C3 over the integers. For every positive step and every
`start < lower`, the advanced start
`lower + (step - (lower - start) % step) % step` is the smallest integer `v` with
`v ≥ lower` and `v ≡ start (mod step)`. -/
theorem advanced_start_isLeast (lower start step : Int) (hstep : 0 < step)
    (hlt : start < lower) :
    IsLeast {v : Int | lower ≤ v ∧ v ≡ start [ZMOD step]} (advanced_start lower start step) := by
  obtain ⟨h1, h2, h3⟩ := advanced_start_spec lower start step hstep hlt
  constructor
  · refine ⟨h1, ?_⟩
    rw [Int.modEq_iff_dvd]
    have := h3.neg_right
    simpa using this
  · rintro v ⟨hv, hmod⟩
    rw [Int.modEq_iff_dvd] at hmod
    by_contra hcon
    have hvlt : v < advanced_start lower start step := not_le.mp hcon
    have hd : step ∣ advanced_start lower start step - v := by
      have := dvd_add h3 hmod
      simpa using this
    have := stride_gap step v _ hstep hd hvlt
    omega

theorem advanced_start_isLeast_witness :
    IsLeast {v : Int | (4 : Int) ≤ v ∧ v ≡ 1 [ZMOD 2]} (advanced_start 4 1 2) :=
  advanced_start_isLeast 4 1 2 (by decide) (by decide)

theorem ncard_positions_below (start end_ step : Int) (hstep : 0 < step) :
    Set.ncard {k : Nat | start + (k : Int) * step < end_}
      = (GetSizeInSlice start end_ step).toNat := by
  have hset : {k : Nat | start + (k : Int) * step < end_}
      = ((Finset.range (GetSizeInSlice start end_ step).toNat : Finset Nat) : Set Nat) := by
    ext k
    simp only [Set.mem_setOf_eq, Finset.coe_range, Set.mem_Iio]
    rw [← lt_GetSizeInSlice_iff start end_ step k hstep (Int.ofNat_nonneg k)]
    omega
  rw [hset, Set.ncard_coe_Finset, Finset.card_range]

/-- The statement of C8 over the integers. For every positive step and all integers
`start`, `end`, `GetSizeInSlice start end step` is the number of `k ≥ 0` with
`start + k * step < end`; in particular it is `0` whenever `end ≤ start`. -/
theorem GetSizeInSlice_counts_strided_positions (start end_ step : Int) (hstep : 0 < step) :
    GetSizeInSlice start end_ step
        = ((Set.ncard {k : Nat | start + (k : Int) * step < end_} : Nat) : Int) ∧
      (end_ ≤ start → GetSizeInSlice start end_ step = 0) := by
  constructor
  · rw [ncard_positions_below start end_ step hstep,
      Int.toNat_of_nonneg (GetSizeInSlice_nonneg start end_ step hstep)]
  · intro h
    unfold GetSizeInSlice
    rw [if_pos h]

theorem GetSizeInSlice_counts_strided_positions_witness :
    GetSizeInSlice 1 7 2 = ((Set.ncard {k : Nat | (1 : Int) + (k : Int) * 2 < 7} : Nat) : Int) ∧
      ((7 : Int) ≤ 1 → GetSizeInSlice 1 7 2 = 0) :=
  GetSizeInSlice_counts_strided_positions 1 7 2 (by decide)

/-- C6. For shard ranges with `lower 0 = 0`, `upper r = lower (r + 1)` and
`upper (N - 1) = logical_length`, positive steps, `0 ≤ start`, `stop ≤
logical_length` and small extent `GetSizeInSlice start stop step` on the split axis
`a`, the ranges `[S_r.start, S_r.start + S_r.size)` that `ConstructSliceParamsSmall`
produces on the split axis for the ranks `r = 0 .. N - 1` satisfy `S_0.start = 0`,
`S_r.start + S_r.size = S_(r+1).start` and `S_(N-1).start + S_(N-1).size =
dim_size`, and each has a non-negative size when `lower r ≤ upper r`: they cover
`[0, dim_size)` in rank order without gaps or overlaps. -/
theorem small_ranges_tile_output (N : Nat) (lower upper : Nat → Int) (logical_length : Int)
    (a : Nat) (start_vec stop_vec step_vec shape : List Int)
    (_hN : 0 < N) (hfirst : lower 0 = 0)
    (hadj : ∀ r, r + 1 < N → upper r = lower (r + 1))
    (hlast : upper (N - 1) = logical_length)
    (hrank : shape.length ≤ kSliceMaxDims)
    (hstart : start_vec.length = shape.length) (hstop : stop_vec.length = shape.length)
    (hstep : step_vec.length = shape.length)
    (hpos : ∀ i, i < shape.length → 0 < step_vec.getD i 0)
    (ha : a < shape.length)
    (hstart0 : 0 ≤ start_vec.getD a 0)
    (hstoplen : stop_vec.getD a 0 ≤ logical_length)
    (hdim : shape.getD a 0
      = GetSizeInSlice (start_vec.getD a 0) (stop_vec.getD a 0) (step_vec.getD a 0)) :
    (∃ S0, ConstructSliceParamsSmall ⟨a, lower 0, upper 0, logical_length⟩
          start_vec stop_vec step_vec shape = .ok S0 ∧ S0.start.getD a 0 = 0) ∧
      (∀ r, r + 1 < N → ∃ S S',
        ConstructSliceParamsSmall ⟨a, lower r, upper r, logical_length⟩
          start_vec stop_vec step_vec shape = .ok S ∧
        ConstructSliceParamsSmall ⟨a, lower (r + 1), upper (r + 1), logical_length⟩
          start_vec stop_vec step_vec shape = .ok S' ∧
        S.start.getD a 0 + S.size.getD a 0 = S'.start.getD a 0) ∧
      (∃ Sl, ConstructSliceParamsSmall ⟨a, lower (N - 1), upper (N - 1), logical_length⟩
          start_vec stop_vec step_vec shape = .ok Sl ∧
        Sl.start.getD a 0 + Sl.size.getD a 0 = shape.getD a 0) ∧
      (∀ r, r < N → lower r ≤ upper r → ∃ S,
        ConstructSliceParamsSmall ⟨a, lower r, upper r, logical_length⟩
          start_vec stop_vec step_vec shape = .ok S ∧ 0 ≤ S.size.getD a 0) := by
  have hsa := hpos a ha
  have build : ∀ lo up : Int, ∃ S,
      ConstructSliceParamsSmall ⟨a, lo, up, logical_length⟩ start_vec stop_vec step_vec shape
        = .ok S ∧
      S.start.getD a 0
        = min (max (GetSizeInSlice (start_vec.getD a 0) lo (step_vec.getD a 0)) 0)
            (shape.getD a 0) ∧
      S.start.getD a 0 + S.size.getD a 0
        = min (max (GetSizeInSlice (start_vec.getD a 0) up (step_vec.getD a 0)) 0)
            (shape.getD a 0) := by
    intro lo up
    obtain ⟨S, hS, -, hget⟩ :=
      ConstructSliceParamsSmall_ok ⟨a, lo, up, logical_length⟩ start_vec stop_vec step_vec shape
        hrank hstart hstop hstep hpos
    obtain ⟨-, s2, -, s4⟩ := hget a ha
    simp only [start_in_full_small, stop_in_full_small, if_true] at s2 s4
    exact ⟨S, hS, s2, by rw [s2, s4]; ring⟩
  have hd0 : 0 ≤ shape.getD a 0 := by
    rw [hdim]; exact GetSizeInSlice_nonneg _ _ _ hsa
  refine ⟨?_, ?_, ?_, ?_⟩
  · obtain ⟨S, hS, h1, -⟩ := build (lower 0) (upper 0)
    refine ⟨S, hS, ?_⟩
    have hz : GetSizeInSlice (start_vec.getD a 0) (lower 0) (step_vec.getD a 0) = 0 := by
      unfold GetSizeInSlice
      rw [if_pos (by rw [hfirst]; exact hstart0)]
    rw [h1, hz, max_self, min_eq_left hd0]
  · intro r hr
    obtain ⟨S, hS, -, h2⟩ := build (lower r) (upper r)
    obtain ⟨S', hS', h1', -⟩ := build (lower (r + 1)) (upper (r + 1))
    exact ⟨S, S', hS, hS', by rw [h2, h1', hadj r hr]⟩
  · obtain ⟨S, hS, -, h2⟩ := build (lower (N - 1)) (upper (N - 1))
    refine ⟨S, hS, ?_⟩
    have hmono := GetSizeInSlice_mono (start_vec.getD a 0) _ _ (step_vec.getD a 0) hsa hstoplen
    rw [h2, hlast, max_eq_left (GetSizeInSlice_nonneg _ _ _ hsa)]
    exact min_eq_right (by rw [hdim]; exact hmono)
  · intro r _ hle
    obtain ⟨S, hS, h1, h2⟩ := build (lower r) (upper r)
    refine ⟨S, hS, ?_⟩
    have hmono := GetSizeInSlice_mono (start_vec.getD a 0) _ _ (step_vec.getD a 0) hsa hle
    have : S.start.getD a 0 ≤ S.start.getD a 0 + S.size.getD a 0 := by
      rw [h2, h1]
      exact min_le_min (max_le_max hmono (le_refl 0)) (le_refl _)
    omega

theorem small_ranges_tile_output_witness :
    (∃ S0, ConstructSliceParamsSmall ⟨(0 : Nat), (fun r : Nat => 2 * (r : Int)) 0,
            (fun r : Nat => 2 * (r : Int) + 2) 0, 8⟩ [1] [7] [2] [3] = .ok S0 ∧
          S0.start.getD 0 0 = 0) ∧
      (∀ r, r + 1 < 4 → ∃ S S',
        ConstructSliceParamsSmall ⟨(0 : Nat), (fun r : Nat => 2 * (r : Int)) r,
            (fun r : Nat => 2 * (r : Int) + 2) r, 8⟩ [1] [7] [2] [3] = .ok S ∧
        ConstructSliceParamsSmall ⟨(0 : Nat), (fun r : Nat => 2 * (r : Int)) (r + 1),
            (fun r : Nat => 2 * (r : Int) + 2) (r + 1), 8⟩ [1] [7] [2] [3] = .ok S' ∧
        S.start.getD 0 0 + S.size.getD 0 0 = S'.start.getD 0 0) ∧
      (∃ Sl, ConstructSliceParamsSmall ⟨(0 : Nat), (fun r : Nat => 2 * (r : Int)) (4 - 1),
            (fun r : Nat => 2 * (r : Int) + 2) (4 - 1), 8⟩ [1] [7] [2] [3] = .ok Sl ∧
        Sl.start.getD 0 0 + Sl.size.getD 0 0 = ([3] : List Int).getD 0 0) ∧
      (∀ r, r < 4 → (fun r : Nat => 2 * (r : Int)) r ≤ (fun r : Nat => 2 * (r : Int) + 2) r →
        ∃ S, ConstructSliceParamsSmall ⟨(0 : Nat), (fun r : Nat => 2 * (r : Int)) r,
            (fun r : Nat => 2 * (r : Int) + 2) r, 8⟩ [1] [7] [2] [3] = .ok S ∧
          0 ≤ S.size.getD 0 0) :=
  small_ranges_tile_output 4 (fun r => 2 * (r : Int)) (fun r => 2 * (r : Int) + 2) 8 0
    [1] [7] [2] [3] (by decide) (by decide) (by intro r _; push_cast; ring) (by decide)
    (by decide) rfl rfl rfl
    (by intro i hi; have h0 : i = 0 := by simpa using hi
        subst h0; decide)
    (by decide) (by decide) (by decide) (by decide)

/-! ## The element-count check of `WriteSlice` -/

theorem FOR_RANGE_error {σ : Type} (P : CheckFailure → Prop) (n : Nat)
    (body : Nat → σ → Except CheckFailure σ) (init : σ)
    (h : ∀ i s e, body i s = .error e → P e) :
    ∀ e, FOR_RANGE n body init = .error e → P e := by
  induction n with
  | zero => intro e he; simp [FOR_RANGE] at he
  | succ k ih =>
    intro e he
    simp only [FOR_RANGE] at he
    cases hk : FOR_RANGE k body init with
    | error e' =>
      rw [hk] at he
      injection he with he
      subst he
      exact ih e' hk
    | ok s =>
      rw [hk] at he
      exact h k s e he

theorem ConstructSliceParamsLarge_inv (ctx : SliceContext)
    (start_vec stop_vec step_vec shape : List Int) (L : SliceParams)
    (h : ConstructSliceParamsLarge ctx start_vec stop_vec step_vec shape = .ok L) :
    shape.length ≤ kSliceMaxDims ∧ start_vec.length = shape.length ∧
      stop_vec.length = shape.length ∧ step_vec.length = shape.length := by
  unfold ConstructSliceParamsLarge at h
  by_cases h1 : shape.length ≤ kSliceMaxDims
  · by_cases h2 : start_vec.length = shape.length
    · by_cases h3 : stop_vec.length = shape.length
      · by_cases h4 : step_vec.length = shape.length
        · exact ⟨h1, h2, h3, h4⟩
        · simp [h1, h2, h3, h4] at h
      · simp [h1, h2, h3] at h
    · simp [h1, h2] at h
  · simp [h1] at h

theorem ConstructSliceParamsSmall_inv (ctx : SliceContext)
    (start_vec stop_vec step_vec shape : List Int) (S : SliceParams)
    (h : ConstructSliceParamsSmall ctx start_vec stop_vec step_vec shape = .ok S) :
    shape.length ≤ kSliceMaxDims ∧ start_vec.length = shape.length ∧
      stop_vec.length = shape.length ∧ step_vec.length = shape.length := by
  unfold ConstructSliceParamsSmall at h
  by_cases h1 : shape.length ≤ kSliceMaxDims
  · by_cases h2 : start_vec.length = shape.length
    · by_cases h3 : stop_vec.length = shape.length
      · by_cases h4 : step_vec.length = shape.length
        · exact ⟨h1, h2, h3, h4⟩
        · simp [h1, h2, h3, h4] at h
      · simp [h1, h2, h3] at h
    · simp [h1, h2] at h
  · simp [h1] at h

theorem ConstructSliceParamsLarge_error (ctx : SliceContext)
    (start_vec stop_vec step_vec shape : List Int) (e : CheckFailure)
    (h : ConstructSliceParamsLarge ctx start_vec stop_vec step_vec shape = .error e) :
    e ≠ .elem_cnt_mismatch := by
  unfold ConstructSliceParamsLarge at h
  by_cases h1 : shape.length ≤ kSliceMaxDims
  · by_cases h2 : start_vec.length = shape.length
    · by_cases h3 : stop_vec.length = shape.length
      · by_cases h4 : step_vec.length = shape.length
        · simp only [h1, h2, h3, h4, not_true_eq_false, ne_eq, if_false] at h
          refine FOR_RANGE_error (fun e => e ≠ .elem_cnt_mismatch) _ _ _ ?_ e h
          intro i s e' he'
          unfold ConstructSliceParamsLarge_body at he'
          by_cases hs : step_vec.getD i 0 > 0
          · simp only [hs, not_true_eq_false, if_false] at he'
            cases he'
          · simp only [hs, not_false_eq_true, if_true] at he'
            injection he' with he'
            subst he'
            decide
        · simp [h1, h2, h3, h4] at h
          subst h
          decide
      · simp [h1, h2, h3] at h
        subst h
        decide
    · simp [h1, h2] at h
      subst h
      decide
  · simp [h1] at h
    subst h
    decide

theorem ConstructSliceParamsSmall_error (ctx : SliceContext)
    (start_vec stop_vec step_vec shape : List Int) (e : CheckFailure)
    (h : ConstructSliceParamsSmall ctx start_vec stop_vec step_vec shape = .error e) :
    e ≠ .elem_cnt_mismatch := by
  unfold ConstructSliceParamsSmall at h
  by_cases h1 : shape.length ≤ kSliceMaxDims
  · by_cases h2 : start_vec.length = shape.length
    · by_cases h3 : stop_vec.length = shape.length
      · by_cases h4 : step_vec.length = shape.length
        · simp only [h1, h2, h3, h4, not_true_eq_false, ne_eq, if_false] at h
          refine FOR_RANGE_error (fun e => e ≠ .elem_cnt_mismatch) _ _ _ ?_ e h
          intro i s e' he'
          unfold ConstructSliceParamsSmall_body at he'
          by_cases hs : step_vec.getD i 0 > 0
          · simp only [hs, not_true_eq_false, if_false] at he'
            cases he'
          · simp only [hs, not_false_eq_true, if_true] at he'
            injection he' with he'
            subst he'
            decide
        · simp [h1, h2, h3, h4] at h
          subst h
          decide
      · simp [h1, h2, h3] at h
        subst h
        decide
    · simp [h1, h2] at h
      subst h
      decide
  · simp [h1] at h
    subst h
    decide

/-- With positive steps, `lower ≤ upper`, and a small tensor whose extent on every
axis is the size of the logical slice, the two parameter blocks select the same
number of elements on every axis. -/
theorem builders_sizes_eq (ctx : SliceContext)
    (start_vec stop_vec step_vec large_shape small_shape : List Int)
    (hlu : ctx.lower ≤ ctx.upper)
    (hpos : ∀ i, i < large_shape.length → 0 < step_vec.getD i 0)
    (hdim : ∀ i, i < large_shape.length →
      small_shape.getD i 0
        = GetSizeInSlice (start_vec.getD i 0) (stop_vec.getD i 0) (step_vec.getD i 0))
    (L S : SliceParams)
    (hL : ConstructSliceParamsLarge ctx start_vec stop_vec step_vec large_shape = .ok L)
    (hS : ConstructSliceParamsSmall ctx start_vec stop_vec step_vec small_shape = .ok S) :
    L.ndim = large_shape.length ∧ S.ndim = large_shape.length ∧
      (∀ i, i < large_shape.length → L.size.getD i 0 = S.size.getD i 0) ∧
      L.elem_cnt = S.elem_cnt := by
  obtain ⟨l1, l2, l3, l4⟩ := ConstructSliceParamsLarge_inv _ _ _ _ _ _ hL
  obtain ⟨s1, s2, s3, s4⟩ := ConstructSliceParamsSmall_inv _ _ _ _ _ _ hS
  have hlen : small_shape.length = large_shape.length := by rw [← s2, l2]
  obtain ⟨L', hL', hLn, hgetL⟩ :=
    ConstructSliceParamsLarge_ok ctx start_vec stop_vec step_vec large_shape l1 l2 l3 l4 hpos
  obtain ⟨S', hS', hSn, hgetS⟩ :=
    ConstructSliceParamsSmall_ok ctx start_vec stop_vec step_vec small_shape s1 s2 s3 s4
      (by rw [hlen]; exact hpos)
  rw [hL] at hL'
  rw [hS] at hS'
  cases hL'
  cases hS'
  have hsizes : ∀ i, i < large_shape.length → L.size.getD i 0 = S.size.getD i 0 := by
    intro i hi
    obtain ⟨-, -, -, g4⟩ := hgetL i hi
    obtain ⟨-, -, -, t4⟩ := hgetS i (by rw [hlen]; exact hi)
    rw [g4, t4, hdim i hi]
    by_cases hax : (i : Int) = ctx.split_axis
    · simp only [start_in_splitted_large, stop_in_splitted_large, start_in_full_small,
        stop_in_full_small, hax, if_true]
      exact split_axis_size_eq ctx.lower ctx.upper _ _ _ (hpos i hi) hlu
    · simp only [start_in_splitted_large, stop_in_splitted_large, start_in_full_small,
        stop_in_full_small, hax, if_false, sub_zero]
  refine ⟨hLn, by rw [hSn, hlen], hsizes, ?_⟩
  unfold SliceParams.elem_cnt
  rw [hLn, hSn, hlen]
  congr 1
  apply List.map_congr_left
  intro i hi
  exact hsizes i (List.mem_range.mp hi)

theorem FOR_RANGE_ok_inv {σ : Type} (n : Nat) (body : Nat → σ → Except CheckFailure σ)
    (init : σ) : ∀ s, FOR_RANGE n body init = .ok s →
      ∀ i, i < n → ∃ s1 s2, body i s1 = .ok s2 := by
  induction n with
  | zero => intro s _ i hi; omega
  | succ k ih =>
    intro s hs i hi
    simp only [FOR_RANGE] at hs
    cases hk : FOR_RANGE k body init with
    | error e => rw [hk] at hs; cases hs
    | ok s' =>
      rw [hk] at hs
      rcases Nat.lt_succ_iff_lt_or_eq.mp hi with hlt | heq
      · exact ih s' hk i hlt
      · subst heq; exact ⟨s', s, hs⟩

theorem getD_map_range (f : Nat → Int) (n i : Nat) (hi : i < n) :
    ((List.range n).map f).getD i 0 = f i := by
  simp [List.getD_eq_getElem?_getD, List.getElem?_map, List.getElem?_range hi]

/-- The normalisation loop of `WriteSlice` returns the normalised start and stop of
every axis when the attributes are not longer than the shape and `stop` is not
shorter than `start`. -/
theorem WriteSlice_normalize_ok (rs re : Int → Int → Int) (ctx : SliceContext)
    (start_attr stop_attr large_shape : List Int) (n : Nat)
    (h1 : n ≤ large_shape.length) (h2 : n ≤ stop_attr.length) :
    FOR_RANGE n (WriteSlice_normalize_body rs re ctx start_attr stop_attr large_shape) ([], [])
      = .ok ((List.range n).map
              (fun i => rs (start_attr.getD i 0) (normalize_extent ctx large_shape i)),
             (List.range n).map
              (fun i => re (stop_attr.getD i 0) (normalize_extent ctx large_shape i))) := by
  induction n with
  | zero => rfl
  | succ k ih =>
    have hk1 : k < large_shape.length := h1
    have hk2 : k < stop_attr.length := h2
    simp only [FOR_RANGE, ih (Nat.le_of_lt hk1) (Nat.le_of_lt hk2), WriteSlice_normalize_body,
      hk1, hk2, not_true_eq_false, if_false, List.range_succ, List.map_append, List.map_cons,
      List.map_nil]

theorem WriteSlice_normalize_inv (rs re : Int → Int → Int) (ctx : SliceContext)
    (start_attr stop_attr large_shape : List Int) (n : Nat) (r : List Int × List Int)
    (h : FOR_RANGE n (WriteSlice_normalize_body rs re ctx start_attr stop_attr large_shape)
      ([], []) = .ok r) :
    n ≤ large_shape.length ∧ n ≤ stop_attr.length := by
  cases n with
  | zero => exact ⟨Nat.zero_le _, Nat.zero_le _⟩
  | succ k =>
    obtain ⟨s1, s2, hb⟩ := FOR_RANGE_ok_inv _ _ _ r h k (Nat.lt_succ_self k)
    unfold WriteSlice_normalize_body at hb
    by_cases hk1 : k < large_shape.length
    · by_cases hk2 : k < stop_attr.length
      · exact ⟨hk1, hk2⟩
      · simp [hk1, hk2] at hb
    · simp [hk1] at hb

/-- What `WriteSlice_params` computes before its element-count check. -/
theorem WriteSlice_params_cases (rs re : Int → Int → Int) (ctx : SliceContext)
    (start_attr stop_attr step_attr large_shape small_shape : List Int) :
    (∃ e, e ≠ CheckFailure.elem_cnt_mismatch ∧
      WriteSlice_params rs re ctx start_attr stop_attr step_attr large_shape small_shape
        = .error e) ∨
    (∃ L S,
      start_attr.length ≤ large_shape.length ∧
      ConstructSliceParamsLarge ctx
        ((List.range start_attr.length).map
          (fun i => rs (start_attr.getD i 0) (normalize_extent ctx large_shape i)))
        ((List.range start_attr.length).map
          (fun i => re (stop_attr.getD i 0) (normalize_extent ctx large_shape i)))
        step_attr large_shape = .ok L ∧
      ConstructSliceParamsSmall ctx
        ((List.range start_attr.length).map
          (fun i => rs (start_attr.getD i 0) (normalize_extent ctx large_shape i)))
        ((List.range start_attr.length).map
          (fun i => re (stop_attr.getD i 0) (normalize_extent ctx large_shape i)))
        step_attr small_shape = .ok S ∧
      WriteSlice_params rs re ctx start_attr stop_attr step_attr large_shape small_shape
        = if L.elem_cnt = S.elem_cnt then .ok (L, S) else .error .elem_cnt_mismatch) := by
  unfold WriteSlice_params
  simp only
  -- the split-extent check
  generalize hsc : (if ctx.split_axis ≠ SPLIT_AXIS_FOR_NON_SPLIT then
      match ShapeView_At large_shape ctx.split_axis with
      | .ok extent =>
        if extent = ctx.upper - ctx.lower then (Except.ok () : Except CheckFailure Unit)
        else .error .split_extent
      | .error e => .error e
    else .ok ()) = sc
  cases sc with
  | error e =>
    left
    refine ⟨e, ?_, rfl⟩
    by_cases hne : ctx.split_axis ≠ SPLIT_AXIS_FOR_NON_SPLIT
    · rw [if_pos hne] at hsc
      unfold ShapeView_At at hsc
      by_cases hin : 0 ≤ ctx.split_axis ∧ ctx.split_axis < large_shape.length
      · rw [if_pos hin] at hsc
        simp only at hsc
        split_ifs at hsc
        injection hsc with hsc
        subst hsc
        decide
      · rw [if_neg hin] at hsc
        simp only at hsc
        injection hsc with hsc
        subst hsc
        decide
    · rw [if_neg hne] at hsc
      cases hsc
  | ok u =>
    simp only
    cases hnorm : FOR_RANGE start_attr.length
        (WriteSlice_normalize_body rs re ctx start_attr stop_attr large_shape) ([], []) with
    | error e =>
      left
      refine ⟨e, ?_, rfl⟩
      refine FOR_RANGE_error (fun e => e ≠ .elem_cnt_mismatch) _ _ _ ?_ e hnorm
      intro i s e' he'
      unfold WriteSlice_normalize_body at he'
      by_cases hk1 : i < large_shape.length
      · by_cases hk2 : i < stop_attr.length
        · simp [hk1, hk2] at he'
        · simp [hk1, hk2] at he'
          subst he'
          decide
      · simp [hk1] at he'
        subst he'
        decide
    | ok r =>
      obtain ⟨n1, n2⟩ := WriteSlice_normalize_inv rs re ctx _ _ _ _ r hnorm
      rw [WriteSlice_normalize_ok rs re ctx _ _ _ _ n1 n2] at hnorm
      injection hnorm with hnorm
      subst hnorm
      simp only
      cases hL : ConstructSliceParamsLarge ctx
        ((List.range start_attr.length).map
          (fun i => rs (start_attr.getD i 0) (normalize_extent ctx large_shape i)))
        ((List.range start_attr.length).map
          (fun i => re (stop_attr.getD i 0) (normalize_extent ctx large_shape i)))
        step_attr large_shape with
      | error e =>
        left
        exact ⟨e, ConstructSliceParamsLarge_error _ _ _ _ _ e hL, rfl⟩
      | ok L =>
        simp only
        cases hS : ConstructSliceParamsSmall ctx
          ((List.range start_attr.length).map
            (fun i => rs (start_attr.getD i 0) (normalize_extent ctx large_shape i)))
          ((List.range start_attr.length).map
            (fun i => re (stop_attr.getD i 0) (normalize_extent ctx large_shape i)))
          step_attr small_shape with
        | error e =>
          left
          exact ⟨e, ConstructSliceParamsSmall_error _ _ _ _ _ e hS, rfl⟩
        | ok S =>
          right
          exact ⟨L, S, n1, rfl, rfl, rfl⟩

/-- The statement of C4 for the builders over the integers, which are the code when
the sum of line 82 stays in `int64_t`. The element-count check of `WriteSlice`
never fires on well-formed input:
for every rank, every positive step vector, every shard range with
`lower ≤ upper` and all normalised start and stop, when the small tensor's extent
on each axis is `GetSizeInSlice start[i] stop[i] step[i]`, `WriteSlice` does not
abort on `CHECK_EQ(large.elem_cnt(), small.elem_cnt())`; the two parameter blocks
have equal `size[i]` on every axis, the split axis included, hence equal
element counts; and with ranks within the ceiling, attributes of the rank's
length and a split axis of extent `upper - lower` (or no split) the blocks are
built. The normalising helpers
`RegulateSliceStart` and `RegulateSliceStop` are arbitrary functions. -/
theorem elem_cnt_check_never_fires (regulateStart regulateStop : Int → Int → Int)
    (ctx : SliceContext) (start_attr stop_attr step_attr large_shape small_shape : List Int)
    (hpos : ∀ i, i < large_shape.length → 0 < step_attr.getD i 0)
    (hlu : ctx.lower ≤ ctx.upper)
    (hdim : ∀ i, i < large_shape.length →
      small_shape.getD i 0
        = GetSizeInSlice
            (regulateStart (start_attr.getD i 0) (normalize_extent ctx large_shape i))
            (regulateStop (stop_attr.getD i 0) (normalize_extent ctx large_shape i))
            (step_attr.getD i 0)) :
    WriteSlice_params regulateStart regulateStop ctx start_attr stop_attr step_attr
        large_shape small_shape ≠ .error .elem_cnt_mismatch ∧
      (∀ L S, WriteSlice_params regulateStart regulateStop ctx start_attr stop_attr
          step_attr large_shape small_shape = .ok (L, S) →
        (∀ i, i < large_shape.length → L.size.getD i 0 = S.size.getD i 0) ∧
          L.elem_cnt = S.elem_cnt) ∧
      (large_shape.length ≤ kSliceMaxDims → small_shape.length = large_shape.length →
        start_attr.length = large_shape.length → stop_attr.length = large_shape.length →
        step_attr.length = large_shape.length →
        (ctx.split_axis = SPLIT_AXIS_FOR_NON_SPLIT ∨
          ∃ a : Nat, a < large_shape.length ∧ (a : Int) = ctx.split_axis ∧
            large_shape.getD a 0 = ctx.upper - ctx.lower) →
        ∃ L S, WriteSlice_params regulateStart regulateStop ctx start_attr stop_attr
          step_attr large_shape small_shape = .ok (L, S)) := by
  -- the element counts agree whenever both blocks are built
  have hcnt : ∀ L S,
      start_attr.length ≤ large_shape.length →
      ConstructSliceParamsLarge ctx
        ((List.range start_attr.length).map
          (fun i => regulateStart (start_attr.getD i 0)
            (normalize_extent ctx large_shape i)))
        ((List.range start_attr.length).map
          (fun i => regulateStop (stop_attr.getD i 0)
            (normalize_extent ctx large_shape i)))
        step_attr large_shape = .ok L →
      ConstructSliceParamsSmall ctx
        ((List.range start_attr.length).map
          (fun i => regulateStart (start_attr.getD i 0)
            (normalize_extent ctx large_shape i)))
        ((List.range start_attr.length).map
          (fun i => regulateStop (stop_attr.getD i 0)
            (normalize_extent ctx large_shape i)))
        step_attr small_shape = .ok S →
      (∀ i, i < large_shape.length → L.size.getD i 0 = S.size.getD i 0) ∧
        L.elem_cnt = S.elem_cnt := by
    intro L S _ hL hS
    obtain ⟨-, l2, -, -⟩ := ConstructSliceParamsLarge_inv _ _ _ _ _ _ hL
    simp only [List.length_map, List.length_range] at l2
    have := builders_sizes_eq ctx _ _ step_attr large_shape small_shape hlu hpos
      (fun i hi => by
        rw [getD_map_range _ _ _ (by rw [l2]; exact hi),
          getD_map_range _ _ _ (by rw [l2]; exact hi)]
        exact hdim i hi) L S hL hS
    exact ⟨this.2.2.1, this.2.2.2⟩
  refine ⟨?_, ?_, ?_⟩
  · rcases WriteSlice_params_cases regulateStart regulateStop ctx start_attr stop_attr
      step_attr large_shape small_shape with ⟨e, hne, he⟩ | ⟨L, S, hn, hL, hS, hres⟩
    · rw [he]
      intro hcon
      injection hcon with hcon
      exact hne hcon
    · rw [hres, if_pos (hcnt L S hn hL hS).2]
      intro hcon
      cases hcon
  · intro L S hok
    rcases WriteSlice_params_cases regulateStart regulateStop ctx start_attr stop_attr
      step_attr large_shape small_shape with ⟨e, hne, he⟩ | ⟨L', S', hn, hL, hS, hres⟩
    · rw [he] at hok
      cases hok
    · rw [hres, if_pos (hcnt L' S' hn hL hS).2] at hok
      injection hok with hok
      injection hok with h1 h2
      subst h1
      subst h2
      exact hcnt _ _ hn hL hS
  · intro hrank hsmall hstart hstop hstep hsplit
    have hposS : ∀ i, i < small_shape.length → 0 < step_attr.getD i 0 := by
      rw [hsmall]; exact hpos
    obtain ⟨L, hL, -⟩ := ConstructSliceParamsLarge_ok ctx
      ((List.range start_attr.length).map
        (fun i => regulateStart (start_attr.getD i 0)
          (normalize_extent ctx large_shape i)))
      ((List.range start_attr.length).map
        (fun i => regulateStop (stop_attr.getD i 0)
          (normalize_extent ctx large_shape i)))
      step_attr large_shape hrank (by simp [hstart]) (by simp [hstart]) hstep hpos
    obtain ⟨S, hS, -⟩ := ConstructSliceParamsSmall_ok ctx
      ((List.range start_attr.length).map
        (fun i => regulateStart (start_attr.getD i 0)
          (normalize_extent ctx large_shape i)))
      ((List.range start_attr.length).map
        (fun i => regulateStop (stop_attr.getD i 0)
          (normalize_extent ctx large_shape i)))
      step_attr small_shape (by rw [hsmall]; exact hrank) (by simp [hstart, hsmall])
      (by simp [hstart, hsmall]) (by rw [hsmall]; exact hstep) hposS
    refine ⟨L, S, ?_⟩
    have hsc : (if ctx.split_axis ≠ SPLIT_AXIS_FOR_NON_SPLIT then
        match ShapeView_At large_shape ctx.split_axis with
        | .ok extent =>
          if extent = ctx.upper - ctx.lower then (Except.ok () : Except CheckFailure Unit)
          else .error .split_extent
        | .error e => .error e
      else .ok ()) = .ok () := by
      rcases hsplit with hnone | ⟨a, ha, hax, hext⟩
      · rw [if_neg (by rw [hnone]; exact fun h => h rfl)]
      · have hin : 0 ≤ ctx.split_axis ∧ ctx.split_axis < large_shape.length := by
          rw [← hax]; exact ⟨Int.ofNat_nonneg a, by exact_mod_cast ha⟩
        have hat : ShapeView_At large_shape ctx.split_axis = .ok (large_shape.getD a 0) := by
          unfold ShapeView_At
          rw [if_pos hin, ← hax, Int.toNat_ofNat]
        rw [hat]
        simp only [hext, if_true, ite_self]
    have hnorm := WriteSlice_normalize_ok regulateStart regulateStop ctx start_attr
      stop_attr large_shape start_attr.length (by rw [hstart]) (by rw [hstart, hstop])
    unfold WriteSlice_params
    simp only [hsc, hnorm, hL, hS]
    rw [if_pos (hcnt L S (by rw [hstart]) hL hS).2]

theorem elem_cnt_check_never_fires_witness :
    WriteSlice_params RegulateSliceStart RegulateSliceStop ⟨0, 2, 4, 8⟩ [1] [7] [2] [2] [3]
        ≠ .error .elem_cnt_mismatch ∧
      ∃ L S, WriteSlice_params RegulateSliceStart RegulateSliceStop ⟨0, 2, 4, 8⟩ [1] [7] [2]
        [2] [3] = .ok (L, S) :=
  ⟨(elem_cnt_check_never_fires RegulateSliceStart RegulateSliceStop ⟨0, 2, 4, 8⟩ [1] [7] [2]
      [2] [3]
      (by intro i hi; have h0 : i = 0 := by simpa using hi
          subst h0; decide)
      (by decide)
      (by intro i hi; have h0 : i = 0 := by simpa using hi
          subst h0; decide)).1,
   (elem_cnt_check_never_fires RegulateSliceStart RegulateSliceStop ⟨0, 2, 4, 8⟩ [1] [7] [2]
      [2] [3]
      (by intro i hi; have h0 : i = 0 := by simpa using hi
          subst h0; decide)
      (by decide)
      (by intro i hi; have h0 : i = 0 := by simpa using hi
          subst h0; decide)).2.2 (by decide) rfl rfl rfl rfl
      (Or.inr ⟨0, by decide, rfl, by decide⟩)⟩

/-! ## The plain builder `ConstructSliceParams` -/

/-- The two checks of one iteration of `ConstructSliceParams`: `CHECK_NE(step, 0)`
and the check of the last selected index against `stop`. -/
theorem ConstructSliceParams_body_ok_iff (rs re : Int → Int → Int)
    (start_vec stop_vec step_vec entire_shape sliced_shape : List Int) (i : Nat)
    (p q : SliceParams) :
    ConstructSliceParams_body rs re start_vec stop_vec step_vec entire_shape sliced_shape i p
        = .ok q ↔
      (step_vec.getD i 0 ≠ 0 ∧
        (if step_vec.getD i 0 > 0 then
          rs (start_vec.getD i 0) (entire_shape.getD i 0)
              + step_vec.getD i 0 * (sliced_shape.getD i 0 - 1)
            < re (stop_vec.getD i 0) (entire_shape.getD i 0)
         else
          rs (start_vec.getD i 0) (entire_shape.getD i 0)
              + step_vec.getD i 0 * (sliced_shape.getD i 0 - 1)
            > re (stop_vec.getD i 0) (entire_shape.getD i 0))) ∧
      q = p.setAxis i (entire_shape.getD i 0)
            (rs (start_vec.getD i 0) (entire_shape.getD i 0)) (step_vec.getD i 0)
            (sliced_shape.getD i 0) := by
  unfold ConstructSliceParams_body
  by_cases h0 : step_vec.getD i 0 ≠ 0
  · by_cases hp : step_vec.getD i 0 > 0
    · by_cases hc : rs (start_vec.getD i 0) (entire_shape.getD i 0)
          + step_vec.getD i 0 * (sliced_shape.getD i 0 - 1)
          < re (stop_vec.getD i 0) (entire_shape.getD i 0)
      · simp only [h0, hp, hc, not_true_eq_false, if_false, if_true, true_and,
          Except.ok.injEq, ne_eq, not_false_eq_true]
        exact eq_comm
      · simp only [h0, hp, hc, not_true_eq_false, not_false_eq_true, if_false, if_true,
          and_false, false_and, ne_eq, reduceCtorEq]
    · by_cases hc : rs (start_vec.getD i 0) (entire_shape.getD i 0)
          + step_vec.getD i 0 * (sliced_shape.getD i 0 - 1)
          > re (stop_vec.getD i 0) (entire_shape.getD i 0)
      · simp only [h0, hp, hc, not_true_eq_false, if_false, if_true, true_and,
          Except.ok.injEq, ne_eq, not_false_eq_true]
        exact eq_comm
      · simp only [h0, hp, hc, not_true_eq_false, not_false_eq_true, if_false, if_true,
          and_false, false_and, ne_eq, reduceCtorEq]
  · simp only [h0, not_false_eq_true, if_true, false_and, reduceCtorEq]

/-- Outside the scalar-pick case, a successful `ConstructSliceParams` has passed
the two checks on every axis and returns the declared extents as sizes. -/
theorem ConstructSliceParams_ok_inv (rs re : Int → Int → Int)
    (start_vec stop_vec step_vec entire_shape sliced_shape : List Int) (p : SliceParams)
    (hnd : ¬ (entire_shape.length = 1 ∧ sliced_shape.length = 0))
    (h : ConstructSliceParams rs re start_vec stop_vec step_vec entire_shape sliced_shape
      = .ok p) :
    step_vec.length = entire_shape.length ∧ p.ndim = entire_shape.length ∧
      ∀ i, i < entire_shape.length →
        (step_vec.getD i 0 ≠ 0 ∧
          (if step_vec.getD i 0 > 0 then
            rs (start_vec.getD i 0) (entire_shape.getD i 0)
                + step_vec.getD i 0 * (sliced_shape.getD i 0 - 1)
              < re (stop_vec.getD i 0) (entire_shape.getD i 0)
           else
            rs (start_vec.getD i 0) (entire_shape.getD i 0)
                + step_vec.getD i 0 * (sliced_shape.getD i 0 - 1)
              > re (stop_vec.getD i 0) (entire_shape.getD i 0))) ∧
        p.dims.getD i 0 = entire_shape.getD i 0 ∧
        p.start.getD i 0 = rs (start_vec.getD i 0) (entire_shape.getD i 0) ∧
        p.step.getD i 0 = step_vec.getD i 0 ∧
        p.size.getD i 0 = sliced_shape.getD i 0 := by
  unfold ConstructSliceParams at h
  by_cases h1 : entire_shape.length ≤ kSliceMaxDims
  swap
  · simp [h1] at h
  by_cases h2 : (if entire_shape.length = 1 then ¬ (sliced_shape.length ≤ 1)
      else ¬ (sliced_shape.length = entire_shape.length))
  · simp only [h1, not_true_eq_false, if_false, h2, if_true, reduceCtorEq] at h
  by_cases h3 : start_vec.length = entire_shape.length
  swap
  · simp only [h1, not_true_eq_false, if_false, h2, h3, ne_eq, not_false_eq_true, if_true,
      reduceCtorEq] at h
  by_cases h4 : stop_vec.length = entire_shape.length
  swap
  · simp only [h1, not_true_eq_false, if_false, h2, h3, h4, ne_eq, not_false_eq_true, if_true,
      reduceCtorEq] at h
  by_cases h5 : step_vec.length = entire_shape.length
  swap
  · simp only [h1, not_true_eq_false, if_false, h2, h3, h4, h5, ne_eq, not_false_eq_true,
      if_true, reduceCtorEq] at h
  simp only [h1, not_true_eq_false, if_false, h2, h3, h4, h5, ne_eq, hnd] at h
  have hchk : ∀ i, i < entire_shape.length →
      (step_vec.getD i 0 ≠ 0 ∧
        (if step_vec.getD i 0 > 0 then
          rs (start_vec.getD i 0) (entire_shape.getD i 0)
              + step_vec.getD i 0 * (sliced_shape.getD i 0 - 1)
            < re (stop_vec.getD i 0) (entire_shape.getD i 0)
         else
          rs (start_vec.getD i 0) (entire_shape.getD i 0)
              + step_vec.getD i 0 * (sliced_shape.getD i 0 - 1)
            > re (stop_vec.getD i 0) (entire_shape.getD i 0))) := by
    intro i hi
    obtain ⟨s1, s2, hb⟩ := FOR_RANGE_ok_inv _ _ _ p h i hi
    exact ((ConstructSliceParams_body_ok_iff rs re _ _ _ _ _ i s1 s2).mp hb).1
  obtain ⟨p', hp', hn, -, -, -, -, hget⟩ :=
    FOR_RANGE_setAxis entire_shape.length
      (ConstructSliceParams_body rs re start_vec stop_vec step_vec entire_shape sliced_shape)
      (fun i => entire_shape.getD i 0)
      (fun i => rs (start_vec.getD i 0) (entire_shape.getD i 0))
      (fun i => step_vec.getD i 0)
      (fun i => sliced_shape.getD i 0)
      { SliceParams.zeroed with ndim := entire_shape.length }
      (fun i hi q =>
        (ConstructSliceParams_body_ok_iff rs re _ _ _ _ _ i q _).mpr ⟨hchk i hi, rfl⟩)
  rw [h] at hp'
  injection hp' with hp'
  subst hp'
  refine ⟨h5, hn, ?_⟩
  intro i hi
  have hi8 : i < kSliceMaxDims := Nat.lt_of_lt_of_le hi h1
  obtain ⟨g1, g2, g3, g4⟩ := hget i
  simp only [SliceParams.zeroed, List.length_replicate, hi, hi8, and_self, if_true]
    at g1 g2 g3 g4
  exact ⟨hchk i hi, g1, g2, g3, g4⟩

theorem ncard_in_slice_range_pos (start stop step : Int) (hstep : 0 < step) :
    Set.ncard {k : Nat | in_slice_range start stop step (start + (k : Int) * step)}
      = (GetSizeInSlice start stop step).toNat := by
  rw [← ncard_positions_below start stop step hstep]
  congr 1
  ext k
  have : 0 ≤ (k : Int) * step := mul_nonneg (Int.ofNat_nonneg k) (le_of_lt hstep)
  simp only [Set.mem_setOf_eq, in_slice_range, gt_iff_lt, hstep, if_true]
  constructor
  · intro h; exact h.2
  · intro h; exact ⟨by omega, h⟩

theorem ncard_in_slice_range_neg (start stop step : Int) (hstep : step < 0) :
    Set.ncard {k : Nat | in_slice_range start stop step (start + (k : Int) * step)}
      = (GetSizeInSlice (-start) (-stop) (-step)).toNat := by
  rw [← ncard_positions_below (-start) (-stop) (-step) (by omega)]
  congr 1
  ext k
  have h1 : (k : Int) * step ≤ 0 :=
    mul_nonpos_of_nonneg_of_nonpos (Int.ofNat_nonneg k) (le_of_lt hstep)
  have h2 : (k : Int) * -step = -((k : Int) * step) := by ring
  simp only [Set.mem_setOf_eq, in_slice_range, gt_iff_lt, not_lt.mpr (le_of_lt hstep), if_false,
    h2]
  constructor
  · intro h; omega
  · intro h; exact ⟨by omega, by omega⟩

/-- On a successful, non-degenerate run of `ConstructSliceParams` the size of an axis
is at most the number of indices of the progression inside the slice range. -/
theorem size_le_count_of_check (start stop step size : Int) (h0 : step ≠ 0)
    (hc : if step > 0 then start + step * (size - 1) < stop
          else start + step * (size - 1) > stop) :
    size ≤ ((Set.ncard {k : Nat | in_slice_range start stop step (start + (k : Int) * step)}
      : Nat) : Int) := by
  rcases lt_or_gt_of_ne h0 with hneg | hpos
  · rw [ncard_in_slice_range_neg start stop step hneg,
      Int.toNat_of_nonneg (GetSizeInSlice_nonneg _ _ _ (by omega))]
    rw [if_neg (not_lt.mpr (le_of_lt hneg))] at hc
    by_cases hs : 1 ≤ size
    · have := (lt_GetSizeInSlice_iff (-start) (-stop) (-step) (size - 1) (by omega)
        (by omega)).mpr (by
          have : (size - 1) * -step = -(step * (size - 1)) := by ring
          rw [this]; omega)
      omega
    · have := GetSizeInSlice_nonneg (-start) (-stop) (-step) (by omega)
      omega
  · rw [ncard_in_slice_range_pos start stop step hpos,
      Int.toNat_of_nonneg (GetSizeInSlice_nonneg _ _ _ hpos)]
    rw [if_pos hpos] at hc
    by_cases hs : 1 ≤ size
    · have := (lt_GetSizeInSlice_iff start stop step (size - 1) hpos (by omega)).mpr (by
        rw [mul_comm]; exact hc)
      omega
    · have := GetSizeInSlice_nonneg start stop step hpos
      omega

/-- The amended statement of C9 for the builder over the integers. The cross-check
of `ConstructSliceParams` against the declared output shape is one-sided: outside
the scalar-pick case, the builder
aborts whenever on some axis `i` the declared output extent `sliced.shape[i]` is
greater than the number of indices of the progression `start[i], start[i] +
step[i], …` that lie in `[start[i], stop[i])` for positive step or in
`(stop[i], start[i]]` for negative step, `start` and `stop` being the normalised
bounds; on success `size[i] = sliced.shape[i]` is at most that count on every
axis. -/
theorem cross_check_bounds_size_by_count (regulateStart regulateStop : Int → Int → Int)
    (start_vec stop_vec step_vec entire_shape sliced_shape : List Int)
    (hnd : ¬ (entire_shape.length = 1 ∧ sliced_shape.length = 0)) :
    ((∃ i, i < entire_shape.length ∧
        ((Set.ncard {k : Nat | in_slice_range
            (regulateStart (start_vec.getD i 0) (entire_shape.getD i 0))
            (regulateStop (stop_vec.getD i 0) (entire_shape.getD i 0)) (step_vec.getD i 0)
            (regulateStart (start_vec.getD i 0) (entire_shape.getD i 0)
              + (k : Int) * step_vec.getD i 0)} : Nat) : Int) < sliced_shape.getD i 0) →
      ∃ e, ConstructSliceParams regulateStart regulateStop start_vec stop_vec step_vec
        entire_shape sliced_shape = .error e) ∧
    (∀ p, ConstructSliceParams regulateStart regulateStop start_vec stop_vec step_vec
        entire_shape sliced_shape = .ok p →
      ∀ i, i < entire_shape.length →
        p.size.getD i 0 = sliced_shape.getD i 0 ∧
        p.size.getD i 0 ≤
          ((Set.ncard {k : Nat | in_slice_range
            (regulateStart (start_vec.getD i 0) (entire_shape.getD i 0))
            (regulateStop (stop_vec.getD i 0) (entire_shape.getD i 0)) (step_vec.getD i 0)
            (regulateStart (start_vec.getD i 0) (entire_shape.getD i 0)
              + (k : Int) * step_vec.getD i 0)} : Nat) : Int)) := by
  have hsucc : ∀ p, ConstructSliceParams regulateStart regulateStop start_vec stop_vec step_vec
        entire_shape sliced_shape = .ok p →
      ∀ i, i < entire_shape.length →
        p.size.getD i 0 = sliced_shape.getD i 0 ∧
        p.size.getD i 0 ≤
          ((Set.ncard {k : Nat | in_slice_range
            (regulateStart (start_vec.getD i 0) (entire_shape.getD i 0))
            (regulateStop (stop_vec.getD i 0) (entire_shape.getD i 0)) (step_vec.getD i 0)
            (regulateStart (start_vec.getD i 0) (entire_shape.getD i 0)
              + (k : Int) * step_vec.getD i 0)} : Nat) : Int) := by
    intro p hp i hi
    obtain ⟨-, -, hall⟩ := ConstructSliceParams_ok_inv _ _ _ _ _ _ _ p hnd hp
    obtain ⟨⟨h0, hc⟩, -, -, -, g4⟩ := hall i hi
    refine ⟨g4, ?_⟩
    rw [g4]
    exact size_le_count_of_check _ _ _ _ h0 hc
  refine ⟨?_, hsucc⟩
  rintro ⟨i, hi, hlt⟩
  cases hres : ConstructSliceParams regulateStart regulateStop start_vec stop_vec step_vec
      entire_shape sliced_shape with
  | error e => exact ⟨e, rfl⟩
  | ok p =>
    obtain ⟨h1, h2⟩ := hsucc p hres i hi
    omega

theorem cross_check_bounds_size_by_count_witness :
    ((∃ i, i < ([10] : List Int).length ∧
        ((Set.ncard {k : Nat | in_slice_range
            (RegulateSliceStart (([0] : List Int).getD i 0) (([10] : List Int).getD i 0))
            (RegulateSliceStop (([10] : List Int).getD i 0) (([10] : List Int).getD i 0))
            (([1] : List Int).getD i 0)
            (RegulateSliceStart (([0] : List Int).getD i 0) (([10] : List Int).getD i 0)
              + (k : Int) * ([1] : List Int).getD i 0)} : Nat) : Int)
          < ([11] : List Int).getD i 0) →
      ∃ e, ConstructSliceParams RegulateSliceStart RegulateSliceStop [0] [10] [1] [10] [11]
        = .error e) ∧
    (∀ p, ConstructSliceParams RegulateSliceStart RegulateSliceStop [0] [10] [1] [10] [11]
        = .ok p →
      ∀ i, i < ([10] : List Int).length →
        p.size.getD i 0 = ([11] : List Int).getD i 0 ∧
        p.size.getD i 0 ≤
          ((Set.ncard {k : Nat | in_slice_range
            (RegulateSliceStart (([0] : List Int).getD i 0) (([10] : List Int).getD i 0))
            (RegulateSliceStop (([10] : List Int).getD i 0) (([10] : List Int).getD i 0))
            (([1] : List Int).getD i 0)
            (RegulateSliceStart (([0] : List Int).getD i 0) (([10] : List Int).getD i 0)
              + (k : Int) * ([1] : List Int).getD i 0)} : Nat) : Int)) :=
  cross_check_bounds_size_by_count RegulateSliceStart RegulateSliceStop [0] [10] [1] [10] [11]
    (by decide)


/-- C10, as amended. Outside the scalar-pick case (rank-1 input with a 0-rank
output), a zero step is rejected: if `step[i] == 0` for some axis `i` the builder
aborts; consequently every `SliceParams` it returns there has `step[i] ≠ 0` on
every axis `i < ndim`. -/
theorem zero_step_rejected_outside_scalar_pick (regulateStart regulateStop : Int → Int → Int)
    (start_vec stop_vec step_vec entire_shape sliced_shape : List Int)
    (hnd : ¬ (entire_shape.length = 1 ∧ sliced_shape.length = 0)) :
    ((∃ i, i < step_vec.length ∧ step_vec.getD i 0 = 0) →
      ∃ e, ConstructSliceParams regulateStart regulateStop start_vec stop_vec step_vec
        entire_shape sliced_shape = .error e) ∧
    (∀ p, ConstructSliceParams regulateStart regulateStop start_vec stop_vec step_vec
        entire_shape sliced_shape = .ok p →
      ∀ i, i < p.ndim → p.step.getD i 0 ≠ 0) := by
  constructor
  · rintro ⟨i, hi, hz⟩
    cases hres : ConstructSliceParams regulateStart regulateStop start_vec stop_vec step_vec
        entire_shape sliced_shape with
    | error e => exact ⟨e, rfl⟩
    | ok p =>
      obtain ⟨hlen, -, hall⟩ := ConstructSliceParams_ok_inv _ _ _ _ _ _ _ p hnd hres
      exact absurd hz (hall i (by rw [← hlen]; exact hi)).1.1
  · intro p hp i hi
    obtain ⟨-, hn, hall⟩ := ConstructSliceParams_ok_inv _ _ _ _ _ _ _ p hnd hp
    obtain ⟨⟨h0, -⟩, -, -, g3, -⟩ := hall i (by rw [← hn]; exact hi)
    rw [g3]; exact h0

theorem zero_step_rejected_outside_scalar_pick_witness :
    ((∃ i, i < ([1, 0] : List Int).length ∧ ([1, 0] : List Int).getD i 0 = 0) →
      ∃ e, ConstructSliceParams RegulateSliceStart RegulateSliceStop [0, 0] [4, 6] [1, 0] [4, 6]
        [4, 6] = .error e) ∧
    (∀ p, ConstructSliceParams RegulateSliceStart RegulateSliceStop [0, 0] [4, 6] [1, 0] [4, 6]
        [4, 6] = .ok p →
      ∀ i, i < p.ndim → p.step.getD i 0 ≠ 0) :=
  zero_step_rejected_outside_scalar_pick RegulateSliceStart RegulateSliceStop [0, 0] [4, 6]
    [1, 0] [4, 6] [4, 6] (by decide)

/-- C10, counterexample. In the scalar-pick case the step is stored unchecked:
with a rank-1 input of extent 5, a 0-rank output and `step = [0]` the builder
returns a `SliceParams` with `step[0] = 0`. -/
theorem zero_step_accepted_in_scalar_pick :
    ConstructSliceParams RegulateSliceStart RegulateSliceStop [2] [3] [0] [5] []
        = .ok ⟨1, [5, 0, 0, 0, 0, 0, 0, 0], [2, 0, 0, 0, 0, 0, 0, 0], [0, 0, 0, 0, 0, 0, 0, 0],
            [1, 0, 0, 0, 0, 0, 0, 0]⟩ ∧
      ([0] : List Int).getD 0 0 = 0 := by
  decide

/-! ## Contiguous runs of `WriteSlice` -/

theorem prod_upto_succ_head (f : Nat → Int) (n : Nat) :
    prod_upto f (n + 1) = f 0 * prod_upto (shift f) n := by
  unfold prod_upto shift
  rw [List.range_succ_eq_map, List.map_cons, List.prod_cons, List.map_map]
  rfl

theorem prod_upto_succ_last (f : Nat → Int) (n : Nat) :
    prod_upto f (n + 1) = prod_upto f n * f n := by
  unfold prod_upto
  rw [List.range_succ, List.map_append, List.prod_append]
  simp

theorem prod_upto_pos (f : Nat → Int) (n : Nat) (h : ∀ t, t < n → 0 < f t) :
    0 < prod_upto f n := by
  induction n with
  | zero => simp [prod_upto]
  | succ k ih =>
    rw [prod_upto_succ_last]
    exact mul_pos (ih (fun t ht => h t (Nat.lt_succ_of_lt ht))) (h k (Nat.lt_succ_self k))

theorem map_range_succ {α : Type} (f : Nat → α) (n : Nat) :
    (List.range (n + 1)).map f = f 0 :: (List.range n).map (shift f) := by
  rw [List.range_succ_eq_map, List.map_cons, List.map_map]
  rfl

theorem OffsetToNdIndex_cons_zero (a : Int) (l : List Int) (off : Int) :
    (OffsetToNdIndex (a :: l) off).getD 0 0 = Int.tdiv off l.prod := by
  cases l with
  | nil => simp [OffsetToNdIndex]
  | cons d ds => simp [OffsetToNdIndex]

theorem OffsetToNdIndex_cons_succ (a : Int) (l : List Int) (off : Int) (i : Nat) :
    (OffsetToNdIndex (a :: l) off).getD (i + 1) 0
      = (OffsetToNdIndex l (off - Int.tdiv off l.prod * l.prod)).getD i 0 := by
  cases l with
  | nil => simp [OffsetToNdIndex]
  | cons d ds => simp [OffsetToNdIndex]

/-- The conversion of one offset, axis by axis from the outermost. -/
theorem entire_offset_fn_succ (n : Nat) (dims start step size : Nat → Int) (off : Int) :
    entire_offset_fn (n + 1) dims start step size off
      = (start 0 + step 0 * Int.tdiv off (prod_upto (shift size) n)) * prod_upto (shift dims) n
        + entire_offset_fn n (shift dims) (shift start) (shift step) (shift size)
            (off - Int.tdiv off (prod_upto (shift size) n) * prod_upto (shift size) n) := by
  unfold entire_offset_fn
  rw [map_range_succ dims, map_range_succ size, map_range_succ]
  simp only [NdIndexToOffset, OffsetToNdIndex_cons_zero, prod_upto]
  congr 2
  apply List.map_congr_left
  intro i _
  simp only [shift, OffsetToNdIndex_cons_succ]

theorem SliceOffsetToEntireOffset_eq (NDIM : Nat) (offset : Int) (params : SliceParams) :
    SliceOffsetToEntireOffset NDIM offset params
      = entire_offset_fn NDIM (fun i => params.dims.getD i 0) (fun i => params.start.getD i 0)
          (fun i => params.step.getD i 0) (fun i => params.size.getD i 0) offset := rfl

theorem WriteSlice_cnt_scan_exact_eq (L S : SliceParams) (k : Nat) (cnt : Int) :
    WriteSlice_cnt_scan_exact L S k cnt
      = cnt_scan_fn_exact (fun i => decide (L.step.getD i 0 = 1)) (fun i => L.size.getD i 0)
          (fun i => L.IsFullSlice i && S.IsFullSlice i) k cnt := by
  induction k generalizing cnt with
  | zero => rfl
  | succ i ih =>
    simp only [WriteSlice_cnt_scan_exact, cnt_scan_fn_exact, ih, decide_eq_true_eq, Bool.not_and]

theorem cnt_scan_fn_exact_step (mul : Nat → Bool) (size : Nat → Int) (full : Nat → Bool) (i : Nat)
    (cnt : Int) :
    cnt_scan_fn_exact mul size full (i + 1) cnt
      = if full i = true then
          cnt_scan_fn_exact mul size full i (if mul i = true then cnt * size i else cnt)
        else (if mul i = true then cnt * size i else cnt) := by
  by_cases hf : full i = true
  · simp [cnt_scan_fn_exact, hf]
  · simp [cnt_scan_fn_exact, hf]

theorem cnt_scan_fn_exact_dvd (mul : Nat → Bool) (size : Nat → Int) (full : Nat → Bool) (k : Nat)
    (cnt : Int) : cnt_scan_fn_exact mul size full k cnt ∣ cnt * prod_upto size k := by
  induction k generalizing cnt with
  | zero => simp [cnt_scan_fn_exact, prod_upto]
  | succ i ih =>
    rw [prod_upto_succ_last, cnt_scan_fn_exact_step]
    have hcnt1 : (if mul i = true then cnt * size i else cnt) ∣ cnt * size i := by
      by_cases hm : mul i = true
      · rw [if_pos hm]
      · rw [if_neg hm]; exact Dvd.intro _ rfl
    by_cases hf : full i = true
    · rw [if_pos hf]
      refine (ih _).trans ?_
      have e : cnt * (prod_upto size i * size i) = cnt * size i * prod_upto size i := by ring
      rw [e]
      exact mul_dvd_mul_right hcnt1 _
    · rw [if_neg hf]
      refine hcnt1.trans ?_
      exact ⟨prod_upto size i, by ring⟩

/-- The scan seen from the outermost axis: it stops inside the inner axes, or it
multiplies all of them. -/
theorem cnt_scan_fn_exact_succ (mul : Nat → Bool) (size : Nat → Int) (full : Nat → Bool) (k : Nat)
    (cnt : Int) (hfm : ∀ t, t < k + 1 → full t = true → mul t = true) :
    ((∃ t, t < k ∧ full (t + 1) = false) →
      cnt_scan_fn_exact mul size full (k + 1) cnt
        = cnt_scan_fn_exact (shift mul) (shift size) (shift full) k cnt) ∧
    ((∀ t, t < k → full (t + 1) = true) →
      cnt_scan_fn_exact mul size full (k + 1) cnt
        = cnt * prod_upto (shift size) k * (if mul 0 = true then size 0 else 1)) := by
  induction k generalizing cnt with
  | zero =>
    constructor
    · rintro ⟨t, ht, -⟩; omega
    · intro _
      simp only [cnt_scan_fn_exact, prod_upto, List.range_zero, List.map_nil, List.prod_nil, mul_one]
      by_cases hm : mul 0 = true
      · simp [hm]
      · simp [hm]
  | succ k ih =>
    have hstep := cnt_scan_fn_exact_step mul size full (k + 1) cnt
    have hstep' : cnt_scan_fn_exact (shift mul) (shift size) (shift full) (k + 1) cnt
        = if full (k + 1) = true then
            cnt_scan_fn_exact (shift mul) (shift size) (shift full) k
              (if mul (k + 1) = true then cnt * size (k + 1) else cnt)
          else (if mul (k + 1) = true then cnt * size (k + 1) else cnt) :=
      cnt_scan_fn_exact_step (shift mul) (shift size) (shift full) k cnt
    obtain ⟨ih1, ih2⟩ := ih (if mul (k + 1) = true then cnt * size (k + 1) else cnt)
      (fun t ht => hfm t (Nat.lt_succ_of_lt ht))
    constructor
    · rintro ⟨t, ht, hft⟩
      rw [hstep, hstep']
      by_cases hf : full (k + 1) = true
      · rw [if_pos hf, if_pos hf]
        apply ih1
        refine ⟨t, ?_, hft⟩
        rcases Nat.lt_succ_iff_lt_or_eq.mp ht with h | h
        · exact h
        · subst h; rw [hf] at hft; cases hft
      · rw [if_neg hf, if_neg hf]
    · intro hall
      have hf : full (k + 1) = true := hall k (Nat.lt_succ_self k)
      have hm : mul (k + 1) = true := hfm (k + 1) (by omega) hf
      rw [hstep, if_pos hf, ih2 (fun t ht => hall t (Nat.lt_succ_of_lt ht)), if_pos hm,
        prod_upto_succ_last]
      simp only [shift]
      ring

theorem ediv_of_decomp (P q r : Int) (hP : 0 < P) (h0 : 0 ≤ r) (h1 : r < P) :
    (q * P + r) / P = q ∧ (q * P + r) % P = r :=
  (Int.ediv_emod_unique hP).mpr ⟨by ring, h0, h1⟩

/-- The conversion of the offset `q * P + r`, `P` the number of positions of the
inner axes. -/
theorem entire_offset_fn_decomp (n : Nat) (dims start step size : Nat → Int) (q r : Int)
    (hP : 0 < prod_upto (shift size) n) (hq : 0 ≤ q) (hr0 : 0 ≤ r)
    (hr : r < prod_upto (shift size) n) :
    entire_offset_fn (n + 1) dims start step size (q * prod_upto (shift size) n + r)
      = (start 0 + step 0 * q) * prod_upto (shift dims) n
        + entire_offset_fn n (shift dims) (shift start) (shift step) (shift size) r := by
  rw [entire_offset_fn_succ]
  have hoff : 0 ≤ q * prod_upto (shift size) n + r := by
    have := mul_nonneg hq (le_of_lt hP); omega
  rw [Int.tdiv_eq_ediv hoff (le_of_lt hP), (ediv_of_decomp _ q r hP hr0 hr).1]
  congr 2
  ring

/-- On axes that are full slices the conversion is the identity. -/
theorem entire_offset_fn_full (n : Nat) : ∀ (dims start step size : Nat → Int),
    (∀ t, t < n → start t = 0 ∧ step t = 1 ∧ size t = dims t) →
    (∀ t, t < n → 0 < size t) →
    ∀ x, 0 ≤ x → x < prod_upto size n → entire_offset_fn n dims start step size x = x := by
  induction n with
  | zero =>
    intro dims start step size _ _ x h0 hx
    simp only [prod_upto, List.range_zero, List.map_nil, List.prod_nil] at hx
    have : x = 0 := by omega
    subst this
    rfl
  | succ n ih =>
    intro dims start step size hfull hpos x h0 hx
    have hP : 0 < prod_upto (shift size) n :=
      prod_upto_pos _ _ (fun t ht => hpos (t + 1) (by omega))
    have hD : prod_upto (shift dims) n = prod_upto (shift size) n := by
      unfold prod_upto
      congr 1
      apply List.map_congr_left
      intro t ht
      exact ((hfull (t + 1) (by have := List.mem_range.mp ht; omega)).2.2).symm
    have hx' : x = x / prod_upto (shift size) n * prod_upto (shift size) n
        + x % prod_upto (shift size) n := by
      have := Int.emod_add_ediv x (prod_upto (shift size) n)
      linarith [mul_comm (prod_upto (shift size) n) (x / prod_upto (shift size) n)]
    have hr0 := Int.emod_nonneg x (ne_of_gt hP)
    have hr1 := Int.emod_lt_of_pos x hP
    have hq := Int.ediv_nonneg h0 (le_of_lt hP)
    conv_lhs => rw [hx']
    rw [entire_offset_fn_decomp n dims start step size _ _ hP hq hr0 hr1, hD,
      ih (shift dims) (shift start) (shift step) (shift size)
        (fun t ht => hfull (t + 1) (by omega)) (fun t ht => hpos (t + 1) (by omega))
        _ hr0 hr1,
      (hfull 0 (by omega)).1, (hfull 0 (by omega)).2.1]
    linarith

theorem int_decomp (x P : Int) (hx : 0 ≤ x) (hP : 0 < P) :
    ∃ q r, 0 ≤ q ∧ 0 ≤ r ∧ r < P ∧ x = q * P + r :=
  ⟨x / P, x % P, Int.ediv_nonneg hx (le_of_lt hP), Int.emod_nonneg x (ne_of_gt hP),
    Int.emod_lt_of_pos x hP, by
      have := Int.emod_add_ediv x P
      linarith [mul_comm P (x / P)]⟩

/-- One side of a run: inside a run of the scanned length the entire-buffer offset
grows by one per slice offset. The scan may test `mul` and `full` of another
parameter block, as long as they imply step 1 and a full slice on this side. -/
theorem run_contiguous_fn (n : Nat) : ∀ (dims start step size : Nat → Int)
    (mul full : Nat → Bool),
    (∀ t, t < n → 0 < size t) →
    (∀ t, t < n → mul t = true → step t = 1) →
    (∀ t, t < n → full t = true → start t = 0 ∧ step t = 1 ∧ size t = dims t) →
    (∀ t, t < n → full t = true → mul t = true) →
    ∀ i j : Int, 0 ≤ i → cnt_scan_fn_exact mul size full n 1 ∣ i → 0 ≤ j →
      j < cnt_scan_fn_exact mul size full n 1 →
      entire_offset_fn n dims start step size (i + j)
        = entire_offset_fn n dims start step size i + j := by
  induction n with
  | zero =>
    intro dims start step size mul full _ _ _ _ i j _ _ hj0 hj
    simp only [cnt_scan_fn_exact] at hj
    have : j = 0 := by omega
    subst this
    simp
  | succ n ih =>
    intro dims start step size mul full hpos hmul hfull hfm i j hi hdvd hj0 hj
    have hP : 0 < prod_upto (shift size) n :=
      prod_upto_pos _ _ (fun t ht => hpos (t + 1) (by omega))
    obtain ⟨hA, hB⟩ := cnt_scan_fn_exact_succ mul size full n 1 hfm
    obtain ⟨q, r, hq, hr0, hr, hqr⟩ := int_decomp i _ hi hP
    by_cases hbreak : ∃ t, t < n ∧ full (t + 1) = false
    · -- the scan stops inside the inner axes
      rw [hA hbreak] at hdvd hj
      have hcP : cnt_scan_fn_exact (shift mul) (shift size) (shift full) n 1
          ∣ prod_upto (shift size) n := by
        have := cnt_scan_fn_exact_dvd (shift mul) (shift size) (shift full) n 1
        simpa using this
      have hcr : cnt_scan_fn_exact (shift mul) (shift size) (shift full) n 1 ∣ r := by
        have h1 : cnt_scan_fn_exact (shift mul) (shift size) (shift full) n 1
            ∣ q * prod_upto (shift size) n := Dvd.dvd.mul_left hcP q
        have h2 := (Int.dvd_add_right h1).mp (hqr ▸ hdvd)
        exact h2
      have hgap : r + cnt_scan_fn_exact (shift mul) (shift size) (shift full) n 1
          ≤ prod_upto (shift size) n := by
        apply stride_gap _ r _ (by omega) (dvd_sub hcP hcr) hr
      have e1 : i + j = q * prod_upto (shift size) n + (r + j) := by rw [hqr]; ring
      rw [e1, hqr, entire_offset_fn_decomp n dims start step size q (r + j) hP hq (by omega)
        (by omega), entire_offset_fn_decomp n dims start step size q r hP hq hr0 hr,
        ih (shift dims) (shift start) (shift step) (shift size) (shift mul) (shift full)
          (fun t ht => hpos (t + 1) (by omega)) (fun t ht => hmul (t + 1) (by omega))
          (fun t ht => hfull (t + 1) (by omega)) (fun t ht => hfm (t + 1) (by omega))
          r j hr0 hcr hj0 hj]
      ring
    · -- every inner axis is a full slice
      have hall : ∀ t, t < n → full (t + 1) = true := by
        intro t ht
        by_contra hcon
        exact hbreak ⟨t, ht, by simpa using hcon⟩
      rw [hB hall] at hdvd hj
      have hinner : ∀ x, 0 ≤ x → x < prod_upto (shift size) n →
          entire_offset_fn n (shift dims) (shift start) (shift step) (shift size) x = x :=
        entire_offset_fn_full n _ _ _ _ (fun t ht => hfull (t + 1) (by omega) (hall t ht))
          (fun t ht => hpos (t + 1) (by omega))
      have hD : prod_upto (shift dims) n = prod_upto (shift size) n := by
        unfold prod_upto
        congr 1
        apply List.map_congr_left
        intro t ht
        have ht' := List.mem_range.mp ht
        exact ((hfull (t + 1) (by omega) (hall t ht')).2.2).symm
      have hPi : prod_upto (shift size) n ∣ i := by
        refine Dvd.dvd.trans ?_ hdvd
        exact ⟨if mul 0 = true then size 0 else 1, by ring⟩
      have hr_zero : r = 0 := by
        have h1 : prod_upto (shift size) n ∣ q * prod_upto (shift size) n :=
          Dvd.intro_left q rfl
        have h2 : prod_upto (shift size) n ∣ r := (Int.dvd_add_right h1).mp (hqr ▸ hPi)
        by_contra hne
        have := stride_gap _ 0 r hP (by simpa using h2) (by omega)
        omega
      subst hr_zero
      obtain ⟨qj, rj, hqj, hrj0, hrj, hj_eq⟩ := int_decomp j _ hj0 hP
      have e1 : i + j = (q + qj) * prod_upto (shift size) n + rj := by rw [hqr, hj_eq]; ring
      rw [e1, hqr, entire_offset_fn_decomp n dims start step size (q + qj) rj hP (by omega)
        hrj0 hrj, entire_offset_fn_decomp n dims start step size q 0 hP hq (le_refl 0) hP,
        hinner rj hrj0 hrj, hinner 0 (le_refl 0) hP, hD]
      by_cases hm : mul 0 = true
      · rw [hmul 0 (by omega) hm, hj_eq]
        ring
      · rw [if_neg hm] at hj
        have hqj0 : qj = 0 := by
          by_contra hne
          have h1 : 1 ≤ qj := by omega
          have : 1 * prod_upto (shift size) n ≤ qj * prod_upto (shift size) n :=
            mul_le_mul_of_nonneg_right h1 (le_of_lt hP)
          rw [hj_eq] at hj
          linarith
        rw [hj_eq, hqj0]
        ring

theorem cnt_scan_fn_exact_congr (mul : Nat → Bool) (size size' : Nat → Int) (full : Nat → Bool)
    (k : Nat) (cnt : Int) (h : ∀ t, t < k → size t = size' t) :
    cnt_scan_fn_exact mul size full k cnt = cnt_scan_fn_exact mul size' full k cnt := by
  induction k generalizing cnt with
  | zero => rfl
  | succ i ih =>
    rw [cnt_scan_fn_exact_step, cnt_scan_fn_exact_step, h i (Nat.lt_succ_self i),
      ih _ (fun t ht => h t (Nat.lt_succ_of_lt ht))]

theorem prod_upto_congr (f g : Nat → Int) (n : Nat) (h : ∀ t, t < n → f t = g t) :
    prod_upto f n = prod_upto g n := by
  unfold prod_upto
  congr 1
  apply List.map_congr_left
  intro t ht
  exact h t (List.mem_range.mp ht)

theorem pos_of_prod_upto_pos (f : Nat → Int) (n : Nat) (h0 : ∀ t, t < n → 0 ≤ f t)
    (hp : 0 < prod_upto f n) : ∀ t, t < n → 0 < f t := by
  induction n with
  | zero => intro t ht; omega
  | succ k ih =>
    rw [prod_upto_succ_last] at hp
    have hk0 : 0 ≤ f k := h0 k (Nat.lt_succ_self k)
    have hpk0 : 0 ≤ prod_upto f k := by
      unfold prod_upto
      apply List.prod_nonneg
      intro a ha
      obtain ⟨t, ht, rfl⟩ := List.mem_map.mp ha
      exact h0 t (Nat.lt_succ_of_lt (List.mem_range.mp ht))
    have hk : 0 < f k := by
      rcases lt_or_eq_of_le hk0 with h | h
      · exact h
      · rw [← h, mul_zero] at hp; exact absurd hp (lt_irrefl 0)
    have hpk : 0 < prod_upto f k := by
      rcases lt_or_eq_of_le hpk0 with h | h
      · exact h
      · rw [← h, zero_mul] at hp; exact absurd hp (lt_irrefl 0)
    intro t ht
    rcases Nat.lt_succ_iff_lt_or_eq.mp ht with h | h
    · exact ih (fun t ht => h0 t (Nat.lt_succ_of_lt ht)) hpk t h
    · subst h; exact hk

theorem IsFullSlice_iff (p : SliceParams) (i : Nat) :
    p.IsFullSlice i = true ↔
      p.start.getD i 0 = 0 ∧ p.step.getD i 0 = 1 ∧ p.size.getD i 0 = p.dims.getD i 0 := by
  simp [SliceParams.IsFullSlice, and_assoc]

theorem elem_cnt_eq_prod_upto (p : SliceParams) :
    p.elem_cnt = prod_upto (fun i => p.size.getD i 0) p.ndim := rfl

/-- Inside a run of the length scanned over the integers the entire-buffer offsets of both parameter
blocks grow by one per slice offset. -/
theorem run_consecutive (NDIM : Nat) (large small : SliceParams)
    (hndim : large.ndim = NDIM)
    (hsize : ∀ t, t < NDIM → large.size.getD t 0 = small.size.getD t 0)
    (hnonneg : ∀ t, t < NDIM → 0 ≤ large.size.getD t 0)
    (hsmall_step : ∀ t, t < NDIM → small.step.getD t 0 = 1)
    (i j : Int) (hi0 : 0 ≤ i) (hdvd : WriteSlice_cnt_exact NDIM large small ∣ i)
    (hi : i < large.elem_cnt) (hj0 : 0 ≤ j) (hj : j < WriteSlice_cnt_exact NDIM large small) :
    SliceOffsetToEntireOffset NDIM (i + j) large
        = SliceOffsetToEntireOffset NDIM i large + j ∧
      SliceOffsetToEntireOffset NDIM (i + j) small
        = SliceOffsetToEntireOffset NDIM i small + j := by
  have hpos : ∀ t, t < NDIM → 0 < large.size.getD t 0 := by
    apply pos_of_prod_upto_pos _ _ hnonneg
    rw [elem_cnt_eq_prod_upto, hndim] at hi
    omega
  unfold WriteSlice_cnt_exact at hdvd hj
  rw [WriteSlice_cnt_scan_exact_eq] at hdvd hj
  constructor
  · rw [SliceOffsetToEntireOffset_eq, SliceOffsetToEntireOffset_eq]
    exact run_contiguous_fn NDIM _ _ _ _ _ _ hpos
      (fun t _ hm => by simpa using hm)
      (fun t _ hf => by
        rw [Bool.and_eq_true] at hf
        exact (IsFullSlice_iff large t).mp hf.1)
      (fun t _ hf => by
        rw [Bool.and_eq_true] at hf
        simpa using ((IsFullSlice_iff large t).mp hf.1).2.1)
      i j hi0 hdvd hj0 hj
  · rw [cnt_scan_fn_exact_congr _ _ (fun i => small.size.getD i 0) _ _ _ hsize] at hdvd hj
    rw [SliceOffsetToEntireOffset_eq, SliceOffsetToEntireOffset_eq]
    exact run_contiguous_fn NDIM _ _ _ _ _ _
      (fun t ht => by rw [← hsize t ht]; exact hpos t ht)
      (fun t ht _ => hsmall_step t ht)
      (fun t _ hf => by
        rw [Bool.and_eq_true] at hf
        exact (IsFullSlice_iff small t).mp hf.2)
      (fun t _ hf => by
        rw [Bool.and_eq_true] at hf
        simpa using ((IsFullSlice_iff large t).mp hf.1).2.1)
      i j hi0 hdvd hj0 hj

/-- A bulk copy of `k` consecutive elements is the element-by-element copy of the
`k` slice offsets of the run, when the offsets of the run are consecutive. -/
theorem AutoMemcpy_eq_elementwise {α : Type} (dst_off src_off : Int → Int) (src dst : Int → α)
    (i cnt : Int)
    (hD : ∀ j, 0 ≤ j → j < cnt → dst_off (i + j) = dst_off i + j)
    (hS : ∀ j, 0 ≤ j → j < cnt → src_off (i + j) = src_off i + j) :
    ∀ k : Nat, (k : Int) ≤ cnt →
      AutoMemcpy dst src (dst_off i) (src_off i) k
        = copy_run_elementwise dst_off src_off src i k dst := by
  intro k
  induction k with
  | zero =>
    intro _
    funext p
    have : ¬ (dst_off i ≤ p ∧ p < dst_off i + ((0 : Nat) : Int)) := by
      rintro ⟨h1, h2⟩
      simp at h2
      omega
    simp only [AutoMemcpy, this, if_false, copy_run_elementwise]
  | succ k ih =>
    intro hk
    have hk' : (k : Int) ≤ cnt := by push_cast at hk; omega
    have hkc : (k : Int) < cnt := by push_cast at hk; omega
    funext p
    have eD := hD k (Int.ofNat_nonneg k) hkc
    have eS := hS k (Int.ofNat_nonneg k) hkc
    simp only [copy_run_elementwise, ← ih hk']
    by_cases hp : p = dst_off (i + k)
    · rw [if_pos hp, hp, eD, eS]
      have hin : dst_off i ≤ dst_off i + (k : Int)
          ∧ dst_off i + (k : Int) < dst_off i + ((k + 1 : Nat) : Int) := by
        push_cast; constructor <;> omega
      simp only [AutoMemcpy, hin, and_self, if_true]
      congr 1
      ring
    · rw [if_neg hp]
      rw [eD] at hp
      have hiff : (dst_off i ≤ p ∧ p < dst_off i + ((k + 1 : Nat) : Int))
          ↔ (dst_off i ≤ p ∧ p < dst_off i + (k : Int)) := by
        push_cast; constructor <;> rintro ⟨h1, h2⟩ <;> exact ⟨h1, by omega⟩
      simp only [AutoMemcpy, hiff]

/-- Contiguous runs, the statement of C7 for the run length over the integers, with
which the code agrees below `2^31` elements. Let `cnt` be the run length computed by the innermost-outward scan of
`WriteSlice` (over the integers). For every pair `(large, small)` of
`SliceParams` with equal, non-negative per-axis sizes and `small.step = 1` on
every axis, for every run start offset `i` that is a multiple of `cnt` with
`0 ≤ i < elem_cnt` and every `0 ≤ j < cnt`,
`SliceOffsetToEntireOffset (i + j) large = SliceOffsetToEntireOffset i large + j`
and the same for `small`; hence, in either direction, the bulk copy of `cnt`
elements of the run is the element-by-element copy of its `cnt` slice offsets.
That the selected indices are in bounds is not needed. -/
theorem run_offsets_are_consecutive (NDIM : Nat) (large small : SliceParams)
    (hndim : large.ndim = NDIM)
    (hsize : ∀ t, t < NDIM → large.size.getD t 0 = small.size.getD t 0)
    (hnonneg : ∀ t, t < NDIM → 0 ≤ large.size.getD t 0)
    (hsmall_step : ∀ t, t < NDIM → small.step.getD t 0 = 1)
    (i : Int) (hi0 : 0 ≤ i) (hdvd : WriteSlice_cnt_exact NDIM large small ∣ i)
    (hi : i < large.elem_cnt) :
    (∀ j : Int, 0 ≤ j → j < WriteSlice_cnt_exact NDIM large small →
      SliceOffsetToEntireOffset NDIM (i + j) large
          = SliceOffsetToEntireOffset NDIM i large + j ∧
        SliceOffsetToEntireOffset NDIM (i + j) small
          = SliceOffsetToEntireOffset NDIM i small + j) ∧
    (∀ (α : Type) (src dst : Int → α),
      AutoMemcpy dst src (SliceOffsetToEntireOffset NDIM i small)
          (SliceOffsetToEntireOffset NDIM i large) (WriteSlice_cnt_exact NDIM large small)
        = copy_run_elementwise (fun o => SliceOffsetToEntireOffset NDIM o small)
            (fun o => SliceOffsetToEntireOffset NDIM o large) src i
            (WriteSlice_cnt_exact NDIM large small).toNat dst ∧
      AutoMemcpy dst src (SliceOffsetToEntireOffset NDIM i large)
          (SliceOffsetToEntireOffset NDIM i small) (WriteSlice_cnt_exact NDIM large small)
        = copy_run_elementwise (fun o => SliceOffsetToEntireOffset NDIM o large)
            (fun o => SliceOffsetToEntireOffset NDIM o small) src i
            (WriteSlice_cnt_exact NDIM large small).toNat dst) := by
  have hcons : ∀ j : Int, 0 ≤ j → j < WriteSlice_cnt_exact NDIM large small →
      SliceOffsetToEntireOffset NDIM (i + j) large
          = SliceOffsetToEntireOffset NDIM i large + j ∧
        SliceOffsetToEntireOffset NDIM (i + j) small
          = SliceOffsetToEntireOffset NDIM i small + j :=
    fun j hj0 hj =>
      run_consecutive NDIM large small hndim hsize hnonneg hsmall_step i j hi0 hdvd hi hj0 hj
  refine ⟨hcons, ?_⟩
  intro α src dst
  by_cases hc : 0 ≤ WriteSlice_cnt_exact NDIM large small
  · have hcast : (((WriteSlice_cnt_exact NDIM large small).toNat : Nat) : Int)
        = WriteSlice_cnt_exact NDIM large small := Int.toNat_of_nonneg hc
    constructor
    · have := AutoMemcpy_eq_elementwise (fun o => SliceOffsetToEntireOffset NDIM o small)
        (fun o => SliceOffsetToEntireOffset NDIM o large) src dst i
        (WriteSlice_cnt_exact NDIM large small) (fun j h0 h1 => (hcons j h0 h1).2)
        (fun j h0 h1 => (hcons j h0 h1).1) (WriteSlice_cnt_exact NDIM large small).toNat
        (by rw [hcast])
      rw [hcast] at this
      exact this
    · have := AutoMemcpy_eq_elementwise (fun o => SliceOffsetToEntireOffset NDIM o large)
        (fun o => SliceOffsetToEntireOffset NDIM o small) src dst i
        (WriteSlice_cnt_exact NDIM large small) (fun j h0 h1 => (hcons j h0 h1).1)
        (fun j h0 h1 => (hcons j h0 h1).2) (WriteSlice_cnt_exact NDIM large small).toNat
        (by rw [hcast])
      rw [hcast] at this
      exact this
  · have hz : (WriteSlice_cnt_exact NDIM large small).toNat = 0 := by
      apply Int.toNat_of_nonpos; omega
    rw [hz]
    constructor <;>
    · funext p
      simp only [AutoMemcpy, copy_run_elementwise]
      rw [if_neg]
      rintro ⟨h1, h2⟩
      omega

theorem run_offsets_are_consecutive_witness :
    SliceOffsetToEntireOffset 2 (2 + 1)
        ⟨2, [4, 3, 0, 0, 0, 0, 0, 0], [0, 1, 0, 0, 0, 0, 0, 0], [2, 1, 0, 0, 0, 0, 0, 0],
          [2, 2, 0, 0, 0, 0, 0, 0]⟩
        = SliceOffsetToEntireOffset 2 2
            ⟨2, [4, 3, 0, 0, 0, 0, 0, 0], [0, 1, 0, 0, 0, 0, 0, 0], [2, 1, 0, 0, 0, 0, 0, 0],
              [2, 2, 0, 0, 0, 0, 0, 0]⟩ + 1 ∧
      SliceOffsetToEntireOffset 2 (2 + 1)
        ⟨2, [2, 2, 0, 0, 0, 0, 0, 0], [0, 0, 0, 0, 0, 0, 0, 0], [1, 1, 0, 0, 0, 0, 0, 0],
          [2, 2, 0, 0, 0, 0, 0, 0]⟩
        = SliceOffsetToEntireOffset 2 2
            ⟨2, [2, 2, 0, 0, 0, 0, 0, 0], [0, 0, 0, 0, 0, 0, 0, 0], [1, 1, 0, 0, 0, 0, 0, 0],
              [2, 2, 0, 0, 0, 0, 0, 0]⟩ + 1 :=
  (run_offsets_are_consecutive 2
    ⟨2, [4, 3, 0, 0, 0, 0, 0, 0], [0, 1, 0, 0, 0, 0, 0, 0], [2, 1, 0, 0, 0, 0, 0, 0],
      [2, 2, 0, 0, 0, 0, 0, 0]⟩
    ⟨2, [2, 2, 0, 0, 0, 0, 0, 0], [0, 0, 0, 0, 0, 0, 0, 0], [1, 1, 0, 0, 0, 0, 0, 0],
      [2, 2, 0, 0, 0, 0, 0, 0]⟩
    rfl (by decide) (by decide) (by decide) 2 (by decide) (by decide) (by decide)).1 1
    (by decide) (by decide)

/-! ## Offsets and n-dimensional indices -/

theorem entire_offset_fn_eq (n : Nat) (dims start step size : Nat → Int) (off : Int) :
    entire_offset_fn n dims start step size off
      = nd_offset_fn n dims (fun t => start t + step t * nd_index_fn n size off t) := rfl

theorem nd_offset_fn_succ (n : Nat) (dims index : Nat → Int) :
    nd_offset_fn (n + 1) dims index
      = index 0 * prod_upto (shift dims) n + nd_offset_fn n (shift dims) (shift index) := by
  unfold nd_offset_fn
  rw [map_range_succ dims, map_range_succ index]
  simp only [NdIndexToOffset, prod_upto]

theorem nd_index_fn_zero (n : Nat) (size : Nat → Int) (off : Int) :
    nd_index_fn (n + 1) size off 0 = Int.tdiv off (prod_upto (shift size) n) := by
  unfold nd_index_fn
  rw [map_range_succ size, OffsetToNdIndex_cons_zero]
  rfl

theorem nd_index_fn_succ (n : Nat) (size : Nat → Int) (off : Int) (t : Nat) :
    nd_index_fn (n + 1) size off (t + 1)
      = nd_index_fn n (shift size)
          (off - Int.tdiv off (prod_upto (shift size) n) * prod_upto (shift size) n) t := by
  unfold nd_index_fn
  rw [map_range_succ size, OffsetToNdIndex_cons_succ]
  rfl

theorem nd_offset_fn_congr (n : Nat) (dims dims' index index' : Nat → Int)
    (hd : ∀ t, t < n → dims t = dims' t) (hi : ∀ t, t < n → index t = index' t) :
    nd_offset_fn n dims index = nd_offset_fn n dims' index' := by
  unfold nd_offset_fn
  congr 1
  · apply List.map_congr_left
    intro t ht; exact hd t (List.mem_range.mp ht)
  · apply List.map_congr_left
    intro t ht; exact hi t (List.mem_range.mp ht)

theorem nd_index_fn_congr (n : Nat) (size size' : Nat → Int) (off : Int) (t : Nat)
    (h : ∀ t, t < n → size t = size' t) :
    nd_index_fn n size off t = nd_index_fn n size' off t := by
  unfold nd_index_fn
  congr 2
  apply List.map_congr_left
  intro t ht; exact h t (List.mem_range.mp ht)

/-- The offset of an in-bounds index lies in the buffer, and its index is the
index one started from. -/
theorem nd_index_of_nd_offset (n : Nat) : ∀ (size index : Nat → Int),
    (∀ t, t < n → 0 ≤ index t ∧ index t < size t) →
    (0 ≤ nd_offset_fn n size index ∧ nd_offset_fn n size index < prod_upto size n) ∧
      ∀ t, t < n → nd_index_fn n size (nd_offset_fn n size index) t = index t := by
  induction n with
  | zero =>
    intro size index _
    refine ⟨⟨?_, ?_⟩, fun t ht => by omega⟩
    · simp [nd_offset_fn, NdIndexToOffset]
    · simp [nd_offset_fn, NdIndexToOffset, prod_upto]
  | succ n ih =>
    intro size index hin
    obtain ⟨⟨h0, h1⟩, hidx⟩ := ih (shift size) (shift index) (fun t ht => hin (t + 1) (by omega))
    obtain ⟨hi0, hi1⟩ := hin 0 (by omega)
    have hP : 0 < prod_upto (shift size) n := by omega
    rw [nd_offset_fn_succ, prod_upto_succ_head]
    have hm0 : 0 ≤ index 0 * prod_upto (shift size) n := mul_nonneg hi0 (le_of_lt hP)
    have hm1 : (index 0 + 1) * prod_upto (shift size) n ≤ size 0 * prod_upto (shift size) n :=
      mul_le_mul_of_nonneg_right (by omega) (le_of_lt hP)
    refine ⟨⟨by omega, by linarith⟩, ?_⟩
    intro t ht
    have hdiv := ediv_of_decomp _ (index 0) _ hP h0 h1
    cases t with
    | zero =>
      rw [nd_index_fn_zero, Int.tdiv_eq_ediv (by omega) (le_of_lt hP), hdiv.1]
    | succ t =>
      rw [nd_index_fn_succ, Int.tdiv_eq_ediv (by omega) (le_of_lt hP), hdiv.1]
      have e : index 0 * prod_upto (shift size) n
            + nd_offset_fn n (shift size) (shift index)
            - index 0 * prod_upto (shift size) n
          = nd_offset_fn n (shift size) (shift index) := by ring
      rw [e]
      exact hidx t (by omega)

/-- The index of an offset inside the buffer is in bounds, and its offset is the
offset one started from. -/
theorem nd_offset_of_nd_index (n : Nat) : ∀ (size : Nat → Int) (off : Int),
    (∀ t, t < n → 0 < size t) → 0 ≤ off → off < prod_upto size n →
    (∀ t, t < n → 0 ≤ nd_index_fn n size off t ∧ nd_index_fn n size off t < size t) ∧
      nd_offset_fn n size (nd_index_fn n size off) = off := by
  induction n with
  | zero =>
    intro size off _ h0 h1
    simp only [prod_upto, List.range_zero, List.map_nil, List.prod_nil] at h1
    refine ⟨fun t ht => by omega, ?_⟩
    have : off = 0 := by omega
    subst this
    simp [nd_offset_fn, NdIndexToOffset]
  | succ n ih =>
    intro size off hpos h0 h1
    have hP : 0 < prod_upto (shift size) n :=
      prod_upto_pos _ _ (fun t ht => hpos (t + 1) (by omega))
    obtain ⟨q, r, hq, hr0, hr, hqr⟩ := int_decomp off _ h0 hP
    have hdiv := ediv_of_decomp _ q r hP hr0 hr
    obtain ⟨hin, hoff⟩ := ih (shift size) r (fun t ht => hpos (t + 1) (by omega)) hr0 hr
    have hq1 : q < size 0 := by
      by_contra hcon
      have : size 0 * prod_upto (shift size) n ≤ q * prod_upto (shift size) n :=
        mul_le_mul_of_nonneg_right (by omega) (le_of_lt hP)
      rw [prod_upto_succ_head] at h1
      omega
    have hrem : off - Int.tdiv off (prod_upto (shift size) n) * prod_upto (shift size) n = r := by
      rw [Int.tdiv_eq_ediv h0 (le_of_lt hP), hqr, hdiv.1]; ring
    have hquo : Int.tdiv off (prod_upto (shift size) n) = q := by
      rw [Int.tdiv_eq_ediv h0 (le_of_lt hP), hqr, hdiv.1]
    constructor
    · intro t ht
      cases t with
      | zero => rw [nd_index_fn_zero, hquo]; exact ⟨hq, hq1⟩
      | succ t => rw [nd_index_fn_succ, hrem]; exact hin t (by omega)
    · rw [nd_offset_fn_succ, nd_index_fn_zero, hquo]
      have : nd_offset_fn n (shift size) (shift (nd_index_fn (n + 1) size off))
          = nd_offset_fn n (shift size) (nd_index_fn n (shift size) r) := by
        apply nd_offset_fn_congr
        · intro t _; rfl
        · intro t _
          simp only [shift]
          rw [nd_index_fn_succ, hrem]
      rw [this, hoff, hqr]

/-- Distinct slice offsets address distinct elements of the entire buffer, when the
selected indices are in bounds and no step is zero. -/
theorem entire_offset_fn_injective (n : Nat) (dims start step size : Nat → Int)
    (hpos : ∀ t, t < n → 0 < size t) (hstep : ∀ t, t < n → step t ≠ 0)
    (hin : ∀ t, t < n → ∀ k, 0 ≤ k → k < size t →
      0 ≤ start t + step t * k ∧ start t + step t * k < dims t)
    (o o' : Int) (ho0 : 0 ≤ o) (ho : o < prod_upto size n) (ho0' : 0 ≤ o')
    (ho' : o' < prod_upto size n)
    (h : entire_offset_fn n dims start step size o = entire_offset_fn n dims start step size o') :
    o = o' := by
  obtain ⟨hb, hoff⟩ := nd_offset_of_nd_index n size o hpos ho0 ho
  obtain ⟨hb', hoff'⟩ := nd_offset_of_nd_index n size o' hpos ho0' ho'
  rw [entire_offset_fn_eq, entire_offset_fn_eq] at h
  have hJ := (nd_index_of_nd_offset n dims
    (fun t => start t + step t * nd_index_fn n size o t)
    (fun t ht => hin t ht _ (hb t ht).1 (hb t ht).2)).2
  have hJ' := (nd_index_of_nd_offset n dims
    (fun t => start t + step t * nd_index_fn n size o' t)
    (fun t ht => hin t ht _ (hb' t ht).1 (hb' t ht).2)).2
  have hidx : ∀ t, t < n → nd_index_fn n size o t = nd_index_fn n size o' t := by
    intro t ht
    have e1 := hJ t ht
    have e2 := hJ' t ht
    rw [h] at e1
    rw [e1] at e2
    have e3 : step t * (nd_index_fn n size o' t - nd_index_fn n size o t) = 0 := by
      have : step t * (nd_index_fn n size o' t - nd_index_fn n size o t)
          = (start t + step t * nd_index_fn n size o' t)
            - (start t + step t * nd_index_fn n size o t) := by ring
      rw [this, e2]; ring
    rcases mul_eq_zero.mp e3 with h0 | h0
    · exact absurd h0 (hstep t ht)
    · omega
  rw [← hoff, ← hoff']
  exact nd_offset_fn_congr n size size _ _ (fun _ _ => rfl) hidx

theorem cnt_scan_fn_exact_pos (mul : Nat → Bool) (size : Nat → Int) (full : Nat → Bool) (k : Nat)
    (cnt : Int) (hcnt : 0 < cnt) (hpos : ∀ t, t < k → 0 < size t) :
    0 < cnt_scan_fn_exact mul size full k cnt := by
  induction k generalizing cnt with
  | zero => exact hcnt
  | succ i ih =>
    rw [cnt_scan_fn_exact_step]
    have h1 : 0 < (if mul i = true then cnt * size i else cnt) := by
      by_cases hm : mul i = true
      · rw [if_pos hm]; exact mul_pos hcnt (hpos i (Nat.lt_succ_self i))
      · rw [if_neg hm]; exact hcnt
    by_cases hf : full i = true
    · rw [if_pos hf]; exact ih _ h1 (fun t ht => hpos t (Nat.lt_succ_of_lt ht))
    · rw [if_neg hf]; exact h1

theorem WriteSlice_copy_loop_exact_eq {α : Type} (NDIM : Nat) (L S : SliceParams) (f2s : Bool)
    (elem_cnt cnt : Int) (src : Int → α) (fuel : Nat) (i : Int) (dst : Int → α) :
    WriteSlice_copy_loop_exact NDIM L S f2s elem_cnt cnt src fuel i dst
      = copy_loop_fn
          (fun o => if f2s then SliceOffsetToEntireOffset NDIM o S
            else SliceOffsetToEntireOffset NDIM o L)
          (fun o => if f2s then SliceOffsetToEntireOffset NDIM o L
            else SliceOffsetToEntireOffset NDIM o S)
          elem_cnt cnt src fuel i dst := by
  induction fuel generalizing i dst with
  | zero => rfl
  | succ k ih =>
    simp only [WriteSlice_copy_loop_exact, copy_loop_fn, ih]

/-- The copy loop, run by run: when the runs are consecutive on both sides and the
destination offsets are distinct, the loop ends and has copied element by
element; every other element of the destination is unchanged. -/
theorem copy_loop_fn_spec {α : Type} (dst_off src_off : Int → Int) (elem_cnt cnt : Int)
    (src dst0 : Int → α) (hc : 0 < cnt) (hdvd : cnt ∣ elem_cnt)
    (hcontD : ∀ i j, 0 ≤ i → cnt ∣ i → i < elem_cnt → 0 ≤ j → j < cnt →
      dst_off (i + j) = dst_off i + j)
    (hcontS : ∀ i j, 0 ≤ i → cnt ∣ i → i < elem_cnt → 0 ≤ j → j < cnt →
      src_off (i + j) = src_off i + j)
    (hinj : ∀ o o', 0 ≤ o → o < elem_cnt → 0 ≤ o' → o' < elem_cnt →
      dst_off o = dst_off o' → o = o') :
    ∀ (fuel : Nat) (i : Int) (buf : Int → α), 0 ≤ i → cnt ∣ i → i ≤ elem_cnt →
      (elem_cnt - i).toNat ≤ fuel →
      (∀ o, 0 ≤ o → o < i → buf (dst_off o) = src (src_off o)) →
      (∀ p, (∀ o, 0 ≤ o → o < i → dst_off o ≠ p) → buf p = dst0 p) →
      ∃ out, copy_loop_fn dst_off src_off elem_cnt cnt src fuel i buf = some out ∧
        (∀ o, 0 ≤ o → o < elem_cnt → out (dst_off o) = src (src_off o)) ∧
        (∀ p, (∀ o, 0 ≤ o → o < elem_cnt → dst_off o ≠ p) → out p = dst0 p) := by
  intro fuel
  induction fuel with
  | zero =>
    intro i buf _ _ hle hfuel h1 h2
    have hie : i = elem_cnt := by omega
    subst hie
    exact ⟨buf, by simp [copy_loop_fn], h1, h2⟩
  | succ k ih =>
    intro i buf hi0 hdi hle hfuel h1 h2
    by_cases hlt : i < elem_cnt
    · have hnext : i + cnt ≤ elem_cnt := stride_gap cnt i elem_cnt hc (dvd_sub hdvd hdi) hlt
      simp only [copy_loop_fn, hlt, if_true]
      apply ih (i + cnt) _ (by omega) (dvd_add hdi (dvd_refl cnt)) hnext (by omega)
      · intro o ho0 ho
        by_cases hold : o < i
        · -- an element of an earlier run is not overwritten
          have hnot : ¬ (dst_off i ≤ dst_off o ∧ dst_off o < dst_off i + cnt) := by
            rintro ⟨ha, hb⟩
            have hj := hcontD i (dst_off o - dst_off i) hi0 hdi hlt (by omega) (by omega)
            have e : dst_off i + (dst_off o - dst_off i) = dst_off o := by ring
            rw [e] at hj
            have := hinj (i + (dst_off o - dst_off i)) o (by omega) (by omega) ho0 (by omega) hj
            omega
          simp only [AutoMemcpy, hnot, if_false]
          exact h1 o ho0 hold
        · have hj := hcontD i (o - i) hi0 hdi hlt (by omega) (by omega)
          have hjs := hcontS i (o - i) hi0 hdi hlt (by omega) (by omega)
          have e : i + (o - i) = o := by ring
          rw [e] at hj hjs
          have hin : dst_off i ≤ dst_off o ∧ dst_off o < dst_off i + cnt := by
            rw [hj]; constructor <;> omega
          simp only [AutoMemcpy, hin, and_self, if_true]
          rw [hjs, hj]
          congr 1
          ring
      · intro p hp
        have hnot : ¬ (dst_off i ≤ p ∧ p < dst_off i + cnt) := by
          rintro ⟨ha, hb⟩
          have hj := hcontD i (p - dst_off i) hi0 hdi hlt (by omega) (by omega)
          have e : dst_off i + (p - dst_off i) = p := by ring
          rw [e] at hj
          exact hp (i + (p - dst_off i)) (by omega) (by omega) hj
        simp only [AutoMemcpy, hnot, if_false]
        exact h2 p (fun o ho0 ho => hp o ho0 (by omega))
    · have hie : i = elem_cnt := by omega
      subst hie
      exact ⟨buf, by simp [copy_loop_fn], h1, h2⟩

theorem elem_cnt_nonneg (p : SliceParams) (h : ∀ t, t < p.ndim → 0 ≤ p.size.getD t 0) :
    0 ≤ p.elem_cnt := by
  unfold SliceParams.elem_cnt
  apply List.prod_nonneg
  intro a ha
  obtain ⟨t, ht, rfl⟩ := List.mem_map.mp ha
  exact h t (List.mem_range.mp ht)

/-- The copy loop of `WriteSlice` over the integers on a pair of parameter blocks with equal,
non-negative sizes, step 1 on the small side and distinct destination offsets:
with `elem_cnt` iterations of fuel the loop ends, every slice offset has been
copied and every other element of the destination is unchanged. -/
theorem WriteSlice_copy_loop_exact_spec {α : Type} (NDIM : Nat) (L S : SliceParams) (f2s : Bool)
    (src dst0 : Int → α)
    (hndim : L.ndim = NDIM)
    (hsize : ∀ t, t < NDIM → L.size.getD t 0 = S.size.getD t 0)
    (hnonneg : ∀ t, t < NDIM → 0 ≤ L.size.getD t 0)
    (hsmall_step : ∀ t, t < NDIM → S.step.getD t 0 = 1)
    (hinj : ∀ o o', 0 ≤ o → o < L.elem_cnt → 0 ≤ o' → o' < L.elem_cnt →
      (if f2s then SliceOffsetToEntireOffset NDIM o S else SliceOffsetToEntireOffset NDIM o L)
        = (if f2s then SliceOffsetToEntireOffset NDIM o' S
            else SliceOffsetToEntireOffset NDIM o' L) → o = o')
    (fuel : Nat) (hfuel : L.elem_cnt.toNat ≤ fuel) :
    ∃ out, WriteSlice_copy_loop_exact NDIM L S f2s L.elem_cnt (WriteSlice_cnt_exact NDIM L S) src fuel 0 dst0
        = some out ∧
      (∀ o, 0 ≤ o → o < L.elem_cnt →
        out (if f2s then SliceOffsetToEntireOffset NDIM o S
              else SliceOffsetToEntireOffset NDIM o L)
          = src (if f2s then SliceOffsetToEntireOffset NDIM o L
              else SliceOffsetToEntireOffset NDIM o S)) ∧
      (∀ p, (∀ o, 0 ≤ o → o < L.elem_cnt →
          (if f2s then SliceOffsetToEntireOffset NDIM o S
            else SliceOffsetToEntireOffset NDIM o L) ≠ p) → out p = dst0 p) := by
  rw [WriteSlice_copy_loop_exact_eq]
  have hE0 : 0 ≤ L.elem_cnt := elem_cnt_nonneg L (by rw [hndim]; exact hnonneg)
  rcases lt_or_eq_of_le hE0 with hE | hE
  · have hpos : ∀ t, t < NDIM → 0 < L.size.getD t 0 := by
      apply pos_of_prod_upto_pos _ _ hnonneg
      rw [elem_cnt_eq_prod_upto, hndim] at hE
      exact hE
    have hc : 0 < WriteSlice_cnt_exact NDIM L S := by
      unfold WriteSlice_cnt_exact
      rw [WriteSlice_cnt_scan_exact_eq]
      exact cnt_scan_fn_exact_pos _ _ _ _ 1 (by decide) hpos
    have hdvd : WriteSlice_cnt_exact NDIM L S ∣ L.elem_cnt := by
      unfold WriteSlice_cnt_exact
      rw [WriteSlice_cnt_scan_exact_eq, elem_cnt_eq_prod_upto, hndim]
      have := cnt_scan_fn_exact_dvd (fun i => decide (L.step.getD i 0 = 1))
        (fun i => L.size.getD i 0) (fun i => L.IsFullSlice i && S.IsFullSlice i) NDIM 1
      simpa using this
    have hcons : ∀ i j, 0 ≤ i → WriteSlice_cnt_exact NDIM L S ∣ i → i < L.elem_cnt → 0 ≤ j →
        j < WriteSlice_cnt_exact NDIM L S →
        SliceOffsetToEntireOffset NDIM (i + j) L = SliceOffsetToEntireOffset NDIM i L + j ∧
          SliceOffsetToEntireOffset NDIM (i + j) S = SliceOffsetToEntireOffset NDIM i S + j :=
      fun i j hi0 hdi hi hj0 hj =>
        run_consecutive NDIM L S hndim hsize hnonneg hsmall_step i j hi0 hdi hi hj0 hj
    apply copy_loop_fn_spec _ _ L.elem_cnt (WriteSlice_cnt_exact NDIM L S) src dst0 hc hdvd
      (fun i j hi0 hdi hi hj0 hj => by
        cases f2s
        · simpa using (hcons i j hi0 hdi hi hj0 hj).1
        · simpa using (hcons i j hi0 hdi hi hj0 hj).2)
      (fun i j hi0 hdi hi hj0 hj => by
        cases f2s
        · simpa using (hcons i j hi0 hdi hi hj0 hj).2
        · simpa using (hcons i j hi0 hdi hi hj0 hj).1)
      hinj fuel 0 dst0 (le_refl 0) (dvd_zero _) hE0 (by simpa using hfuel)
    · intro o h0 h1; omega
    · intro p _; rfl
  · refine ⟨dst0, ?_, ?_, ?_⟩
    · cases fuel <;> simp [copy_loop_fn, ← hE]
    · intro o h0 h1; omega
    · intro p _; rfl

/-! ## What the logical slice kernel writes -/

/-- The result of a large-to-small copy at an offset `p` of the small buffer, by
the index `J` of `p`: inside the range selected on the small side the element of
the large buffer at index `start + step * (J - small.start)`, outside it the
element the small buffer held before. -/
theorem copy_to_small_at_offset {α : Type} (n : Nat) (L S : SliceParams) (src dst0 out : Int → α)
    (hndim : L.ndim = n)
    (hsize : ∀ t, t < n → L.size.getD t 0 = S.size.getD t 0)
    (hsmall_step : ∀ t, t < n → S.step.getD t 0 = 1)
    (hSb : ∀ t, t < n → 0 ≤ S.start.getD t 0 ∧ 0 ≤ S.size.getD t 0 ∧
      S.start.getD t 0 + S.size.getD t 0 ≤ S.dims.getD t 0)
    (h1 : ∀ o, 0 ≤ o → o < L.elem_cnt →
      out (SliceOffsetToEntireOffset n o S) = src (SliceOffsetToEntireOffset n o L))
    (h2 : ∀ p, (∀ o, 0 ≤ o → o < L.elem_cnt → SliceOffsetToEntireOffset n o S ≠ p) →
      out p = dst0 p)
    (p : Int) (hp0 : 0 ≤ p) (hp : p < prod_upto (fun t => S.dims.getD t 0) n) :
    ((∀ t, t < n → S.start.getD t 0 ≤ nd_index_fn n (fun t => S.dims.getD t 0) p t ∧
        nd_index_fn n (fun t => S.dims.getD t 0) p t < S.start.getD t 0 + S.size.getD t 0) →
      out p = src (nd_offset_fn n (fun t => L.dims.getD t 0)
        (fun t => L.start.getD t 0 + L.step.getD t 0
          * (nd_index_fn n (fun t => S.dims.getD t 0) p t - S.start.getD t 0)))) ∧
    (¬ (∀ t, t < n → S.start.getD t 0 ≤ nd_index_fn n (fun t => S.dims.getD t 0) p t ∧
        nd_index_fn n (fun t => S.dims.getD t 0) p t < S.start.getD t 0 + S.size.getD t 0) →
      out p = dst0 p) := by
  have hdpos : ∀ t, t < n → 0 < S.dims.getD t 0 := by
    apply pos_of_prod_upto_pos (fun t => S.dims.getD t 0) n
    · intro t ht
      have := hSb t ht
      omega
    · omega
  obtain ⟨hJb, hJoff⟩ := nd_offset_of_nd_index n (fun t => S.dims.getD t 0) p hdpos hp0 hp
  have hEcnt : L.elem_cnt = prod_upto (fun t => S.size.getD t 0) n := by
    rw [elem_cnt_eq_prod_upto, hndim]
    exact prod_upto_congr _ _ n hsize
  constructor
  · intro hin
    have hKb : ∀ t, t < n →
        0 ≤ nd_index_fn n (fun t => S.dims.getD t 0) p t - S.start.getD t 0 ∧
        nd_index_fn n (fun t => S.dims.getD t 0) p t - S.start.getD t 0 < S.size.getD t 0 := by
      intro t ht
      have := hin t ht
      constructor <;> omega
    obtain ⟨⟨ho0, ho1⟩, hidx⟩ := nd_index_of_nd_offset n (fun t => S.size.getD t 0)
      (fun t => nd_index_fn n (fun t => S.dims.getD t 0) p t - S.start.getD t 0) hKb
    have hES : SliceOffsetToEntireOffset n
        (nd_offset_fn n (fun t => S.size.getD t 0)
          (fun t => nd_index_fn n (fun t => S.dims.getD t 0) p t - S.start.getD t 0)) S = p := by
      rw [SliceOffsetToEntireOffset_eq, entire_offset_fn_eq]
      conv_rhs => rw [← hJoff]
      apply nd_offset_fn_congr _ _ _ _ _ (fun _ _ => rfl)
      intro t ht
      rw [hidx t ht, hsmall_step t ht]
      ring
    have hEL : SliceOffsetToEntireOffset n
        (nd_offset_fn n (fun t => S.size.getD t 0)
          (fun t => nd_index_fn n (fun t => S.dims.getD t 0) p t - S.start.getD t 0)) L
        = nd_offset_fn n (fun t => L.dims.getD t 0)
            (fun t => L.start.getD t 0 + L.step.getD t 0
              * (nd_index_fn n (fun t => S.dims.getD t 0) p t - S.start.getD t 0)) := by
      rw [SliceOffsetToEntireOffset_eq, entire_offset_fn_eq]
      apply nd_offset_fn_congr _ _ _ _ _ (fun _ _ => rfl)
      intro t ht
      rw [nd_index_fn_congr n (fun t => L.size.getD t 0) (fun t => S.size.getD t 0) _ t hsize,
        hidx t ht]
    have := h1 _ ho0 (by rw [hEcnt]; exact ho1)
    rw [hES, hEL] at this
    exact this
  · intro hnot
    apply h2
    intro o ho0 ho hcon
    apply hnot
    rw [hEcnt] at ho
    have hspos : ∀ t, t < n → 0 < S.size.getD t 0 :=
      pos_of_prod_upto_pos _ n (fun t ht => (hSb t ht).2.1) (by omega)
    obtain ⟨hKb, -⟩ := nd_offset_of_nd_index n (fun t => S.size.getD t 0) o hspos ho0 ho
    rw [SliceOffsetToEntireOffset_eq, entire_offset_fn_eq] at hcon
    have hidx := (nd_index_of_nd_offset n (fun t => S.dims.getD t 0)
      (fun t => S.start.getD t 0 + S.step.getD t 0 * nd_index_fn n (fun t => S.size.getD t 0) o t)
      (fun t ht => by
        have hb := hSb t ht
        have hk := hKb t ht
        simp only
        rw [hsmall_step t ht]
        constructor <;> omega)).2
    intro t ht
    have e := hidx t ht
    rw [hcon] at e
    have hk := hKb t ht
    rw [e, hsmall_step t ht]
    constructor <;> omega

theorem map_range_getD (l : List Int) :
    (List.range l.length).map (fun i => l.getD i 0) = l := by
  apply List.ext_getElem
  · simp
  · intro i h1 h2
    simp [List.getD_eq_getElem?_getD, List.getElem?_eq_getElem h2]

theorem prod_eq_prod_upto (l : List Int) :
    l.prod = prod_upto (fun t => l.getD t 0) l.length := by
  unfold prod_upto
  rw [map_range_getD]

theorem prod_upto_le (f g : Nat → Int) (n : Nat) (h : ∀ t, t < n → 0 ≤ f t ∧ f t ≤ g t) :
    0 ≤ prod_upto f n ∧ prod_upto f n ≤ prod_upto g n := by
  induction n with
  | zero => simp [prod_upto]
  | succ k ih =>
    obtain ⟨h0, h1⟩ := ih (fun t ht => h t (Nat.lt_succ_of_lt ht))
    obtain ⟨hk0, hk1⟩ := h k (Nat.lt_succ_self k)
    rw [prod_upto_succ_last, prod_upto_succ_last]
    exact ⟨mul_nonneg h0 hk0, mul_le_mul h1 hk1 hk0 (le_trans h0 h1)⟩

/-- `WriteSlice_params` returns the two parameter blocks when the split extent is
right, the attributes have the rank's length and the element counts agree. -/
theorem WriteSlice_params_ok (rs re : Int → Int → Int) (ctx : SliceContext)
    (start_attr stop_attr step_attr large_shape small_shape : List Int)
    (hstart : start_attr.length = large_shape.length)
    (hstop : stop_attr.length = large_shape.length)
    (hsplit : ctx.split_axis = SPLIT_AXIS_FOR_NON_SPLIT ∨
      ∃ a : Nat, a < large_shape.length ∧ (a : Int) = ctx.split_axis ∧
        large_shape.getD a 0 = ctx.upper - ctx.lower)
    (L S : SliceParams)
    (hL : ConstructSliceParamsLarge ctx
      ((List.range large_shape.length).map (positive_start_at rs ctx start_attr large_shape))
      ((List.range large_shape.length).map (positive_stop_at re ctx stop_attr large_shape))
      step_attr large_shape = .ok L)
    (hS : ConstructSliceParamsSmall ctx
      ((List.range large_shape.length).map (positive_start_at rs ctx start_attr large_shape))
      ((List.range large_shape.length).map (positive_stop_at re ctx stop_attr large_shape))
      step_attr small_shape = .ok S)
    (hcnt : L.elem_cnt = S.elem_cnt) :
    WriteSlice_params rs re ctx start_attr stop_attr step_attr large_shape small_shape
      = .ok (L, S) := by
  have hsc : (if ctx.split_axis ≠ SPLIT_AXIS_FOR_NON_SPLIT then
      match ShapeView_At large_shape ctx.split_axis with
      | .ok extent =>
        if extent = ctx.upper - ctx.lower then (Except.ok () : Except CheckFailure Unit)
        else .error .split_extent
      | .error e => .error e
    else .ok ()) = .ok () := by
    rcases hsplit with hnone | ⟨a, ha, hax, hext⟩
    · rw [if_neg (by rw [hnone]; exact fun h => h rfl)]
    · have hin : 0 ≤ ctx.split_axis ∧ ctx.split_axis < large_shape.length := by
        rw [← hax]; exact ⟨Int.ofNat_nonneg a, by exact_mod_cast ha⟩
      have hat : ShapeView_At large_shape ctx.split_axis = .ok (large_shape.getD a 0) := by
        unfold ShapeView_At
        rw [if_pos hin, ← hax, Int.toNat_ofNat]
      rw [hat]
      simp only [hext, if_true, ite_self]
  have hnorm := WriteSlice_normalize_ok rs re ctx start_attr
    stop_attr large_shape start_attr.length (by rw [hstart]) (by rw [hstart, hstop])
  rw [hstart] at hnorm
  unfold positive_start_at positive_stop_at at hL hS
  unfold WriteSlice_params
  simp only [hsc, hstart, hnorm, hL, hS]
  rw [if_pos hcnt]

/-- Bounds of the range the small builder selects on an axis. -/
theorem small_axis_bounds (ctx : SliceContext) (t : Nat) (start step d : Int) (hstep : 0 < step)
    (hlu : ctx.lower ≤ ctx.upper) (hd : 0 ≤ d) :
    0 ≤ start_in_full_small ctx t start step d ∧
      start_in_full_small ctx t start step d ≤ stop_in_full_small ctx t start step d ∧
      stop_in_full_small ctx t start step d ≤ d := by
  unfold start_in_full_small stop_in_full_small
  by_cases hax : (t : Int) = ctx.split_axis
  · simp only [hax, if_true]
    have hn0 := GetSizeInSlice_nonneg start ctx.lower step hstep
    have hn1 := GetSizeInSlice_nonneg start ctx.upper step hstep
    have hmono := GetSizeInSlice_mono start _ _ step hstep hlu
    rw [max_eq_left hn0, max_eq_left hn1]
    exact ⟨le_min hn0 hd, min_le_min hmono (le_refl d), min_le_right _ _⟩
  · simp only [hax, if_false]
    exact ⟨le_refl 0, hd, le_refl d⟩

/-- What `LogicalSliceKernel::Compute`, over the integers, leaves in `y` on one worker, by the index `J`
of an output offset `p`: inside the range the small builder selects, the element of
`x` at index `large.start + step * (J - small.start)`; outside it, zero. -/
theorem LogicalSliceKernel_Compute_exact_spec {α : Type} [Zero α] (rs re : Int → Int → Int)
    (ctx : SliceContext) (start_attr stop_attr step_attr x_shape y_shape : List Int)
    (x y0 : Int → α)
    (hrank : x_shape.length ≤ kSliceMaxDims) (hy : y_shape.length = x_shape.length)
    (hstart : start_attr.length = x_shape.length) (hstop : stop_attr.length = x_shape.length)
    (hstep : step_attr.length = x_shape.length)
    (hpos : ∀ t, t < x_shape.length → 0 < step_attr.getD t 0)
    (hlu : ctx.lower ≤ ctx.upper)
    (hsplit : ctx.split_axis = SPLIT_AXIS_FOR_NON_SPLIT ∨
      ∃ a : Nat, a < x_shape.length ∧ (a : Int) = ctx.split_axis ∧
        x_shape.getD a 0 = ctx.upper - ctx.lower)
    (hdim : ∀ t, t < x_shape.length →
      y_shape.getD t 0
        = GetSizeInSlice (positive_start_at rs ctx start_attr x_shape t)
            (positive_stop_at re ctx stop_attr x_shape t) (step_attr.getD t 0))
    (fuel : Nat) (hfuel : y_shape.prod.toNat ≤ fuel) :
    ∃ out, LogicalSliceKernel_Compute_exact rs re fuel ctx start_attr stop_attr step_attr x_shape
        y_shape x y0 = .ok (some out) ∧
      ∀ p, 0 ≤ p → p < y_shape.prod →
        ((∀ t, t < x_shape.length →
            start_in_full_small ctx t (positive_start_at rs ctx start_attr x_shape t)
                (step_attr.getD t 0) (y_shape.getD t 0)
              ≤ nd_index_fn x_shape.length (fun t => y_shape.getD t 0) p t ∧
            nd_index_fn x_shape.length (fun t => y_shape.getD t 0) p t
              < stop_in_full_small ctx t (positive_start_at rs ctx start_attr x_shape t)
                  (step_attr.getD t 0) (y_shape.getD t 0)) →
          out p = x (nd_offset_fn x_shape.length (fun t => x_shape.getD t 0)
            (fun t => start_in_splitted_large ctx t (positive_start_at rs ctx start_attr x_shape t)
                (step_attr.getD t 0)
              + step_attr.getD t 0
                * (nd_index_fn x_shape.length (fun t => y_shape.getD t 0) p t
                  - start_in_full_small ctx t (positive_start_at rs ctx start_attr x_shape t)
                      (step_attr.getD t 0) (y_shape.getD t 0))))) ∧
        (¬ (∀ t, t < x_shape.length →
            start_in_full_small ctx t (positive_start_at rs ctx start_attr x_shape t)
                (step_attr.getD t 0) (y_shape.getD t 0)
              ≤ nd_index_fn x_shape.length (fun t => y_shape.getD t 0) p t ∧
            nd_index_fn x_shape.length (fun t => y_shape.getD t 0) p t
              < stop_in_full_small ctx t (positive_start_at rs ctx start_attr x_shape t)
                  (step_attr.getD t 0) (y_shape.getD t 0)) →
          out p = 0) := by
  -- the two parameter blocks
  obtain ⟨L, hL, hLn, hgetL⟩ := ConstructSliceParamsLarge_ok ctx
    ((List.range x_shape.length).map (positive_start_at rs ctx start_attr x_shape))
    ((List.range x_shape.length).map (positive_stop_at re ctx stop_attr x_shape))
    step_attr x_shape hrank (by simp) (by simp) hstep hpos
  obtain ⟨S, hS, hSn, hgetS⟩ := ConstructSliceParamsSmall_ok ctx
    ((List.range x_shape.length).map (positive_start_at rs ctx start_attr x_shape))
    ((List.range x_shape.length).map (positive_stop_at re ctx stop_attr x_shape))
    step_attr y_shape (by rw [hy]; exact hrank) (by simp [hy]) (by simp [hy])
    (by rw [hy]; exact hstep) (by rw [hy]; exact hpos)
  rw [hy] at hgetS hSn
  have hps : ∀ t, t < x_shape.length →
      ((List.range x_shape.length).map (positive_start_at rs ctx start_attr x_shape)).getD t 0
        = positive_start_at rs ctx start_attr x_shape t :=
    fun t ht => getD_map_range _ _ _ ht
  have hpe : ∀ t, t < x_shape.length →
      ((List.range x_shape.length).map (positive_stop_at re ctx stop_attr x_shape)).getD t 0
        = positive_stop_at re ctx stop_attr x_shape t :=
    fun t ht => getD_map_range _ _ _ ht
  obtain ⟨-, -, hsizes, hcnt⟩ := builders_sizes_eq ctx _ _ step_attr x_shape y_shape hlu hpos
    (fun t ht => by rw [hps t ht, hpe t ht]; exact hdim t ht) L S hL hS
  have hparams := WriteSlice_params_ok rs re ctx start_attr stop_attr step_attr x_shape y_shape
    hstart hstop hsplit L S hL hS hcnt
  -- facts on the small block
  have hyd : ∀ t, t < x_shape.length → 0 ≤ y_shape.getD t 0 := by
    intro t ht
    rw [hdim t ht]
    exact GetSizeInSlice_nonneg _ _ _ (hpos t ht)
  have hSdims : ∀ t, t < x_shape.length → S.dims.getD t 0 = y_shape.getD t 0 :=
    fun t ht => (hgetS t ht).1
  have hSstart : ∀ t, t < x_shape.length → S.start.getD t 0
      = start_in_full_small ctx t (positive_start_at rs ctx start_attr x_shape t)
          (step_attr.getD t 0) (y_shape.getD t 0) := by
    intro t ht
    rw [(hgetS t ht).2.1, hps t ht]
  have hSsize : ∀ t, t < x_shape.length → S.start.getD t 0 + S.size.getD t 0
      = stop_in_full_small ctx t (positive_start_at rs ctx start_attr x_shape t)
          (step_attr.getD t 0) (y_shape.getD t 0) := by
    intro t ht
    rw [(hgetS t ht).2.1, (hgetS t ht).2.2.2, hps t ht]
    ring
  have hSstep : ∀ t, t < x_shape.length → S.step.getD t 0 = 1 :=
    fun t ht => (hgetS t ht).2.2.1
  have hSb : ∀ t, t < x_shape.length → 0 ≤ S.start.getD t 0 ∧ 0 ≤ S.size.getD t 0 ∧
      S.start.getD t 0 + S.size.getD t 0 ≤ S.dims.getD t 0 := by
    intro t ht
    obtain ⟨b1, b2, b3⟩ := small_axis_bounds ctx t (positive_start_at rs ctx start_attr x_shape t)
      (step_attr.getD t 0) (y_shape.getD t 0) (hpos t ht) hlu (hyd t ht)
    have e1 := hSstart t ht
    have e2 := hSsize t ht
    rw [hSdims t ht]
    refine ⟨by omega, by omega, by omega⟩
  have hLnonneg : ∀ t, t < x_shape.length → 0 ≤ L.size.getD t 0 := by
    intro t ht
    rw [hsizes t ht]
    exact (hSb t ht).2.1
  -- distinct slice offsets address distinct elements of `y`
  have hinj : ∀ o o', 0 ≤ o → o < L.elem_cnt → 0 ≤ o' → o' < L.elem_cnt →
      (if true = true then SliceOffsetToEntireOffset x_shape.length o S
        else SliceOffsetToEntireOffset x_shape.length o L)
        = (if true = true then SliceOffsetToEntireOffset x_shape.length o' S
            else SliceOffsetToEntireOffset x_shape.length o' L) → o = o' := by
    intro o o' ho0 ho ho0' ho' heq
    simp only [if_true] at heq
    have hEcnt : L.elem_cnt = prod_upto (fun t => S.size.getD t 0) x_shape.length := by
      rw [elem_cnt_eq_prod_upto, hLn]
      exact prod_upto_congr _ _ _ hsizes
    rw [hEcnt] at ho ho'
    have hspos : ∀ t, t < x_shape.length → 0 < S.size.getD t 0 :=
      pos_of_prod_upto_pos _ _ (fun t ht => (hSb t ht).2.1) (by omega)
    rw [SliceOffsetToEntireOffset_eq, SliceOffsetToEntireOffset_eq] at heq
    exact entire_offset_fn_injective x_shape.length _ _ _ _ hspos
      (fun t ht => by rw [hSstep t ht]; decide)
      (fun t ht k hk0 hk => by
        have := hSb t ht
        rw [hSstep t ht]
        constructor <;> omega)
      o o' ho0 ho ho0' ho' heq
  have hprod : y_shape.prod = prod_upto (fun t => S.dims.getD t 0) x_shape.length := by
    rw [prod_eq_prod_upto, hy]
    exact prod_upto_congr _ _ _ (fun t ht => (hSdims t ht).symm)
  have hfuel' : L.elem_cnt.toNat ≤ fuel := by
    have hle : L.elem_cnt ≤ y_shape.prod := by
      rw [hprod, elem_cnt_eq_prod_upto, hLn]
      exact (prod_upto_le _ _ _ (fun t ht => by
        have := hSb t ht
        rw [hsizes t ht]
        constructor <;> omega)).2
    have : L.elem_cnt.toNat ≤ y_shape.prod.toNat := Int.toNat_le_toNat hle
    omega
  obtain ⟨out, hout, h1, h2⟩ := WriteSlice_copy_loop_exact_spec x_shape.length L S true x
    (AutoMemset y0 y_shape.prod) hLn hsizes hLnonneg hSstep hinj fuel hfuel'
  simp only [if_true] at h1 h2
  refine ⟨out, ?_, ?_⟩
  · unfold LogicalSliceKernel_Compute_exact WriteSlice_exact
    simp only [if_true, hparams, hy, hout]
  · intro p hp0 hp
    have hspec := copy_to_small_at_offset x_shape.length L S x (AutoMemset y0 y_shape.prod) out
      hLn hsizes hSstep hSb h1 h2 p hp0 (by rw [← hprod]; exact hp)
    have hJ : ∀ t, nd_index_fn x_shape.length (fun t => S.dims.getD t 0) p t
        = nd_index_fn x_shape.length (fun t => y_shape.getD t 0) p t :=
      fun t => nd_index_fn_congr _ _ _ _ _ hSdims
    have hiff : (∀ t, t < x_shape.length →
          S.start.getD t 0 ≤ nd_index_fn x_shape.length (fun t => S.dims.getD t 0) p t ∧
          nd_index_fn x_shape.length (fun t => S.dims.getD t 0) p t
            < S.start.getD t 0 + S.size.getD t 0)
        ↔ (∀ t, t < x_shape.length →
          start_in_full_small ctx t (positive_start_at rs ctx start_attr x_shape t)
              (step_attr.getD t 0) (y_shape.getD t 0)
            ≤ nd_index_fn x_shape.length (fun t => y_shape.getD t 0) p t ∧
          nd_index_fn x_shape.length (fun t => y_shape.getD t 0) p t
            < stop_in_full_small ctx t (positive_start_at rs ctx start_attr x_shape t)
                (step_attr.getD t 0) (y_shape.getD t 0)) := by
      constructor
      · intro h t ht
        have := h t ht
        rw [hJ t, hSsize t ht, hSstart t ht] at this
        exact this
      · intro h t ht
        rw [hJ t, hSsize t ht, hSstart t ht]
        exact h t ht
    constructor
    · intro hin
      rw [hspec.1 (hiff.mpr hin)]
      congr 1
      apply nd_offset_fn_congr
      · intro t ht; exact (hgetL t ht).1
      · intro t ht
        rw [(hgetL t ht).2.1, (hgetL t ht).2.2.1, hps t ht, hJ t, hSstart t ht]
    · intro hnot
      rw [hspec.2 (fun h => hnot (hiff.mp h))]
      simp only [AutoMemset, hp0, hp, and_self, if_true]

/-! ## Sharding invariance of the logical slice -/

theorem shard_buffer_at {α : Type} (shape : List Int) (a : Nat) (lo up : Int) (x : Int → α)
    (I : Nat → Int)
    (hI : ∀ t, t < shape.length →
      0 ≤ I t ∧ I t < (shape.set a (up - lo)).getD t 0) :
    shard_buffer shape a lo up x
        (nd_offset_fn shape.length (fun t => (shape.set a (up - lo)).getD t 0) I)
      = x (nd_offset_fn shape.length (fun t => shape.getD t 0)
          (fun t => if t = a then I t + lo else I t)) := by
  have hidx := (nd_index_of_nd_offset shape.length
    (fun t => (shape.set a (up - lo)).getD t 0) I hI).2
  unfold shard_buffer
  simp only
  have hset : shape.set a (up - lo)
      = (List.range shape.length).map (fun t => (shape.set a (up - lo)).getD t 0) := by
    have := map_range_getD (shape.set a (up - lo))
    rw [List.length_set] at this
    exact this.symm
  have hsh : NdIndexToOffset shape
      = NdIndexToOffset ((List.range shape.length).map (fun t => shape.getD t 0)) := by
    rw [map_range_getD]
  rw [hsh]
  congr 1
  unfold nd_offset_fn
  congr 1
  apply List.map_congr_left
  intro t ht
  have ht' := List.mem_range.mp ht
  have e : (OffsetToNdIndex (shape.set a (up - lo))
        (NdIndexToOffset ((List.range shape.length).map
          (fun t => (shape.set a (up - lo)).getD t 0)) ((List.range shape.length).map I))).getD t 0
      = I t := by
    have := hidx t ht'
    unfold nd_index_fn nd_offset_fn at this
    rw [← hset] at this ⊢
    exact this
  rw [e]

/-- The index of an output offset is in bounds, and each of its entries counts a
position of the logical slice. -/
theorem output_index_bounds (n : Nat) (y : Nat → Int) (ps pe step : Nat → Int) (p : Int)
    (hpos : ∀ t, t < n → 0 < step t)
    (hdim : ∀ t, t < n → y t = GetSizeInSlice (ps t) (pe t) (step t))
    (hp0 : 0 ≤ p) (hp : p < prod_upto y n) :
    ∀ t, t < n → 0 ≤ nd_index_fn n y p t ∧ nd_index_fn n y p t < y t ∧
      ps t + nd_index_fn n y p t * step t < pe t := by
  have hy0 : ∀ t, t < n → 0 ≤ y t := by
    intro t ht
    rw [hdim t ht]; exact GetSizeInSlice_nonneg _ _ _ (hpos t ht)
  have hypos := pos_of_prod_upto_pos y n hy0 (by omega)
  obtain ⟨hJ, -⟩ := nd_offset_of_nd_index n y p hypos hp0 hp
  intro t ht
  obtain ⟨h1, h2⟩ := hJ t ht
  refine ⟨h1, h2, ?_⟩
  rw [hdim t ht] at h2
  exact (lt_GetSizeInSlice_iff _ _ _ _ (hpos t ht) h1).mp h2

theorem normalize_extent_shard (a : Nat) (lo up : Int) (shape : List Int) (t : Nat) :
    normalize_extent ⟨(a : Int), lo, up, shape.getD a 0⟩ (shape.set a (up - lo)) t
      = shape.getD t 0 := by
  unfold normalize_extent
  by_cases h : (t : Int) = (a : Int)
  · have : t = a := by exact_mod_cast h
    subst this
    simp
  · have hne : ¬ (a = t) := fun h' => h (by rw [h'])
    simp only [h, if_false, getD_set_int, hne, false_and]

/-- The logical slice kernel over the integers on the worker that holds the shard `[lo, up)` of `x`:
an output position whose index on the split axis lies in the range of the worker
receives the element of `x` at index `start + step * J`; every other output
position is zero. -/
theorem logical_slice_on_shard {α : Type} [Zero α] (rs re : Int → Int → Int) (a : Nat)
    (lo up : Int) (start_attr stop_attr step_attr shape y_shape : List Int) (x y0 : Int → α)
    (hrank : shape.length ≤ kSliceMaxDims) (ha : a < shape.length)
    (hy : y_shape.length = shape.length)
    (hstart : start_attr.length = shape.length) (hstop : stop_attr.length = shape.length)
    (hstep : step_attr.length = shape.length)
    (hpos : ∀ t, t < shape.length → 0 < step_attr.getD t 0)
    (hlu : lo ≤ up)
    (hnorm : ∀ t, t < shape.length → t ≠ a →
      0 ≤ rs (start_attr.getD t 0) (shape.getD t 0) ∧
        re (stop_attr.getD t 0) (shape.getD t 0) ≤ shape.getD t 0)
    (hdim : ∀ t, t < shape.length →
      y_shape.getD t 0
        = GetSizeInSlice (rs (start_attr.getD t 0) (shape.getD t 0))
            (re (stop_attr.getD t 0) (shape.getD t 0)) (step_attr.getD t 0))
    (fuel : Nat) (hfuel : y_shape.prod.toNat ≤ fuel) :
    ∃ out, LogicalSliceKernel_Compute_exact rs re fuel ⟨(a : Int), lo, up, shape.getD a 0⟩
        start_attr stop_attr step_attr (shape.set a (up - lo)) y_shape
        (shard_buffer shape a lo up x) y0 = .ok (some out) ∧
      ∀ p, 0 ≤ p → p < y_shape.prod →
        ((min (max (GetSizeInSlice (rs (start_attr.getD a 0) (shape.getD a 0)) lo
                (step_attr.getD a 0)) 0) (y_shape.getD a 0)
              ≤ nd_index_fn shape.length (fun t => y_shape.getD t 0) p a ∧
            nd_index_fn shape.length (fun t => y_shape.getD t 0) p a
              < min (max (GetSizeInSlice (rs (start_attr.getD a 0) (shape.getD a 0)) up
                  (step_attr.getD a 0)) 0) (y_shape.getD a 0)) →
          out p = x (nd_offset_fn shape.length (fun t => shape.getD t 0)
            (fun t => rs (start_attr.getD t 0) (shape.getD t 0)
              + step_attr.getD t 0
                * nd_index_fn shape.length (fun t => y_shape.getD t 0) p t))) ∧
        (¬ (min (max (GetSizeInSlice (rs (start_attr.getD a 0) (shape.getD a 0)) lo
                (step_attr.getD a 0)) 0) (y_shape.getD a 0)
              ≤ nd_index_fn shape.length (fun t => y_shape.getD t 0) p a ∧
            nd_index_fn shape.length (fun t => y_shape.getD t 0) p a
              < min (max (GetSizeInSlice (rs (start_attr.getD a 0) (shape.getD a 0)) up
                  (step_attr.getD a 0)) 0) (y_shape.getD a 0)) →
          out p = 0) := by
  have hlen : (shape.set a (up - lo)).length = shape.length := List.length_set _ _ _
  have hps : ∀ t, positive_start_at rs ⟨(a : Int), lo, up, shape.getD a 0⟩ start_attr
      (shape.set a (up - lo)) t = rs (start_attr.getD t 0) (shape.getD t 0) := by
    intro t
    unfold positive_start_at
    rw [normalize_extent_shard]
  have hpe : ∀ t, positive_stop_at re ⟨(a : Int), lo, up, shape.getD a 0⟩ stop_attr
      (shape.set a (up - lo)) t = re (stop_attr.getD t 0) (shape.getD t 0) := by
    intro t
    unfold positive_stop_at
    rw [normalize_extent_shard]
  have hxa : (shape.set a (up - lo)).getD a 0 = up - lo := by
    rw [getD_set_int]; simp [ha]
  have hxt : ∀ t, t ≠ a → (shape.set a (up - lo)).getD t 0 = shape.getD t 0 := by
    intro t ht
    rw [getD_set_int]
    have : ¬ (a = t) := fun h => ht h.symm
    simp [this]
  obtain ⟨out, hout, hspec⟩ := LogicalSliceKernel_Compute_exact_spec rs re
    ⟨(a : Int), lo, up, shape.getD a 0⟩ start_attr stop_attr step_attr (shape.set a (up - lo))
    y_shape (shard_buffer shape a lo up x) y0
    (by rw [hlen]; exact hrank) (by rw [hlen]; exact hy) (by rw [hlen]; exact hstart)
    (by rw [hlen]; exact hstop) (by rw [hlen]; exact hstep) (by rw [hlen]; exact hpos) hlu
    (Or.inr ⟨a, by rw [hlen]; exact ha, rfl, hxa⟩)
    (by
      intro t ht
      rw [hlen] at ht
      rw [hps, hpe]
      exact hdim t ht)
    fuel hfuel
  refine ⟨out, hout, ?_⟩
  intro p hp0 hp
  obtain ⟨hs1, hs2⟩ := hspec p hp0 hp
  rw [hlen] at hs1 hs2
  simp only [hps] at hs1 hs2
  have hJ := output_index_bounds shape.length (fun t => y_shape.getD t 0)
    (fun t => rs (start_attr.getD t 0) (shape.getD t 0))
    (fun t => re (stop_attr.getD t 0) (shape.getD t 0)) (fun t => step_attr.getD t 0) p
    hpos hdim hp0 (by rw [← hy, ← prod_eq_prod_upto]; exact hp)
  -- the range condition only binds on the split axis
  have hiff : (∀ t, t < shape.length →
        start_in_full_small ⟨(a : Int), lo, up, shape.getD a 0⟩ t
            (rs (start_attr.getD t 0) (shape.getD t 0)) (step_attr.getD t 0)
            (y_shape.getD t 0)
          ≤ nd_index_fn shape.length (fun t => y_shape.getD t 0) p t ∧
        nd_index_fn shape.length (fun t => y_shape.getD t 0) p t
          < stop_in_full_small ⟨(a : Int), lo, up, shape.getD a 0⟩ t
              (rs (start_attr.getD t 0) (shape.getD t 0)) (step_attr.getD t 0)
              (y_shape.getD t 0))
      ↔ (min (max (GetSizeInSlice (rs (start_attr.getD a 0) (shape.getD a 0)) lo
            (step_attr.getD a 0)) 0) (y_shape.getD a 0)
          ≤ nd_index_fn shape.length (fun t => y_shape.getD t 0) p a ∧
        nd_index_fn shape.length (fun t => y_shape.getD t 0) p a
          < min (max (GetSizeInSlice (rs (start_attr.getD a 0) (shape.getD a 0)) up
              (step_attr.getD a 0)) 0) (y_shape.getD a 0)) := by
    constructor
    · intro h
      have := h a ha
      simpa [start_in_full_small, stop_in_full_small] using this
    · intro h t ht
      by_cases hta : t = a
      · subst hta
        simpa [start_in_full_small, stop_in_full_small] using h
      · have hne : ¬ ((t : Int) = (a : Int)) := fun h' => hta (by exact_mod_cast h')
        simp only [start_in_full_small, stop_in_full_small, hne, if_false]
        exact ⟨(hJ t ht).1, (hJ t ht).2.1⟩
  constructor
  · intro hin
    rw [hs1 (hiff.mpr hin)]
    -- the index read in the shard is in bounds
    have hk0 : 0 ≤ nd_index_fn shape.length (fun t => y_shape.getD t 0) p a
        - min (max (GetSizeInSlice (rs (start_attr.getD a 0) (shape.getD a 0)) lo
            (step_attr.getD a 0)) 0) (y_shape.getD a 0) := by omega
    have hk1 : nd_index_fn shape.length (fun t => y_shape.getD t 0) p a
        - min (max (GetSizeInSlice (rs (start_attr.getD a 0) (shape.getD a 0)) lo
            (step_attr.getD a 0)) 0) (y_shape.getD a 0)
        < min (max (GetSizeInSlice (rs (start_attr.getD a 0) (shape.getD a 0)) up
              (step_attr.getD a 0)) 0) (y_shape.getD a 0)
          - min (max (GetSizeInSlice (rs (start_attr.getD a 0) (shape.getD a 0)) lo
            (step_attr.getD a 0)) 0) (y_shape.getD a 0) := by omega
    have hpair := split_axis_pairing lo up (rs (start_attr.getD a 0) (shape.getD a 0))
      (step_attr.getD a 0) (y_shape.getD a 0) _ (hpos a ha) hk0 hk1
    have hsel := (split_axis_selection lo up (rs (start_attr.getD a 0) (shape.getD a 0))
      (re (stop_attr.getD a 0) (shape.getD a 0)) (step_attr.getD a 0)
      (lo + (min (max (if rs (start_attr.getD a 0) (shape.getD a 0) < lo then
          advanced_start lo (rs (start_attr.getD a 0) (shape.getD a 0)) (step_attr.getD a 0)
        else rs (start_attr.getD a 0) (shape.getD a 0)) lo) up - lo)
        + (nd_index_fn shape.length (fun t => y_shape.getD t 0) p a
          - min (max (GetSizeInSlice (rs (start_attr.getD a 0) (shape.getD a 0)) lo
            (step_attr.getD a 0)) 0) (y_shape.getD a 0)) * step_attr.getD a 0)
      (hpos a ha)).mp ⟨_, hk0, by
        rw [split_axis_size_eq lo up _ _ _ (hpos a ha) hlu, ← hdim a ha]
        exact hk1, rfl⟩
    obtain ⟨m, -, -, -, hsel_lo, hsel_up⟩ := hsel
    have hI : ∀ t, t < shape.length →
        0 ≤ start_in_splitted_large ⟨(a : Int), lo, up, shape.getD a 0⟩ t
              (rs (start_attr.getD t 0) (shape.getD t 0)) (step_attr.getD t 0)
            + step_attr.getD t 0
              * (nd_index_fn shape.length (fun t => y_shape.getD t 0) p t
                - start_in_full_small ⟨(a : Int), lo, up, shape.getD a 0⟩ t
                    (rs (start_attr.getD t 0) (shape.getD t 0)) (step_attr.getD t 0)
                    (y_shape.getD t 0)) ∧
        start_in_splitted_large ⟨(a : Int), lo, up, shape.getD a 0⟩ t
              (rs (start_attr.getD t 0) (shape.getD t 0)) (step_attr.getD t 0)
            + step_attr.getD t 0
              * (nd_index_fn shape.length (fun t => y_shape.getD t 0) p t
                - start_in_full_small ⟨(a : Int), lo, up, shape.getD a 0⟩ t
                    (rs (start_attr.getD t 0) (shape.getD t 0)) (step_attr.getD t 0)
                    (y_shape.getD t 0))
          < (shape.set a (up - lo)).getD t 0 := by
      intro t ht
      by_cases hta : t = a
      · subst hta
        rw [hxa]
        simp only [start_in_splitted_large, start_in_full_small, if_true]
        rw [mul_comm (step_attr.getD t 0)]
        constructor <;> omega
      · have hne : ¬ ((t : Int) = (a : Int)) := fun h' => hta (by exact_mod_cast h')
        rw [hxt t hta]
        simp only [start_in_splitted_large, start_in_full_small, hne, if_false, sub_zero]
        obtain ⟨j0, -, j2⟩ := hJ t ht
        beta_reduce at j2
        obtain ⟨n0, n1⟩ := hnorm t ht hta
        have : 0 ≤ step_attr.getD t 0
            * nd_index_fn shape.length (fun t => y_shape.getD t 0) p t :=
          mul_nonneg (le_of_lt (hpos t ht)) j0
        rw [mul_comm] at j2
        constructor <;> omega
    rw [shard_buffer_at shape a lo up x _ hI]
    congr 1
    apply nd_offset_fn_congr _ _ _ _ _ (fun _ _ => rfl)
    intro t ht
    by_cases hta : t = a
    · subst hta
      simp only [start_in_splitted_large, start_in_full_small, if_true]
      rw [mul_comm (step_attr.getD t 0)]
      linear_combination hpair
    · have hne : ¬ ((t : Int) = (a : Int)) := fun h' => hta (by exact_mod_cast h')
      simp only [start_in_splitted_large, start_in_full_small, hne, hta, if_false, sub_zero]
  · intro hnot
    exact hs2 (fun h => hnot (hiff.mp h))

/-- The logical slice kernel over the integers on a single process (no split): every output position
receives the element of `x` at index `start + step * J`. -/
theorem logical_slice_single_process {α : Type} [Zero α] (rs re : Int → Int → Int)
    (start_attr stop_attr step_attr shape y_shape : List Int) (x y0 : Int → α)
    (hrank : shape.length ≤ kSliceMaxDims) (hy : y_shape.length = shape.length)
    (hstart : start_attr.length = shape.length) (hstop : stop_attr.length = shape.length)
    (hstep : step_attr.length = shape.length)
    (hpos : ∀ t, t < shape.length → 0 < step_attr.getD t 0)
    (hdim : ∀ t, t < shape.length →
      y_shape.getD t 0
        = GetSizeInSlice (rs (start_attr.getD t 0) (shape.getD t 0))
            (re (stop_attr.getD t 0) (shape.getD t 0)) (step_attr.getD t 0))
    (fuel : Nat) (hfuel : y_shape.prod.toNat ≤ fuel) :
    ∃ out, LogicalSliceKernel_Compute_exact rs re fuel ⟨SPLIT_AXIS_FOR_NON_SPLIT, 0, 0, 0⟩
        start_attr stop_attr step_attr shape y_shape x y0 = .ok (some out) ∧
      ∀ p, 0 ≤ p → p < y_shape.prod →
        out p = x (nd_offset_fn shape.length (fun t => shape.getD t 0)
          (fun t => rs (start_attr.getD t 0) (shape.getD t 0)
            + step_attr.getD t 0
              * nd_index_fn shape.length (fun t => y_shape.getD t 0) p t)) := by
  have hne : ∀ t : Nat, ¬ ((t : Int) = SPLIT_AXIS_FOR_NON_SPLIT) := by
    intro t h
    unfold SPLIT_AXIS_FOR_NON_SPLIT at h
    have := Int.ofNat_nonneg t
    omega
  have hps : ∀ t, positive_start_at rs ⟨SPLIT_AXIS_FOR_NON_SPLIT, 0, 0, 0⟩ start_attr shape t
      = rs (start_attr.getD t 0) (shape.getD t 0) := by
    intro t
    simp only [positive_start_at, normalize_extent, hne t, if_false]
  have hpe : ∀ t, positive_stop_at re ⟨SPLIT_AXIS_FOR_NON_SPLIT, 0, 0, 0⟩ stop_attr shape t
      = re (stop_attr.getD t 0) (shape.getD t 0) := by
    intro t
    simp only [positive_stop_at, normalize_extent, hne t, if_false]
  obtain ⟨out, hout, hspec⟩ := LogicalSliceKernel_Compute_exact_spec rs re
    ⟨SPLIT_AXIS_FOR_NON_SPLIT, 0, 0, 0⟩ start_attr stop_attr step_attr shape y_shape x y0
    hrank hy hstart hstop hstep hpos (le_refl 0) (Or.inl rfl)
    (by
      intro t ht
      rw [hps, hpe]
      exact hdim t ht)
    fuel hfuel
  refine ⟨out, hout, ?_⟩
  intro p hp0 hp
  obtain ⟨hs1, -⟩ := hspec p hp0 hp
  simp only [hps] at hs1
  have hJ := output_index_bounds shape.length (fun t => y_shape.getD t 0)
    (fun t => rs (start_attr.getD t 0) (shape.getD t 0))
    (fun t => re (stop_attr.getD t 0) (shape.getD t 0)) (fun t => step_attr.getD t 0) p
    hpos hdim hp0 (by rw [← hy, ← prod_eq_prod_upto]; exact hp)
  rw [hs1 (by
    intro t ht
    simp only [start_in_full_small, stop_in_full_small, hne t, if_false]
    exact ⟨(hJ t ht).1, (hJ t ht).2.1⟩)]
  congr 1
  apply nd_offset_fn_congr _ _ _ _ _ (fun _ _ => rfl)
  intro t _
  simp only [start_in_splitted_large, start_in_full_small, hne t, if_false, sub_zero]

/-- A value between the first and the last of a non-decreasing sequence of cut
points lies in exactly one cell. -/
theorem exists_unique_cell (g : Nat → Int) (N : Nat) (hmono : ∀ r, r < N → g r ≤ g (r + 1))
    (v : Int) (h0 : g 0 ≤ v) (hN : v < g N) :
    ∃ r, r < N ∧ (g r ≤ v ∧ v < g (r + 1)) ∧
      ∀ r', r' < N → g r' ≤ v → v < g (r' + 1) → r' = r := by
  have hle : ∀ k r, r + k ≤ N → g r ≤ g (r + k) := by
    intro k
    induction k with
    | zero => intro r _; exact le_refl _
    | succ k ih =>
      intro r hr
      exact le_trans (ih r (by omega)) (hmono (r + k) (by omega))
  have hex : ∀ M, M ≤ N → v < g M → ∃ r, r < M ∧ g r ≤ v ∧ v < g (r + 1) := by
    intro M
    induction M with
    | zero => intro _ h; omega
    | succ M ih =>
      intro hM h
      by_cases hv : v < g M
      · obtain ⟨r, hr, h1, h2⟩ := ih (by omega) hv
        exact ⟨r, by omega, h1, h2⟩
      · exact ⟨M, by omega, by omega, h⟩
  obtain ⟨r, hr, h1, h2⟩ := hex N (le_refl N) hN
  refine ⟨r, hr, ⟨h1, h2⟩, ?_⟩
  intro r' hr' h1' h2'
  rcases Nat.lt_trichotomy r' r with hlt | heq | hgt
  · have := hle (r - (r' + 1)) (r' + 1) (by omega)
    have e : r' + 1 + (r - (r' + 1)) = r := by omega
    rw [e] at this
    omega
  · exact heq
  · have := hle (r' - (r + 1)) (r + 1) (by omega)
    have e : r + 1 + (r' - (r + 1)) = r' := by omega
    rw [e] at this
    omega

/-- Sharding invariance of `logical_slice`, the statement of C5 for the kernel over
the integers, with which the code agrees below `2^31` elements. Let the logical tensor `x` of shape
`shape` be split on axis `a` into the contiguous shards `[lower r, upper r)`,
`r < N`, that partition `[0, shape[a])`, and let `(start, stop, step)` have positive
steps, normalised start and stop in `[0, shape[t]]`, and `y_shape` the shape of
the slice. Then `LogicalSliceKernel::Compute` (zero-fill of `y`, then `WriteSlice`
large to small) returns on every rank and on a single process; at every output
position at most one rank holds a non-zero value, the sum of the per-rank outputs
is the output of the single process, and that output is the element of `x` at
index `start + step * J`, `J` the index of the position. The copy loops are
modelled over the integers and run with `elem_cnt` of `y` iterations of fuel. -/
theorem logical_slice_sharding_invariance {α : Type} [AddCommMonoid α]
    (regulateStart regulateStop : Int → Int → Int) (N : Nat) (lower upper : Nat → Int)
    (a : Nat) (start_attr stop_attr step_attr shape y_shape : List Int)
    (x : Int → α) (y0 : Nat → Int → α) (y0_single : Int → α)
    (hN : 0 < N) (hfirst : lower 0 = 0)
    (hadj : ∀ r, r + 1 < N → upper r = lower (r + 1))
    (hlast : upper (N - 1) = shape.getD a 0)
    (hle : ∀ r, r < N → lower r ≤ upper r)
    (hrank : shape.length ≤ kSliceMaxDims) (ha : a < shape.length)
    (hy : y_shape.length = shape.length)
    (hstart : start_attr.length = shape.length) (hstop : stop_attr.length = shape.length)
    (hstep : step_attr.length = shape.length)
    (hpos : ∀ t, t < shape.length → 0 < step_attr.getD t 0)
    (hnorm : ∀ t, t < shape.length →
      0 ≤ regulateStart (start_attr.getD t 0) (shape.getD t 0) ∧
        regulateStop (stop_attr.getD t 0) (shape.getD t 0) ≤ shape.getD t 0)
    (hdim : ∀ t, t < shape.length →
      y_shape.getD t 0
        = GetSizeInSlice (regulateStart (start_attr.getD t 0) (shape.getD t 0))
            (regulateStop (stop_attr.getD t 0) (shape.getD t 0)) (step_attr.getD t 0)) :
    ∃ (out : Nat → Int → α) (single : Int → α),
      (∀ r, r < N →
        LogicalSliceKernel_Compute_exact regulateStart regulateStop y_shape.prod.toNat
          ⟨(a : Int), lower r, upper r, shape.getD a 0⟩ start_attr stop_attr step_attr
          (shape.set a (upper r - lower r)) y_shape
          (shard_buffer shape a (lower r) (upper r) x) (y0 r) = .ok (some (out r))) ∧
      LogicalSliceKernel_Compute_exact regulateStart regulateStop y_shape.prod.toNat
          ⟨SPLIT_AXIS_FOR_NON_SPLIT, 0, 0, 0⟩ start_attr stop_attr step_attr shape y_shape
          x y0_single = .ok (some single) ∧
      ∀ p, 0 ≤ p → p < y_shape.prod →
        (∀ r r', r < N → r' < N → out r p ≠ 0 → out r' p ≠ 0 → r = r') ∧
        Finset.sum (Finset.range N) (fun r => out r p) = single p ∧
        single p = x (NdIndexToOffset shape
          ((List.range shape.length).map
            (fun t => regulateStart (start_attr.getD t 0) (shape.getD t 0)
              + step_attr.getD t 0 * (OffsetToNdIndex y_shape p).getD t 0))) := by
  -- every rank and the single process
  have hA : ∀ r, r < N → ∃ out,
      LogicalSliceKernel_Compute_exact regulateStart regulateStop y_shape.prod.toNat
          ⟨(a : Int), lower r, upper r, shape.getD a 0⟩ start_attr stop_attr step_attr
          (shape.set a (upper r - lower r)) y_shape
          (shard_buffer shape a (lower r) (upper r) x) (y0 r) = .ok (some out) ∧
      ∀ p, 0 ≤ p → p < y_shape.prod →
        ((min (max (GetSizeInSlice (regulateStart (start_attr.getD a 0) (shape.getD a 0))
                (lower r) (step_attr.getD a 0)) 0) (y_shape.getD a 0)
              ≤ nd_index_fn shape.length (fun t => y_shape.getD t 0) p a ∧
            nd_index_fn shape.length (fun t => y_shape.getD t 0) p a
              < min (max (GetSizeInSlice (regulateStart (start_attr.getD a 0) (shape.getD a 0))
                  (upper r) (step_attr.getD a 0)) 0) (y_shape.getD a 0)) →
          out p = x (nd_offset_fn shape.length (fun t => shape.getD t 0)
            (fun t => regulateStart (start_attr.getD t 0) (shape.getD t 0)
              + step_attr.getD t 0
                * nd_index_fn shape.length (fun t => y_shape.getD t 0) p t))) ∧
        (¬ (min (max (GetSizeInSlice (regulateStart (start_attr.getD a 0) (shape.getD a 0))
                (lower r) (step_attr.getD a 0)) 0) (y_shape.getD a 0)
              ≤ nd_index_fn shape.length (fun t => y_shape.getD t 0) p a ∧
            nd_index_fn shape.length (fun t => y_shape.getD t 0) p a
              < min (max (GetSizeInSlice (regulateStart (start_attr.getD a 0) (shape.getD a 0))
                  (upper r) (step_attr.getD a 0)) 0) (y_shape.getD a 0)) →
          out p = 0) :=
    fun r hr => logical_slice_on_shard regulateStart regulateStop a (lower r) (upper r)
      start_attr stop_attr step_attr shape y_shape x (y0 r) hrank ha hy hstart hstop hstep hpos
      (hle r hr) (fun t ht _ => hnorm t ht) hdim _ (le_refl _)
  choose outf houtf hspecf using hA
  obtain ⟨single, hsingle, hsspec⟩ := logical_slice_single_process regulateStart regulateStop
    start_attr stop_attr step_attr shape y_shape x y0_single hrank hy hstart hstop hstep hpos
    hdim _ (le_refl _)
  refine ⟨fun r => if h : r < N then outf r h else fun _ => 0, single, ?_, hsingle, ?_⟩
  · intro r hr
    simp only [hr, dif_pos]
    exact houtf r hr
  intro p hp0 hp
  -- the cut points of the output on the split axis
  have hsa := hpos a ha
  have hJ := output_index_bounds shape.length (fun t => y_shape.getD t 0)
    (fun t => regulateStart (start_attr.getD t 0) (shape.getD t 0))
    (fun t => regulateStop (stop_attr.getD t 0) (shape.getD t 0)) (fun t => step_attr.getD t 0) p
    hpos hdim hp0 (by rw [← hy, ← prod_eq_prod_upto]; exact hp)
  obtain ⟨hJ0, hJ1, -⟩ := hJ a ha
  beta_reduce at hJ1
  have hmonof : ∀ e1 e2 : Int, e1 ≤ e2 →
      min (max (GetSizeInSlice (regulateStart (start_attr.getD a 0) (shape.getD a 0)) e1
          (step_attr.getD a 0)) 0) (y_shape.getD a 0)
        ≤ min (max (GetSizeInSlice (regulateStart (start_attr.getD a 0) (shape.getD a 0)) e2
          (step_attr.getD a 0)) 0) (y_shape.getD a 0) :=
    fun e1 e2 h => min_le_min (max_le_max (GetSizeInSlice_mono _ _ _ _ hsa h) (le_refl 0))
      (le_refl _)
  have hupper : ∀ r, r < N → upper r = (if r + 1 < N then lower (r + 1) else shape.getD a 0) := by
    intro r hr
    by_cases h : r + 1 < N
    · rw [if_pos h]; exact hadj r h
    · rw [if_neg h]
      have : r = N - 1 := by omega
      rw [this]; exact hlast
  obtain ⟨rs, hrs, ⟨hc1, hc2⟩, huniq⟩ := exists_unique_cell
    (fun r => min (max (GetSizeInSlice (regulateStart (start_attr.getD a 0) (shape.getD a 0))
      (if r < N then lower r else shape.getD a 0) (step_attr.getD a 0)) 0) (y_shape.getD a 0))
    N
    (fun r hr => by
      apply hmonof
      rw [if_pos hr, ← hupper r hr]
      exact hle r hr)
    (nd_index_fn shape.length (fun t => y_shape.getD t 0) p a)
    (by
      have hz : GetSizeInSlice (regulateStart (start_attr.getD a 0) (shape.getD a 0)) 0
          (step_attr.getD a 0) = 0 := by
        unfold GetSizeInSlice
        rw [if_pos (hnorm a ha).1]
      simp only [hN, if_true, hfirst, hz, max_self]
      exact le_trans (min_le_left _ _) hJ0)
    (by
      simp only [lt_irrefl, if_false]
      rw [max_eq_left (GetSizeInSlice_nonneg _ _ _ hsa), min_eq_right]
      · exact hJ1
      · rw [hdim a ha]
        exact GetSizeInSlice_mono _ _ _ _ hsa (hnorm a ha).2)
  -- the range condition of rank `r` is its cell
  have hcell : ∀ r, r < N →
      ((min (max (GetSizeInSlice (regulateStart (start_attr.getD a 0) (shape.getD a 0))
              (lower r) (step_attr.getD a 0)) 0) (y_shape.getD a 0)
            ≤ nd_index_fn shape.length (fun t => y_shape.getD t 0) p a ∧
          nd_index_fn shape.length (fun t => y_shape.getD t 0) p a
            < min (max (GetSizeInSlice (regulateStart (start_attr.getD a 0) (shape.getD a 0))
                (upper r) (step_attr.getD a 0)) 0) (y_shape.getD a 0)) ↔ r = rs) := by
    intro r hr
    constructor
    · rintro ⟨h1, h2⟩
      apply huniq r hr
      · rw [if_pos hr]; exact h1
      · rw [← hupper r hr]; exact h2
    · intro h
      subst h
      rw [if_pos hr] at hc1
      rw [← hupper r hr] at hc2
      exact ⟨hc1, hc2⟩
  have hval : ∀ r, (hr : r < N) → r ≠ rs → outf r hr p = 0 :=
    fun r hr hne => (hspecf r hr p hp0 hp).2 (fun h => hne ((hcell r hr).mp h))
  have hvals : outf rs hrs p = single p := by
    rw [(hspecf rs hrs p hp0 hp).1 ((hcell rs hrs).mpr rfl), hsspec p hp0 hp]
  refine ⟨?_, ?_, ?_⟩
  · intro r r' hr hr' h1 h2
    simp only [hr, hr', dif_pos] at h1 h2
    have e1 : r = rs := by
      by_contra hne
      exact h1 (hval r hr hne)
    have e2 : r' = rs := by
      by_contra hne
      exact h2 (hval r' hr' hne)
    rw [e1, e2]
  · rw [Finset.sum_eq_single rs]
    · simp only [hrs, dif_pos]
      exact hvals
    · intro r hr hne
      have hr' : r < N := Finset.mem_range.mp hr
      simp only [hr', dif_pos]
      exact hval r hr' hne
    · intro h
      exact absurd (Finset.mem_range.mpr hrs) h
  · rw [hsspec p hp0 hp]
    congr 1
    unfold nd_offset_fn nd_index_fn
    rw [map_range_getD, ← hy, map_range_getD]

theorem logical_slice_sharding_invariance_witness :
    ∃ (out : Nat → Int → Int) (single : Int → Int),
      (∀ r, r < 4 →
        LogicalSliceKernel_Compute_exact RegulateSliceStart RegulateSliceStop
          ([3, 2] : List Int).prod.toNat
          ⟨((0 : Nat) : Int), (fun r : Nat => 2 * (r : Int)) r,
            (fun r : Nat => 2 * (r : Int) + 2) r, ([8, 3] : List Int).getD 0 0⟩
          [1, 0] [7, 3] [2, 2]
          (([8, 3] : List Int).set 0
            ((fun r : Nat => 2 * (r : Int) + 2) r - (fun r : Nat => 2 * (r : Int)) r)) [3, 2]
          (shard_buffer [8, 3] 0 ((fun r : Nat => 2 * (r : Int)) r)
            ((fun r : Nat => 2 * (r : Int) + 2) r) (fun q => 100 + q))
          ((fun _ _ => 7) r) = .ok (some (out r))) ∧
      LogicalSliceKernel_Compute_exact RegulateSliceStart RegulateSliceStop
          ([3, 2] : List Int).prod.toNat ⟨SPLIT_AXIS_FOR_NON_SPLIT, 0, 0, 0⟩
          [1, 0] [7, 3] [2, 2] [8, 3] [3, 2] (fun q => 100 + q) (fun _ => 7)
          = .ok (some single) ∧
      ∀ p, 0 ≤ p → p < ([3, 2] : List Int).prod →
        (∀ r r', r < 4 → r' < 4 → out r p ≠ 0 → out r' p ≠ 0 → r = r') ∧
        Finset.sum (Finset.range 4) (fun r => out r p) = single p ∧
        single p = (fun q => 100 + q) (NdIndexToOffset [8, 3]
          ((List.range ([8, 3] : List Int).length).map
            (fun t => RegulateSliceStart (([1, 0] : List Int).getD t 0)
                (([8, 3] : List Int).getD t 0)
              + ([2, 2] : List Int).getD t 0 * (OffsetToNdIndex [3, 2] p).getD t 0))) :=
  logical_slice_sharding_invariance RegulateSliceStart RegulateSliceStop 4
    (fun r => 2 * (r : Int)) (fun r => 2 * (r : Int) + 2) 0 [1, 0] [7, 3] [2, 2] [8, 3] [3, 2]
    (fun q => 100 + q) (fun _ _ => 7) (fun _ => 7)
    (by decide) (by decide) (by intro r _; push_cast; ring) (by decide)
    (by intro r _; push_cast; omega) (by decide) (by decide) rfl rfl rfl rfl
    (by
      intro t ht
      have h2 : t = 0 ∨ t = 1 := by
        have : t < 2 := by simpa using ht
        omega
      rcases h2 with rfl | rfl <;> decide)
    (by
      intro t ht
      have h2 : t = 0 ∨ t = 1 := by
        have : t < 2 := by simpa using ht
        omega
      rcases h2 with rfl | rfl <;> decide)
    (by
      intro t ht
      have h2 : t = 0 ∨ t = 1 := by
        have : t < 2 := by simpa using ht
        omega
      rcases h2 with rfl | rfl <;> decide)

/-! ## The scalar pick, the concrete scenario and the rank of the parameter blocks -/

/-- C11. Scalar pick: for a rank-1 input of extent `d` and a 0-rank output, and for
every start `s`, stop and step `st`, `ConstructSliceParams` returns one parameter
block `p`, the same for every stop, with `ndim = 1`, `dims[0] = d`,
`start[0] = RegulateSliceStart(s, d)`, `step[0] = st`, `size[0] = 1` and
`elem_cnt = 1`. -/
theorem scalar_pick_params (regulateStart regulateStop : Int → Int → Int) (d s st : Int) :
    ∃ p : SliceParams,
      (∀ stop : Int,
        ConstructSliceParams regulateStart regulateStop [s] [stop] [st] [d] [] = .ok p) ∧
      p.ndim = 1 ∧ p.dims.getD 0 0 = d ∧ p.start.getD 0 0 = regulateStart s d ∧
      p.step.getD 0 0 = st ∧ p.size.getD 0 0 = 1 ∧ p.elem_cnt = 1 := by
  refine ⟨({ SliceParams.zeroed with ndim := 1 }).setAxis 0 d (regulateStart s d) st 1,
    ?_, ?_, ?_, ?_, ?_, ?_, ?_⟩
  · intro stop
    simp [ConstructSliceParams, kSliceMaxDims]
  all_goals rfl

/-- C14. Concrete scenario: logical shape `(8,)` split on axis 0 over 4 workers
with the shard ranges `[0,2)`, `[2,4)`, `[4,6)`, `[6,8)`, attributes `start = [1]`,
`stop = [7]`, `step = [2]`, small extent 3. `ConstructSliceParamsLarge` gives the
local `(start, size)` = `(1, 1)` on the workers 0, 1, 2 and size 0 on worker 3;
`ConstructSliceParamsSmall` gives the output ranges `[0,1)`, `[1,2)`, `[2,3)` and
the empty range `[3,3)`; the global indices of the workers 0, 1, 2 are 1, 3, 5. -/
theorem concrete_scenario_split_over_four_workers :
    ((List.range 4).map (fun r : Nat =>
        (ConstructSliceParamsLarge ⟨0, 2 * r, 2 * r + 2, 8⟩ [1] [7] [2] [2]).map
          (fun p => (p.start.getD 0 0, p.size.getD 0 0)))
      = [.ok (1, 1), .ok (1, 1), .ok (1, 1), .ok (1, 0)]) ∧
    ((List.range 4).map (fun r : Nat =>
        (ConstructSliceParamsSmall ⟨0, 2 * r, 2 * r + 2, 8⟩ [1] [7] [2] [3]).map
          (fun p => (p.start.getD 0 0, p.start.getD 0 0 + p.size.getD 0 0)))
      = [.ok (0, 1), .ok (1, 2), .ok (2, 3), .ok (3, 3)]) ∧
    ((List.range 3).map (fun r : Nat =>
        (ConstructSliceParamsLarge ⟨0, 2 * r, 2 * r + 2, 8⟩ [1] [7] [2] [2]).map
          (fun p => 2 * (r : Int) + p.start.getD 0 0))
      = [.ok 1, .ok 3, .ok 5]) := by
  refine ⟨?_, ?_, ?_⟩ <;> decide

/-- A parameter block of `ConstructSliceParamsLarge` has only positive steps. -/
theorem ConstructSliceParamsLarge_pos (ctx : SliceContext)
    (start_vec stop_vec step_vec shape : List Int) (L : SliceParams)
    (h : ConstructSliceParamsLarge ctx start_vec stop_vec step_vec shape = .ok L) :
    ∀ i, i < shape.length → 0 < step_vec.getD i 0 := by
  obtain ⟨h1, h2, h3, h4⟩ := ConstructSliceParamsLarge_inv _ _ _ _ _ _ h
  unfold ConstructSliceParamsLarge at h
  simp only [h1, h2, h3, h4, not_true_eq_false, ne_eq, if_false] at h
  intro i hi
  obtain ⟨s1, s2, hb⟩ := FOR_RANGE_ok_inv _ _ _ L h i hi
  by_contra hneg
  simp only [ConstructSliceParamsLarge_body, gt_iff_lt, hneg, not_false_eq_true, if_true,
    reduceCtorEq] at hb

/-- A parameter block of `ConstructSliceParamsSmall` comes from positive steps. -/
theorem ConstructSliceParamsSmall_pos (ctx : SliceContext)
    (start_vec stop_vec step_vec shape : List Int) (S : SliceParams)
    (h : ConstructSliceParamsSmall ctx start_vec stop_vec step_vec shape = .ok S) :
    ∀ i, i < shape.length → 0 < step_vec.getD i 0 := by
  obtain ⟨h1, h2, h3, h4⟩ := ConstructSliceParamsSmall_inv _ _ _ _ _ _ h
  unfold ConstructSliceParamsSmall at h
  simp only [h1, h2, h3, h4, not_true_eq_false, ne_eq, if_false] at h
  intro i hi
  obtain ⟨s1, s2, hb⟩ := FOR_RANGE_ok_inv _ _ _ S h i hi
  by_contra hneg
  simp only [ConstructSliceParamsSmall_body, gt_iff_lt, hneg, not_false_eq_true, if_true,
    reduceCtorEq] at hb

/-- The fields of a parameter block returned by `ConstructSliceParamsLarge`. -/
theorem ConstructSliceParamsLarge_fields (ctx : SliceContext)
    (start_vec stop_vec step_vec shape : List Int) (L : SliceParams)
    (h : ConstructSliceParamsLarge ctx start_vec stop_vec step_vec shape = .ok L) :
    shape.length ≤ kSliceMaxDims ∧ L.ndim = shape.length ∧
      ∀ i, i < shape.length →
        0 < step_vec.getD i 0 ∧
        L.dims.getD i 0 = shape.getD i 0 ∧
        L.start.getD i 0
          = start_in_splitted_large ctx i (start_vec.getD i 0) (step_vec.getD i 0) ∧
        L.step.getD i 0 = step_vec.getD i 0 ∧
        L.size.getD i 0
          = GetSizeInSlice
              (start_in_splitted_large ctx i (start_vec.getD i 0) (step_vec.getD i 0))
              (stop_in_splitted_large ctx i (stop_vec.getD i 0)) (step_vec.getD i 0) := by
  obtain ⟨h1, h2, h3, h4⟩ := ConstructSliceParamsLarge_inv _ _ _ _ _ _ h
  have hpos := ConstructSliceParamsLarge_pos _ _ _ _ _ _ h
  obtain ⟨L', hL', hn, hget⟩ :=
    ConstructSliceParamsLarge_ok ctx start_vec stop_vec step_vec shape h1 h2 h3 h4 hpos
  rw [h] at hL'
  injection hL' with hL'
  subst hL'
  exact ⟨h1, hn, fun i hi => ⟨hpos i hi, hget i hi⟩⟩

/-- The fields of a parameter block returned by `ConstructSliceParamsSmall`. -/
theorem ConstructSliceParamsSmall_fields (ctx : SliceContext)
    (start_vec stop_vec step_vec shape : List Int) (S : SliceParams)
    (h : ConstructSliceParamsSmall ctx start_vec stop_vec step_vec shape = .ok S) :
    shape.length ≤ kSliceMaxDims ∧ S.ndim = shape.length ∧
      ∀ i, i < shape.length →
        0 < step_vec.getD i 0 ∧
        S.dims.getD i 0 = shape.getD i 0 ∧
        S.start.getD i 0
          = start_in_full_small ctx i (start_vec.getD i 0) (step_vec.getD i 0)
              (shape.getD i 0) ∧
        S.step.getD i 0 = 1 ∧
        S.size.getD i 0
          = stop_in_full_small ctx i (start_vec.getD i 0) (step_vec.getD i 0) (shape.getD i 0)
            - start_in_full_small ctx i (start_vec.getD i 0) (step_vec.getD i 0)
                (shape.getD i 0) := by
  obtain ⟨h1, h2, h3, h4⟩ := ConstructSliceParamsSmall_inv _ _ _ _ _ _ h
  have hpos := ConstructSliceParamsSmall_pos _ _ _ _ _ _ h
  obtain ⟨S', hS', hn, hget⟩ :=
    ConstructSliceParamsSmall_ok ctx start_vec stop_vec step_vec shape h1 h2 h3 h4 hpos
  rw [h] at hS'
  injection hS' with hS'
  subst hS'
  exact ⟨h1, hn, fun i hi => ⟨hpos i hi, hget i hi⟩⟩

/-- The checks that `ConstructSliceParams` has passed when it returns: the rank
ceiling, the rank of the sliced tensor and the sizes of the three attributes. -/
theorem ConstructSliceParams_checks (rs re : Int → Int → Int)
    (start_vec stop_vec step_vec entire_shape sliced_shape : List Int) (p : SliceParams)
    (h : ConstructSliceParams rs re start_vec stop_vec step_vec entire_shape sliced_shape
      = .ok p) :
    entire_shape.length ≤ kSliceMaxDims ∧
      (if entire_shape.length = 1 then sliced_shape.length ≤ 1
       else sliced_shape.length = entire_shape.length) ∧
      start_vec.length = entire_shape.length ∧ stop_vec.length = entire_shape.length ∧
      step_vec.length = entire_shape.length := by
  unfold ConstructSliceParams at h
  by_cases h1 : entire_shape.length ≤ kSliceMaxDims
  swap
  · simp [h1] at h
  by_cases h2 : (if entire_shape.length = 1 then ¬ (sliced_shape.length ≤ 1)
      else ¬ (sliced_shape.length = entire_shape.length))
  · simp only [h1, not_true_eq_false, if_false, h2, if_true, reduceCtorEq] at h
  by_cases h3 : start_vec.length = entire_shape.length
  swap
  · simp only [h1, not_true_eq_false, if_false, h2, h3, ne_eq, not_false_eq_true, if_true,
      reduceCtorEq] at h
  by_cases h4 : stop_vec.length = entire_shape.length
  swap
  · simp only [h1, not_true_eq_false, if_false, h2, h3, h4, ne_eq, not_false_eq_true, if_true,
      reduceCtorEq] at h
  by_cases h5 : step_vec.length = entire_shape.length
  swap
  · simp only [h1, not_true_eq_false, if_false, h2, h3, h4, h5, ne_eq, not_false_eq_true,
      if_true, reduceCtorEq] at h
  refine ⟨h1, ?_, h3, h4, h5⟩
  by_cases hone : entire_shape.length = 1
  · simp only [hone, if_true] at h2 ⊢
    omega
  · simp only [hone, if_false] at h2 ⊢
    omega

/-- The parameter block of the scalar pick: rank-1 entire tensor, 0-rank sliced
tensor. -/
theorem ConstructSliceParams_scalar_pick (rs re : Int → Int → Int)
    (start_vec stop_vec step_vec entire_shape sliced_shape : List Int) (p : SliceParams)
    (hd : entire_shape.length = 1 ∧ sliced_shape.length = 0)
    (h : ConstructSliceParams rs re start_vec stop_vec step_vec entire_shape sliced_shape
      = .ok p) :
    p = ({ SliceParams.zeroed with ndim := 1 }).setAxis 0
      (entire_shape.getD 0 0) (rs (start_vec.getD 0 0) (entire_shape.getD 0 0))
      (step_vec.getD 0 0) 1 := by
  obtain ⟨c1, -, c3, c4, c5⟩ := ConstructSliceParams_checks _ _ _ _ _ _ _ _ h
  unfold ConstructSliceParams at h
  simp only [c1, c3, c4, c5, hd.1, hd.2, not_true_eq_false, ne_eq, if_false, if_true,
    and_self, Nat.zero_le, zero_le] at h
  injection h with h
  rw [← h]

/-- The rank of a parameter block returned by `ConstructSliceParams`. -/
theorem ConstructSliceParams_ndim (rs re : Int → Int → Int)
    (start_vec stop_vec step_vec entire_shape sliced_shape : List Int) (p : SliceParams)
    (h : ConstructSliceParams rs re start_vec stop_vec step_vec entire_shape sliced_shape
      = .ok p) :
    p.ndim = entire_shape.length ∧ entire_shape.length ≤ kSliceMaxDims := by
  have hc := ConstructSliceParams_checks _ _ _ _ _ _ _ _ h
  refine ⟨?_, hc.1⟩
  by_cases hd : entire_shape.length = 1 ∧ sliced_shape.length = 0
  · rw [ConstructSliceParams_scalar_pick _ _ _ _ _ _ _ _ hd h, hd.1]
    rfl
  · exact (ConstructSliceParams_ok_inv _ _ _ _ _ _ _ _ hd h).2.1

/-- C17, counterexample. A tensor of rank 0 with empty attributes is turned into a
parameter block by each of the three builders, and the block has `ndim = 0`. -/
theorem rank_zero_yields_ndim_zero :
    ConstructSliceParams RegulateSliceStart RegulateSliceStop [] [] [] [] []
        = .ok { SliceParams.zeroed with ndim := 0 } ∧
      ConstructSliceParamsLarge ⟨SPLIT_AXIS_FOR_NON_SPLIT, 0, 0, 0⟩ [] [] [] []
        = .ok { SliceParams.zeroed with ndim := 0 } ∧
      ConstructSliceParamsSmall ⟨SPLIT_AXIS_FOR_NON_SPLIT, 0, 0, 0⟩ [] [] [] []
        = .ok { SliceParams.zeroed with ndim := 0 } ∧
      ¬ (1 ≤ ({ SliceParams.zeroed with ndim := 0 } : SliceParams).ndim) := by
  refine ⟨?_, ?_, ?_, ?_⟩ <;> decide

/-- C17, as amended. Every parameter block returned by `ConstructSliceParams`,
`ConstructSliceParamsLarge` or `ConstructSliceParamsSmall` has `ndim` equal to the
rank of the tensor it is built for, and `ndim ≤ kSliceMaxDims`: a tensor of rank
above the ceiling is never turned into a parameter block, and `1 ≤ ndim` holds
exactly when the tensor has rank at least 1. -/
theorem rank_invariant (regulateStart regulateStop : Int → Int → Int) (ctx : SliceContext)
    (start_vec stop_vec step_vec shape sliced_shape : List Int) (p : SliceParams)
    (h : ConstructSliceParams regulateStart regulateStop start_vec stop_vec step_vec shape
          sliced_shape = .ok p ∨
      ConstructSliceParamsLarge ctx start_vec stop_vec step_vec shape = .ok p ∨
      ConstructSliceParamsSmall ctx start_vec stop_vec step_vec shape = .ok p) :
    p.ndim = shape.length ∧ p.ndim ≤ kSliceMaxDims ∧ (1 ≤ p.ndim ↔ 1 ≤ shape.length) := by
  have key : p.ndim = shape.length ∧ shape.length ≤ kSliceMaxDims := by
    rcases h with h | h | h
    · exact ConstructSliceParams_ndim _ _ _ _ _ _ _ _ h
    · obtain ⟨h1, h2, -⟩ := ConstructSliceParamsLarge_fields _ _ _ _ _ _ h
      exact ⟨h2, h1⟩
    · obtain ⟨h1, h2, -⟩ := ConstructSliceParamsSmall_fields _ _ _ _ _ _ h
      exact ⟨h2, h1⟩
  refine ⟨key.1, ?_, ?_⟩
  · rw [key.1]; exact key.2
  · rw [key.1]

theorem rank_invariant_witness :
    (ConstructSliceParams RegulateSliceStart RegulateSliceStop [1, 0] [3, 2] [1, 1] [4, 2]
          [2, 2] = .ok ⟨2, [4, 2, 0, 0, 0, 0, 0, 0], [1, 0, 0, 0, 0, 0, 0, 0],
            [1, 1, 0, 0, 0, 0, 0, 0], [2, 2, 0, 0, 0, 0, 0, 0]⟩ ∨
      ConstructSliceParamsLarge ⟨0, 0, 4, 8⟩ [1, 0] [3, 2] [1, 1] [4, 2]
          = .ok ⟨2, [4, 2, 0, 0, 0, 0, 0, 0], [1, 0, 0, 0, 0, 0, 0, 0],
            [1, 1, 0, 0, 0, 0, 0, 0], [2, 2, 0, 0, 0, 0, 0, 0]⟩ ∨
      ConstructSliceParamsSmall ⟨0, 0, 4, 8⟩ [1, 0] [3, 2] [1, 1] [4, 2]
          = .ok ⟨2, [4, 2, 0, 0, 0, 0, 0, 0], [1, 0, 0, 0, 0, 0, 0, 0],
            [1, 1, 0, 0, 0, 0, 0, 0], [2, 2, 0, 0, 0, 0, 0, 0]⟩) ∧
    ((⟨2, [4, 2, 0, 0, 0, 0, 0, 0], [1, 0, 0, 0, 0, 0, 0, 0],
        [1, 1, 0, 0, 0, 0, 0, 0], [2, 2, 0, 0, 0, 0, 0, 0]⟩ : SliceParams).ndim
        = ([4, 2] : List Int).length ∧
      (⟨2, [4, 2, 0, 0, 0, 0, 0, 0], [1, 0, 0, 0, 0, 0, 0, 0],
        [1, 1, 0, 0, 0, 0, 0, 0], [2, 2, 0, 0, 0, 0, 0, 0]⟩ : SliceParams).ndim ≤ kSliceMaxDims ∧
      (1 ≤ (⟨2, [4, 2, 0, 0, 0, 0, 0, 0], [1, 0, 0, 0, 0, 0, 0, 0],
        [1, 1, 0, 0, 0, 0, 0, 0], [2, 2, 0, 0, 0, 0, 0, 0]⟩ : SliceParams).ndim
        ↔ 1 ≤ ([4, 2] : List Int).length)) :=
  ⟨Or.inl (by decide),
    rank_invariant RegulateSliceStart RegulateSliceStop ⟨0, 0, 4, 8⟩ [1, 0] [3, 2] [1, 1] [4, 2]
      [2, 2] _ (Or.inl (by decide))⟩

/-! ## The resolution of the `SliceContext` -/

/-- The test of the `CHECK` of `CreateSliceCache` fails on an annotation with a
split entry. -/
theorem all_broadcast_false_of_split (in_nd_sbp : List SbpParallel)
    (h : ∃ sbp, sbp ∈ in_nd_sbp ∧ sbp.has_split_parallel = true) :
    in_nd_sbp.all (fun sbp => sbp.has_broadcast_parallel || sbp.has_partial_sum_parallel)
      = false := by
  obtain ⟨sbp, hmem, hsplit⟩ := h
  rw [← Bool.not_eq_true, List.all_eq_true]
  intro hall
  have := hall sbp hmem
  cases sbp <;> simp [SbpParallel.has_split_parallel, SbpParallel.has_broadcast_parallel,
    SbpParallel.has_partial_sum_parallel] at hsplit this

/-- The test of the `CHECK` of `CreateSliceCache` holds on an annotation of
broadcast and partial-sum entries. -/
theorem all_broadcast_true (in_nd_sbp : List SbpParallel)
    (h : ∀ sbp, sbp ∈ in_nd_sbp →
      sbp = SbpParallel.broadcast_parallel ∨ sbp = SbpParallel.partial_sum_parallel) :
    in_nd_sbp.all (fun sbp => sbp.has_broadcast_parallel || sbp.has_partial_sum_parallel)
      = true := by
  rw [List.all_eq_true]
  intro sbp hmem
  rcases h sbp hmem with rfl | rfl <;> rfl

/-- C18, counterexample. With group size 2 and the annotation `[Split(0), Broadcast]`,
in which exactly one entry is a split and the other is a broadcast,
`CreateSliceCache` aborts on its `CHECK` and returns no `SliceContext`. -/
theorem split_entry_among_several_aborts :
    CreateSliceCache BalancedSplitter_At 2 0
        [SbpParallel.split_parallel 0, SbpParallel.broadcast_parallel] [8]
      = .error CheckFailure.nd_sbp_not_broadcast := by
  decide

/-- C18, as amended. For every group size above 1, every rank and the annotation that
consists of the single entry `Split(a)`, with `a` an axis of the logical shape,
`CreateSliceCache` returns the `SliceContext` with `split_axis = a`, `[lower, upper)`
the range of this rank in the balanced split of the logical extent on axis `a` into
group-size parts, and `logical_length` that extent. On an annotation of more than
one entry with a split entry it aborts. -/
theorem single_split_entry_resolves_to_partition_range
    (balanced_range : Int → Int → Int → Int × Int) (parallel_num parallel_id : Int)
    (logical_shape : List Int) (a : Int) (hnum : 1 < parallel_num) (ha0 : 0 ≤ a)
    (ha : a < logical_shape.length) :
    CreateSliceCache balanced_range parallel_num parallel_id [SbpParallel.split_parallel a]
        logical_shape
      = .ok ⟨a, (balanced_range (logical_shape.getD a.toNat 0) parallel_num parallel_id).1,
          (balanced_range (logical_shape.getD a.toNat 0) parallel_num parallel_id).2,
          logical_shape.getD a.toNat 0⟩ ∧
    ∀ in_nd_sbp : List SbpParallel, 1 < in_nd_sbp.length →
      (∃ sbp, sbp ∈ in_nd_sbp ∧ sbp.has_split_parallel = true) →
      CreateSliceCache balanced_range parallel_num parallel_id in_nd_sbp logical_shape
        = .error CheckFailure.nd_sbp_not_broadcast := by
  have h1 : ¬ parallel_num = 1 := by omega
  constructor
  · simp [CreateSliceCache, h1, SbpParallel.has_split_parallel, SbpParallel.axis,
      ShapeView_At, ha0, ha]
  · intro in_nd_sbp hlen hsplit
    unfold CreateSliceCache
    rw [if_neg h1, if_pos hlen, all_broadcast_false_of_split in_nd_sbp hsplit]
    rfl

theorem single_split_entry_resolves_to_partition_range_witness :
    ((1 : Int) < 4 ∧ (0 : Int) ≤ 0 ∧ (0 : Int) < ([8] : List Int).length) ∧
    (CreateSliceCache BalancedSplitter_At 4 1 [SbpParallel.split_parallel 0] [8]
        = .ok ⟨0, (BalancedSplitter_At (([8] : List Int).getD (0 : Int).toNat 0) 4 1).1,
            (BalancedSplitter_At (([8] : List Int).getD (0 : Int).toNat 0) 4 1).2,
            ([8] : List Int).getD (0 : Int).toNat 0⟩ ∧
      ∀ in_nd_sbp : List SbpParallel, 1 < in_nd_sbp.length →
        (∃ sbp, sbp ∈ in_nd_sbp ∧ sbp.has_split_parallel = true) →
        CreateSliceCache BalancedSplitter_At 4 1 in_nd_sbp [8]
          = .error CheckFailure.nd_sbp_not_broadcast) ∧
    CreateSliceCache BalancedSplitter_At 4 1 [SbpParallel.split_parallel 0] [8]
      = .ok ⟨0, 2, 4, 8⟩ :=
  ⟨⟨by decide, by decide, by decide⟩,
    single_split_entry_resolves_to_partition_range BalancedSplitter_At 4 1 [8] 0
      (by decide) (by decide) (by decide),
    by decide⟩

/-- C19. Group size 1 means no split: with `parallel_num == 1`, for every rank,
every annotation (the empty one and those with unset or several split entries
among them) and every logical shape, `CreateSliceCache` returns
`SliceContext(SPLIT_AXIS_FOR_NON_SPLIT, 0, 0, 0)` and does not abort. -/
theorem group_size_one_means_no_split (balanced_range : Int → Int → Int → Int × Int)
    (parallel_id : Int) (in_nd_sbp : List SbpParallel) (logical_shape : List Int) :
    CreateSliceCache balanced_range 1 parallel_id in_nd_sbp logical_shape
      = .ok ⟨SPLIT_AXIS_FOR_NON_SPLIT, 0, 0, 0⟩ := by
  simp [CreateSliceCache]

/-- C20. All broadcast or partial sum means no split: for every group size above 1
and every annotation of at least one entry whose entries are all `Broadcast` or
`PartialSum`, `CreateSliceCache` returns the `SliceContext` with
`split_axis = SPLIT_AXIS_FOR_NON_SPLIT` (and the three other fields 0). -/
theorem all_broadcast_or_partial_sum_means_no_split
    (balanced_range : Int → Int → Int → Int × Int) (parallel_num parallel_id : Int)
    (in_nd_sbp : List SbpParallel) (logical_shape : List Int) (hnum : 1 < parallel_num)
    (hlen : 1 ≤ in_nd_sbp.length)
    (hall : ∀ sbp, sbp ∈ in_nd_sbp →
      sbp = SbpParallel.broadcast_parallel ∨ sbp = SbpParallel.partial_sum_parallel) :
    CreateSliceCache balanced_range parallel_num parallel_id in_nd_sbp logical_shape
      = .ok ⟨SPLIT_AXIS_FOR_NON_SPLIT, 0, 0, 0⟩ := by
  have h1 : ¬ parallel_num = 1 := by omega
  unfold CreateSliceCache
  rw [if_neg h1]
  by_cases hgt : in_nd_sbp.length > 1
  · rw [if_pos hgt, all_broadcast_true in_nd_sbp hall]
    rfl
  · rw [if_neg hgt]
    cases in_nd_sbp with
    | nil => simp at hlen
    | cons in_sbp rest =>
      rcases hall in_sbp (List.mem_cons_self _ _) with rfl | rfl <;> rfl

theorem all_broadcast_or_partial_sum_means_no_split_witness :
    ((1 : Int) < 4 ∧
      1 ≤ [SbpParallel.broadcast_parallel, SbpParallel.partial_sum_parallel].length ∧
      ∀ sbp, sbp ∈ [SbpParallel.broadcast_parallel, SbpParallel.partial_sum_parallel] →
        sbp = SbpParallel.broadcast_parallel ∨ sbp = SbpParallel.partial_sum_parallel) ∧
    CreateSliceCache BalancedSplitter_At 4 3
        [SbpParallel.broadcast_parallel, SbpParallel.partial_sum_parallel] [8, 3]
      = .ok ⟨SPLIT_AXIS_FOR_NON_SPLIT, 0, 0, 0⟩ :=
  ⟨⟨by decide, by decide, by decide⟩,
    all_broadcast_or_partial_sum_means_no_split BalancedSplitter_At 4 3
      [SbpParallel.broadcast_parallel, SbpParallel.partial_sum_parallel] [8, 3]
      (by decide) (by decide) (by decide)⟩

/-! ## The size invariant -/

/-- A slice of `[start, end)` inside `[0, d]` has at most `d` elements. -/
theorem GetSizeInSlice_le (start end_ step d : Int) (hstep : 0 < step) (hs : 0 ≤ start)
    (he : end_ ≤ d) (hd : 0 ≤ d) : GetSizeInSlice start end_ step ≤ d := by
  unfold GetSizeInSlice
  split_ifs with h
  · exact hd
  · have h0 : 0 ≤ end_ - start - 1 := by omega
    rw [Int.tdiv_eq_ediv h0 (le_of_lt hstep)]
    have := Int.ediv_le_self step h0
    omega

/-- The cross-check of `ConstructSliceParams` bounds the size by the extent, when
the start is normalised into `[0, d)` and the stop into `[-1, d]`. -/
theorem size_le_dims_of_check (start stop step size d : Int) (h0 : step ≠ 0)
    (hc : if step > 0 then start + step * (size - 1) < stop
          else start + step * (size - 1) > stop)
    (hs0 : 0 ≤ start) (hs1 : start < d) (he0 : -1 ≤ stop) (he1 : stop ≤ d) :
    size ≤ d := by
  by_cases hsz : size ≤ 0
  · omega
  have hsz1 : 0 ≤ size - 1 := by omega
  by_cases hpos : step > 0
  · rw [if_pos hpos] at hc
    have : size - 1 ≤ step * (size - 1) := by nlinarith
    omega
  · rw [if_neg hpos] at hc
    have hneg : step ≤ -1 := by omega
    have : step * (size - 1) ≤ -(size - 1) := by nlinarith
    omega

/-- The size invariant of `ConstructSliceParams`. -/
theorem ConstructSliceParams_size_bounds (rs re : Int → Int → Int)
    (start_vec stop_vec step_vec entire_shape sliced_shape : List Int) (p : SliceParams)
    (h : ConstructSliceParams rs re start_vec stop_vec step_vec entire_shape sliced_shape
      = .ok p)
    (hsliced : ∀ i, i < sliced_shape.length → 0 ≤ sliced_shape.getD i 0)
    (hstart : ∀ i, i < entire_shape.length →
      0 ≤ rs (start_vec.getD i 0) (entire_shape.getD i 0) ∧
        rs (start_vec.getD i 0) (entire_shape.getD i 0) < entire_shape.getD i 0)
    (hstop : ∀ i, i < entire_shape.length →
      -1 ≤ re (stop_vec.getD i 0) (entire_shape.getD i 0) ∧
        re (stop_vec.getD i 0) (entire_shape.getD i 0) ≤ entire_shape.getD i 0) :
    ∀ i, i < p.ndim → 0 ≤ p.size.getD i 0 ∧ p.size.getD i 0 ≤ p.dims.getD i 0 := by
  obtain ⟨c1, c2, -, -, -⟩ := ConstructSliceParams_checks _ _ _ _ _ _ _ _ h
  by_cases hd : entire_shape.length = 1 ∧ sliced_shape.length = 0
  · have hp := ConstructSliceParams_scalar_pick _ _ _ _ _ _ _ _ hd h
    subst hp
    intro i hi
    have hi0 : i = 0 := by
      have : i < 1 := hi
      omega
    subst hi0
    have hs := hstart 0 (by omega)
    have : (1 : Int) ≤ entire_shape.getD 0 0 := by omega
    refine ⟨?_, ?_⟩
    · show (0 : Int) ≤ 1
      decide
    · show (1 : Int) ≤ entire_shape.getD 0 0
      exact this
  · obtain ⟨-, hn, hget⟩ := ConstructSliceParams_ok_inv _ _ _ _ _ _ _ _ hd h
    have hlen : sliced_shape.length = entire_shape.length := by
      by_cases hone : entire_shape.length = 1
      · simp only [hone, if_true] at c2
        have : sliced_shape.length ≠ 0 := fun h0 => hd ⟨hone, h0⟩
        omega
      · simpa only [hone, if_false] using c2
    intro i hi
    rw [hn] at hi
    obtain ⟨⟨g0, gc⟩, g1, g2, g3, g4⟩ := hget i hi
    rw [g4, g1]
    refine ⟨hsliced i (by omega), ?_⟩
    exact size_le_dims_of_check _ _ _ _ _ g0 gc (hstart i hi).1 (hstart i hi).2
      (hstop i hi).1 (hstop i hi).2

/-- The size invariant of `ConstructSliceParamsLarge`. -/
theorem ConstructSliceParamsLarge_size_bounds (ctx : SliceContext)
    (start_vec stop_vec step_vec shape : List Int) (p : SliceParams)
    (h : ConstructSliceParamsLarge ctx start_vec stop_vec step_vec shape = .ok p)
    (hlu : ctx.lower ≤ ctx.upper)
    (hsplit : ∀ i, i < shape.length → (i : Int) = ctx.split_axis →
      shape.getD i 0 = ctx.upper - ctx.lower)
    (hnorm : ∀ i, i < shape.length → (i : Int) ≠ ctx.split_axis →
      (0 ≤ start_vec.getD i 0 ∧ start_vec.getD i 0 ≤ shape.getD i 0) ∧
        (0 ≤ stop_vec.getD i 0 ∧ stop_vec.getD i 0 ≤ shape.getD i 0)) :
    ∀ i, i < p.ndim → 0 ≤ p.size.getD i 0 ∧ p.size.getD i 0 ≤ p.dims.getD i 0 := by
  obtain ⟨-, hn, hget⟩ := ConstructSliceParamsLarge_fields _ _ _ _ _ _ h
  intro i hi
  rw [hn] at hi
  obtain ⟨gpos, g1, -, -, g4⟩ := hget i hi
  rw [g4, g1]
  refine ⟨GetSizeInSlice_nonneg _ _ _ gpos, ?_⟩
  by_cases hax : (i : Int) = ctx.split_axis
  · rw [hsplit i hi hax]
    simp only [start_in_splitted_large, stop_in_splitted_large, hax, if_true]
    apply GetSizeInSlice_le _ _ _ _ gpos
    · have := le_min (le_max_right
        (if start_vec.getD i 0 < ctx.lower
          then advanced_start ctx.lower (start_vec.getD i 0) (step_vec.getD i 0)
          else start_vec.getD i 0) ctx.lower) hlu
      omega
    · have := min_le_right (max (stop_vec.getD i 0) ctx.lower) ctx.upper
      omega
    · omega
  · obtain ⟨⟨a1, a2⟩, -, a4⟩ := hnorm i hi hax
    simp only [start_in_splitted_large, stop_in_splitted_large, hax, if_false]
    exact GetSizeInSlice_le _ _ _ _ gpos a1 a4 (le_trans a1 a2)

/-- The size invariant of `ConstructSliceParamsSmall`. -/
theorem ConstructSliceParamsSmall_size_bounds (ctx : SliceContext)
    (start_vec stop_vec step_vec shape : List Int) (p : SliceParams)
    (h : ConstructSliceParamsSmall ctx start_vec stop_vec step_vec shape = .ok p)
    (hlu : ctx.lower ≤ ctx.upper)
    (hshape : ∀ i, i < shape.length → 0 ≤ shape.getD i 0) :
    ∀ i, i < p.ndim → 0 ≤ p.size.getD i 0 ∧ p.size.getD i 0 ≤ p.dims.getD i 0 := by
  obtain ⟨-, hn, hget⟩ := ConstructSliceParamsSmall_fields _ _ _ _ _ _ h
  intro i hi
  rw [hn] at hi
  obtain ⟨gpos, g1, -, -, g4⟩ := hget i hi
  rw [g4, g1]
  obtain ⟨b1, b2, b3⟩ := small_axis_bounds ctx i (start_vec.getD i 0) (step_vec.getD i 0)
    (shape.getD i 0) gpos hlu (hshape i hi)
  omega

/-- The statement of C15 for the builders over the integers. Size invariant:
`0 ≤ size[i] ≤ dims[i]` on every axis `i` of a parameter
block `p` returned (a) by `ConstructSliceParams`, when every start is normalised
into `[0, dims[i])` and every stop into `[-1, dims[i]]`, (b) by
`ConstructSliceParamsLarge`, when `lower ≤ upper`, the extent of the split axis is
`upper - lower` and start and stop of the other axes lie in `[0, dims[i]]`, (c) by
`ConstructSliceParamsSmall`, when `lower ≤ upper`. The extents of a tensor shape
are not negative: that is used for the sliced shape in (a) and the shape in (c). -/
theorem size_invariant (regulateStart regulateStop : Int → Int → Int) (ctx : SliceContext)
    (start_vec stop_vec step_vec shape sliced_shape : List Int) (p : SliceParams) :
    (ConstructSliceParams regulateStart regulateStop start_vec stop_vec step_vec shape
          sliced_shape = .ok p →
      (∀ i, i < sliced_shape.length → 0 ≤ sliced_shape.getD i 0) →
      (∀ i, i < shape.length →
        0 ≤ regulateStart (start_vec.getD i 0) (shape.getD i 0) ∧
          regulateStart (start_vec.getD i 0) (shape.getD i 0) < shape.getD i 0) →
      (∀ i, i < shape.length →
        -1 ≤ regulateStop (stop_vec.getD i 0) (shape.getD i 0) ∧
          regulateStop (stop_vec.getD i 0) (shape.getD i 0) ≤ shape.getD i 0) →
      ∀ i, i < p.ndim → 0 ≤ p.size.getD i 0 ∧ p.size.getD i 0 ≤ p.dims.getD i 0) ∧
    (ConstructSliceParamsLarge ctx start_vec stop_vec step_vec shape = .ok p →
      ctx.lower ≤ ctx.upper →
      (∀ i, i < shape.length → (i : Int) = ctx.split_axis →
        shape.getD i 0 = ctx.upper - ctx.lower) →
      (∀ i, i < shape.length → (i : Int) ≠ ctx.split_axis →
        (0 ≤ start_vec.getD i 0 ∧ start_vec.getD i 0 ≤ shape.getD i 0) ∧
          (0 ≤ stop_vec.getD i 0 ∧ stop_vec.getD i 0 ≤ shape.getD i 0)) →
      ∀ i, i < p.ndim → 0 ≤ p.size.getD i 0 ∧ p.size.getD i 0 ≤ p.dims.getD i 0) ∧
    (ConstructSliceParamsSmall ctx start_vec stop_vec step_vec shape = .ok p →
      ctx.lower ≤ ctx.upper →
      (∀ i, i < shape.length → 0 ≤ shape.getD i 0) →
      ∀ i, i < p.ndim → 0 ≤ p.size.getD i 0 ∧ p.size.getD i 0 ≤ p.dims.getD i 0) :=
  ⟨ConstructSliceParams_size_bounds _ _ _ _ _ _ _ p,
    ConstructSliceParamsLarge_size_bounds ctx _ _ _ _ p,
    ConstructSliceParamsSmall_size_bounds ctx _ _ _ _ p⟩

theorem size_invariant_witness :
    (ConstructSliceParams RegulateSliceStart RegulateSliceStop [1, 0] [3, 2] [1, 1] [4, 2]
          [2, 2] = .ok (⟨2, [4, 2, 0, 0, 0, 0, 0, 0], [1, 0, 0, 0, 0, 0, 0, 0],
        [1, 1, 0, 0, 0, 0, 0, 0], [2, 2, 0, 0, 0, 0, 0, 0]⟩ : SliceParams) ∧
      (∀ i, i < (⟨2, [4, 2, 0, 0, 0, 0, 0, 0], [1, 0, 0, 0, 0, 0, 0, 0],
        [1, 1, 0, 0, 0, 0, 0, 0], [2, 2, 0, 0, 0, 0, 0, 0]⟩ : SliceParams).ndim →
        0 ≤ (⟨2, [4, 2, 0, 0, 0, 0, 0, 0], [1, 0, 0, 0, 0, 0, 0, 0],
        [1, 1, 0, 0, 0, 0, 0, 0], [2, 2, 0, 0, 0, 0, 0, 0]⟩ : SliceParams).size.getD i 0 ∧
        (⟨2, [4, 2, 0, 0, 0, 0, 0, 0], [1, 0, 0, 0, 0, 0, 0, 0],
        [1, 1, 0, 0, 0, 0, 0, 0], [2, 2, 0, 0, 0, 0, 0, 0]⟩ : SliceParams).size.getD i 0 ≤ (⟨2, [4, 2, 0, 0, 0, 0, 0, 0], [1, 0, 0, 0, 0, 0, 0, 0],
        [1, 1, 0, 0, 0, 0, 0, 0], [2, 2, 0, 0, 0, 0, 0, 0]⟩ : SliceParams).dims.getD i 0)) ∧
    (ConstructSliceParamsLarge ⟨0, 0, 4, 8⟩ [1, 0] [3, 2] [1, 1] [4, 2] = .ok (⟨2, [4, 2, 0, 0, 0, 0, 0, 0], [1, 0, 0, 0, 0, 0, 0, 0],
        [1, 1, 0, 0, 0, 0, 0, 0], [2, 2, 0, 0, 0, 0, 0, 0]⟩ : SliceParams) ∧
      (∀ i, i < (⟨2, [4, 2, 0, 0, 0, 0, 0, 0], [1, 0, 0, 0, 0, 0, 0, 0],
        [1, 1, 0, 0, 0, 0, 0, 0], [2, 2, 0, 0, 0, 0, 0, 0]⟩ : SliceParams).ndim →
        0 ≤ (⟨2, [4, 2, 0, 0, 0, 0, 0, 0], [1, 0, 0, 0, 0, 0, 0, 0],
        [1, 1, 0, 0, 0, 0, 0, 0], [2, 2, 0, 0, 0, 0, 0, 0]⟩ : SliceParams).size.getD i 0 ∧
        (⟨2, [4, 2, 0, 0, 0, 0, 0, 0], [1, 0, 0, 0, 0, 0, 0, 0],
        [1, 1, 0, 0, 0, 0, 0, 0], [2, 2, 0, 0, 0, 0, 0, 0]⟩ : SliceParams).size.getD i 0 ≤ (⟨2, [4, 2, 0, 0, 0, 0, 0, 0], [1, 0, 0, 0, 0, 0, 0, 0],
        [1, 1, 0, 0, 0, 0, 0, 0], [2, 2, 0, 0, 0, 0, 0, 0]⟩ : SliceParams).dims.getD i 0)) ∧
    (ConstructSliceParamsSmall ⟨0, 0, 4, 8⟩ [1, 0] [3, 2] [1, 1] [2, 2] = .ok (⟨2, [2, 2, 0, 0, 0, 0, 0, 0], [0, 0, 0, 0, 0, 0, 0, 0],
        [1, 1, 0, 0, 0, 0, 0, 0], [2, 2, 0, 0, 0, 0, 0, 0]⟩ : SliceParams) ∧
      (∀ i, i < (⟨2, [2, 2, 0, 0, 0, 0, 0, 0], [0, 0, 0, 0, 0, 0, 0, 0],
        [1, 1, 0, 0, 0, 0, 0, 0], [2, 2, 0, 0, 0, 0, 0, 0]⟩ : SliceParams).ndim →
        0 ≤ (⟨2, [2, 2, 0, 0, 0, 0, 0, 0], [0, 0, 0, 0, 0, 0, 0, 0],
        [1, 1, 0, 0, 0, 0, 0, 0], [2, 2, 0, 0, 0, 0, 0, 0]⟩ : SliceParams).size.getD i 0 ∧
        (⟨2, [2, 2, 0, 0, 0, 0, 0, 0], [0, 0, 0, 0, 0, 0, 0, 0],
        [1, 1, 0, 0, 0, 0, 0, 0], [2, 2, 0, 0, 0, 0, 0, 0]⟩ : SliceParams).size.getD i 0 ≤ (⟨2, [2, 2, 0, 0, 0, 0, 0, 0], [0, 0, 0, 0, 0, 0, 0, 0],
        [1, 1, 0, 0, 0, 0, 0, 0], [2, 2, 0, 0, 0, 0, 0, 0]⟩ : SliceParams).dims.getD i 0)) :=
  ⟨⟨by decide,
      (size_invariant RegulateSliceStart RegulateSliceStop ⟨0, 0, 4, 8⟩ [1, 0] [3, 2] [1, 1]
        [4, 2] [2, 2] _).1 (by decide) (by decide) (by decide) (by decide)⟩,
    ⟨by decide,
      (size_invariant RegulateSliceStart RegulateSliceStop ⟨0, 0, 4, 8⟩ [1, 0] [3, 2] [1, 1]
        [4, 2] [2, 2] _).2.1 (by decide) (by decide) (by decide) (by decide)⟩,
    ⟨by decide,
      (size_invariant RegulateSliceStart RegulateSliceStop ⟨0, 0, 4, 8⟩ [1, 0] [3, 2] [1, 1]
        [2, 2] [2, 2] _).2.2 (by decide) (by decide) (by decide)⟩⟩

/-! ## The accessed offsets stay inside the buffers -/

/-- With in-bounds indices the entire-buffer offset of a slice offset lies in
`[0, prod(dims))`. -/
theorem entire_offset_fn_bounds (n : Nat) (dims start step size : Nat → Int)
    (hpos : ∀ t, t < n → 0 < size t)
    (hin : ∀ t, t < n → ∀ k, 0 ≤ k → k < size t →
      0 ≤ start t + step t * k ∧ start t + step t * k < dims t)
    (o : Int) (ho0 : 0 ≤ o) (ho : o < prod_upto size n) :
    0 ≤ entire_offset_fn n dims start step size o ∧
      entire_offset_fn n dims start step size o < prod_upto dims n := by
  obtain ⟨hb, -⟩ := nd_offset_of_nd_index n size o hpos ho0 ho
  rw [entire_offset_fn_eq]
  exact (nd_index_of_nd_offset n dims
    (fun t => start t + step t * nd_index_fn n size o t)
    (fun t ht => hin t ht _ (hb t ht).1 (hb t ht).2)).1

/-- With positive steps and in-bounds indices the entire-buffer offset grows with
the slice offset. -/
theorem entire_offset_fn_strictMono (n : Nat) : ∀ (dims start step size : Nat → Int),
    (∀ t, t < n → 0 < size t) → (∀ t, t < n → 0 < step t) →
    (∀ t, t < n → ∀ k, 0 ≤ k → k < size t →
      0 ≤ start t + step t * k ∧ start t + step t * k < dims t) →
    ∀ o o' : Int, 0 ≤ o → o < o' → o' < prod_upto size n →
    entire_offset_fn n dims start step size o < entire_offset_fn n dims start step size o' := by
  induction n with
  | zero =>
    intro dims start step size _ _ _ o o' ho0 hlt ho'
    have : prod_upto size 0 = 1 := rfl
    omega
  | succ n ih =>
    intro dims start step size hpos hstep hin o o' ho0 hlt ho'
    have hposT : ∀ t, t < n → 0 < shift size t := fun t ht => hpos (t + 1) (by omega)
    have hstepT : ∀ t, t < n → 0 < shift step t := fun t ht => hstep (t + 1) (by omega)
    have hinT : ∀ t, t < n → ∀ k, 0 ≤ k → k < shift size t →
        0 ≤ shift start t + shift step t * k ∧ shift start t + shift step t * k < shift dims t :=
      fun t ht k hk0 hk => hin (t + 1) (by omega) k hk0 hk
    have hP : 0 < prod_upto (shift size) n := prod_upto_pos _ _ hposT
    obtain ⟨q, r, hq0, hr0, hr, ho_eq⟩ := int_decomp o _ ho0 hP
    obtain ⟨q', r', hq0', hr0', hr', ho_eq'⟩ := int_decomp o' _ (by omega) hP
    have hqq : q ≤ q' := by
      by_contra hcon
      have h1 : q' + 1 ≤ q := by omega
      have h2 : (q' + 1) * prod_upto (shift size) n ≤ q * prod_upto (shift size) n :=
        mul_le_mul_of_nonneg_right h1 (le_of_lt hP)
      have h3 : (q' + 1) * prod_upto (shift size) n
          = q' * prod_upto (shift size) n + prod_upto (shift size) n := by ring
      omega
    rw [ho_eq, ho_eq', entire_offset_fn_decomp n dims start step size q r hP hq0 hr0 hr,
      entire_offset_fn_decomp n dims start step size q' r' hP hq0' hr0' hr']
    obtain ⟨b0, b1⟩ := entire_offset_fn_bounds n (shift dims) (shift start) (shift step)
      (shift size) hposT hinT r hr0 hr
    obtain ⟨b0', b1'⟩ := entire_offset_fn_bounds n (shift dims) (shift start) (shift step)
      (shift size) hposT hinT r' hr0' hr'
    rcases eq_or_lt_of_le hqq with heq | hqlt
    · subst heq
      have hrr : r < r' := by omega
      have := ih (shift dims) (shift start) (shift step) (shift size) hposT hstepT hinT
        r r' hr0 hrr hr'
      omega
    · have hD : 0 < prod_upto (shift dims) n := by omega
      have hs0 : 1 ≤ step 0 := hstep 0 (by omega)
      have h1 : 1 ≤ step 0 * (q' - q) := by nlinarith
      have h2 : prod_upto (shift dims) n ≤ step 0 * (q' - q) * prod_upto (shift dims) n := by
        nlinarith
      have h3 : (start 0 + step 0 * q') * prod_upto (shift dims) n
          = (start 0 + step 0 * q) * prod_upto (shift dims) n
            + step 0 * (q' - q) * prod_upto (shift dims) n := by ring
      omega

/-- With positive steps and in-bounds indices, the `j` offsets that follow the
entire-buffer offset of the slice offset `i` lie inside the buffer of `prod(dims)`
elements, as long as `i + j` is a slice offset. -/
theorem entire_offset_fn_run_in_bounds (n : Nat) (dims start step size : Nat → Int)
    (hpos : ∀ t, t < n → 0 < size t) (hstep : ∀ t, t < n → 0 < step t)
    (hin : ∀ t, t < n → ∀ k, 0 ≤ k → k < size t →
      0 ≤ start t + step t * k ∧ start t + step t * k < dims t)
    (i : Int) (hi0 : 0 ≤ i) (m : Nat) (hm : i + (m : Int) < prod_upto size n) :
    0 ≤ entire_offset_fn n dims start step size i + (m : Int) ∧
      entire_offset_fn n dims start step size i + (m : Int) < prod_upto dims n := by
  have hle : ∀ k : Nat, i + (k : Int) < prod_upto size n →
      entire_offset_fn n dims start step size i + (k : Int)
        ≤ entire_offset_fn n dims start step size (i + (k : Int)) := by
    intro k
    induction k with
    | zero => intro _; simp
    | succ k ih =>
      intro hk
      have hk' : i + (k : Int) < prod_upto size n := by push_cast at hk; omega
      have h1 := ih hk'
      have h2 := entire_offset_fn_strictMono n dims start step size hpos hstep hin
        (i + (k : Int)) (i + ((k + 1 : Nat) : Int)) (by omega) (by push_cast; omega) hk
      push_cast at h2 ⊢
      omega
  have h0 := (entire_offset_fn_bounds n dims start step size hpos hin i hi0 (by omega)).1
  have h1 := (entire_offset_fn_bounds n dims start step size hpos hin (i + (m : Int))
    (by omega) hm).2
  have h2 := hle m hm
  omega

/-- The indices that the large parameter block selects on one axis lie inside the
extent of the axis. -/
theorem large_axis_in_bounds (ctx : SliceContext) (i : Nat) (start stop step d k : Int)
    (hstep : 0 < step) (hlu : ctx.lower ≤ ctx.upper)
    (hsplit : (i : Int) = ctx.split_axis → d = ctx.upper - ctx.lower)
    (hnorm : (i : Int) ≠ ctx.split_axis → 0 ≤ start ∧ stop ≤ d)
    (hk0 : 0 ≤ k)
    (hk : k < GetSizeInSlice (start_in_splitted_large ctx i start step)
      (stop_in_splitted_large ctx i stop) step) :
    0 ≤ start_in_splitted_large ctx i start step + k * step ∧
      start_in_splitted_large ctx i start step + k * step < d := by
  have hlt := (lt_GetSizeInSlice_iff _ _ _ k hstep hk0).mp hk
  have hks : 0 ≤ k * step := mul_nonneg hk0 (le_of_lt hstep)
  have hbounds : 0 ≤ start_in_splitted_large ctx i start step ∧
      stop_in_splitted_large ctx i stop ≤ d := by
    by_cases hax : (i : Int) = ctx.split_axis
    · have hd := hsplit hax
      simp only [start_in_splitted_large, stop_in_splitted_large, hax, if_true]
      have h1 := le_min (le_max_right
        (if start < ctx.lower then advanced_start ctx.lower start step else start) ctx.lower) hlu
      have h2 := min_le_right (max stop ctx.lower) ctx.upper
      omega
    · simp only [start_in_splitted_large, stop_in_splitted_large, hax, if_false]
      exact hnorm hax
  omega

/-- The indices that the small parameter block selects on one axis lie inside the
extent of the axis. -/
theorem small_axis_in_bounds (ctx : SliceContext) (i : Nat) (start step d k : Int)
    (hk0 : 0 ≤ k)
    (hk : k < stop_in_full_small ctx i start step d - start_in_full_small ctx i start step d) :
    0 ≤ start_in_full_small ctx i start step d + k ∧
      start_in_full_small ctx i start step d + k < d := by
  revert hk
  by_cases hax : (i : Int) = ctx.split_axis
  · simp only [start_in_full_small, stop_in_full_small, hax, if_true, min_def, max_def]
    split_ifs <;> intro hk <;> omega
  · simp only [start_in_full_small, stop_in_full_small, hax, if_false]
    intro hk
    omega

/-- Distributed copy stays in bounds, the statement of C16 for the run length over
the integers, with which the code agrees below `2^31` elements. Let `large` and `small` be the
parameter blocks that `ConstructSliceParamsLarge` and `ConstructSliceParamsSmall`
return for the same start, stop and step (the steps are then positive), with
`lower ≤ upper`, the extent of the split axis of the large shape `upper - lower`,
and start and stop of the other axes in `[0, dims[i]]`. Then every index
`start[i] + k * step[i]`, `0 ≤ k < size[i]`, of `large` lies in `[0, dims[i])`, and
so does every index of `small`. Hence, when the element counts agree as
`WriteSlice` checks (the extents of the small shape not negative), for every run
start `i`, a multiple of `cnt` with `0 ≤ i < elem_cnt`, the offsets
`offset + j`, `0 ≤ j < cnt`, of the run lie in `[0, prod(dims))` on both sides. -/
theorem distributed_copy_stays_in_bounds (ctx : SliceContext)
    (start_vec stop_vec step_vec large_shape small_shape : List Int) (large small : SliceParams)
    (hL : ConstructSliceParamsLarge ctx start_vec stop_vec step_vec large_shape = .ok large)
    (hS : ConstructSliceParamsSmall ctx start_vec stop_vec step_vec small_shape = .ok small)
    (hlu : ctx.lower ≤ ctx.upper)
    (hsplit : ∀ i, i < large_shape.length → (i : Int) = ctx.split_axis →
      large_shape.getD i 0 = ctx.upper - ctx.lower)
    (hnorm : ∀ i, i < large_shape.length → (i : Int) ≠ ctx.split_axis →
      (0 ≤ start_vec.getD i 0 ∧ start_vec.getD i 0 ≤ large_shape.getD i 0) ∧
        (0 ≤ stop_vec.getD i 0 ∧ stop_vec.getD i 0 ≤ large_shape.getD i 0)) :
    (∀ i, i < large.ndim → ∀ k, 0 ≤ k → k < large.size.getD i 0 →
      0 ≤ large.start.getD i 0 + k * large.step.getD i 0 ∧
        large.start.getD i 0 + k * large.step.getD i 0 < large.dims.getD i 0) ∧
    (∀ i, i < small.ndim → ∀ k, 0 ≤ k → k < small.size.getD i 0 →
      0 ≤ small.start.getD i 0 + k * small.step.getD i 0 ∧
        small.start.getD i 0 + k * small.step.getD i 0 < small.dims.getD i 0) ∧
    (large.elem_cnt = small.elem_cnt →
      (∀ t, t < small_shape.length → 0 ≤ small_shape.getD t 0) →
      ∀ i j : Int, 0 ≤ i → WriteSlice_cnt_exact large.ndim large small ∣ i → i < large.elem_cnt →
        0 ≤ j → j < WriteSlice_cnt_exact large.ndim large small →
        (0 ≤ SliceOffsetToEntireOffset large.ndim i large + j ∧
          SliceOffsetToEntireOffset large.ndim i large + j
            < (first_entries large.ndim large.dims).prod) ∧
        (0 ≤ SliceOffsetToEntireOffset large.ndim i small + j ∧
          SliceOffsetToEntireOffset large.ndim i small + j
            < (first_entries large.ndim small.dims).prod)) := by
  obtain ⟨-, hLn, hLget⟩ := ConstructSliceParamsLarge_fields _ _ _ _ _ _ hL
  obtain ⟨-, hSn, hSget⟩ := ConstructSliceParamsSmall_fields _ _ _ _ _ _ hS
  obtain ⟨-, l2, -, -⟩ := ConstructSliceParamsLarge_inv _ _ _ _ _ _ hL
  obtain ⟨-, s2, -, -⟩ := ConstructSliceParamsSmall_inv _ _ _ _ _ _ hS
  have hlen : small_shape.length = large_shape.length := by rw [← s2, l2]
  have hLin : ∀ i, i < large.ndim → ∀ k, 0 ≤ k → k < large.size.getD i 0 →
      0 ≤ large.start.getD i 0 + large.step.getD i 0 * k ∧
        large.start.getD i 0 + large.step.getD i 0 * k < large.dims.getD i 0 := by
    intro i hi k hk0 hk
    rw [hLn] at hi
    obtain ⟨gpos, g1, g2, g3, g4⟩ := hLget i hi
    rw [g4] at hk
    rw [g1, g2, g3, mul_comm]
    exact large_axis_in_bounds ctx i _ _ _ _ k gpos hlu (hsplit i hi)
      (fun hax => ⟨(hnorm i hi hax).1.1, (hnorm i hi hax).2.2⟩) hk0 hk
  have hSin : ∀ i, i < small.ndim → ∀ k, 0 ≤ k → k < small.size.getD i 0 →
      0 ≤ small.start.getD i 0 + small.step.getD i 0 * k ∧
        small.start.getD i 0 + small.step.getD i 0 * k < small.dims.getD i 0 := by
    intro i hi k hk0 hk
    rw [hSn] at hi
    obtain ⟨-, g1, g2, g3, g4⟩ := hSget i hi
    rw [g4] at hk
    rw [g1, g2, g3, one_mul]
    exact small_axis_in_bounds ctx i _ _ _ k hk0 hk
  refine ⟨?_, ?_, ?_⟩
  · intro i hi k hk0 hk
    rw [mul_comm]
    exact hLin i hi k hk0 hk
  · intro i hi k hk0 hk
    rw [mul_comm]
    exact hSin i hi k hk0 hk
  · intro hcnt hsmall i j hi0 hdvd hi hj0 hj
    have hSL : small.ndim = large.ndim := by rw [hSn, hLn, hlen]
    have hLnonneg : ∀ t, t < large.ndim → 0 ≤ large.size.getD t 0 := by
      intro t ht
      rw [hLn] at ht
      obtain ⟨gpos, -, -, -, g4⟩ := hLget t ht
      rw [g4]
      exact GetSizeInSlice_nonneg _ _ _ gpos
    have hSnonneg : ∀ t, t < large.ndim → 0 ≤ small.size.getD t 0 := by
      intro t ht
      rw [hLn, ← hlen] at ht
      obtain ⟨gpos, -, -, -, g4⟩ := hSget t ht
      rw [g4]
      have := small_axis_bounds ctx t (start_vec.getD t 0) (step_vec.getD t 0)
        (small_shape.getD t 0) gpos hlu (hsmall t ht)
      omega
    have hLe : large.elem_cnt = prod_upto (fun t => large.size.getD t 0) large.ndim := rfl
    have hSe : small.elem_cnt = prod_upto (fun t => small.size.getD t 0) large.ndim := by
      rw [elem_cnt_eq_prod_upto, hSL]
    have hLpos : ∀ t, t < large.ndim → 0 < large.size.getD t 0 :=
      pos_of_prod_upto_pos _ _ hLnonneg (by rw [← hLe]; omega)
    have hSpos : ∀ t, t < large.ndim → 0 < small.size.getD t 0 :=
      pos_of_prod_upto_pos _ _ hSnonneg (by rw [← hSe, ← hcnt]; omega)
    have hLstep : ∀ t, t < large.ndim → 0 < large.step.getD t 0 := by
      intro t ht
      rw [hLn] at ht
      obtain ⟨gpos, -, -, g3, -⟩ := hLget t ht
      rw [g3]
      exact gpos
    have hSstep : ∀ t, t < large.ndim → 0 < small.step.getD t 0 := by
      intro t ht
      rw [hLn, ← hlen] at ht
      obtain ⟨-, -, -, g3, -⟩ := hSget t ht
      rw [g3]
      decide
    have hcpos : 0 < WriteSlice_cnt_exact large.ndim large small := by
      unfold WriteSlice_cnt_exact
      rw [WriteSlice_cnt_scan_exact_eq]
      exact cnt_scan_fn_exact_pos _ _ _ _ 1 (by decide) hLpos
    have hcdvd : WriteSlice_cnt_exact large.ndim large small ∣ large.elem_cnt := by
      have := cnt_scan_fn_exact_dvd (fun i => decide (large.step.getD i 0 = 1))
        (fun i => large.size.getD i 0) (fun i => large.IsFullSlice i && small.IsFullSlice i)
        large.ndim 1
      rw [one_mul] at this
      unfold WriteSlice_cnt_exact
      rw [WriteSlice_cnt_scan_exact_eq, hLe]
      exact this
    have hnext : i + WriteSlice_cnt_exact large.ndim large small ≤ large.elem_cnt :=
      stride_gap _ i _ hcpos (dvd_sub hcdvd hdvd) hi
    obtain ⟨m, rfl⟩ := Int.eq_ofNat_of_zero_le hj0
    constructor
    · rw [SliceOffsetToEntireOffset_eq]
      exact entire_offset_fn_run_in_bounds large.ndim _ _ _ _ hLpos hLstep hLin i hi0 m
        (by rw [← hLe]; omega)
    · rw [SliceOffsetToEntireOffset_eq]
      exact entire_offset_fn_run_in_bounds large.ndim _ _ _ _ hSpos hSstep
        (fun t ht => hSin t (by rw [hSL]; exact ht)) i hi0 m (by rw [← hSe, ← hcnt]; omega)

theorem distributed_copy_stays_in_bounds_witness :
    (ConstructSliceParamsLarge ⟨0, 2, 4, 8⟩ [1, 0] [7, 3] [2, 1] [2, 3] = .ok
      (⟨2, [2, 3, 0, 0, 0, 0, 0, 0], [1, 0, 0, 0, 0, 0, 0, 0], [2, 1, 0, 0, 0, 0, 0, 0],
        [1, 3, 0, 0, 0, 0, 0, 0]⟩ : SliceParams) ∧
    ConstructSliceParamsSmall ⟨0, 2, 4, 8⟩ [1, 0] [7, 3] [2, 1] [3, 3] = .ok
      (⟨2, [3, 3, 0, 0, 0, 0, 0, 0], [1, 0, 0, 0, 0, 0, 0, 0], [1, 1, 0, 0, 0, 0, 0, 0],
        [1, 3, 0, 0, 0, 0, 0, 0]⟩ : SliceParams)) ∧
    (0 ≤ SliceOffsetToEntireOffset 2 0
      (⟨2, [2, 3, 0, 0, 0, 0, 0, 0], [1, 0, 0, 0, 0, 0, 0, 0], [2, 1, 0, 0, 0, 0, 0, 0],
        [1, 3, 0, 0, 0, 0, 0, 0]⟩ : SliceParams) + 2 ∧
    SliceOffsetToEntireOffset 2 0
      (⟨2, [2, 3, 0, 0, 0, 0, 0, 0], [1, 0, 0, 0, 0, 0, 0, 0], [2, 1, 0, 0, 0, 0, 0, 0],
        [1, 3, 0, 0, 0, 0, 0, 0]⟩ : SliceParams) + 2
      < (first_entries 2 [2, 3, 0, 0, 0, 0, 0, 0]).prod) ∧
    (0 ≤ SliceOffsetToEntireOffset 2 0
      (⟨2, [3, 3, 0, 0, 0, 0, 0, 0], [1, 0, 0, 0, 0, 0, 0, 0], [1, 1, 0, 0, 0, 0, 0, 0],
        [1, 3, 0, 0, 0, 0, 0, 0]⟩ : SliceParams) + 2 ∧
    SliceOffsetToEntireOffset 2 0
      (⟨2, [3, 3, 0, 0, 0, 0, 0, 0], [1, 0, 0, 0, 0, 0, 0, 0], [1, 1, 0, 0, 0, 0, 0, 0],
        [1, 3, 0, 0, 0, 0, 0, 0]⟩ : SliceParams) + 2
      < (first_entries 2 [3, 3, 0, 0, 0, 0, 0, 0]).prod) :=
  ⟨⟨by decide, by decide⟩,
    (distributed_copy_stays_in_bounds ⟨0, 2, 4, 8⟩ [1, 0] [7, 3] [2, 1] [2, 3] [3, 3]
      (⟨2, [2, 3, 0, 0, 0, 0, 0, 0], [1, 0, 0, 0, 0, 0, 0, 0], [2, 1, 0, 0, 0, 0, 0, 0],
        [1, 3, 0, 0, 0, 0, 0, 0]⟩ : SliceParams)
      (⟨2, [3, 3, 0, 0, 0, 0, 0, 0], [1, 0, 0, 0, 0, 0, 0, 0], [1, 1, 0, 0, 0, 0, 0, 0],
        [1, 3, 0, 0, 0, 0, 0, 0]⟩ : SliceParams)
      (by decide) (by decide) (by decide) (by decide) (by decide)).2.2 (by decide) (by decide)
      0 2 (by decide) (dvd_zero _) (by decide) (by decide) (by decide)⟩

/-! ## The plain kernels -/

/-- The element loop of `SliceKernelUtil::Forward` in closed form. -/
theorem SliceKernelUtil_Forward_loop_spec {α : Type} (params : SliceParams) (entire : Int → α)
    (k : Nat) (sliced : Int → α) (p : Int) :
    SliceKernelUtil_Forward_loop params entire k sliced p
      = if 0 ≤ p ∧ p < (k : Int) then entire (SliceOffsetToEntireOffset params.ndim p params)
        else sliced p := by
  induction k with
  | zero =>
    simp only [SliceKernelUtil_Forward_loop]
    rw [if_neg]
    push_cast
    omega
  | succ k ih =>
    simp only [SliceKernelUtil_Forward_loop]
    by_cases hp : p = (k : Int)
    · rw [if_pos hp, if_pos (by push_cast; omega), hp]
    · rw [if_neg hp, ih]
      by_cases hlt : 0 ≤ p ∧ p < (k : Int)
      · rw [if_pos hlt, if_pos (by push_cast; omega)]
      · rw [if_neg hlt, if_neg (by push_cast; omega)]

/-- The element loop of `SliceKernelUtil::Backward`: a position holds the value of
a slice offset that is written there, or its old value when no slice offset is
written there. -/
theorem SliceKernelUtil_Backward_loop_spec {α : Type} (params : SliceParams) (sliced : Int → α)
    (k : Nat) (entire : Int → α) (q : Int) :
    (∃ i : Nat, i < k ∧ SliceOffsetToEntireOffset params.ndim i params = q ∧
        SliceKernelUtil_Backward_loop params sliced k entire q = sliced i) ∨
      ((∀ i : Nat, i < k → SliceOffsetToEntireOffset params.ndim i params ≠ q) ∧
        SliceKernelUtil_Backward_loop params sliced k entire q = entire q) := by
  induction k with
  | zero =>
    right
    exact ⟨fun i hi => absurd hi (Nat.not_lt_zero i), rfl⟩
  | succ k ih =>
    simp only [SliceKernelUtil_Backward_loop]
    by_cases hq : q = SliceOffsetToEntireOffset params.ndim k params
    · left
      exact ⟨k, Nat.lt_succ_self k, hq.symm, by rw [if_pos hq]⟩
    · rw [if_neg hq]
      rcases ih with ⟨i, hi, hE, hval⟩ | ⟨hne, hval⟩
      · left
        exact ⟨i, Nat.lt_succ_of_lt hi, hE, hval⟩
      · right
        refine ⟨?_, hval⟩
        intro i hi
        rcases Nat.lt_succ_iff_lt_or_eq.mp hi with hlt | heq
        · exact hne i hlt
        · subst heq
          exact fun h => hq h.symm

/-- The element count of the parameter block of `ConstructSliceParams` is the
element count of the sliced shape. -/
theorem ConstructSliceParams_elem_cnt (rs re : Int → Int → Int)
    (start_vec stop_vec step_vec entire_shape sliced_shape : List Int) (p : SliceParams)
    (h : ConstructSliceParams rs re start_vec stop_vec step_vec entire_shape sliced_shape
      = .ok p) :
    p.elem_cnt = sliced_shape.prod := by
  obtain ⟨c1, c2, -, -, -⟩ := ConstructSliceParams_checks _ _ _ _ _ _ _ _ h
  by_cases hd : entire_shape.length = 1 ∧ sliced_shape.length = 0
  · have hp := ConstructSliceParams_scalar_pick _ _ _ _ _ _ _ _ hd h
    subst hp
    rw [List.length_eq_zero.mp hd.2]
    rfl
  · obtain ⟨-, hn, hget⟩ := ConstructSliceParams_ok_inv _ _ _ _ _ _ _ _ hd h
    have hlen : sliced_shape.length = entire_shape.length := by
      by_cases hone : entire_shape.length = 1
      · simp only [hone, if_true] at c2
        have : sliced_shape.length ≠ 0 := fun h0 => hd ⟨hone, h0⟩
        omega
      · simpa only [hone, if_false] using c2
    rw [elem_cnt_eq_prod_upto, prod_eq_prod_upto, hn, hlen]
    exact prod_upto_congr _ _ _ (fun t ht => (hget t ht).2.2.2.2)

/-- The cross-check of `ConstructSliceParams` keeps every selected index inside the
extent, when the start is normalised into `[0, d)` and the stop into `[-1, d]`. -/
theorem index_in_bounds_of_check (start stop step size d k : Int)
    (hc : if step > 0 then start + step * (size - 1) < stop
          else start + step * (size - 1) > stop)
    (hs0 : 0 ≤ start) (hs1 : start < d) (he0 : -1 ≤ stop) (he1 : stop ≤ d)
    (hk0 : 0 ≤ k) (hk : k < size) :
    0 ≤ start + step * k ∧ start + step * k < d := by
  have hk1 : 0 ≤ size - 1 - k := by omega
  by_cases hpos : step > 0
  · rw [if_pos hpos] at hc
    have h1 : 0 ≤ step * (size - 1 - k) := mul_nonneg (le_of_lt hpos) hk1
    have h2 : 0 ≤ step * k := mul_nonneg (le_of_lt hpos) hk0
    have h3 : step * (size - 1) = step * k + step * (size - 1 - k) := by ring
    omega
  · rw [if_neg hpos] at hc
    have hneg : 0 ≤ -step := by omega
    have h1 : 0 ≤ -step * (size - 1 - k) := mul_nonneg hneg hk1
    have h2 : 0 ≤ -step * k := mul_nonneg hneg hk0
    have h3 : step * (size - 1) = step * k - (-step * (size - 1 - k)) := by ring
    have h4 : -step * k = -(step * k) := by ring
    omega

/-- Two slice offsets of a parameter block of `ConstructSliceParams` with the same
entire-buffer offset are equal, when every start is normalised into `[0, dims[i])`
and every stop into `[-1, dims[i]]`. -/
theorem ConstructSliceParams_offsets_injective (rs re : Int → Int → Int)
    (start_vec stop_vec step_vec entire_shape sliced_shape : List Int) (p : SliceParams)
    (h : ConstructSliceParams rs re start_vec stop_vec step_vec entire_shape sliced_shape
      = .ok p)
    (hsliced : ∀ i, i < sliced_shape.length → 0 ≤ sliced_shape.getD i 0)
    (hstart : ∀ i, i < entire_shape.length →
      0 ≤ rs (start_vec.getD i 0) (entire_shape.getD i 0) ∧
        rs (start_vec.getD i 0) (entire_shape.getD i 0) < entire_shape.getD i 0)
    (hstop : ∀ i, i < entire_shape.length →
      -1 ≤ re (stop_vec.getD i 0) (entire_shape.getD i 0) ∧
        re (stop_vec.getD i 0) (entire_shape.getD i 0) ≤ entire_shape.getD i 0)
    (o o' : Int) (ho0 : 0 ≤ o) (ho : o < p.elem_cnt) (ho0' : 0 ≤ o') (ho' : o' < p.elem_cnt)
    (hE : SliceOffsetToEntireOffset p.ndim o p = SliceOffsetToEntireOffset p.ndim o' p) :
    o = o' := by
  obtain ⟨c1, c2, -, -, -⟩ := ConstructSliceParams_checks _ _ _ _ _ _ _ _ h
  by_cases hd : entire_shape.length = 1 ∧ sliced_shape.length = 0
  · have hp := ConstructSliceParams_scalar_pick _ _ _ _ _ _ _ _ hd h
    subst hp
    have h1 : ∀ x : Int, x < (SliceParams.setAxis { SliceParams.zeroed with ndim := 1 } 0
        (entire_shape.getD 0 0) (rs (start_vec.getD 0 0) (entire_shape.getD 0 0))
        (step_vec.getD 0 0) 1).elem_cnt → x < 1 := fun x hx => hx
    have := h1 o ho
    have := h1 o' ho'
    omega
  · obtain ⟨-, hn, hget⟩ := ConstructSliceParams_ok_inv _ _ _ _ _ _ _ _ hd h
    have hlen : sliced_shape.length = entire_shape.length := by
      by_cases hone : entire_shape.length = 1
      · simp only [hone, if_true] at c2
        have : sliced_shape.length ≠ 0 := fun h0 => hd ⟨hone, h0⟩
        omega
      · simpa only [hone, if_false] using c2
    have hnonneg : ∀ t, t < p.ndim → 0 ≤ p.size.getD t 0 := by
      intro t ht
      rw [hn] at ht
      rw [(hget t ht).2.2.2.2]
      exact hsliced t (by omega)
    have hpos : ∀ t, t < p.ndim → 0 < p.size.getD t 0 :=
      pos_of_prod_upto_pos _ _ hnonneg (by rw [← elem_cnt_eq_prod_upto]; omega)
    rw [SliceOffsetToEntireOffset_eq, SliceOffsetToEntireOffset_eq] at hE
    refine entire_offset_fn_injective p.ndim _ _ _ _ hpos ?_ ?_ o o' ho0
      (by rw [← elem_cnt_eq_prod_upto]; exact ho) ho0'
      (by rw [← elem_cnt_eq_prod_upto]; exact ho') hE
    · intro t ht
      rw [hn] at ht
      obtain ⟨⟨g0, -⟩, -, -, g3, -⟩ := hget t ht
      rw [g3]
      exact g0
    · intro t ht k hk0 hk
      rw [hn] at ht
      obtain ⟨⟨-, gc⟩, g1, g2, g3, g4⟩ := hget t ht
      rw [g4] at hk
      rw [g1, g2, g3]
      exact index_in_bounds_of_check _ _ _ _ _ k gc (hstart t ht).1 (hstart t ht).2
        (hstop t ht).1 (hstop t ht).2 hk0 hk

/-- C12. Gradient consistency: for every shape, every `x` and every start, stop and
step that `ConstructSliceParams` accepts, `SliceKernel` on `x` returns a `y`, and
`SliceGradKernel` on `dy = y` returns a `dx` with `dx[p] = x[p]` at every position
`p` selected by the slice, the entire-buffer offsets of the slice offsets
`0 ≤ i < elem_cnt`, and `dx[p] = 0` at every other position `p` of the tensor. -/
theorem gradient_consistency {α : Type} [Zero α] (regulateStart regulateStop : Int → Int → Int)
    (start_vec stop_vec step_vec x_shape y_shape : List Int) (x y0 dx0 : Int → α)
    (params : SliceParams)
    (hparams : ConstructSliceParams regulateStart regulateStop start_vec stop_vec step_vec
      x_shape y_shape = .ok params) :
    ∃ y dx : Int → α,
      SliceKernel_Compute regulateStart regulateStop start_vec stop_vec step_vec x_shape
          y_shape x y0 = .ok y ∧
      SliceGradKernel_Compute regulateStart regulateStop start_vec stop_vec step_vec x_shape
          y_shape y dx0 = .ok dx ∧
      (∀ i : Int, 0 ≤ i → i < params.elem_cnt →
        dx (SliceOffsetToEntireOffset params.ndim i params)
          = x (SliceOffsetToEntireOffset params.ndim i params)) ∧
      (∀ p : Int, 0 ≤ p → p < x_shape.prod →
        (∀ i : Int, 0 ≤ i → i < params.elem_cnt →
          SliceOffsetToEntireOffset params.ndim i params ≠ p) →
        dx p = 0) := by
  have hcnt := ConstructSliceParams_elem_cnt _ _ _ _ _ _ _ _ hparams
  refine ⟨SliceKernelUtil_Forward params x y0,
    if y_shape.prod = 0 then Memset dx0 x_shape.prod
    else SliceKernelUtil_Backward params (SliceKernelUtil_Forward params x y0)
      (Memset dx0 x_shape.prod), ?_, ?_, ?_, ?_⟩
  · simp only [SliceKernel_Compute, hparams]
  · by_cases hz : y_shape.prod = 0
    · simp only [SliceGradKernel_Compute, hz, if_true]
    · simp only [SliceGradKernel_Compute, hz, if_false, hparams]
  · intro i hi0 hi
    have hne : ¬ y_shape.prod = 0 := by omega
    rw [if_neg hne]
    simp only [SliceKernelUtil_Backward]
    rcases SliceKernelUtil_Backward_loop_spec params (SliceKernelUtil_Forward params x y0)
        params.elem_cnt.toNat (Memset dx0 x_shape.prod)
        (SliceOffsetToEntireOffset params.ndim i params) with ⟨m, hm, hE, hval⟩ | ⟨hne', -⟩
    · rw [hval, SliceKernelUtil_Forward, SliceKernelUtil_Forward_loop_spec,
        if_pos ⟨by omega, by omega⟩, hE]
    · exfalso
      have := hne' i.toNat (by omega)
      rw [Int.toNat_of_nonneg hi0] at this
      exact this rfl
  · intro p hp0 hp hsel
    by_cases hz : y_shape.prod = 0
    · rw [if_pos hz, Memset, if_pos ⟨hp0, hp⟩]
    · rw [if_neg hz]
      simp only [SliceKernelUtil_Backward]
      rcases SliceKernelUtil_Backward_loop_spec params (SliceKernelUtil_Forward params x y0)
          params.elem_cnt.toNat (Memset dx0 x_shape.prod) p with ⟨m, hm, hE, -⟩ | ⟨-, hval⟩
      · exact absurd hE (hsel m (by omega) (by omega))
      · rw [hval, Memset, if_pos ⟨hp0, hp⟩]

theorem gradient_consistency_witness :
    ConstructSliceParams RegulateSliceStart RegulateSliceStop [1] [4] [2] [4] [2] = .ok
      (⟨1, [4, 0, 0, 0, 0, 0, 0, 0], [1, 0, 0, 0, 0, 0, 0, 0], [2, 0, 0, 0, 0, 0, 0, 0],
        [2, 0, 0, 0, 0, 0, 0, 0]⟩ : SliceParams) ∧
    ∃ y dx : Int → Int,
      SliceKernel_Compute RegulateSliceStart RegulateSliceStop [1] [4] [2] [4] [2]
          (fun p => p + 10) (fun _ => 0) = .ok y ∧
      SliceGradKernel_Compute RegulateSliceStart RegulateSliceStop [1] [4] [2] [4] [2]
          y (fun _ => 7) = .ok dx ∧
      (∀ i : Int, 0 ≤ i → i < (⟨1, [4, 0, 0, 0, 0, 0, 0, 0], [1, 0, 0, 0, 0, 0, 0, 0], [2, 0, 0, 0, 0, 0, 0, 0],
        [2, 0, 0, 0, 0, 0, 0, 0]⟩ : SliceParams).elem_cnt →
        dx (SliceOffsetToEntireOffset (⟨1, [4, 0, 0, 0, 0, 0, 0, 0], [1, 0, 0, 0, 0, 0, 0, 0], [2, 0, 0, 0, 0, 0, 0, 0],
        [2, 0, 0, 0, 0, 0, 0, 0]⟩ : SliceParams).ndim i
            (⟨1, [4, 0, 0, 0, 0, 0, 0, 0], [1, 0, 0, 0, 0, 0, 0, 0], [2, 0, 0, 0, 0, 0, 0, 0],
        [2, 0, 0, 0, 0, 0, 0, 0]⟩ : SliceParams))
          = (fun p => p + 10) (SliceOffsetToEntireOffset (⟨1, [4, 0, 0, 0, 0, 0, 0, 0], [1, 0, 0, 0, 0, 0, 0, 0], [2, 0, 0, 0, 0, 0, 0, 0],
        [2, 0, 0, 0, 0, 0, 0, 0]⟩ : SliceParams).ndim i
            (⟨1, [4, 0, 0, 0, 0, 0, 0, 0], [1, 0, 0, 0, 0, 0, 0, 0], [2, 0, 0, 0, 0, 0, 0, 0],
        [2, 0, 0, 0, 0, 0, 0, 0]⟩ : SliceParams))) ∧
      (∀ p : Int, 0 ≤ p → p < ([4] : List Int).prod →
        (∀ i : Int, 0 ≤ i → i < (⟨1, [4, 0, 0, 0, 0, 0, 0, 0], [1, 0, 0, 0, 0, 0, 0, 0], [2, 0, 0, 0, 0, 0, 0, 0],
        [2, 0, 0, 0, 0, 0, 0, 0]⟩ : SliceParams).elem_cnt →
          SliceOffsetToEntireOffset (⟨1, [4, 0, 0, 0, 0, 0, 0, 0], [1, 0, 0, 0, 0, 0, 0, 0], [2, 0, 0, 0, 0, 0, 0, 0],
        [2, 0, 0, 0, 0, 0, 0, 0]⟩ : SliceParams).ndim i
            (⟨1, [4, 0, 0, 0, 0, 0, 0, 0], [1, 0, 0, 0, 0, 0, 0, 0], [2, 0, 0, 0, 0, 0, 0, 0],
        [2, 0, 0, 0, 0, 0, 0, 0]⟩ : SliceParams) ≠ p) →
        dx p = 0) :=
  ⟨by decide,
    gradient_consistency RegulateSliceStart RegulateSliceStop [1] [4] [2] [4] [2]
      (fun p => p + 10) (fun _ => 0) (fun _ => 7) _ (by decide)⟩

/-- The statement of C13 for the builder over the integers. Slice-update round trip:
for every shape, every `x`, every start, stop and step that `ConstructSliceParams`
accepts, with every start normalised into
`[0, dims[i])` and every stop into `[-1, dims[i]]`, and every update tensor `u` of
the sliced shape, `SliceUpdateKernel` returns a `y` with `y[p] = x[p]` at every
position `p` of the tensor that the slice does not select, and `SliceKernel` on `y`
with the same start, stop and step returns a `z` with `z[i] = u[i]` for each of the
`elem_cnt` elements of `u`. -/
theorem slice_update_round_trip {α : Type} (regulateStart regulateStop : Int → Int → Int)
    (start_vec stop_vec step_vec y_shape update_shape : List Int) (x u y0 z0 : Int → α)
    (params : SliceParams)
    (hparams : ConstructSliceParams regulateStart regulateStop start_vec stop_vec step_vec
      y_shape update_shape = .ok params)
    (hupdate : ∀ i, i < update_shape.length → 0 ≤ update_shape.getD i 0)
    (hstart : ∀ i, i < y_shape.length →
      0 ≤ regulateStart (start_vec.getD i 0) (y_shape.getD i 0) ∧
        regulateStart (start_vec.getD i 0) (y_shape.getD i 0) < y_shape.getD i 0)
    (hstop : ∀ i, i < y_shape.length →
      -1 ≤ regulateStop (stop_vec.getD i 0) (y_shape.getD i 0) ∧
        regulateStop (stop_vec.getD i 0) (y_shape.getD i 0) ≤ y_shape.getD i 0) :
    ∃ y z : Int → α,
      SliceUpdateKernel_Compute regulateStart regulateStop start_vec stop_vec step_vec y_shape
          update_shape x u y0 = .ok y ∧
      (∀ p : Int, 0 ≤ p → p < y_shape.prod →
        (∀ i : Int, 0 ≤ i → i < params.elem_cnt →
          SliceOffsetToEntireOffset params.ndim i params ≠ p) →
        y p = x p) ∧
      SliceKernel_Compute regulateStart regulateStop start_vec stop_vec step_vec y_shape
          update_shape y z0 = .ok z ∧
      params.elem_cnt = update_shape.prod ∧
      (∀ i : Int, 0 ≤ i → i < params.elem_cnt → z i = u i) := by
  refine ⟨SliceKernelUtil_Backward params u (Memcpy y0 x y_shape.prod),
    SliceKernelUtil_Forward params
      (SliceKernelUtil_Backward params u (Memcpy y0 x y_shape.prod)) z0, ?_, ?_, ?_,
    ConstructSliceParams_elem_cnt _ _ _ _ _ _ _ _ hparams, ?_⟩
  · simp only [SliceUpdateKernel_Compute, hparams]
  · intro p hp0 hp hsel
    simp only [SliceKernelUtil_Backward]
    rcases SliceKernelUtil_Backward_loop_spec params u params.elem_cnt.toNat
        (Memcpy y0 x y_shape.prod) p with ⟨m, hm, hE, -⟩ | ⟨-, hval⟩
    · exact absurd hE (hsel m (by omega) (by omega))
    · rw [hval, Memcpy, if_pos ⟨hp0, hp⟩]
  · simp only [SliceKernel_Compute, hparams]
  · intro i hi0 hi
    rw [SliceKernelUtil_Forward, SliceKernelUtil_Forward_loop_spec, if_pos ⟨hi0, by omega⟩]
    simp only [SliceKernelUtil_Backward]
    rcases SliceKernelUtil_Backward_loop_spec params u params.elem_cnt.toNat
        (Memcpy y0 x y_shape.prod) (SliceOffsetToEntireOffset params.ndim i params)
      with ⟨m, hm, hE, hval⟩ | ⟨hne, -⟩
    · have hmi : (m : Int) = i :=
        ConstructSliceParams_offsets_injective _ _ _ _ _ _ _ params hparams hupdate hstart
          hstop m i (by omega) (by omega) hi0 hi hE
      rw [hval, hmi]
    · exfalso
      have := hne i.toNat (by omega)
      rw [Int.toNat_of_nonneg hi0] at this
      exact this rfl

theorem slice_update_round_trip_witness :
    (ConstructSliceParams RegulateSliceStart RegulateSliceStop [1] [4] [2] [4] [2] = .ok
      (⟨1, [4, 0, 0, 0, 0, 0, 0, 0], [1, 0, 0, 0, 0, 0, 0, 0], [2, 0, 0, 0, 0, 0, 0, 0],
        [2, 0, 0, 0, 0, 0, 0, 0]⟩ : SliceParams) ∧
      (∀ i, i < ([2] : List Int).length → 0 ≤ ([2] : List Int).getD i 0) ∧
      (∀ i, i < ([4] : List Int).length →
        0 ≤ RegulateSliceStart (([1] : List Int).getD i 0) (([4] : List Int).getD i 0) ∧
          RegulateSliceStart (([1] : List Int).getD i 0) (([4] : List Int).getD i 0)
            < ([4] : List Int).getD i 0) ∧
      (∀ i, i < ([4] : List Int).length →
        -1 ≤ RegulateSliceStop (([4] : List Int).getD i 0) (([4] : List Int).getD i 0) ∧
          RegulateSliceStop (([4] : List Int).getD i 0) (([4] : List Int).getD i 0)
            ≤ ([4] : List Int).getD i 0)) ∧
    ∃ y z : Int → Int,
      SliceUpdateKernel_Compute RegulateSliceStart RegulateSliceStop [1] [4] [2] [4] [2]
          (fun p => p + 10) (fun p => p + 100) (fun _ => 0) = .ok y ∧
      (∀ p : Int, 0 ≤ p → p < ([4] : List Int).prod →
        (∀ i : Int, 0 ≤ i → i < (⟨1, [4, 0, 0, 0, 0, 0, 0, 0], [1, 0, 0, 0, 0, 0, 0, 0], [2, 0, 0, 0, 0, 0, 0, 0],
        [2, 0, 0, 0, 0, 0, 0, 0]⟩ : SliceParams).elem_cnt →
          SliceOffsetToEntireOffset (⟨1, [4, 0, 0, 0, 0, 0, 0, 0], [1, 0, 0, 0, 0, 0, 0, 0], [2, 0, 0, 0, 0, 0, 0, 0],
        [2, 0, 0, 0, 0, 0, 0, 0]⟩ : SliceParams).ndim i
            (⟨1, [4, 0, 0, 0, 0, 0, 0, 0], [1, 0, 0, 0, 0, 0, 0, 0], [2, 0, 0, 0, 0, 0, 0, 0],
        [2, 0, 0, 0, 0, 0, 0, 0]⟩ : SliceParams) ≠ p) →
        y p = (fun p => p + 10) p) ∧
      SliceKernel_Compute RegulateSliceStart RegulateSliceStop [1] [4] [2] [4] [2]
          y (fun _ => 0) = .ok z ∧
      (⟨1, [4, 0, 0, 0, 0, 0, 0, 0], [1, 0, 0, 0, 0, 0, 0, 0], [2, 0, 0, 0, 0, 0, 0, 0],
        [2, 0, 0, 0, 0, 0, 0, 0]⟩ : SliceParams).elem_cnt = ([2] : List Int).prod ∧
      (∀ i : Int, 0 ≤ i → i < (⟨1, [4, 0, 0, 0, 0, 0, 0, 0], [1, 0, 0, 0, 0, 0, 0, 0], [2, 0, 0, 0, 0, 0, 0, 0],
        [2, 0, 0, 0, 0, 0, 0, 0]⟩ : SliceParams).elem_cnt → z i = (fun p => p + 100) i) :=
  ⟨⟨by decide, by decide, by decide, by decide⟩,
    slice_update_round_trip RegulateSliceStart RegulateSliceStop [1] [4] [2] [4] [2]
      (fun p => p + 10) (fun p => p + 100) (fun _ => 0) (fun _ => 0) _
      (by decide) (by decide) (by decide) (by decide)⟩

/-! ## Unsupported annotations, and the context without a split -/

/-- C21. Unsupported distributions are fatal: for every group size above 1,
`CreateSliceCache` returns no `SliceContext` when the annotation has more than one
entry marked `Split` (it aborts on its `CHECK`), or has a single entry that is none
of `Split`, `Broadcast`, `PartialSum` (it aborts on `UNIMPLEMENTED()`). -/
theorem unsupported_distributions_are_fatal
    (balanced_range : Int → Int → Int → Int × Int) (parallel_num parallel_id : Int)
    (in_nd_sbp : List SbpParallel) (logical_shape : List Int) (hnum : 1 < parallel_num) :
    (1 < (in_nd_sbp.filter SbpParallel.has_split_parallel).length →
      CreateSliceCache balanced_range parallel_num parallel_id in_nd_sbp logical_shape
        = .error CheckFailure.nd_sbp_not_broadcast) ∧
    (∀ in_sbp : SbpParallel, in_nd_sbp = [in_sbp] →
      in_sbp.has_split_parallel = false → in_sbp.has_broadcast_parallel = false →
      in_sbp.has_partial_sum_parallel = false →
      CreateSliceCache balanced_range parallel_num parallel_id in_nd_sbp logical_shape
        = .error CheckFailure.unimplemented) := by
  have h1 : ¬ parallel_num = 1 := by omega
  constructor
  · intro hsplit
    have hlen : 1 < in_nd_sbp.length :=
      lt_of_lt_of_le hsplit (List.length_filter_le _ _)
    have hex : ∃ sbp, sbp ∈ in_nd_sbp ∧ sbp.has_split_parallel = true := by
      obtain ⟨sbp, hmem⟩ := List.exists_mem_of_length_pos (by omega :
        0 < (in_nd_sbp.filter SbpParallel.has_split_parallel).length)
      exact ⟨sbp, (List.mem_filter.mp hmem).1, (List.mem_filter.mp hmem).2⟩
    unfold CreateSliceCache
    rw [if_neg h1, if_pos hlen, all_broadcast_false_of_split in_nd_sbp hex]
    rfl
  · intro in_sbp hnd hs hb hp
    subst hnd
    simp [CreateSliceCache, h1, hs, hb, hp]

theorem unsupported_distributions_are_fatal_witness :
    ((1 : Int) < 4 ∧
      1 < ([SbpParallel.split_parallel 0, SbpParallel.broadcast_parallel,
        SbpParallel.split_parallel 1].filter SbpParallel.has_split_parallel).length) ∧
    CreateSliceCache BalancedSplitter_At 4 2
        [SbpParallel.split_parallel 0, SbpParallel.broadcast_parallel,
          SbpParallel.split_parallel 1] [8, 6]
      = .error CheckFailure.nd_sbp_not_broadcast :=
  ⟨⟨by decide, by decide⟩,
    (unsupported_distributions_are_fatal BalancedSplitter_At 4 2
      [SbpParallel.split_parallel 0, SbpParallel.broadcast_parallel,
        SbpParallel.split_parallel 1] [8, 6] (by decide)).1 (by decide)⟩

/-- No axis is the sentinel `SPLIT_AXIS_FOR_NON_SPLIT`. -/
theorem axis_ne_non_split (i : Nat) : ¬ ((i : Int) = SPLIT_AXIS_FOR_NON_SPLIT) := by
  unfold SPLIT_AXIS_FOR_NON_SPLIT
  omega

/-- Without a split the body of the loop of `ConstructSliceParamsLarge` does not
read `lower`, `upper` and `logical_length`. -/
theorem ConstructSliceParamsLarge_body_non_split (l u n l' u' n' : Int) :
    ConstructSliceParamsLarge_body ⟨SPLIT_AXIS_FOR_NON_SPLIT, l, u, n⟩
      = ConstructSliceParamsLarge_body ⟨SPLIT_AXIS_FOR_NON_SPLIT, l', u', n'⟩ := by
  funext start_vec stop_vec step_vec shape i p
  simp only [ConstructSliceParamsLarge_body, start_in_splitted_large, stop_in_splitted_large,
    axis_ne_non_split i, if_false]

/-- Without a split the body of the loop of `ConstructSliceParamsSmall` does not
read `lower`, `upper` and `logical_length`. -/
theorem ConstructSliceParamsSmall_body_non_split (l u n l' u' n' : Int) :
    ConstructSliceParamsSmall_body ⟨SPLIT_AXIS_FOR_NON_SPLIT, l, u, n⟩
      = ConstructSliceParamsSmall_body ⟨SPLIT_AXIS_FOR_NON_SPLIT, l', u', n'⟩ := by
  funext start_vec step_vec shape i p
  simp only [ConstructSliceParamsSmall_body, start_in_full_small, stop_in_full_small,
    axis_ne_non_split i, if_false]

/-- Without a split the body of the normalisation loop of `WriteSlice` does not
read `lower`, `upper` and `logical_length`. -/
theorem WriteSlice_normalize_body_non_split (rs re : Int → Int → Int)
    (l u n l' u' n' : Int) :
    WriteSlice_normalize_body rs re ⟨SPLIT_AXIS_FOR_NON_SPLIT, l, u, n⟩
      = WriteSlice_normalize_body rs re ⟨SPLIT_AXIS_FOR_NON_SPLIT, l', u', n'⟩ := by
  funext start_attr stop_attr large_shape i acc
  simp only [WriteSlice_normalize_body, normalize_extent, axis_ne_non_split i, if_false]

/-- Without a split `WriteSlice_params` does not read `lower`, `upper` and
`logical_length`. -/
theorem WriteSlice_params_non_split (rs re : Int → Int → Int) (l u n l' u' n' : Int)
    (start_attr stop_attr step_attr large_shape small_shape : List Int) :
    WriteSlice_params rs re ⟨SPLIT_AXIS_FOR_NON_SPLIT, l, u, n⟩ start_attr stop_attr step_attr
        large_shape small_shape
      = WriteSlice_params rs re ⟨SPLIT_AXIS_FOR_NON_SPLIT, l', u', n'⟩ start_attr stop_attr
          step_attr large_shape small_shape := by
  simp only [WriteSlice_params, ConstructSliceParamsLarge, ConstructSliceParamsSmall,
    ne_eq, not_true_eq_false, if_false,
    WriteSlice_normalize_body_non_split rs re l u n l' u' n',
    ConstructSliceParamsLarge_body_non_split l u n l' u' n',
    ConstructSliceParamsSmall_body_non_split l u n l' u' n']

/-- An abort of `ConstructSliceParamsLarge` comes from the rank check, from one of the
three size checks or from the step check. -/
theorem ConstructSliceParamsLarge_error_cases (ctx : SliceContext)
    (start_vec stop_vec step_vec shape : List Int) (e : CheckFailure)
    (h : ConstructSliceParamsLarge ctx start_vec stop_vec step_vec shape = .error e) :
    e = .rank_exceeds_max ∨ e = .attr_size ∨ e = .step_not_positive := by
  unfold ConstructSliceParamsLarge at h
  by_cases h1 : shape.length ≤ kSliceMaxDims
  · by_cases h2 : start_vec.length = shape.length
    · by_cases h3 : stop_vec.length = shape.length
      · by_cases h4 : step_vec.length = shape.length
        · simp only [h1, h2, h3, h4, not_true_eq_false, ne_eq, if_false] at h
          refine FOR_RANGE_error
            (fun e => e = .rank_exceeds_max ∨ e = .attr_size ∨ e = .step_not_positive)
            _ _ _ ?_ e h
          intro i s e' he'
          unfold ConstructSliceParamsLarge_body at he'
          by_cases hs : step_vec.getD i 0 > 0
          · simp only [hs, not_true_eq_false, if_false] at he'
            cases he'
          · simp only [hs, not_false_eq_true, if_true] at he'
            injection he' with he'
            exact Or.inr (Or.inr he'.symm)
        · simp [h1, h2, h3, h4] at h
          exact Or.inr (Or.inl h.symm)
      · simp [h1, h2, h3] at h
        exact Or.inr (Or.inl h.symm)
    · simp [h1, h2] at h
      exact Or.inr (Or.inl h.symm)
  · simp [h1] at h
    exact Or.inl h.symm

/-- An abort of `ConstructSliceParamsSmall` comes from the rank check, from one of the
three size checks or from the step check. -/
theorem ConstructSliceParamsSmall_error_cases (ctx : SliceContext)
    (start_vec stop_vec step_vec shape : List Int) (e : CheckFailure)
    (h : ConstructSliceParamsSmall ctx start_vec stop_vec step_vec shape = .error e) :
    e = .rank_exceeds_max ∨ e = .attr_size ∨ e = .step_not_positive := by
  unfold ConstructSliceParamsSmall at h
  by_cases h1 : shape.length ≤ kSliceMaxDims
  · by_cases h2 : start_vec.length = shape.length
    · by_cases h3 : stop_vec.length = shape.length
      · by_cases h4 : step_vec.length = shape.length
        · simp only [h1, h2, h3, h4, not_true_eq_false, ne_eq, if_false] at h
          refine FOR_RANGE_error
            (fun e => e = .rank_exceeds_max ∨ e = .attr_size ∨ e = .step_not_positive)
            _ _ _ ?_ e h
          intro i s e' he'
          unfold ConstructSliceParamsSmall_body at he'
          by_cases hs : step_vec.getD i 0 > 0
          · simp only [hs, not_true_eq_false, if_false] at he'
            cases he'
          · simp only [hs, not_false_eq_true, if_true] at he'
            injection he' with he'
            exact Or.inr (Or.inr he'.symm)
        · simp [h1, h2, h3, h4] at h
          exact Or.inr (Or.inl h.symm)
      · simp [h1, h2, h3] at h
        exact Or.inr (Or.inl h.symm)
    · simp [h1, h2] at h
      exact Or.inr (Or.inl h.symm)
  · simp [h1] at h
    exact Or.inl h.symm

/-- Without a split the split-extent check of `WriteSlice` does not fire. -/
theorem WriteSlice_params_non_split_no_extent_check (rs re : Int → Int → Int) (l u n : Int)
    (start_attr stop_attr step_attr large_shape small_shape : List Int) :
    WriteSlice_params rs re ⟨SPLIT_AXIS_FOR_NON_SPLIT, l, u, n⟩ start_attr stop_attr step_attr
        large_shape small_shape ≠ .error CheckFailure.split_extent := by
  unfold WriteSlice_params
  simp only [ne_eq, not_true_eq_false, if_false]
  cases hnorm : FOR_RANGE start_attr.length
      (WriteSlice_normalize_body rs re ⟨SPLIT_AXIS_FOR_NON_SPLIT, l, u, n⟩ start_attr stop_attr
        large_shape) ([], []) with
  | error e =>
    simp only
    intro h
    injection h with h
    subst h
    have := FOR_RANGE_error (fun e => e ≠ CheckFailure.split_extent) _ _ _
      (fun i s e' he' => by
        unfold WriteSlice_normalize_body at he'
        by_cases hk1 : i < large_shape.length
        · by_cases hk2 : i < stop_attr.length
          · simp [hk1, hk2] at he'
          · simp [hk1, hk2] at he'
            subst he'
            decide
        · simp [hk1] at he'
          subst he'
          decide) _ hnorm
    exact this rfl
  | ok r =>
    obtain ⟨r1, r2⟩ := r
    simp only
    cases hL : ConstructSliceParamsLarge ⟨SPLIT_AXIS_FOR_NON_SPLIT, l, u, n⟩ r1 r2 step_attr
        large_shape with
    | error e =>
      simp only
      intro h
      injection h with h
      subst h
      rcases ConstructSliceParamsLarge_error_cases _ _ _ _ _ _ hL with h | h | h <;> cases h
    | ok L =>
      simp only
      cases hS : ConstructSliceParamsSmall ⟨SPLIT_AXIS_FOR_NON_SPLIT, l, u, n⟩ r1 r2 step_attr
          small_shape with
      | error e =>
        simp only
        intro h
        injection h with h
        subst h
        rcases ConstructSliceParamsSmall_error_cases _ _ _ _ _ _ hS with h | h | h <;> cases h
      | ok S =>
        simp only
        split_ifs
        · intro h
          cases h
        · intro h
          cases h

/-- C22. Without a split, `lower`, `upper` and `logical_length` are ignored: for
`split_axis = SPLIT_AXIS_FOR_NON_SPLIT` and two contexts that differ in `lower`,
`upper` and `logical_length` only, the start/stop normalisation of `WriteSlice`,
`ConstructSliceParamsLarge` and `ConstructSliceParamsSmall` give the same result
for the same attributes and shapes, so do the pair of parameter blocks of
`WriteSlice` and the copy itself, and the split-extent check does not fire. -/
theorem non_split_context_fields_are_ignored (regulateStart regulateStop : Int → Int → Int)
    (l u n l' u' n' : Int) (start_attr stop_attr step_attr large_shape small_shape : List Int) :
    FOR_RANGE start_attr.length
        (WriteSlice_normalize_body regulateStart regulateStop
          ⟨SPLIT_AXIS_FOR_NON_SPLIT, l, u, n⟩ start_attr stop_attr large_shape) ([], [])
      = FOR_RANGE start_attr.length
          (WriteSlice_normalize_body regulateStart regulateStop
            ⟨SPLIT_AXIS_FOR_NON_SPLIT, l', u', n'⟩ start_attr stop_attr large_shape) ([], []) ∧
    ConstructSliceParamsLarge ⟨SPLIT_AXIS_FOR_NON_SPLIT, l, u, n⟩ start_attr stop_attr step_attr
        large_shape
      = ConstructSliceParamsLarge ⟨SPLIT_AXIS_FOR_NON_SPLIT, l', u', n'⟩ start_attr stop_attr
          step_attr large_shape ∧
    ConstructSliceParamsSmall ⟨SPLIT_AXIS_FOR_NON_SPLIT, l, u, n⟩ start_attr stop_attr step_attr
        small_shape
      = ConstructSliceParamsSmall ⟨SPLIT_AXIS_FOR_NON_SPLIT, l', u', n'⟩ start_attr stop_attr
          step_attr small_shape ∧
    WriteSlice_params regulateStart regulateStop ⟨SPLIT_AXIS_FOR_NON_SPLIT, l, u, n⟩ start_attr
        stop_attr step_attr large_shape small_shape
      = WriteSlice_params regulateStart regulateStop ⟨SPLIT_AXIS_FOR_NON_SPLIT, l', u', n'⟩
          start_attr stop_attr step_attr large_shape small_shape ∧
    WriteSlice_params regulateStart regulateStop ⟨SPLIT_AXIS_FOR_NON_SPLIT, l, u, n⟩ start_attr
        stop_attr step_attr large_shape small_shape ≠ .error CheckFailure.split_extent ∧
    (∀ (α : Type) (fuel NDIM : Nat) (src dst : Int → α) (from_large_to_small : Bool),
      WriteSlice regulateStart regulateStop fuel NDIM ⟨SPLIT_AXIS_FOR_NON_SPLIT, l, u, n⟩
          start_attr stop_attr step_attr large_shape small_shape src dst from_large_to_small
        = WriteSlice regulateStart regulateStop fuel NDIM ⟨SPLIT_AXIS_FOR_NON_SPLIT, l', u', n'⟩
            start_attr stop_attr step_attr large_shape small_shape src dst
            from_large_to_small) := by
  refine ⟨?_, ?_, ?_, WriteSlice_params_non_split _ _ l u n l' u' n' _ _ _ _ _,
    WriteSlice_params_non_split_no_extent_check _ _ l u n _ _ _ _ _, ?_⟩
  · rw [WriteSlice_normalize_body_non_split _ _ l u n l' u' n']
  · simp only [ConstructSliceParamsLarge,
      ConstructSliceParamsLarge_body_non_split l u n l' u' n']
  · simp only [ConstructSliceParamsSmall,
      ConstructSliceParamsSmall_body_non_split l u n l' u' n']
  · intro α fuel NDIM src dst f2s
    simp only [WriteSlice, WriteSlice_params_non_split _ _ l u n l' u' n']

/-! ## Rank validation, and the small side off the split axis -/

/-- The result of a builder is a parameter block or an abort. -/
theorem ok_or_error {σ : Type} (r : Except CheckFailure σ) :
    (∃ p, r = .ok p) ∨ (∃ e, r = .error e) := by
  cases r with
  | ok p => exact Or.inl ⟨p, rfl⟩
  | error e => exact Or.inr ⟨e, rfl⟩

/-- An abort of `ConstructSliceParams` on the rank of the sliced tensor means that
the rank check of line 140 or 142 fails. -/
theorem ConstructSliceParams_sliced_rank_error (rs re : Int → Int → Int)
    (start_vec stop_vec step_vec entire_shape sliced_shape : List Int)
    (h : ConstructSliceParams rs re start_vec stop_vec step_vec entire_shape sliced_shape
      = .error .sliced_rank) :
    if entire_shape.length = 1 then ¬ (sliced_shape.length ≤ 1)
    else ¬ (sliced_shape.length = entire_shape.length) := by
  by_contra hcon
  unfold ConstructSliceParams at h
  by_cases h1 : entire_shape.length ≤ kSliceMaxDims
  swap
  · simp [h1] at h
  by_cases h3 : start_vec.length = entire_shape.length
  swap
  · simp only [h1, not_true_eq_false, if_false, hcon, h3, ne_eq, not_false_eq_true, if_true,
      reduceCtorEq, Except.error.injEq] at h
  by_cases h4 : stop_vec.length = entire_shape.length
  swap
  · simp only [h1, not_true_eq_false, if_false, hcon, h3, h4, ne_eq, not_false_eq_true, if_true,
      reduceCtorEq, Except.error.injEq] at h
  by_cases h5 : step_vec.length = entire_shape.length
  swap
  · simp only [h1, not_true_eq_false, if_false, hcon, h3, h4, h5, ne_eq, not_false_eq_true,
      if_true, reduceCtorEq, Except.error.injEq] at h
  by_cases hd : entire_shape.length = 1 ∧ sliced_shape.length = 0
  · simp only [h1, not_true_eq_false, if_false, hcon, h3, h4, h5, ne_eq, hd, and_self, if_true,
      reduceCtorEq] at h
    split_ifs at h <;> omega
  · simp only [h1, not_true_eq_false, if_false, hcon, h3, h4, h5, ne_eq, hd] at h
    have := FOR_RANGE_error (fun e => e ≠ CheckFailure.sliced_rank) _ _ _
      (fun i q e' he' => by
        unfold ConstructSliceParams_body at he'
        by_cases hs0 : step_vec.getD i 0 ≠ 0
        · by_cases hs : step_vec.getD i 0 > 0
          · simp only [hs0, not_true_eq_false, if_false, hs, if_true] at he'
            split_ifs at he'
            injection he' with he'
            subst he'
            decide
          · simp only [hs0, not_true_eq_false, if_false, hs] at he'
            split_ifs at he'
            injection he' with he'
            subst he'
            decide
        · simp only [hs0, not_false_eq_true, if_true] at he'
          injection he' with he'
          subst he'
          decide) _ h
    exact this rfl

/-- C23. Rank validation: `ConstructSliceParams`, `ConstructSliceParamsLarge` and
`ConstructSliceParamsSmall` abort when the rank of the tensor exceeds
`kSliceMaxDims` or the length of one of the start, stop, step sequences differs
from the rank. `ConstructSliceParams` also aborts when the rank of the sliced tensor
differs from the rank of the entire tensor, unless the entire tensor has rank 1 and
the sliced tensor rank 0 or 1; in that case, and with equal ranks, it does not
abort on the rank of the sliced tensor. -/
theorem rank_validation (regulateStart regulateStop : Int → Int → Int) (ctx : SliceContext)
    (start_vec stop_vec step_vec shape sliced_shape : List Int) :
    ((kSliceMaxDims < shape.length ∨ start_vec.length ≠ shape.length ∨
        stop_vec.length ≠ shape.length ∨ step_vec.length ≠ shape.length) →
      (∃ e, ConstructSliceParams regulateStart regulateStop start_vec stop_vec step_vec shape
          sliced_shape = .error e) ∧
      (∃ e, ConstructSliceParamsLarge ctx start_vec stop_vec step_vec shape = .error e) ∧
      (∃ e, ConstructSliceParamsSmall ctx start_vec stop_vec step_vec shape = .error e)) ∧
    ((sliced_shape.length ≠ shape.length ∧ ¬ (shape.length = 1 ∧ sliced_shape.length ≤ 1)) →
      ∃ e, ConstructSliceParams regulateStart regulateStop start_vec stop_vec step_vec shape
        sliced_shape = .error e) ∧
    ((sliced_shape.length = shape.length ∨ (shape.length = 1 ∧ sliced_shape.length ≤ 1)) →
      ConstructSliceParams regulateStart regulateStop start_vec stop_vec step_vec shape
        sliced_shape ≠ .error CheckFailure.sliced_rank) := by
  refine ⟨?_, ?_, ?_⟩
  · intro h
    refine ⟨?_, ?_, ?_⟩
    · rcases ok_or_error (ConstructSliceParams regulateStart regulateStop start_vec stop_vec
        step_vec shape sliced_shape) with ⟨p, hp⟩ | he
      · obtain ⟨c1, -, c3, c4, c5⟩ := ConstructSliceParams_checks _ _ _ _ _ _ _ _ hp
        omega
      · exact he
    · rcases ok_or_error (ConstructSliceParamsLarge ctx start_vec stop_vec step_vec shape)
        with ⟨p, hp⟩ | he
      · obtain ⟨c1, c3, c4, c5⟩ := ConstructSliceParamsLarge_inv _ _ _ _ _ _ hp
        omega
      · exact he
    · rcases ok_or_error (ConstructSliceParamsSmall ctx start_vec stop_vec step_vec shape)
        with ⟨p, hp⟩ | he
      · obtain ⟨c1, c3, c4, c5⟩ := ConstructSliceParamsSmall_inv _ _ _ _ _ _ hp
        omega
      · exact he
  · intro h
    rcases ok_or_error (ConstructSliceParams regulateStart regulateStop start_vec stop_vec
      step_vec shape sliced_shape) with ⟨p, hp⟩ | he
    · obtain ⟨-, c2, -, -, -⟩ := ConstructSliceParams_checks _ _ _ _ _ _ _ _ hp
      by_cases hone : shape.length = 1
      · simp only [hone, if_true] at c2
        exact absurd ⟨hone, c2⟩ h.2
      · simp only [hone, if_false] at c2
        exact absurd c2 h.1
    · exact he
  · intro h herr
    have := ConstructSliceParams_sliced_rank_error _ _ _ _ _ _ _ herr
    by_cases hone : shape.length = 1
    · simp only [hone, if_true] at this
      omega
    · simp only [hone, if_false] at this
      omega

theorem rank_validation_witness :
    ((kSliceMaxDims < ([2, 2, 2, 2, 2, 2, 2, 2, 2] : List Int).length ∨
        ([0] : List Int).length ≠ ([2, 2, 2, 2, 2, 2, 2, 2, 2] : List Int).length ∨
        ([2] : List Int).length ≠ ([2, 2, 2, 2, 2, 2, 2, 2, 2] : List Int).length ∨
        ([1] : List Int).length ≠ ([2, 2, 2, 2, 2, 2, 2, 2, 2] : List Int).length)) ∧
    ((∃ e, ConstructSliceParams RegulateSliceStart RegulateSliceStop [0] [2] [1]
          [2, 2, 2, 2, 2, 2, 2, 2, 2] [2] = .error e) ∧
      (∃ e, ConstructSliceParamsLarge ⟨0, 0, 2, 4⟩ [0] [2] [1] [2, 2, 2, 2, 2, 2, 2, 2, 2]
        = .error e) ∧
      (∃ e, ConstructSliceParamsSmall ⟨0, 0, 2, 4⟩ [0] [2] [1] [2, 2, 2, 2, 2, 2, 2, 2, 2]
        = .error e)) :=
  ⟨by decide,
    (rank_validation RegulateSliceStart RegulateSliceStop ⟨0, 0, 2, 4⟩ [0] [2] [1]
      [2, 2, 2, 2, 2, 2, 2, 2, 2] [2]).1 (by decide)⟩

/-- C24. The small side is unstrided, and full off the split axis: for every input
that `ConstructSliceParamsSmall` accepts, `step[i] = 1` on every axis, and on every
axis `i` other than the split axis `start[i] = 0` and `size[i] = dims[i] = shape[i]`,
so `IsFullSlice(i)` holds; these values are the same for every start and stop
sequence that the builder accepts with the same step and shape. -/
theorem small_side_unstrided_and_full (ctx : SliceContext)
    (start_vec stop_vec step_vec shape : List Int) (small : SliceParams)
    (h : ConstructSliceParamsSmall ctx start_vec stop_vec step_vec shape = .ok small) :
    small.ndim = shape.length ∧
    (∀ i, i < shape.length → small.step.getD i 0 = 1) ∧
    (∀ i, i < shape.length → (i : Int) ≠ ctx.split_axis →
      small.start.getD i 0 = 0 ∧ small.size.getD i 0 = small.dims.getD i 0 ∧
        small.dims.getD i 0 = shape.getD i 0 ∧ small.IsFullSlice i = true) ∧
    (∀ (start_vec' stop_vec' : List Int) (small' : SliceParams),
      ConstructSliceParamsSmall ctx start_vec' stop_vec' step_vec shape = .ok small' →
      ∀ i, i < shape.length → (i : Int) ≠ ctx.split_axis →
        small'.dims.getD i 0 = small.dims.getD i 0 ∧
          small'.start.getD i 0 = small.start.getD i 0 ∧
          small'.step.getD i 0 = small.step.getD i 0 ∧
          small'.size.getD i 0 = small.size.getD i 0) := by
  obtain ⟨-, hn, hget⟩ := ConstructSliceParamsSmall_fields _ _ _ _ _ _ h
  have hoff : ∀ (sv ev : List Int) (S : SliceParams),
      ConstructSliceParamsSmall ctx sv ev step_vec shape = .ok S →
      ∀ i, i < shape.length → (i : Int) ≠ ctx.split_axis →
        S.dims.getD i 0 = shape.getD i 0 ∧ S.start.getD i 0 = 0 ∧ S.step.getD i 0 = 1 ∧
          S.size.getD i 0 = shape.getD i 0 := by
    intro sv ev S hS i hi hax
    obtain ⟨-, -, hg⟩ := ConstructSliceParamsSmall_fields _ _ _ _ _ _ hS
    obtain ⟨-, g1, g2, g3, g4⟩ := hg i hi
    simp only [start_in_full_small, stop_in_full_small, hax, if_false, sub_zero] at g2 g4
    exact ⟨g1, g2, g3, g4⟩
  refine ⟨hn, fun i hi => (hget i hi).2.2.2.1, ?_, ?_⟩
  · intro i hi hax
    obtain ⟨g1, g2, g3, g4⟩ := hoff _ _ _ h i hi hax
    refine ⟨g2, by rw [g4, g1], g1, ?_⟩
    rw [IsFullSlice_iff]
    exact ⟨g2, g3, by rw [g4, g1]⟩
  · intro sv ev S hS i hi hax
    obtain ⟨g1, g2, g3, g4⟩ := hoff _ _ _ h i hi hax
    obtain ⟨t1, t2, t3, t4⟩ := hoff _ _ _ hS i hi hax
    exact ⟨by rw [t1, g1], by rw [t2, g2], by rw [t3, g3], by rw [t4, g4]⟩

theorem small_side_unstrided_and_full_witness :
    ConstructSliceParamsSmall ⟨0, 2, 4, 8⟩ [1, 1] [7, 2] [2, 1] [3, 3] = .ok
      (⟨2, [3, 3, 0, 0, 0, 0, 0, 0], [1, 0, 0, 0, 0, 0, 0, 0], [1, 1, 0, 0, 0, 0, 0, 0],
        [1, 3, 0, 0, 0, 0, 0, 0]⟩ : SliceParams) ∧
    (⟨2, [3, 3, 0, 0, 0, 0, 0, 0], [1, 0, 0, 0, 0, 0, 0, 0], [1, 1, 0, 0, 0, 0, 0, 0],
        [1, 3, 0, 0, 0, 0, 0, 0]⟩ : SliceParams).IsFullSlice 1 = true :=
  ⟨by decide,
    ((small_side_unstrided_and_full ⟨0, 2, 4, 8⟩ [1, 1] [7, 2] [2, 1] [3, 3] _
      (by decide)).2.2.1 1 (by decide) (by decide)).2.2.2⟩

/-! ## The plain builder: in-bounds indices and offsets without aliasing -/

/-- The statement of C28 for the builder over the integers. Slice offsets never
alias: for every parameter block that
`ConstructSliceParams` returns, with every start normalised into `[0, dims[i])` and
every stop into `[-1, dims[i]]` (the extents of the sliced shape not negative), the
map from the slice offsets `[0, elem_cnt)` to the entire-buffer offsets is
injective; so the overwriting scatter of `slice_grad` and `slice_update` leaves at
the entire-buffer offset of every slice offset `i` the value `sliced[i]`. -/
theorem slice_offsets_never_alias {α : Type} (regulateStart regulateStop : Int → Int → Int)
    (start_vec stop_vec step_vec entire_shape sliced_shape : List Int) (params : SliceParams)
    (h : ConstructSliceParams regulateStart regulateStop start_vec stop_vec step_vec
      entire_shape sliced_shape = .ok params)
    (hsliced : ∀ i, i < sliced_shape.length → 0 ≤ sliced_shape.getD i 0)
    (hstart : ∀ i, i < entire_shape.length →
      0 ≤ regulateStart (start_vec.getD i 0) (entire_shape.getD i 0) ∧
        regulateStart (start_vec.getD i 0) (entire_shape.getD i 0) < entire_shape.getD i 0)
    (hstop : ∀ i, i < entire_shape.length →
      -1 ≤ regulateStop (stop_vec.getD i 0) (entire_shape.getD i 0) ∧
        regulateStop (stop_vec.getD i 0) (entire_shape.getD i 0) ≤ entire_shape.getD i 0) :
    (∀ o o' : Int, 0 ≤ o → o < params.elem_cnt → 0 ≤ o' → o' < params.elem_cnt →
      SliceOffsetToEntireOffset params.ndim o params
        = SliceOffsetToEntireOffset params.ndim o' params → o = o') ∧
    (∀ (sliced entire : Int → α) (i : Int), 0 ≤ i → i < params.elem_cnt →
      SliceKernelUtil_Backward params sliced entire
        (SliceOffsetToEntireOffset params.ndim i params) = sliced i) := by
  have hinj := ConstructSliceParams_offsets_injective _ _ _ _ _ _ _ params h hsliced hstart hstop
  refine ⟨hinj, ?_⟩
  intro sliced entire i hi0 hi
  simp only [SliceKernelUtil_Backward]
  rcases SliceKernelUtil_Backward_loop_spec params sliced params.elem_cnt.toNat entire
      (SliceOffsetToEntireOffset params.ndim i params) with ⟨m, hm, hE, hval⟩ | ⟨hne, -⟩
  · have hmi : (m : Int) = i := hinj m i (by omega) (by omega) hi0 hi hE
    rw [hval, hmi]
  · exfalso
    have := hne i.toNat (by omega)
    rw [Int.toNat_of_nonneg hi0] at this
    exact this rfl

theorem slice_offsets_never_alias_witness :
    (ConstructSliceParams RegulateSliceStart RegulateSliceStop [3] [0] [-2] [4] [2] = .ok
      (⟨1, [4, 0, 0, 0, 0, 0, 0, 0], [3, 0, 0, 0, 0, 0, 0, 0], [-2, 0, 0, 0, 0, 0, 0, 0],
        [2, 0, 0, 0, 0, 0, 0, 0]⟩ : SliceParams) ∧
      (∀ i, i < ([2] : List Int).length → 0 ≤ ([2] : List Int).getD i 0) ∧
      (∀ i, i < ([4] : List Int).length →
        0 ≤ RegulateSliceStart (([3] : List Int).getD i 0) (([4] : List Int).getD i 0) ∧
          RegulateSliceStart (([3] : List Int).getD i 0) (([4] : List Int).getD i 0)
            < ([4] : List Int).getD i 0) ∧
      (∀ i, i < ([4] : List Int).length →
        -1 ≤ RegulateSliceStop (([0] : List Int).getD i 0) (([4] : List Int).getD i 0) ∧
          RegulateSliceStop (([0] : List Int).getD i 0) (([4] : List Int).getD i 0)
            ≤ ([4] : List Int).getD i 0)) ∧
    (∀ o o' : Int, 0 ≤ o → o < (⟨1, [4, 0, 0, 0, 0, 0, 0, 0], [3, 0, 0, 0, 0, 0, 0, 0], [-2, 0, 0, 0, 0, 0, 0, 0],
        [2, 0, 0, 0, 0, 0, 0, 0]⟩ : SliceParams).elem_cnt → 0 ≤ o' → o' < (⟨1, [4, 0, 0, 0, 0, 0, 0, 0], [3, 0, 0, 0, 0, 0, 0, 0], [-2, 0, 0, 0, 0, 0, 0, 0],
        [2, 0, 0, 0, 0, 0, 0, 0]⟩ : SliceParams).elem_cnt →
      SliceOffsetToEntireOffset (⟨1, [4, 0, 0, 0, 0, 0, 0, 0], [3, 0, 0, 0, 0, 0, 0, 0], [-2, 0, 0, 0, 0, 0, 0, 0],
        [2, 0, 0, 0, 0, 0, 0, 0]⟩ : SliceParams).ndim o
          (⟨1, [4, 0, 0, 0, 0, 0, 0, 0], [3, 0, 0, 0, 0, 0, 0, 0], [-2, 0, 0, 0, 0, 0, 0, 0],
        [2, 0, 0, 0, 0, 0, 0, 0]⟩ : SliceParams)
        = SliceOffsetToEntireOffset (⟨1, [4, 0, 0, 0, 0, 0, 0, 0], [3, 0, 0, 0, 0, 0, 0, 0], [-2, 0, 0, 0, 0, 0, 0, 0],
        [2, 0, 0, 0, 0, 0, 0, 0]⟩ : SliceParams).ndim o'
          (⟨1, [4, 0, 0, 0, 0, 0, 0, 0], [3, 0, 0, 0, 0, 0, 0, 0], [-2, 0, 0, 0, 0, 0, 0, 0],
        [2, 0, 0, 0, 0, 0, 0, 0]⟩ : SliceParams) → o = o') :=
  ⟨⟨by decide, by decide, by decide, by decide⟩,
    (@slice_offsets_never_alias Int RegulateSliceStart RegulateSliceStop [3] [0] [-2] [4] [2]
      _ (by decide) (by decide) (by decide) (by decide)).1⟩

/-- The statement of C29 for the builder over the integers. The plain builder selects
in-bounds indices only: when
`ConstructSliceParams` returns outside the scalar-pick case, with every start
normalised into `[0, dims[i])` and every stop into `[-1, dims[i]]`, every selected
index `start[i] + k * step[i]`, `0 ≤ k < size[i]`, lies in `[0, dims[i])`, for
positive and for negative step. -/
theorem plain_builder_selects_in_bounds (regulateStart regulateStop : Int → Int → Int)
    (start_vec stop_vec step_vec entire_shape sliced_shape : List Int) (params : SliceParams)
    (hnd : ¬ (entire_shape.length = 1 ∧ sliced_shape.length = 0))
    (h : ConstructSliceParams regulateStart regulateStop start_vec stop_vec step_vec
      entire_shape sliced_shape = .ok params)
    (hstart : ∀ i, i < entire_shape.length →
      0 ≤ regulateStart (start_vec.getD i 0) (entire_shape.getD i 0) ∧
        regulateStart (start_vec.getD i 0) (entire_shape.getD i 0) < entire_shape.getD i 0)
    (hstop : ∀ i, i < entire_shape.length →
      -1 ≤ regulateStop (stop_vec.getD i 0) (entire_shape.getD i 0) ∧
        regulateStop (stop_vec.getD i 0) (entire_shape.getD i 0) ≤ entire_shape.getD i 0) :
    ∀ i, i < params.ndim → ∀ k : Int, 0 ≤ k → k < params.size.getD i 0 →
      0 ≤ params.start.getD i 0 + k * params.step.getD i 0 ∧
        params.start.getD i 0 + k * params.step.getD i 0 < params.dims.getD i 0 := by
  obtain ⟨-, hn, hget⟩ := ConstructSliceParams_ok_inv _ _ _ _ _ _ _ _ hnd h
  intro i hi k hk0 hk
  rw [hn] at hi
  obtain ⟨⟨-, gc⟩, g1, g2, g3, g4⟩ := hget i hi
  rw [g4] at hk
  rw [g1, g2, g3, mul_comm]
  exact index_in_bounds_of_check _ _ _ _ _ k gc (hstart i hi).1 (hstart i hi).2
    (hstop i hi).1 (hstop i hi).2 hk0 hk

theorem plain_builder_selects_in_bounds_witness :
    (¬ (([4] : List Int).length = 1 ∧ ([2] : List Int).length = 0) ∧
      ConstructSliceParams RegulateSliceStart RegulateSliceStop [3] [0] [-2] [4] [2] = .ok
        (⟨1, [4, 0, 0, 0, 0, 0, 0, 0], [3, 0, 0, 0, 0, 0, 0, 0], [-2, 0, 0, 0, 0, 0, 0, 0],
        [2, 0, 0, 0, 0, 0, 0, 0]⟩ : SliceParams)) ∧
    (∀ i, i < (⟨1, [4, 0, 0, 0, 0, 0, 0, 0], [3, 0, 0, 0, 0, 0, 0, 0], [-2, 0, 0, 0, 0, 0, 0, 0],
        [2, 0, 0, 0, 0, 0, 0, 0]⟩ : SliceParams).ndim → ∀ k : Int, 0 ≤ k → k < (⟨1, [4, 0, 0, 0, 0, 0, 0, 0], [3, 0, 0, 0, 0, 0, 0, 0], [-2, 0, 0, 0, 0, 0, 0, 0],
        [2, 0, 0, 0, 0, 0, 0, 0]⟩ : SliceParams).size.getD i 0 →
      0 ≤ (⟨1, [4, 0, 0, 0, 0, 0, 0, 0], [3, 0, 0, 0, 0, 0, 0, 0], [-2, 0, 0, 0, 0, 0, 0, 0],
        [2, 0, 0, 0, 0, 0, 0, 0]⟩ : SliceParams).start.getD i 0 + k * (⟨1, [4, 0, 0, 0, 0, 0, 0, 0], [3, 0, 0, 0, 0, 0, 0, 0], [-2, 0, 0, 0, 0, 0, 0, 0],
        [2, 0, 0, 0, 0, 0, 0, 0]⟩ : SliceParams).step.getD i 0 ∧
        (⟨1, [4, 0, 0, 0, 0, 0, 0, 0], [3, 0, 0, 0, 0, 0, 0, 0], [-2, 0, 0, 0, 0, 0, 0, 0],
        [2, 0, 0, 0, 0, 0, 0, 0]⟩ : SliceParams).start.getD i 0 + k * (⟨1, [4, 0, 0, 0, 0, 0, 0, 0], [3, 0, 0, 0, 0, 0, 0, 0], [-2, 0, 0, 0, 0, 0, 0, 0],
        [2, 0, 0, 0, 0, 0, 0, 0]⟩ : SliceParams).step.getD i 0 < (⟨1, [4, 0, 0, 0, 0, 0, 0, 0], [3, 0, 0, 0, 0, 0, 0, 0], [-2, 0, 0, 0, 0, 0, 0, 0],
        [2, 0, 0, 0, 0, 0, 0, 0]⟩ : SliceParams).dims.getD i 0) :=
  ⟨⟨by decide, by decide⟩,
    plain_builder_selects_in_bounds RegulateSliceStart RegulateSliceStop [3] [0] [-2] [4] [2]
      _ (by decide) (by decide) (by decide) (by decide)⟩

/-! ## The balanced partition -/

/-- The end of a part of the balanced split is the begin of the next part. -/
theorem BalancedSplitter_At_succ (total_num split_num idx : Int) :
    (BalancedSplitter_At total_num split_num idx).2
      = (BalancedSplitter_At total_num split_num (idx + 1)).1 := by
  unfold BalancedSplitter_At
  simp only
  by_cases h1 : idx < total_num % split_num
  · by_cases h2 : idx + 1 < total_num % split_num
    · rw [if_pos h1, if_pos h2]
      simp only
      ring
    · rw [if_pos h1, if_neg h2]
      have : total_num % split_num = idx + 1 := by omega
      simp only
      rw [this]
      ring
  · have h2 : ¬ idx + 1 < total_num % split_num := by omega
    rw [if_neg h1, if_neg h2]
    simp only
    ring

/-- The length of a part of the balanced split: the base length, and one more for
the first `total_num % split_num` parts. -/
theorem BalancedSplitter_At_length (total_num split_num idx : Int) :
    (BalancedSplitter_At total_num split_num idx).2
        - (BalancedSplitter_At total_num split_num idx).1
      = total_num / split_num + (if idx < total_num % split_num then 1 else 0) := by
  unfold BalancedSplitter_At
  simp only
  by_cases h1 : idx < total_num % split_num
  · rw [if_pos h1, if_pos h1]
    simp only
    ring
  · rw [if_neg h1, if_neg h1]
    simp only
    ring

/-- The begin of the parts of the balanced split grows with the rank. -/
theorem BalancedSplitter_At_mono (total_num split_num : Int) (htotal : 0 ≤ total_num)
    (hnum : 1 ≤ split_num) (r : Int) (k : Nat) :
    (BalancedSplitter_At total_num split_num r).1
      ≤ (BalancedSplitter_At total_num split_num (r + (k : Int))).1 := by
  have hb : 0 ≤ total_num / split_num := Int.ediv_nonneg htotal (by omega)
  have hrem : 0 ≤ total_num % split_num := Int.emod_nonneg _ (by omega)
  induction k with
  | zero => simp
  | succ k ih =>
    have h1 := BalancedSplitter_At_succ total_num split_num (r + (k : Int))
    have h2 := BalancedSplitter_At_length total_num split_num (r + (k : Int))
    have h3 : (0 : Int) ≤ (if r + (k : Int) < total_num % split_num then 1 else 0) := by
      split_ifs <;> decide
    have e : r + ((k + 1 : Nat) : Int) = r + (k : Int) + 1 := by push_cast; ring
    rw [e, ← h1]
    omega

/-- The first part of the balanced split begins at 0, and part `split_num` would
begin at `total_num`. -/
theorem BalancedSplitter_At_ends (total_num split_num : Int) (hnum : 1 ≤ split_num) :
    (BalancedSplitter_At total_num split_num 0).1 = 0 ∧
      (BalancedSplitter_At total_num split_num split_num).1 = total_num := by
  have hrem : 0 ≤ total_num % split_num := Int.emod_nonneg _ (by omega)
  have hlt : total_num % split_num < split_num := Int.emod_lt_of_pos _ (by omega)
  have hdiv := Int.emod_add_ediv total_num split_num
  constructor
  · unfold BalancedSplitter_At
    simp only
    by_cases h1 : 0 < total_num % split_num
    · rw [if_pos h1]
      simp
    · rw [if_neg h1]
      have : total_num % split_num = 0 := by omega
      simp [this]
  · unfold BalancedSplitter_At
    simp only
    rw [if_neg (by omega)]
    simp only
    linear_combination hdiv

/-- The balanced split of a length into parts: the parts lie in `[0, total_num]`,
follow each other without gap from 0 to `total_num`, and every position lies in a
part. -/
theorem BalancedSplitter_At_partition (total_num split_num : Int) (htotal : 0 ≤ total_num)
    (hnum : 1 ≤ split_num) :
    (∀ r, 0 ≤ r → r < split_num →
      0 ≤ (BalancedSplitter_At total_num split_num r).1 ∧
        (BalancedSplitter_At total_num split_num r).1
          ≤ (BalancedSplitter_At total_num split_num r).2 ∧
        (BalancedSplitter_At total_num split_num r).2 ≤ total_num) ∧
    (∀ r s, 0 ≤ r → r < s →
      (BalancedSplitter_At total_num split_num r).2
        ≤ (BalancedSplitter_At total_num split_num s).1) ∧
    (∀ x, 0 ≤ x → x < total_num → ∃ r, 0 ≤ r ∧ r < split_num ∧
      (BalancedSplitter_At total_num split_num r).1 ≤ x ∧
        x < (BalancedSplitter_At total_num split_num r).2) := by
  have hb : 0 ≤ total_num / split_num := Int.ediv_nonneg htotal (by omega)
  have hrem : 0 ≤ total_num % split_num := Int.emod_nonneg _ (by omega)
  obtain ⟨h0, hN⟩ := BalancedSplitter_At_ends total_num split_num hnum
  have hmono : ∀ r s, r ≤ s → (BalancedSplitter_At total_num split_num r).1
      ≤ (BalancedSplitter_At total_num split_num s).1 := by
    intro r s hrs
    have := BalancedSplitter_At_mono total_num split_num htotal hnum r (s - r).toNat
    rw [Int.toNat_of_nonneg (by omega)] at this
    have e : r + (s - r) = s := by ring
    rw [e] at this
    exact this
  refine ⟨?_, ?_, ?_⟩
  · intro r hr0 hr
    have h1 := hmono 0 r hr0
    have h2 := BalancedSplitter_At_succ total_num split_num r
    have h3 := hmono r (r + 1) (by omega)
    have h4 := hmono (r + 1) split_num (by omega)
    omega
  · intro r s hr0 hrs
    rw [BalancedSplitter_At_succ total_num split_num r]
    exact hmono (r + 1) s (by omega)
  · intro x hx0 hx
    have key : ∀ k : Nat, x < (BalancedSplitter_At total_num split_num (k : Int)).1 →
        ∃ r, 0 ≤ r ∧ r < (k : Int) ∧ (BalancedSplitter_At total_num split_num r).1 ≤ x ∧
          x < (BalancedSplitter_At total_num split_num r).2 := by
      intro k
      induction k with
      | zero =>
        intro hk
        simp only [Nat.cast_zero] at hk
        omega
      | succ k ih =>
        intro hk
        by_cases hlow : x < (BalancedSplitter_At total_num split_num (k : Int)).1
        · obtain ⟨r, hr0, hr, hr1, hr2⟩ := ih hlow
          exact ⟨r, hr0, by push_cast; omega, hr1, hr2⟩
        · refine ⟨(k : Int), by omega, by push_cast; omega, by omega, ?_⟩
          rw [BalancedSplitter_At_succ total_num split_num k]
          push_cast at hk
          exact hk
    have := key split_num.toNat (by rw [Int.toNat_of_nonneg (by omega), hN]; exact hx)
    rw [Int.toNat_of_nonneg (by omega)] at this
    exact this

/-- C26. Balanced partition used for the `SliceContext`: for every logical length
`≥ 0` and group size `N ≥ 1`, the ranges `[lower_r, upper_r)` of the balanced
splitter for the ranks `r = 0, ..., N - 1` satisfy `0 ≤ lower_r ≤ upper_r ≤ length`,
follow each other in rank order (`upper_r = lower_{r+1}`) from 0 to the length, are
pairwise disjoint, cover `[0, length)` (every position lies in the range of exactly
one rank), and two ranges differ in length by at most 1; for `N > 1` they are the
ranges that `CreateSliceCache` returns for the annotation `[Split(a)]`. -/
theorem balanced_partition (logical_length N : Int) (hlen : 0 ≤ logical_length) (hN : 1 ≤ N) :
    (∀ r, 0 ≤ r → r < N →
      0 ≤ (BalancedSplitter_At logical_length N r).1 ∧
        (BalancedSplitter_At logical_length N r).1
          ≤ (BalancedSplitter_At logical_length N r).2 ∧
        (BalancedSplitter_At logical_length N r).2 ≤ logical_length) ∧
    (∀ r, 0 ≤ r → r + 1 < N →
      (BalancedSplitter_At logical_length N r).2
        = (BalancedSplitter_At logical_length N (r + 1)).1) ∧
    (BalancedSplitter_At logical_length N 0).1 = 0 ∧
    (BalancedSplitter_At logical_length N (N - 1)).2 = logical_length ∧
    (∀ r s, 0 ≤ r → r < s → s < N →
      (BalancedSplitter_At logical_length N r).2
        ≤ (BalancedSplitter_At logical_length N s).1) ∧
    (∀ x, 0 ≤ x → x < logical_length →
      ∃! r, (0 ≤ r ∧ r < N) ∧ (BalancedSplitter_At logical_length N r).1 ≤ x ∧
        x < (BalancedSplitter_At logical_length N r).2) ∧
    (∀ r s, 0 ≤ r → r < N → 0 ≤ s → s < N →
      ((BalancedSplitter_At logical_length N r).2 - (BalancedSplitter_At logical_length N r).1)
        - ((BalancedSplitter_At logical_length N s).2
            - (BalancedSplitter_At logical_length N s).1) ≤ 1) ∧
    (∀ (parallel_id a : Int) (logical_shape : List Int), 1 < N → 0 ≤ a →
      a < logical_shape.length → logical_shape.getD a.toNat 0 = logical_length →
      CreateSliceCache BalancedSplitter_At N parallel_id [SbpParallel.split_parallel a]
          logical_shape
        = .ok ⟨a, (BalancedSplitter_At logical_length N parallel_id).1,
            (BalancedSplitter_At logical_length N parallel_id).2, logical_length⟩) := by
  have hrem : 0 ≤ logical_length % N := Int.emod_nonneg _ (by omega)
  obtain ⟨hb, hdisj, hcover⟩ := BalancedSplitter_At_partition logical_length N hlen hN
  obtain ⟨h0, hNend⟩ := BalancedSplitter_At_ends logical_length N hN
  refine ⟨hb, fun r _ _ => BalancedSplitter_At_succ _ _ r, h0, ?_,
    fun r s hr0 hrs _ => hdisj r s hr0 hrs, ?_, ?_, ?_⟩
  · rw [BalancedSplitter_At_succ _ _ (N - 1)]
    have e : N - 1 + 1 = N := by ring
    rw [e]
    exact hNend
  · intro x hx0 hx
    obtain ⟨r, hr0, hr, hr1, hr2⟩ := hcover x hx0 hx
    refine ⟨r, ⟨⟨hr0, hr⟩, hr1, hr2⟩, ?_⟩
    rintro s ⟨⟨hs0, hs⟩, hs1, hs2⟩
    rcases lt_trichotomy s r with hlt | heq | hgt
    · have := hdisj s r hs0 hlt
      omega
    · exact heq
    · have := hdisj r s hr0 hgt
      omega
  · intro r s _ _ _ _
    rw [BalancedSplitter_At_length, BalancedSplitter_At_length]
    split_ifs <;> omega
  · intro parallel_id a logical_shape hN1 ha0 ha hext
    have h1 : ¬ N = 1 := by omega
    subst hext
    simp [CreateSliceCache, h1, SbpParallel.has_split_parallel, SbpParallel.axis,
      ShapeView_At, ha0, ha]

theorem balanced_partition_witness :
    ((0 : Int) ≤ 10 ∧ (1 : Int) ≤ 4) ∧
    (BalancedSplitter_At 10 4 0).1 = 0 ∧
    (BalancedSplitter_At 10 4 (4 - 1)).2 = 10 ∧
    (List.range 4).map (fun r : Nat => BalancedSplitter_At 10 4 r)
      = [(0, 3), (3, 6), (6, 8), (8, 10)] :=
  ⟨⟨by decide, by decide⟩, (balanced_partition 10 4 (by decide) (by decide)).2.2.1,
    (balanced_partition 10 4 (by decide) (by decide)).2.2.2.1, by decide⟩

/-! ## The rounds of the copy loop -/

/-- The copy loop issues one bulk copy per counter value of
`WriteSlice_loop_offsets_exact`, in that order. -/
theorem copy_loop_fn_eq_foldl {α : Type} (dst_off src_off : Int → Int) (elem_cnt cnt : Int)
    (src : Int → α) :
    ∀ (fuel : Nat) (i : Int) (dst : Int → α),
      copy_loop_fn dst_off src_off elem_cnt cnt src fuel i dst
        = (WriteSlice_loop_offsets_exact elem_cnt cnt fuel i).map
            (fun offsets => offsets.foldl
              (fun d o => AutoMemcpy d src (dst_off o) (src_off o) cnt) dst) := by
  intro fuel
  induction fuel with
  | zero =>
    intro i dst
    simp only [copy_loop_fn, WriteSlice_loop_offsets_exact]
    split_ifs <;> rfl
  | succ k ih =>
    intro i dst
    by_cases hlt : i < elem_cnt
    · simp only [copy_loop_fn, WriteSlice_loop_offsets_exact, hlt, if_true]
      rw [ih, Option.map_map]
      rfl
    · simp only [copy_loop_fn, WriteSlice_loop_offsets_exact, hlt, if_false]
      rfl

/-- The copy loop of `WriteSlice` over the integers issues one bulk copy per counter
value of `WriteSlice_loop_offsets_exact`, in that order. -/
theorem WriteSlice_copy_loop_exact_eq_foldl {α : Type} (NDIM : Nat) (L S : SliceParams) (f2s : Bool)
    (elem_cnt cnt : Int) (src : Int → α) (fuel : Nat) (i : Int) (dst : Int → α) :
    WriteSlice_copy_loop_exact NDIM L S f2s elem_cnt cnt src fuel i dst
      = (WriteSlice_loop_offsets_exact elem_cnt cnt fuel i).map
          (fun offsets => offsets.foldl
            (fun d o => AutoMemcpy d src
              (if f2s then SliceOffsetToEntireOffset NDIM o S
                else SliceOffsetToEntireOffset NDIM o L)
              (if f2s then SliceOffsetToEntireOffset NDIM o L
                else SliceOffsetToEntireOffset NDIM o S) cnt) dst) := by
  rw [WriteSlice_copy_loop_exact_eq, copy_loop_fn_eq_foldl]

/-- With a positive run length that leaves `m` runs from the counter value `i` to
`elem_cnt`, the loop runs its body at `i`, `i + cnt`, ..., `i + (m - 1) * cnt`. -/
theorem WriteSlice_loop_offsets_exact_spec (elem_cnt cnt : Int) (hc : 0 < cnt) :
    ∀ (m fuel : Nat) (i : Int), elem_cnt = i + (m : Int) * cnt → m ≤ fuel →
      WriteSlice_loop_offsets_exact elem_cnt cnt fuel i
        = some ((List.range m).map (fun k : Nat => i + (k : Int) * cnt)) := by
  intro m
  induction m with
  | zero =>
    intro fuel i he _
    have hie : ¬ i < elem_cnt := by simp at he; omega
    cases fuel <;> simp [WriteSlice_loop_offsets_exact, hie]
  | succ m ih =>
    intro fuel i he hfuel
    have hlt : i < elem_cnt := by
      push_cast at he
      nlinarith
    cases fuel with
    | zero => omega
    | succ f =>
      have hrec := ih f (i + cnt) (by push_cast at he ⊢; linarith) (by omega)
      simp only [WriteSlice_loop_offsets_exact, hlt, if_true, hrec, Option.map_some', List.range_succ_eq_map,
        List.map_cons, List.map_map]
      congr 2
      · simp
      · apply List.map_congr_left
        intro k _
        simp only [Function.comp, Nat.succ_eq_add_one]
        push_cast
        ring

/-- Without a slice offset below `elem_cnt` the loop does not run its body. -/
theorem WriteSlice_loop_offsets_exact_empty (elem_cnt cnt : Int) (fuel : Nat) (i : Int)
    (h : elem_cnt ≤ i) : WriteSlice_loop_offsets_exact elem_cnt cnt fuel i = some [] := by
  have hie : ¬ i < elem_cnt := by omega
  cases fuel <;> simp [WriteSlice_loop_offsets_exact, hie]

/-- When a full slice is multiplied into the run length, the scan gives the product
of the sizes of a trailing block of axes. -/
theorem cnt_scan_fn_exact_suffix (mul : Nat → Bool) (size : Nat → Int) (full : Nat → Bool)
    (hfm : ∀ t, full t = true → mul t = true) :
    ∀ (k : Nat) (cnt : Int), ∃ m, m ≤ k ∧
      cnt_scan_fn_exact mul size full k cnt = cnt * ∏ t in Finset.Ico m k, size t := by
  intro k
  induction k with
  | zero =>
    intro cnt
    exact ⟨0, le_refl 0, by simp [cnt_scan_fn_exact]⟩
  | succ i ih =>
    intro cnt
    rw [cnt_scan_fn_exact_step]
    by_cases hfull : full i = true
    · have hmul := hfm i hfull
      obtain ⟨m, hm, heq⟩ := ih (cnt * size i)
      refine ⟨m, Nat.le_succ_of_le hm, ?_⟩
      simp only [hfull, hmul, if_true, Bool.not_true, Bool.false_eq_true, if_false]
      rw [heq, Finset.prod_Ico_succ_top hm]
      ring
    · by_cases hmul : mul i = true
      · refine ⟨i, Nat.le_succ i, ?_⟩
        simp [hfull, hmul]
      · refine ⟨i + 1, le_refl _, ?_⟩
        simp [hfull, hmul]

/-- The sizes of a parameter block of `ConstructSliceParamsLarge` are not
negative. -/
theorem ConstructSliceParamsLarge_size_nonneg (ctx : SliceContext)
    (start_vec stop_vec step_vec shape : List Int) (L : SliceParams)
    (h : ConstructSliceParamsLarge ctx start_vec stop_vec step_vec shape = .ok L) :
    ∀ t, t < L.ndim → 0 ≤ L.size.getD t 0 := by
  obtain ⟨-, hn, hget⟩ := ConstructSliceParamsLarge_fields _ _ _ _ _ _ h
  intro t ht
  rw [hn] at ht
  obtain ⟨gpos, -, -, -, g4⟩ := hget t ht
  rw [g4]
  exact GetSizeInSlice_nonneg _ _ _ gpos

/-- The run that holds a slice offset is unique. -/
theorem run_index_unique (cnt o k k' : Int) (hc : 0 < cnt) (h1 : k * cnt ≤ o)
    (h2 : o < k * cnt + cnt) (h1' : k' * cnt ≤ o) (h2' : o < k' * cnt + cnt) : k = k' := by
  rcases lt_trichotomy k k' with hlt | heq | hgt
  · have : (k + 1) * cnt ≤ k' * cnt := mul_le_mul_of_nonneg_right (by omega) (le_of_lt hc)
    have e : (k + 1) * cnt = k * cnt + cnt := by ring
    omega
  · exact heq
  · have : (k' + 1) * cnt ≤ k * cnt := mul_le_mul_of_nonneg_right (by omega) (le_of_lt hc)
    have e : (k' + 1) * cnt = k' * cnt + cnt := by ring
    omega

/-- The run length and the rounds of the copy loop, over the integers, for a parameter block with
sizes that are not negative and a positive element count. -/
theorem WriteSlice_rounds (large small : SliceParams)
    (hnonneg : ∀ t, t < large.ndim → 0 ≤ large.size.getD t 0) (hE : 0 < large.elem_cnt) :
    (∃ m, m ≤ large.ndim ∧
      WriteSlice_cnt_exact large.ndim large small
        = ∏ t in Finset.Ico m large.ndim, large.size.getD t 0) ∧
    0 < WriteSlice_cnt_exact large.ndim large small ∧
    WriteSlice_cnt_exact large.ndim large small ∣ large.elem_cnt ∧
    large.elem_cnt
      = ((large.elem_cnt / WriteSlice_cnt_exact large.ndim large small).toNat : Int)
        * WriteSlice_cnt_exact large.ndim large small ∧
    (∀ fuel, (large.elem_cnt / WriteSlice_cnt_exact large.ndim large small).toNat ≤ fuel →
      WriteSlice_loop_offsets_exact large.elem_cnt (WriteSlice_cnt_exact large.ndim large small) fuel 0
        = some ((List.range (large.elem_cnt / WriteSlice_cnt_exact large.ndim large small).toNat).map
            (fun k : Nat => (k : Int) * WriteSlice_cnt_exact large.ndim large small))) := by
  have hpos : ∀ t, t < large.ndim → 0 < large.size.getD t 0 :=
    pos_of_prod_upto_pos _ _ hnonneg (by rw [← elem_cnt_eq_prod_upto]; exact hE)
  have hc : 0 < WriteSlice_cnt_exact large.ndim large small := by
    unfold WriteSlice_cnt_exact
    rw [WriteSlice_cnt_scan_exact_eq]
    exact cnt_scan_fn_exact_pos _ _ _ _ 1 (by decide) hpos
  have hdvd : WriteSlice_cnt_exact large.ndim large small ∣ large.elem_cnt := by
    have := cnt_scan_fn_exact_dvd (fun i => decide (large.step.getD i 0 = 1))
      (fun i => large.size.getD i 0) (fun i => large.IsFullSlice i && small.IsFullSlice i)
      large.ndim 1
    rw [one_mul] at this
    unfold WriteSlice_cnt_exact
    rw [WriteSlice_cnt_scan_exact_eq, elem_cnt_eq_prod_upto]
    exact this
  have hq : 0 ≤ large.elem_cnt / WriteSlice_cnt_exact large.ndim large small :=
    Int.ediv_nonneg (le_of_lt hE) (le_of_lt hc)
  have hmul : large.elem_cnt
      = ((large.elem_cnt / WriteSlice_cnt_exact large.ndim large small).toNat : Int)
        * WriteSlice_cnt_exact large.ndim large small := by
    rw [Int.toNat_of_nonneg hq, Int.ediv_mul_cancel hdvd]
  refine ⟨?_, hc, hdvd, hmul, ?_⟩
  · obtain ⟨m, hm, heq⟩ := cnt_scan_fn_exact_suffix (fun i => decide (large.step.getD i 0 = 1))
      (fun i => large.size.getD i 0) (fun i => large.IsFullSlice i && small.IsFullSlice i)
      (fun t ht => by
        simp only [Bool.and_eq_true] at ht
        exact decide_eq_true ((IsFullSlice_iff large t).mp ht.1).2.1) large.ndim 1
    refine ⟨m, hm, ?_⟩
    unfold WriteSlice_cnt_exact
    rw [WriteSlice_cnt_scan_exact_eq, heq, one_mul]
  · intro fuel hfuel
    have := WriteSlice_loop_offsets_exact_spec large.elem_cnt (WriteSlice_cnt_exact large.ndim large small)
      hc (large.elem_cnt / WriteSlice_cnt_exact large.ndim large small).toNat fuel 0
      (by rw [zero_add]; exact hmul) hfuel
    rw [this]
    congr 2
    funext k
    rw [zero_add]

/-- Runs tile the slice exactly, the statement of C27 for the run length and the
loop counter over the integers, with which the code agrees below `2^31` elements.
For the large parameter block of
`ConstructSliceParamsLarge` and any small block, with `elem_cnt > 0`: the run length
`cnt` of `WriteSlice` is the product of `large.size` over a trailing block of axes,
it is positive and divides `elem_cnt`; the loop runs its body at the slice offsets
`0, cnt, 2 * cnt, ...`, in strictly increasing order, and the copy is the sequence
of the bulk copies at these offsets; every slice offset of `[0, elem_cnt)` lies in
the interval `[i, i + cnt)` of exactly one of them, and no interval passes
`elem_cnt`. -/
theorem runs_tile_the_slice (ctx : SliceContext)
    (start_vec stop_vec step_vec large_shape : List Int) (large small : SliceParams)
    (hL : ConstructSliceParamsLarge ctx start_vec stop_vec step_vec large_shape = .ok large)
    (hE : 0 < large.elem_cnt) :
    (∃ m, m ≤ large.ndim ∧
      WriteSlice_cnt_exact large.ndim large small
        = ∏ t in Finset.Ico m large.ndim, large.size.getD t 0) ∧
    0 < WriteSlice_cnt_exact large.ndim large small ∧
    WriteSlice_cnt_exact large.ndim large small ∣ large.elem_cnt ∧
    (∀ fuel, (large.elem_cnt / WriteSlice_cnt_exact large.ndim large small).toNat ≤ fuel →
      WriteSlice_loop_offsets_exact large.elem_cnt (WriteSlice_cnt_exact large.ndim large small) fuel 0
        = some ((List.range (large.elem_cnt / WriteSlice_cnt_exact large.ndim large small).toNat).map
            (fun k : Nat => (k : Int) * WriteSlice_cnt_exact large.ndim large small))) ∧
    List.Pairwise (fun a b : Int => a < b)
      ((List.range (large.elem_cnt / WriteSlice_cnt_exact large.ndim large small).toNat).map
        (fun k : Nat => (k : Int) * WriteSlice_cnt_exact large.ndim large small)) ∧
    (∀ o : Int, 0 ≤ o → o < large.elem_cnt →
      ∃! k : Nat, k < (large.elem_cnt / WriteSlice_cnt_exact large.ndim large small).toNat ∧
        (k : Int) * WriteSlice_cnt_exact large.ndim large small ≤ o ∧
        o < (k : Int) * WriteSlice_cnt_exact large.ndim large small
              + WriteSlice_cnt_exact large.ndim large small) ∧
    (∀ k : Nat, k < (large.elem_cnt / WriteSlice_cnt_exact large.ndim large small).toNat →
      (k : Int) * WriteSlice_cnt_exact large.ndim large small + WriteSlice_cnt_exact large.ndim large small
        ≤ large.elem_cnt) ∧
    (∀ (α : Type) (src dst : Int → α) (from_large_to_small : Bool) (fuel : Nat),
      (large.elem_cnt / WriteSlice_cnt_exact large.ndim large small).toNat ≤ fuel →
      WriteSlice_copy_loop_exact large.ndim large small from_large_to_small large.elem_cnt
          (WriteSlice_cnt_exact large.ndim large small) src fuel 0 dst
        = some
          (((List.range (large.elem_cnt / WriteSlice_cnt_exact large.ndim large small).toNat).map
              (fun k : Nat => (k : Int) * WriteSlice_cnt_exact large.ndim large small)).foldl
            (fun d o => AutoMemcpy d src
              (if from_large_to_small then SliceOffsetToEntireOffset large.ndim o small
                else SliceOffsetToEntireOffset large.ndim o large)
              (if from_large_to_small then SliceOffsetToEntireOffset large.ndim o large
                else SliceOffsetToEntireOffset large.ndim o small)
              (WriteSlice_cnt_exact large.ndim large small)) dst)) := by
  obtain ⟨hsuffix, hc, hdvd, hmul, hoffs⟩ := WriteSlice_rounds large small
    (ConstructSliceParamsLarge_size_nonneg _ _ _ _ _ _ hL) hE
  refine ⟨hsuffix, hc, hdvd, hoffs, ?_, ?_, ?_, ?_⟩
  · rw [List.pairwise_map]
    exact List.Pairwise.imp
      (fun {a b} hab => mul_lt_mul_of_pos_right (by exact_mod_cast hab) hc)
      (List.pairwise_lt_range _)
  · intro o ho0 ho
    have hk0 : 0 ≤ o / WriteSlice_cnt_exact large.ndim large small :=
      Int.ediv_nonneg ho0 (le_of_lt hc)
    have hk1 := Int.ediv_mul_le o (ne_of_gt hc)
    have hk2 := Int.lt_ediv_add_one_mul_self o hc
    have e : (o / WriteSlice_cnt_exact large.ndim large small + 1)
          * WriteSlice_cnt_exact large.ndim large small
        = o / WriteSlice_cnt_exact large.ndim large small * WriteSlice_cnt_exact large.ndim large small
          + WriteSlice_cnt_exact large.ndim large small := by ring
    rw [e] at hk2
    have hcast : (((o / WriteSlice_cnt_exact large.ndim large small).toNat : Nat) : Int)
        = o / WriteSlice_cnt_exact large.ndim large small := Int.toNat_of_nonneg hk0
    refine ⟨(o / WriteSlice_cnt_exact large.ndim large small).toNat, ⟨?_, ?_, ?_⟩, ?_⟩
    · by_contra hcon
      have hle : ((large.elem_cnt / WriteSlice_cnt_exact large.ndim large small).toNat : Int)
          ≤ ((o / WriteSlice_cnt_exact large.ndim large small).toNat : Int) := by
        exact_mod_cast Nat.le_of_not_lt hcon
      have := mul_le_mul_of_nonneg_right hle (le_of_lt hc)
      rw [hcast] at this
      omega
    · rw [hcast]; exact hk1
    · rw [hcast]; exact hk2
    · rintro k' ⟨-, h1', h2'⟩
      have hu := run_index_unique _ o (o / WriteSlice_cnt_exact large.ndim large small) (k' : Int) hc
        hk1 hk2 h1' h2'
      have hu' : ((k' : Nat) : Int)
          = (((o / WriteSlice_cnt_exact large.ndim large small).toNat : Nat) : Int) := by
        rw [hcast]
        exact hu.symm
      exact_mod_cast hu'
  · intro k hk
    have hle : ((k + 1 : Nat) : Int)
        ≤ ((large.elem_cnt / WriteSlice_cnt_exact large.ndim large small).toNat : Int) := by
      exact_mod_cast hk
    have := mul_le_mul_of_nonneg_right hle (le_of_lt hc)
    have e : (((k + 1 : Nat) : Int)) * WriteSlice_cnt_exact large.ndim large small
        = (k : Int) * WriteSlice_cnt_exact large.ndim large small
          + WriteSlice_cnt_exact large.ndim large small := by push_cast; ring
    omega
  · intro α src dst f2s fuel hfuel
    rw [WriteSlice_copy_loop_exact_eq_foldl, hoffs fuel hfuel]
    rfl

theorem runs_tile_the_slice_witness :
    (ConstructSliceParamsLarge ⟨SPLIT_AXIS_FOR_NON_SPLIT, 0, 0, 0⟩ [0, 1] [4, 3] [1, 1] [4, 3]
        = .ok (⟨2, [4, 3, 0, 0, 0, 0, 0, 0], [0, 1, 0, 0, 0, 0, 0, 0], [1, 1, 0, 0, 0, 0, 0, 0],
        [4, 2, 0, 0, 0, 0, 0, 0]⟩ : SliceParams) ∧
      0 < (⟨2, [4, 3, 0, 0, 0, 0, 0, 0], [0, 1, 0, 0, 0, 0, 0, 0], [1, 1, 0, 0, 0, 0, 0, 0],
        [4, 2, 0, 0, 0, 0, 0, 0]⟩ : SliceParams).elem_cnt) ∧
    (0 < WriteSlice_cnt_exact (⟨2, [4, 3, 0, 0, 0, 0, 0, 0], [0, 1, 0, 0, 0, 0, 0, 0], [1, 1, 0, 0, 0, 0, 0, 0],
        [4, 2, 0, 0, 0, 0, 0, 0]⟩ : SliceParams).ndim
        (⟨2, [4, 3, 0, 0, 0, 0, 0, 0], [0, 1, 0, 0, 0, 0, 0, 0], [1, 1, 0, 0, 0, 0, 0, 0],
        [4, 2, 0, 0, 0, 0, 0, 0]⟩ : SliceParams)
        (⟨2, [4, 2, 0, 0, 0, 0, 0, 0], [0, 0, 0, 0, 0, 0, 0, 0], [1, 1, 0, 0, 0, 0, 0, 0],
        [4, 2, 0, 0, 0, 0, 0, 0]⟩ : SliceParams) ∧
      WriteSlice_cnt_exact (⟨2, [4, 3, 0, 0, 0, 0, 0, 0], [0, 1, 0, 0, 0, 0, 0, 0], [1, 1, 0, 0, 0, 0, 0, 0],
        [4, 2, 0, 0, 0, 0, 0, 0]⟩ : SliceParams).ndim
        (⟨2, [4, 3, 0, 0, 0, 0, 0, 0], [0, 1, 0, 0, 0, 0, 0, 0], [1, 1, 0, 0, 0, 0, 0, 0],
        [4, 2, 0, 0, 0, 0, 0, 0]⟩ : SliceParams)
        (⟨2, [4, 2, 0, 0, 0, 0, 0, 0], [0, 0, 0, 0, 0, 0, 0, 0], [1, 1, 0, 0, 0, 0, 0, 0],
        [4, 2, 0, 0, 0, 0, 0, 0]⟩ : SliceParams) ∣ (⟨2, [4, 3, 0, 0, 0, 0, 0, 0], [0, 1, 0, 0, 0, 0, 0, 0], [1, 1, 0, 0, 0, 0, 0, 0],
        [4, 2, 0, 0, 0, 0, 0, 0]⟩ : SliceParams).elem_cnt) ∧
    WriteSlice_loop_offsets_exact 8 2 4 0 = some [0, 2, 4, 6] :=
  ⟨⟨by decide, by decide⟩,
    ⟨(runs_tile_the_slice ⟨SPLIT_AXIS_FOR_NON_SPLIT, 0, 0, 0⟩ [0, 1] [4, 3] [1, 1] [4, 3] _
        (⟨2, [4, 2, 0, 0, 0, 0, 0, 0], [0, 0, 0, 0, 0, 0, 0, 0], [1, 1, 0, 0, 0, 0, 0, 0],
        [4, 2, 0, 0, 0, 0, 0, 0]⟩ : SliceParams) (by decide) (by decide)).2.1,
      (runs_tile_the_slice ⟨SPLIT_AXIS_FOR_NON_SPLIT, 0, 0, 0⟩ [0, 1] [4, 3] [1, 1] [4, 3] _
        (⟨2, [4, 2, 0, 0, 0, 0, 0, 0], [0, 0, 0, 0, 0, 0, 0, 0], [1, 1, 0, 0, 0, 0, 0, 0],
        [4, 2, 0, 0, 0, 0, 0, 0]⟩ : SliceParams) (by decide) (by decide)).2.2.1⟩,
    by decide⟩

/-- The parameter blocks that `WriteSlice` has built when it passes its checks:
the results of the two builders on the normalised start and stop, with equal
element counts. -/
theorem WriteSlice_params_inv (rs re : Int → Int → Int) (ctx : SliceContext)
    (start_attr stop_attr step_attr large_shape small_shape : List Int) (L S : SliceParams)
    (h : WriteSlice_params rs re ctx start_attr stop_attr step_attr large_shape small_shape
      = .ok (L, S)) :
    start_attr.length ≤ large_shape.length ∧
    ConstructSliceParamsLarge ctx
      ((List.range start_attr.length).map
        (fun i => rs (start_attr.getD i 0) (normalize_extent ctx large_shape i)))
      ((List.range start_attr.length).map
        (fun i => re (stop_attr.getD i 0) (normalize_extent ctx large_shape i)))
      step_attr large_shape = .ok L ∧
    ConstructSliceParamsSmall ctx
      ((List.range start_attr.length).map
        (fun i => rs (start_attr.getD i 0) (normalize_extent ctx large_shape i)))
      ((List.range start_attr.length).map
        (fun i => re (stop_attr.getD i 0) (normalize_extent ctx large_shape i)))
      step_attr small_shape = .ok S ∧
    L.elem_cnt = S.elem_cnt := by
  rcases WriteSlice_params_cases rs re ctx start_attr stop_attr step_attr large_shape small_shape
    with ⟨e, -, he⟩ | ⟨L', S', hlen, hL, hS, hW⟩
  · rw [h] at he
    cases he
  · rw [h] at hW
    by_cases hc : L'.elem_cnt = S'.elem_cnt
    · rw [if_pos hc] at hW
      injection hW with hW
      injection hW with h1 h2
      subst h1
      subst h2
      exact ⟨hlen, hL, hS, hc⟩
    · rw [if_neg hc] at hW
      cases hW

/-- The copy loop over the integers ends, the statement of C30 for the run length
and the loop counter over the integers, with which the code agrees below `2^31`
elements. For every pair of parameter blocks
with which `WriteSlice` passes its checks, the element-count check included:
`elem_cnt ≥ 0`; if `elem_cnt > 0`, the run length `cnt` is at least 1 and the loop
`for (i = 0; i < elem_cnt; i += cnt)` ends after `elem_cnt / cnt` rounds of its body,
with a result; if `elem_cnt = 0`, the body is not run, whatever `cnt` is, and the
destination is unchanged. -/
theorem copy_loop_terminates (regulateStart regulateStop : Int → Int → Int)
    (slice_ctx : SliceContext) (start_attr stop_attr step_attr large_shape small_shape : List Int)
    (large small : SliceParams)
    (h : WriteSlice_params regulateStart regulateStop slice_ctx start_attr stop_attr step_attr
      large_shape small_shape = .ok (large, small)) :
    0 ≤ large.elem_cnt ∧ large.ndim = small_shape.length ∧
    (0 < large.elem_cnt →
      1 ≤ WriteSlice_cnt_exact large.ndim large small ∧
      ∀ fuel, (large.elem_cnt / WriteSlice_cnt_exact large.ndim large small).toNat ≤ fuel →
        (∃ offsets,
          WriteSlice_loop_offsets_exact large.elem_cnt (WriteSlice_cnt_exact large.ndim large small) fuel 0
            = some offsets ∧
          offsets.length = (large.elem_cnt / WriteSlice_cnt_exact large.ndim large small).toNat) ∧
        ∀ (α : Type) (src dst : Int → α) (from_large_to_small : Bool),
          ∃ out, WriteSlice_copy_loop_exact large.ndim large small from_large_to_small large.elem_cnt
            (WriteSlice_cnt_exact large.ndim large small) src fuel 0 dst = some out) ∧
    (large.elem_cnt = 0 →
      ∀ fuel,
        WriteSlice_loop_offsets_exact large.elem_cnt (WriteSlice_cnt_exact large.ndim large small) fuel 0
          = some [] ∧
        ∀ (α : Type) (src dst : Int → α) (from_large_to_small : Bool),
          WriteSlice_copy_loop_exact large.ndim large small from_large_to_small large.elem_cnt
            (WriteSlice_cnt_exact large.ndim large small) src fuel 0 dst = some dst) := by
  obtain ⟨-, hL, hS, -⟩ := WriteSlice_params_inv _ _ _ _ _ _ _ _ _ _ h
  have hnonneg := ConstructSliceParamsLarge_size_nonneg _ _ _ _ _ _ hL
  obtain ⟨-, l2, -, -⟩ := ConstructSliceParamsLarge_inv _ _ _ _ _ _ hL
  obtain ⟨-, s2, -, -⟩ := ConstructSliceParamsSmall_inv _ _ _ _ _ _ hS
  obtain ⟨-, hLn, -⟩ := ConstructSliceParamsLarge_fields _ _ _ _ _ _ hL
  refine ⟨elem_cnt_nonneg large hnonneg, by rw [hLn, ← l2, s2], ?_, ?_⟩
  · intro hE
    obtain ⟨-, hc, -, -, hoffs⟩ := WriteSlice_rounds large small hnonneg hE
    refine ⟨hc, ?_⟩
    intro fuel hfuel
    refine ⟨⟨_, hoffs fuel hfuel, by simp⟩, ?_⟩
    intro α src dst f2s
    rw [WriteSlice_copy_loop_exact_eq_foldl, hoffs fuel hfuel]
    exact ⟨_, rfl⟩
  · intro hE fuel
    have hemp := WriteSlice_loop_offsets_exact_empty large.elem_cnt
      (WriteSlice_cnt_exact large.ndim large small) fuel 0 (by omega)
    refine ⟨hemp, ?_⟩
    intro α src dst f2s
    rw [WriteSlice_copy_loop_exact_eq_foldl, hemp]
    rfl

theorem copy_loop_terminates_witness :
    (WriteSlice_params RegulateSliceStart RegulateSliceStop ⟨SPLIT_AXIS_FOR_NON_SPLIT, 0, 0, 0⟩
        [0, 1] [4, 3] [1, 1] [4, 3] [4, 2]
      = .ok ((⟨2, [4, 3, 0, 0, 0, 0, 0, 0], [0, 1, 0, 0, 0, 0, 0, 0], [1, 1, 0, 0, 0, 0, 0, 0],
        [4, 2, 0, 0, 0, 0, 0, 0]⟩ : SliceParams),
        (⟨2, [4, 2, 0, 0, 0, 0, 0, 0], [0, 0, 0, 0, 0, 0, 0, 0], [1, 1, 0, 0, 0, 0, 0, 0],
        [4, 2, 0, 0, 0, 0, 0, 0]⟩ : SliceParams)) ∧
      0 < (⟨2, [4, 3, 0, 0, 0, 0, 0, 0], [0, 1, 0, 0, 0, 0, 0, 0], [1, 1, 0, 0, 0, 0, 0, 0],
        [4, 2, 0, 0, 0, 0, 0, 0]⟩ : SliceParams).elem_cnt) ∧
    0 ≤ (⟨2, [4, 3, 0, 0, 0, 0, 0, 0], [0, 1, 0, 0, 0, 0, 0, 0], [1, 1, 0, 0, 0, 0, 0, 0],
        [4, 2, 0, 0, 0, 0, 0, 0]⟩ : SliceParams).elem_cnt ∧
    1 ≤ WriteSlice_cnt_exact (⟨2, [4, 3, 0, 0, 0, 0, 0, 0], [0, 1, 0, 0, 0, 0, 0, 0], [1, 1, 0, 0, 0, 0, 0, 0],
        [4, 2, 0, 0, 0, 0, 0, 0]⟩ : SliceParams).ndim
      (⟨2, [4, 3, 0, 0, 0, 0, 0, 0], [0, 1, 0, 0, 0, 0, 0, 0], [1, 1, 0, 0, 0, 0, 0, 0],
        [4, 2, 0, 0, 0, 0, 0, 0]⟩ : SliceParams)
      (⟨2, [4, 2, 0, 0, 0, 0, 0, 0], [0, 0, 0, 0, 0, 0, 0, 0], [1, 1, 0, 0, 0, 0, 0, 0],
        [4, 2, 0, 0, 0, 0, 0, 0]⟩ : SliceParams) :=
  ⟨⟨by decide, by decide⟩,
    (copy_loop_terminates RegulateSliceStart RegulateSliceStop
      ⟨SPLIT_AXIS_FOR_NON_SPLIT, 0, 0, 0⟩ [0, 1] [4, 3] [1, 1] [4, 3] [4, 2]
      (⟨2, [4, 3, 0, 0, 0, 0, 0, 0], [0, 1, 0, 0, 0, 0, 0, 0], [1, 1, 0, 0, 0, 0, 0, 0],
        [4, 2, 0, 0, 0, 0, 0, 0]⟩ : SliceParams)
      (⟨2, [4, 2, 0, 0, 0, 0, 0, 0], [0, 0, 0, 0, 0, 0, 0, 0], [1, 1, 0, 0, 0, 0, 0, 0],
        [4, 2, 0, 0, 0, 0, 0, 0]⟩ : SliceParams) (by decide)).1,
    ((copy_loop_terminates RegulateSliceStart RegulateSliceStop
      ⟨SPLIT_AXIS_FOR_NON_SPLIT, 0, 0, 0⟩ [0, 1] [4, 3] [1, 1] [4, 3] [4, 2]
      (⟨2, [4, 3, 0, 0, 0, 0, 0, 0], [0, 1, 0, 0, 0, 0, 0, 0], [1, 1, 0, 0, 0, 0, 0, 0],
        [4, 2, 0, 0, 0, 0, 0, 0]⟩ : SliceParams)
      (⟨2, [4, 2, 0, 0, 0, 0, 0, 0], [0, 0, 0, 0, 0, 0, 0, 0], [1, 1, 0, 0, 0, 0, 0, 0],
        [4, 2, 0, 0, 0, 0, 0, 0]⟩ : SliceParams) (by decide)).2.2.1 (by decide)).1⟩

/-! ## What the logical slice-assign kernel writes -/

/-- The copy loop reads the source offset at the run starts only. -/
theorem copy_loop_fn_congr_src {α : Type} (dst_off src_off src_off' : Int → Int)
    (elem_cnt cnt : Int) (src : Int → α)
    (hag : ∀ i, cnt ∣ i → src_off i = src_off' i) :
    ∀ (fuel : Nat) (i : Int) (dst : Int → α), cnt ∣ i →
      copy_loop_fn dst_off src_off elem_cnt cnt src fuel i dst
        = copy_loop_fn dst_off src_off' elem_cnt cnt src fuel i dst := by
  intro fuel
  induction fuel with
  | zero =>
    intro i dst _
    rfl
  | succ k ih =>
    intro i dst hi
    simp only [copy_loop_fn]
    rw [hag i hi, ih (i + cnt) _ (dvd_add hi (dvd_refl cnt))]

/-- At a run start the paired source offset is the source offset of the run. -/
theorem run_paired_offset_start (src_off : Int → Int) (cnt i : Int) (hi : cnt ∣ i) :
    run_paired_offset src_off cnt i = src_off i := by
  unfold run_paired_offset
  rw [Int.emod_eq_zero_of_dvd hi]
  simp

/-- Inside a run the paired source offset grows by one per slice offset. -/
theorem run_paired_offset_add (src_off : Int → Int) (cnt i j : Int) (hi : cnt ∣ i)
    (hj0 : 0 ≤ j) (hj : j < cnt) :
    run_paired_offset src_off cnt (i + j) = src_off i + j := by
  unfold run_paired_offset
  obtain ⟨q, rfl⟩ := hi
  have hmod : (cnt * q + j) % cnt = j := by
    rw [add_comm, Int.add_mul_emod_self_left]
    exact Int.emod_eq_of_lt hj0 hj
  rw [hmod]
  congr 2
  ring

/-- The copy loop by runs: with destination offsets that are consecutive inside a
run and do not alias, the result holds, `j` places after the destination offset of
a run start, the element of the source `j` places after the source offset of that
run start, and every other position is unchanged. -/
theorem copy_loop_fn_runs_spec {α : Type} (dst_off src_off : Int → Int) (elem_cnt cnt : Int)
    (src dst0 : Int → α) (hc : 0 < cnt) (hdvd : cnt ∣ elem_cnt) (hE : 0 ≤ elem_cnt)
    (hcontD : ∀ i j, 0 ≤ i → cnt ∣ i → i < elem_cnt → 0 ≤ j → j < cnt →
      dst_off (i + j) = dst_off i + j)
    (hinj : ∀ o o', 0 ≤ o → o < elem_cnt → 0 ≤ o' → o' < elem_cnt →
      dst_off o = dst_off o' → o = o')
    (fuel : Nat) (hfuel : elem_cnt.toNat ≤ fuel) :
    ∃ out, copy_loop_fn dst_off src_off elem_cnt cnt src fuel 0 dst0 = some out ∧
      (∀ i j, 0 ≤ i → cnt ∣ i → i < elem_cnt → 0 ≤ j → j < cnt →
        out (dst_off i + j) = src (src_off i + j)) ∧
      (∀ p, (∀ o, 0 ≤ o → o < elem_cnt → dst_off o ≠ p) → out p = dst0 p) := by
  rw [copy_loop_fn_congr_src dst_off src_off (run_paired_offset src_off cnt) elem_cnt cnt src
    (fun i hi => (run_paired_offset_start src_off cnt i hi).symm) fuel 0 dst0 (dvd_zero _)]
  obtain ⟨out, hout, h1, h2⟩ := copy_loop_fn_spec dst_off (run_paired_offset src_off cnt)
    elem_cnt cnt src dst0 hc hdvd hcontD
    (fun i j _ hdi _ hj0 hj => by
      rw [run_paired_offset_add src_off cnt i j hdi hj0 hj,
        run_paired_offset_start src_off cnt i hdi])
    hinj fuel 0 dst0 (le_refl 0) (dvd_zero _) hE (by simpa using hfuel)
    (fun o h0 h1 => by omega) (fun p _ => rfl)
  refine ⟨out, hout, ?_, h2⟩
  intro i j hi0 hdi hi hj0 hj
  have hnext : i + cnt ≤ elem_cnt := stride_gap cnt i elem_cnt hc (dvd_sub hdvd hdi) hi
  have := h1 (i + j) (by omega) (by omega)
  rw [hcontD i j hi0 hdi hi hj0 hj, run_paired_offset_add src_off cnt i j hdi hj0 hj] at this
  exact this

/-- The split-extent check that `WriteSlice` has passed. -/
theorem WriteSlice_params_split_check (rs re : Int → Int → Int) (ctx : SliceContext)
    (start_attr stop_attr step_attr large_shape small_shape : List Int) (r : SliceParams × SliceParams)
    (h : WriteSlice_params rs re ctx start_attr stop_attr step_attr large_shape small_shape
      = .ok r) :
    ∀ i, i < large_shape.length → (i : Int) = ctx.split_axis →
      large_shape.getD i 0 = ctx.upper - ctx.lower := by
  intro i hi hax
  by_contra hext
  have hne : ctx.split_axis ≠ SPLIT_AXIS_FOR_NON_SPLIT := by
    rw [← hax]
    exact axis_ne_non_split i
  have hin : 0 ≤ ctx.split_axis ∧ ctx.split_axis < large_shape.length := by
    rw [← hax]
    constructor
    · omega
    · exact_mod_cast hi
  have hnat : ctx.split_axis.toNat = i := by
    rw [← hax]
    simp
  unfold WriteSlice_params at h
  simp only [hne, ne_eq, not_false_eq_true, if_true, ShapeView_At, hin, and_self, hnat, hext,
    if_false, reduceCtorEq] at h

/-- The run that holds the slice offset `o` starts at `o - o % cnt`. -/
theorem run_start_of_offset (cnt o : Int) (hc : 0 < cnt) (ho0 : 0 ≤ o) :
    0 ≤ o - o % cnt ∧ cnt ∣ o - o % cnt ∧ 0 ≤ o % cnt ∧ o % cnt < cnt ∧ o - o % cnt ≤ o := by
  have h1 := Int.emod_nonneg o (ne_of_gt hc)
  have h2 := Int.emod_lt_of_pos o hc
  have h3 : o - o % cnt = cnt * (o / cnt) := by
    have := Int.emod_add_ediv o cnt
    linarith
  refine ⟨?_, ⟨o / cnt, h3⟩, h1, h2, by omega⟩
  rw [h3]
  exact mul_nonneg (le_of_lt hc) (Int.ediv_nonneg ho0 (le_of_lt hc))

/-- Inside a run of the length scanned over the integers the entire-buffer offset of the large
parameter block grows by one per slice offset; the small block only enters the
scan. -/
theorem run_consecutive_large (NDIM : Nat) (large small : SliceParams)
    (hpos : ∀ t, t < NDIM → 0 < large.size.getD t 0)
    (i j : Int) (hi0 : 0 ≤ i) (hdvd : WriteSlice_cnt_exact NDIM large small ∣ i) (hj0 : 0 ≤ j)
    (hj : j < WriteSlice_cnt_exact NDIM large small) :
    SliceOffsetToEntireOffset NDIM (i + j) large
      = SliceOffsetToEntireOffset NDIM i large + j := by
  unfold WriteSlice_cnt_exact at hdvd hj
  rw [WriteSlice_cnt_scan_exact_eq] at hdvd hj
  rw [SliceOffsetToEntireOffset_eq, SliceOffsetToEntireOffset_eq]
  exact run_contiguous_fn NDIM _ _ _ _ _ _ hpos
    (fun t _ hm => by simpa using hm)
    (fun t _ hf => by
      rw [Bool.and_eq_true] at hf
      exact (IsFullSlice_iff large t).mp hf.1)
    (fun t _ hf => by
      rw [Bool.and_eq_true] at hf
      simpa using ((IsFullSlice_iff large t).mp hf.1).2.1)
    i j hi0 hdvd hj0 hj

/-- The statement of C25 for the kernel over the integers, with which the code
agrees below `2^31` elements. Logical slice-assign on one worker, `ref` and `y` not the same buffer.
When `WriteSlice` passes its checks with the parameter blocks `large` (of `y`) and
`small` (of `value`), with `lower ≤ upper` and, off the split axis, the normalised
start not negative and the normalised stop at most the extent, the kernel returns
the buffer `out` of `y` with: for every run start `i` of the copy loop and every
`0 ≤ j < cnt`, `out[large_offset + j] = value[small_offset + j]`, with the two
offsets of `i` that `WriteSlice` computes; and `out[p] = ref[p]` at every other
offset `p` of the local buffer of `y`. -/
theorem logical_slice_assign_frame {α : Type} (regulateStart regulateStop : Int → Int → Int)
    (slice_ctx : SliceContext) (start_attr stop_attr step_attr value_shape y_shape : List Int)
    (value ref y : Int → α) (large small : SliceParams) (fuel : Nat)
    (h : WriteSlice_params regulateStart regulateStop slice_ctx start_attr stop_attr step_attr
      y_shape value_shape = .ok (large, small))
    (hlu : slice_ctx.lower ≤ slice_ctx.upper)
    (hnorm : ∀ t, t < y_shape.length → (t : Int) ≠ slice_ctx.split_axis →
      0 ≤ positive_start_at regulateStart slice_ctx start_attr y_shape t ∧
        positive_stop_at regulateStop slice_ctx stop_attr y_shape t ≤ y_shape.getD t 0)
    (hfuel : large.elem_cnt.toNat ≤ fuel) :
    ∃ out : Int → α,
      LogicalSliceAssignKernel_Compute_exact regulateStart regulateStop fuel slice_ctx start_attr
          stop_attr step_attr value_shape y_shape value ref y false = .ok (some out) ∧
      (∀ i j : Int, 0 ≤ i → WriteSlice_cnt_exact value_shape.length large small ∣ i →
        i < large.elem_cnt → 0 ≤ j → j < WriteSlice_cnt_exact value_shape.length large small →
        out (SliceOffsetToEntireOffset value_shape.length i large + j)
          = value (SliceOffsetToEntireOffset value_shape.length i small + j)) ∧
      (∀ p : Int, 0 ≤ p → p < y_shape.prod →
        (∀ i j : Int, 0 ≤ i → WriteSlice_cnt_exact value_shape.length large small ∣ i →
          i < large.elem_cnt → 0 ≤ j → j < WriteSlice_cnt_exact value_shape.length large small →
          SliceOffsetToEntireOffset value_shape.length i large + j ≠ p) →
        out p = ref p) := by
  obtain ⟨hlen, hL, hS, -⟩ := WriteSlice_params_inv _ _ _ _ _ _ _ _ _ _ h
  have hsplit := WriteSlice_params_split_check _ _ _ _ _ _ _ _ _ h
  obtain ⟨-, l2, -, -⟩ := ConstructSliceParamsLarge_inv _ _ _ _ _ _ hL
  obtain ⟨-, s2, -, -⟩ := ConstructSliceParamsSmall_inv _ _ _ _ _ _ hS
  obtain ⟨-, hLn, hLget⟩ := ConstructSliceParamsLarge_fields _ _ _ _ _ _ hL
  have hn : start_attr.length = y_shape.length := by simpa using l2
  have hv : value_shape.length = y_shape.length := by rw [← s2]; simpa using hn
  have hnd : value_shape.length = large.ndim := by rw [hv, hLn]
  have hnonneg := ConstructSliceParamsLarge_size_nonneg _ _ _ _ _ _ hL
  have hE0 : 0 ≤ large.elem_cnt := elem_cnt_nonneg large hnonneg
  -- the buffer of `y` before the copy loop
  have hy1 : ∀ p : Int, 0 ≤ p → p < y_shape.prod → AutoMemcpy y ref 0 0 y_shape.prod p = ref p := by
    intro p hp0 hp
    simp only [AutoMemcpy]
    rw [if_pos ⟨by omega, by omega⟩]
    congr 1
    ring
  have hrun : LogicalSliceAssignKernel_Compute_exact regulateStart regulateStop fuel slice_ctx start_attr
      stop_attr step_attr value_shape y_shape value ref y false
      = .ok (copy_loop_fn (fun o => SliceOffsetToEntireOffset value_shape.length o large)
          (fun o => SliceOffsetToEntireOffset value_shape.length o small) large.elem_cnt
          (WriteSlice_cnt_exact value_shape.length large small) value fuel 0
          (AutoMemcpy y ref 0 0 y_shape.prod)) := by
    simp only [LogicalSliceAssignKernel_Compute_exact, WriteSlice_exact, Bool.false_eq_true, if_false, h,
      WriteSlice_copy_loop_exact_eq]
  rw [hrun]
  rcases lt_or_eq_of_le hE0 with hE | hE
  · -- the indices of the large parameter block are in bounds
    have hLin : ∀ t, t < large.ndim → ∀ k, 0 ≤ k → k < large.size.getD t 0 →
        0 ≤ large.start.getD t 0 + large.step.getD t 0 * k ∧
          large.start.getD t 0 + large.step.getD t 0 * k < large.dims.getD t 0 := by
      intro t ht k hk0 hk
      rw [hLn] at ht
      obtain ⟨gpos, g1, g2, g3, g4⟩ := hLget t ht
      rw [g4] at hk
      rw [g1, g2, g3, mul_comm]
      have e1 : ((List.range start_attr.length).map
          (fun i => regulateStart (start_attr.getD i 0)
            (normalize_extent slice_ctx y_shape i))).getD t 0
          = positive_start_at regulateStart slice_ctx start_attr y_shape t :=
        getD_map_range _ _ t (by omega)
      have e2 : ((List.range start_attr.length).map
          (fun i => regulateStop (stop_attr.getD i 0)
            (normalize_extent slice_ctx y_shape i))).getD t 0
          = positive_stop_at regulateStop slice_ctx stop_attr y_shape t :=
        getD_map_range _ _ t (by omega)
      exact large_axis_in_bounds slice_ctx t _ _ _ _ k gpos hlu (hsplit t ht)
        (fun hax => by rw [e1, e2]; exact hnorm t ht hax) hk0 hk
    have hpos : ∀ t, t < large.ndim → 0 < large.size.getD t 0 :=
      pos_of_prod_upto_pos _ _ hnonneg (by rw [← elem_cnt_eq_prod_upto]; exact hE)
    have hstep : ∀ t, t < large.ndim → 0 < large.step.getD t 0 := by
      intro t ht
      rw [hLn] at ht
      obtain ⟨gpos, -, -, g3, -⟩ := hLget t ht
      rw [g3]
      exact gpos
    obtain ⟨-, hc, hdvd, -, -⟩ := WriteSlice_rounds large small hnonneg hE
    rw [← hnd] at hc hdvd
    have hinj : ∀ o o', 0 ≤ o → o < large.elem_cnt → 0 ≤ o' → o' < large.elem_cnt →
        SliceOffsetToEntireOffset value_shape.length o large
          = SliceOffsetToEntireOffset value_shape.length o' large → o = o' := by
      intro o o' ho0 ho ho0' ho' hEq
      rw [hnd, SliceOffsetToEntireOffset_eq, SliceOffsetToEntireOffset_eq] at hEq
      rw [elem_cnt_eq_prod_upto] at ho ho'
      rcases lt_trichotomy o o' with hlt | heq | hgt
      · have := entire_offset_fn_strictMono large.ndim _ _ _ _ hpos hstep hLin o o' ho0 hlt ho'
        omega
      · exact heq
      · have := entire_offset_fn_strictMono large.ndim _ _ _ _ hpos hstep hLin o' o ho0' hgt ho
        omega
    have hcont : ∀ i j, 0 ≤ i → WriteSlice_cnt_exact value_shape.length large small ∣ i →
        i < large.elem_cnt → 0 ≤ j → j < WriteSlice_cnt_exact value_shape.length large small →
        SliceOffsetToEntireOffset value_shape.length (i + j) large
          = SliceOffsetToEntireOffset value_shape.length i large + j :=
      fun i j hi0 hdi _ hj0 hj =>
        run_consecutive_large value_shape.length large small (by rw [hnd]; exact hpos)
          i j hi0 hdi hj0 hj
    obtain ⟨out, hout, h1, h2⟩ := copy_loop_fn_runs_spec
      (fun o => SliceOffsetToEntireOffset value_shape.length o large)
      (fun o => SliceOffsetToEntireOffset value_shape.length o small) large.elem_cnt
      (WriteSlice_cnt_exact value_shape.length large small) value (AutoMemcpy y ref 0 0 y_shape.prod)
      hc hdvd hE0 hcont hinj fuel hfuel
    refine ⟨out, by rw [hout], h1, ?_⟩
    intro p hp0 hp hsel
    rw [h2 p, hy1 p hp0 hp]
    intro o ho0 ho hEq
    -- the slice offset `o` lies in the run that starts at `o - o % cnt`
    obtain ⟨hr0, hd, hm0, hm1, hrle⟩ :=
      run_start_of_offset (WriteSlice_cnt_exact value_shape.length large small) o hc ho0
    have hc' := hcont (o - o % WriteSlice_cnt_exact value_shape.length large small)
      (o % WriteSlice_cnt_exact value_shape.length large small) hr0 hd (by omega) hm0 hm1
    have e : o - o % WriteSlice_cnt_exact value_shape.length large small
        + o % WriteSlice_cnt_exact value_shape.length large small = o := by ring
    rw [e] at hc'
    exact hsel (o - o % WriteSlice_cnt_exact value_shape.length large small)
      (o % WriteSlice_cnt_exact value_shape.length large small) hr0 hd (by omega) hm0 hm1
      (by rw [← hc']; exact hEq)
  · refine ⟨AutoMemcpy y ref 0 0 y_shape.prod, ?_, ?_, ?_⟩
    · cases fuel <;> simp [copy_loop_fn, ← hE]
    · intro i j hi0 _ hi
      omega
    · intro p hp0 hp _
      exact hy1 p hp0 hp

theorem logical_slice_assign_frame_witness :
    (WriteSlice_params RegulateSliceStart RegulateSliceStop ⟨0, 2, 4, 8⟩ [1, 0] [7, 3] [2, 1]
        [2, 3] [3, 3]
      = .ok ((⟨2, [2, 3, 0, 0, 0, 0, 0, 0], [1, 0, 0, 0, 0, 0, 0, 0], [2, 1, 0, 0, 0, 0, 0, 0],
        [1, 3, 0, 0, 0, 0, 0, 0]⟩ : SliceParams),
        (⟨2, [3, 3, 0, 0, 0, 0, 0, 0], [1, 0, 0, 0, 0, 0, 0, 0], [1, 1, 0, 0, 0, 0, 0, 0],
        [1, 3, 0, 0, 0, 0, 0, 0]⟩ : SliceParams)) ∧
      (2 : Int) ≤ 4 ∧
      (∀ t, t < ([2, 3] : List Int).length → (t : Int) ≠ (⟨0, 2, 4, 8⟩ : SliceContext).split_axis →
        0 ≤ positive_start_at RegulateSliceStart ⟨0, 2, 4, 8⟩ [1, 0] [2, 3] t ∧
          positive_stop_at RegulateSliceStop ⟨0, 2, 4, 8⟩ [7, 3] [2, 3] t
            ≤ ([2, 3] : List Int).getD t 0) ∧
      (⟨2, [2, 3, 0, 0, 0, 0, 0, 0], [1, 0, 0, 0, 0, 0, 0, 0], [2, 1, 0, 0, 0, 0, 0, 0],
        [1, 3, 0, 0, 0, 0, 0, 0]⟩ : SliceParams).elem_cnt.toNat ≤ 3) ∧
    ∃ out : Int → Int,
      LogicalSliceAssignKernel_Compute_exact RegulateSliceStart RegulateSliceStop 3 ⟨0, 2, 4, 8⟩
          [1, 0] [7, 3] [2, 1] [3, 3] [2, 3] (fun p => p + 100) (fun p => p + 10) (fun _ => 0)
          false = .ok (some out) ∧
      out (SliceOffsetToEntireOffset ([3, 3] : List Int).length 0
          (⟨2, [2, 3, 0, 0, 0, 0, 0, 0], [1, 0, 0, 0, 0, 0, 0, 0], [2, 1, 0, 0, 0, 0, 0, 0],
        [1, 3, 0, 0, 0, 0, 0, 0]⟩ : SliceParams) + 1)
        = (fun p => p + 100) (SliceOffsetToEntireOffset ([3, 3] : List Int).length 0
          (⟨2, [3, 3, 0, 0, 0, 0, 0, 0], [1, 0, 0, 0, 0, 0, 0, 0], [1, 1, 0, 0, 0, 0, 0, 0],
        [1, 3, 0, 0, 0, 0, 0, 0]⟩ : SliceParams) + 1) :=
  ⟨⟨by decide, by decide, by decide, by decide⟩, by
    obtain ⟨out, h1, h2, -⟩ := logical_slice_assign_frame RegulateSliceStart RegulateSliceStop
      ⟨0, 2, 4, 8⟩ [1, 0] [7, 3] [2, 1] [3, 3] [2, 3] (fun p => p + 100) (fun p => p + 10)
      (fun _ => 0)
      (⟨2, [2, 3, 0, 0, 0, 0, 0, 0], [1, 0, 0, 0, 0, 0, 0, 0], [2, 1, 0, 0, 0, 0, 0, 0],
        [1, 3, 0, 0, 0, 0, 0, 0]⟩ : SliceParams)
      (⟨2, [3, 3, 0, 0, 0, 0, 0, 0], [1, 0, 0, 0, 0, 0, 0, 0], [1, 1, 0, 0, 0, 0, 0, 0],
        [1, 3, 0, 0, 0, 0, 0, 0]⟩ : SliceParams) 3
      (by decide) (by decide) (by decide) (by decide)
    exact ⟨out, h1, h2 0 1 (by decide) (dvd_zero _) (by decide) (by decide) (by decide)⟩⟩

/-! ## The distribution-aware builders accept positive steps only -/

/-- `ConstructSliceParamsLarge` aborts exactly when the rank exceeds the ceiling, a
sequence has not the length of the rank, or a step is not positive. -/
theorem ConstructSliceParamsLarge_error_iff (ctx : SliceContext)
    (start_vec stop_vec step_vec shape : List Int) :
    (∃ e, ConstructSliceParamsLarge ctx start_vec stop_vec step_vec shape = .error e) ↔
      (kSliceMaxDims < shape.length ∨ start_vec.length ≠ shape.length ∨
        stop_vec.length ≠ shape.length ∨ step_vec.length ≠ shape.length ∨
        ∃ i, i < shape.length ∧ step_vec.getD i 0 ≤ 0) := by
  constructor
  · rintro ⟨e, he⟩
    by_contra hnot
    simp only [not_or, not_lt, ne_eq, not_not, not_exists, not_and, not_le] at hnot
    obtain ⟨h1, h2, h3, h4, h5⟩ := hnot
    obtain ⟨p, hp, -⟩ := ConstructSliceParamsLarge_ok ctx start_vec stop_vec step_vec shape
      h1 h2 h3 h4 h5
    rw [hp] at he
    cases he
  · intro h
    rcases ok_or_error (ConstructSliceParamsLarge ctx start_vec stop_vec step_vec shape)
      with ⟨p, hp⟩ | he
    · exfalso
      obtain ⟨c1, c2, c3, c4⟩ := ConstructSliceParamsLarge_inv _ _ _ _ _ _ hp
      have hpos := ConstructSliceParamsLarge_pos _ _ _ _ _ _ hp
      rcases h with h | h | h | h | ⟨i, hi, hs⟩
      · omega
      · exact h c2
      · exact h c3
      · exact h c4
      · have := hpos i hi
        omega
    · exact he

/-- `ConstructSliceParamsSmall` aborts exactly when the rank exceeds the ceiling, a
sequence has not the length of the rank, or a step is not positive. -/
theorem ConstructSliceParamsSmall_error_iff (ctx : SliceContext)
    (start_vec stop_vec step_vec shape : List Int) :
    (∃ e, ConstructSliceParamsSmall ctx start_vec stop_vec step_vec shape = .error e) ↔
      (kSliceMaxDims < shape.length ∨ start_vec.length ≠ shape.length ∨
        stop_vec.length ≠ shape.length ∨ step_vec.length ≠ shape.length ∨
        ∃ i, i < shape.length ∧ step_vec.getD i 0 ≤ 0) := by
  constructor
  · rintro ⟨e, he⟩
    by_contra hnot
    simp only [not_or, not_lt, ne_eq, not_not, not_exists, not_and, not_le] at hnot
    obtain ⟨h1, h2, h3, h4, h5⟩ := hnot
    obtain ⟨p, hp, -⟩ := ConstructSliceParamsSmall_ok ctx start_vec stop_vec step_vec shape
      h1 h2 h3 h4 h5
    rw [hp] at he
    cases he
  · intro h
    rcases ok_or_error (ConstructSliceParamsSmall ctx start_vec stop_vec step_vec shape)
      with ⟨p, hp⟩ | he
    · exfalso
      obtain ⟨c1, c2, c3, c4⟩ := ConstructSliceParamsSmall_inv _ _ _ _ _ _ hp
      have hpos := ConstructSliceParamsSmall_pos _ _ _ _ _ _ hp
      rcases h with h | h | h | h | ⟨i, hi, hs⟩
      · omega
      · exact h c2
      · exact h c3
      · exact h c4
      · have := hpos i hi
        omega
    · exact he

/-- With a step that is not positive `WriteSlice` aborts before the copy. -/
theorem WriteSlice_params_error_of_step (rs re : Int → Int → Int) (ctx : SliceContext)
    (start_attr stop_attr step_attr large_shape small_shape : List Int)
    (h : ∃ i, i < large_shape.length ∧ step_attr.getD i 0 ≤ 0) :
    ∃ e, WriteSlice_params rs re ctx start_attr stop_attr step_attr large_shape small_shape
      = .error e := by
  rcases ok_or_error (WriteSlice_params rs re ctx start_attr stop_attr step_attr large_shape
    small_shape) with ⟨⟨L, S⟩, hp⟩ | he
  · exfalso
    obtain ⟨-, hL, -, -⟩ := WriteSlice_params_inv _ _ _ _ _ _ _ _ _ _ hp
    obtain ⟨i, hi, hs⟩ := h
    have := ConstructSliceParamsLarge_pos _ _ _ _ _ _ hL i hi
    omega
  · exact he

/-- C31. The distribution-aware builders accept exactly positive steps:
`ConstructSliceParamsLarge` and `ConstructSliceParamsSmall` abort if and only if
the rank exceeds `kSliceMaxDims`, or one of start, stop, step has a length other
than the rank, or `step[i] ≤ 0` on some axis `i`. In particular a step that is
negative on an axis of the large tensor makes `WriteSlice` abort, and with it the
logical slice kernel and the logical slice-assign kernel. -/
theorem distribution_builders_accept_exactly_positive_steps (ctx : SliceContext)
    (start_vec stop_vec step_vec shape : List Int) :
    ((∃ e, ConstructSliceParamsLarge ctx start_vec stop_vec step_vec shape = .error e) ↔
      (kSliceMaxDims < shape.length ∨ start_vec.length ≠ shape.length ∨
        stop_vec.length ≠ shape.length ∨ step_vec.length ≠ shape.length ∨
        ∃ i, i < shape.length ∧ step_vec.getD i 0 ≤ 0)) ∧
    ((∃ e, ConstructSliceParamsSmall ctx start_vec stop_vec step_vec shape = .error e) ↔
      (kSliceMaxDims < shape.length ∨ start_vec.length ≠ shape.length ∨
        stop_vec.length ≠ shape.length ∨ step_vec.length ≠ shape.length ∨
        ∃ i, i < shape.length ∧ step_vec.getD i 0 ≤ 0)) ∧
    ((∃ i, i < shape.length ∧ step_vec.getD i 0 < 0) →
      ∀ (regulateStart regulateStop : Int → Int → Int) (small_shape : List Int),
        (∃ e, WriteSlice_params regulateStart regulateStop ctx start_vec stop_vec step_vec shape
          small_shape = .error e) ∧
        (∀ (fuel : Nat) (x y : Int → Int),
          ∃ e, LogicalSliceKernel_Compute regulateStart regulateStop fuel ctx start_vec stop_vec
            step_vec shape small_shape x y = .error e) ∧
        (∀ (fuel : Nat) (value ref y : Int → Int) (ref_is_y : Bool),
          ∃ e, LogicalSliceAssignKernel_Compute regulateStart regulateStop fuel ctx start_vec
            stop_vec step_vec small_shape shape value ref y ref_is_y = .error e)) := by
  refine ⟨ConstructSliceParamsLarge_error_iff ctx _ _ _ _,
    ConstructSliceParamsSmall_error_iff ctx _ _ _ _, ?_⟩
  rintro ⟨i, hi, hs⟩ rs re small_shape
  obtain ⟨e, he⟩ := WriteSlice_params_error_of_step rs re ctx start_vec stop_vec step_vec shape
    small_shape ⟨i, hi, by omega⟩
  refine ⟨⟨e, he⟩, ?_, ?_⟩
  · intro fuel x y
    exact ⟨e, by simp only [LogicalSliceKernel_Compute, WriteSlice, if_true, he]⟩
  · intro fuel value ref y ref_is_y
    exact ⟨e, by
      simp only [LogicalSliceAssignKernel_Compute, WriteSlice, Bool.false_eq_true, if_false, he]⟩

theorem distribution_builders_accept_exactly_positive_steps_witness :
    (∃ i, i < ([4, 3] : List Int).length ∧ ([1, -1] : List Int).getD i 0 < 0) ∧
    (∃ e, ConstructSliceParamsLarge ⟨0, 0, 4, 8⟩ [0, 2] [4, 0] [1, -1] [4, 3] = .error e) ∧
    (∃ e, WriteSlice_params RegulateSliceStart RegulateSliceStop ⟨0, 0, 4, 8⟩ [0, 2] [4, 0]
      [1, -1] [4, 3] [4, 2] = .error e) :=
  ⟨⟨1, by decide, by decide⟩,
    (distribution_builders_accept_exactly_positive_steps ⟨0, 0, 4, 8⟩ [0, 2] [4, 0] [1, -1]
      [4, 3]).1.mpr (Or.inr (Or.inr (Or.inr (Or.inr ⟨1, by decide, by decide⟩)))),
    ((distribution_builders_accept_exactly_positive_steps ⟨0, 0, 4, 8⟩ [0, 2] [4, 0] [1, -1]
      [4, 3]).2.2 ⟨1, by decide, by decide⟩ RegulateSliceStart RegulateSliceStop [4, 2]).1⟩

/-! ## The run length and the loop counter in 32 bits -/

/-- A value of the range of `int` is unchanged by the conversion to `int`. -/
theorem int32_wrap_of_range (x : Int) (h0 : -2147483648 ≤ x) (h1 : x < 2147483648) :
    int32_wrap x = x := by
  unfold int32_wrap
  omega

theorem WriteSlice_cnt_scan_eq (L S : SliceParams) (k : Nat) (cnt : Int) :
    WriteSlice_cnt_scan L S k cnt
      = cnt_scan_fn (fun i => decide (L.step.getD i 0 = 1)) (fun i => L.size.getD i 0)
          (fun i => L.IsFullSlice i && S.IsFullSlice i) k cnt := by
  induction k generalizing cnt with
  | zero => rfl
  | succ i ih =>
    simp only [WriteSlice_cnt_scan, cnt_scan_fn, ih, decide_eq_true_eq,
      Bool.not_and]

/-- With positive sizes whose product with the start value stays below `2^31`, the
scan in 32 bits gives the run length of the scan over the integers. -/
theorem cnt_scan_fn_eq (mul : Nat → Bool) (size : Nat → Int) (full : Nat → Bool) :
    ∀ (k : Nat) (cnt : Int), (∀ t, t < k → 0 < size t) → 0 < cnt →
      cnt * prod_upto size k < 2147483648 →
      cnt_scan_fn mul size full k cnt = cnt_scan_fn_exact mul size full k cnt := by
  intro k
  induction k with
  | zero => intro cnt _ _ _; rfl
  | succ i ih =>
    intro cnt hpos hc hlt
    have hposi : ∀ t, t < i → 0 < size t := fun t ht => hpos t (by omega)
    have hP : 0 < prod_upto size i := prod_upto_pos _ _ hposi
    have hsi : 0 < size i := hpos i (by omega)
    rw [prod_upto_succ_last] at hlt
    have hcs : 0 < cnt * size i := mul_pos hc hsi
    have e : cnt * (prod_upto size i * size i) = cnt * size i * prod_upto size i := by ring
    rw [e] at hlt
    have h1 : cnt * size i ≤ cnt * size i * prod_upto size i := by nlinarith
    have h2 : cnt * prod_upto size i ≤ cnt * size i * prod_upto size i := by
      have : cnt * prod_upto size i * 1 ≤ cnt * prod_upto size i * size i :=
        mul_le_mul_of_nonneg_left (by omega) (le_of_lt (mul_pos hc hP))
      nlinarith
    have hw : int32_wrap (cnt * size i) = cnt * size i :=
      int32_wrap_of_range _ (by omega) (by omega)
    simp only [cnt_scan_fn, cnt_scan_fn_exact, hw]
    by_cases hm : mul i = true
    · simp only [hm, if_true]
      by_cases hf : full i = true
      · simp only [hf, Bool.not_true, Bool.false_eq_true, if_false]
        exact ih _ hposi hcs hlt
      · simp [hf]
    · simp only [hm, Bool.false_eq_true, if_false]
      by_cases hf : full i = true
      · simp only [hf, Bool.not_true, Bool.false_eq_true, if_false]
        exact ih _ hposi hc (by omega)
      · simp [hf]

/-- With a positive run length that divides what is left of `elem_cnt < 2^31`, the
loop counter in 32 bits takes the values of the counter over the integers. -/
theorem WriteSlice_loop_offsets_eq (elem_cnt cnt : Int) (hc : 0 < cnt)
    (hE : elem_cnt < 2147483648) :
    ∀ (fuel : Nat) (i : Int), 0 ≤ i → cnt ∣ elem_cnt - i →
      WriteSlice_loop_offsets elem_cnt cnt fuel i
        = WriteSlice_loop_offsets_exact elem_cnt cnt fuel i := by
  intro fuel
  induction fuel with
  | zero => intro i _ _; rfl
  | succ k ih =>
    intro i hi0 hdvd
    by_cases hlt : i < elem_cnt
    · have hnext : i + cnt ≤ elem_cnt := stride_gap cnt i elem_cnt hc hdvd hlt
      have hw : in_int32 (i + cnt) = true := by
        simp only [in_int32, Bool.and_eq_true, decide_eq_true_eq]
        omega
      have hn : ¬ cnt < 0 := by omega
      simp only [WriteSlice_loop_offsets, WriteSlice_loop_offsets_exact, hlt, if_true, hw, hn,
        if_false]
      rw [ih (i + cnt) (by omega) (by
        have e : elem_cnt - (i + cnt) = elem_cnt - i - cnt := by ring
        rw [e]
        exact dvd_sub hdvd (dvd_refl cnt))]
    · simp only [WriteSlice_loop_offsets, WriteSlice_loop_offsets_exact, hlt, if_false]

/-- With a positive run length that divides what is left of `elem_cnt < 2^31`, the
copy loop in 32 bits is the copy loop over the integers. -/
theorem WriteSlice_copy_loop_eq {α : Type} (NDIM : Nat) (L S : SliceParams) (f2s : Bool)
    (elem_cnt cnt : Int) (src : Int → α) (hc : 0 < cnt) (hE : elem_cnt < 2147483648) :
    ∀ (fuel : Nat) (i : Int) (dst : Int → α), 0 ≤ i → cnt ∣ elem_cnt - i →
      WriteSlice_copy_loop NDIM L S f2s elem_cnt cnt src fuel i dst
        = WriteSlice_copy_loop_exact NDIM L S f2s elem_cnt cnt src fuel i dst := by
  intro fuel
  induction fuel with
  | zero => intro i dst _ _; rfl
  | succ k ih =>
    intro i dst hi0 hdvd
    by_cases hlt : i < elem_cnt
    · have hnext : i + cnt ≤ elem_cnt := stride_gap cnt i elem_cnt hc hdvd hlt
      have hw : in_int32 (i + cnt) = true := by
        simp only [in_int32, Bool.and_eq_true, decide_eq_true_eq]
        omega
      have hn : ¬ cnt < 0 := by omega
      simp only [WriteSlice_copy_loop, WriteSlice_copy_loop_exact, hlt, if_true, hw, hn,
        if_false]
      rw [ih (i + cnt) _ (by omega) (by
        have e : elem_cnt - (i + cnt) = elem_cnt - i - cnt := by ring
        rw [e]
        exact dvd_sub hdvd (dvd_refl cnt))]
    · simp only [WriteSlice_copy_loop, WriteSlice_copy_loop_exact, hlt, if_false]

/-- The copy loop in 32 bits issues one bulk copy per counter value of
`WriteSlice_loop_offsets`, in that order. -/
theorem WriteSlice_copy_loop_eq_foldl {α : Type} (NDIM : Nat) (L S : SliceParams)
    (f2s : Bool) (elem_cnt cnt : Int) (src : Int → α) :
    ∀ (fuel : Nat) (i : Int) (dst : Int → α),
      WriteSlice_copy_loop NDIM L S f2s elem_cnt cnt src fuel i dst
        = (WriteSlice_loop_offsets elem_cnt cnt fuel i).map
            (fun offsets => offsets.foldl
              (fun d o => AutoMemcpy d src
                (if f2s then SliceOffsetToEntireOffset NDIM o S
                  else SliceOffsetToEntireOffset NDIM o L)
                (if f2s then SliceOffsetToEntireOffset NDIM o L
                  else SliceOffsetToEntireOffset NDIM o S) cnt) dst) := by
  intro fuel
  induction fuel with
  | zero =>
    intro i dst
    by_cases hlt : i < elem_cnt
    · simp only [WriteSlice_copy_loop, WriteSlice_loop_offsets, hlt, if_true]
      rfl
    · simp only [WriteSlice_copy_loop, WriteSlice_loop_offsets, hlt, if_false]
      rfl
  | succ k ih =>
    intro i dst
    by_cases hlt : i < elem_cnt
    · by_cases hn : cnt < 0
      · simp only [WriteSlice_copy_loop, WriteSlice_loop_offsets, hlt, hn, if_true]
        rfl
      · by_cases hw : in_int32 (i + cnt) = true
        · simp only [WriteSlice_copy_loop, WriteSlice_loop_offsets, hlt, hn, hw, if_true,
            if_false]
          rw [ih, Option.map_map]
          rfl
        · simp only [WriteSlice_copy_loop, WriteSlice_loop_offsets, hlt, hn, hw, if_true,
            if_false]
          rfl
    · simp only [WriteSlice_copy_loop, WriteSlice_loop_offsets, hlt, if_false]
      rfl

/-- With the run length 0 and a positive `elem_cnt` the loop does not end: the
counter stays at 0. -/
theorem WriteSlice_loop_offsets_stall (elem_cnt : Int) (hE : 0 < elem_cnt) :
    ∀ fuel : Nat, WriteSlice_loop_offsets elem_cnt 0 fuel 0 = none := by
  intro fuel
  induction fuel with
  | zero => simp [WriteSlice_loop_offsets, hE]
  | succ k ih =>
    have hn : ¬ (0 : Int) < 0 := by decide
    have h0 : (0 : Int) + 0 = 0 := by decide
    simp only [WriteSlice_loop_offsets, hE, if_true, hn, if_false, h0, ih,
      Option.map_none', ite_self]

/-- Below `2^31` elements the run length in 32 bits is the run length over the
integers, for sizes that are not negative and a positive element count. -/
theorem WriteSlice_cnt_eq (large small : SliceParams)
    (hnonneg : ∀ t, t < large.ndim → 0 ≤ large.size.getD t 0) (hE0 : 0 < large.elem_cnt)
    (hE : large.elem_cnt < 2147483648) :
    WriteSlice_cnt large.ndim large small = WriteSlice_cnt_exact large.ndim large small := by
  have hpos : ∀ t, t < large.ndim → 0 < large.size.getD t 0 :=
    pos_of_prod_upto_pos _ _ hnonneg (by rw [← elem_cnt_eq_prod_upto]; exact hE0)
  unfold WriteSlice_cnt WriteSlice_cnt_exact
  rw [WriteSlice_cnt_scan_eq, WriteSlice_cnt_scan_exact_eq]
  exact cnt_scan_fn_eq _ _ _ large.ndim 1 hpos (by decide)
    (by rw [one_mul, ← elem_cnt_eq_prod_upto]; exact hE)

/-- Below `2^31` elements `WriteSlice` with `int cnt` and `int i` in 32 bits is
`WriteSlice` with the two over the integers: when `WriteSlice` passes its checks
with a large parameter block of fewer than `2^31` elements, the two functions
return the same. -/
theorem WriteSlice_eq_exact {α : Type} (rs re : Int → Int → Int) (fuel : Nat)
    (slice_ctx : SliceContext) (start_attr stop_attr step_attr src_shape dst_shape : List Int)
    (src dst : Int → α) (from_large_to_small : Bool) (large small : SliceParams)
    (h : WriteSlice_params rs re slice_ctx start_attr stop_attr step_attr
      (if from_large_to_small then src_shape else dst_shape)
      (if from_large_to_small then dst_shape else src_shape) = .ok (large, small))
    (hE : large.elem_cnt < 2147483648) :
    WriteSlice rs re fuel large.ndim slice_ctx start_attr stop_attr step_attr src_shape
        dst_shape src dst from_large_to_small
      = WriteSlice_exact rs re fuel large.ndim slice_ctx start_attr stop_attr step_attr src_shape
          dst_shape src dst from_large_to_small := by
  obtain ⟨-, hL, -, -⟩ := WriteSlice_params_inv _ _ _ _ _ _ _ _ _ _ h
  have hnonneg := ConstructSliceParamsLarge_size_nonneg _ _ _ _ _ _ hL
  have hE0 : 0 ≤ large.elem_cnt := elem_cnt_nonneg large hnonneg
  simp only [WriteSlice, WriteSlice_exact, h]
  congr 1
  rcases lt_or_eq_of_le hE0 with hpos | hzero
  · obtain ⟨-, hc, hdvd, -, -⟩ := WriteSlice_rounds large small hnonneg hpos
    rw [WriteSlice_cnt_eq large small hnonneg hpos hE]
    exact WriteSlice_copy_loop_eq large.ndim large small from_large_to_small
      large.elem_cnt _ src hc hE fuel 0 dst (le_refl 0) (by rw [sub_zero]; exact hdvd)
  · cases fuel <;>
      simp [WriteSlice_copy_loop, WriteSlice_copy_loop_exact, ← hzero]

/-- From `2^31` elements on the loop of `WriteSlice` yields no result, whatever the
run length: the counter, an `int`, stays below `elem_cnt` until the sum `i + cnt`
leaves the range of `int`. With `cnt = 0` the loop does not end; with another `cnt`
the behaviour is undefined. -/
theorem WriteSlice_loop_offsets_never_ends (elem_cnt cnt : Int)
    (hE : 2147483648 ≤ elem_cnt) :
    ∀ (fuel : Nat) (i : Int), i < 2147483648 →
      WriteSlice_loop_offsets elem_cnt cnt fuel i = none := by
  intro fuel
  induction fuel with
  | zero =>
    intro i hi
    have hlt : i < elem_cnt := by omega
    simp only [WriteSlice_loop_offsets, hlt, if_true]
  | succ k ih =>
    intro i hi
    have hlt : i < elem_cnt := by omega
    by_cases hn : cnt < 0
    · simp only [WriteSlice_loop_offsets, hlt, hn, if_true]
    · by_cases hw : in_int32 (i + cnt) = true
      · have hr : i + cnt < 2147483648 := by
          simp only [in_int32, Bool.and_eq_true, decide_eq_true_eq] at hw
          exact hw.2
        simp only [WriteSlice_loop_offsets, hlt, hn, hw, if_true, if_false, ih _ hr,
          Option.map_none']
      · simp [WriteSlice_loop_offsets, hlt, hn, hw]

/-- From `2^31` elements on `WriteSlice` yields no result: when it passes its checks
with a large parameter block of at least `2^31` elements, the copy loop has no
result for any fuel (with `cnt = 0` it does not end, with another `cnt` the
behaviour is undefined). -/
theorem WriteSlice_never_returns {α : Type} (rs re : Int → Int → Int) (fuel NDIM : Nat)
    (slice_ctx : SliceContext) (start_attr stop_attr step_attr src_shape dst_shape : List Int)
    (src dst : Int → α) (from_large_to_small : Bool) (large small : SliceParams)
    (h : WriteSlice_params rs re slice_ctx start_attr stop_attr step_attr
      (if from_large_to_small then src_shape else dst_shape)
      (if from_large_to_small then dst_shape else src_shape) = .ok (large, small))
    (hE : 2147483648 ≤ large.elem_cnt) :
    WriteSlice rs re fuel NDIM slice_ctx start_attr stop_attr step_attr src_shape dst_shape
      src dst from_large_to_small = .ok none := by
  simp only [WriteSlice, h, WriteSlice_copy_loop_eq_foldl,
    WriteSlice_loop_offsets_never_ends _ _ hE fuel 0 (by decide), Option.map_none']

/-- The rank of the large parameter block of `WriteSlice` is the rank of the small
shape. -/
theorem WriteSlice_params_ndim (rs re : Int → Int → Int) (ctx : SliceContext)
    (start_attr stop_attr step_attr large_shape small_shape : List Int) (L S : SliceParams)
    (h : WriteSlice_params rs re ctx start_attr stop_attr step_attr large_shape small_shape
      = .ok (L, S)) :
    L.ndim = small_shape.length := by
  obtain ⟨-, hL, hS, -⟩ := WriteSlice_params_inv _ _ _ _ _ _ _ _ _ _ h
  obtain ⟨-, l2, -, -⟩ := ConstructSliceParamsLarge_inv _ _ _ _ _ _ hL
  obtain ⟨-, s2, -, -⟩ := ConstructSliceParamsSmall_inv _ _ _ _ _ _ hS
  obtain ⟨-, hLn, -⟩ := ConstructSliceParamsLarge_fields _ _ _ _ _ _ hL
  rw [hLn, ← l2, s2]

/-- Below `2^31` elements the logical slice kernel is the kernel over the integers. -/
theorem LogicalSliceKernel_Compute_eq_exact {α : Type} [Zero α] (rs re : Int → Int → Int)
    (fuel : Nat) (slice_ctx : SliceContext) (start_attr stop_attr step_attr : List Int)
    (x_shape y_shape : List Int) (x y : Int → α) (large small : SliceParams)
    (h : WriteSlice_params rs re slice_ctx start_attr stop_attr step_attr x_shape y_shape
      = .ok (large, small))
    (hE : large.elem_cnt < 2147483648) :
    LogicalSliceKernel_Compute rs re fuel slice_ctx start_attr stop_attr step_attr x_shape
        y_shape x y
      = LogicalSliceKernel_Compute_exact rs re fuel slice_ctx start_attr stop_attr step_attr
          x_shape y_shape x y := by
  unfold LogicalSliceKernel_Compute LogicalSliceKernel_Compute_exact
  rw [← WriteSlice_params_ndim _ _ _ _ _ _ _ _ _ _ h]
  exact WriteSlice_eq_exact rs re fuel slice_ctx start_attr stop_attr step_attr x_shape y_shape
    x _ true large small (by simpa using h) hE

/-- Below `2^31` elements the logical slice-assign kernel is the kernel over the
integers. -/
theorem LogicalSliceAssignKernel_Compute_eq_exact {α : Type} (rs re : Int → Int → Int)
    (fuel : Nat) (slice_ctx : SliceContext) (start_attr stop_attr step_attr : List Int)
    (value_shape y_shape : List Int) (value ref y : Int → α) (ref_is_y : Bool)
    (large small : SliceParams)
    (h : WriteSlice_params rs re slice_ctx start_attr stop_attr step_attr y_shape value_shape
      = .ok (large, small))
    (hE : large.elem_cnt < 2147483648) :
    LogicalSliceAssignKernel_Compute rs re fuel slice_ctx start_attr stop_attr step_attr
        value_shape y_shape value ref y ref_is_y
      = LogicalSliceAssignKernel_Compute_exact rs re fuel slice_ctx start_attr stop_attr
          step_attr value_shape y_shape value ref y ref_is_y := by
  unfold LogicalSliceAssignKernel_Compute LogicalSliceAssignKernel_Compute_exact
  rw [← WriteSlice_params_ndim _ _ _ _ _ _ _ _ _ _ h]
  exact WriteSlice_eq_exact rs re fuel slice_ctx start_attr stop_attr step_attr value_shape
    y_shape value _ false large small (by simpa using h) hE

/-- C30, the failing input. A tensor of shape `(65536, 65536)`, not split, sliced in
full to a tensor of the same shape: `WriteSlice` passes its checks, the
element-count check included, with `elem_cnt = 2^32 > 0`; the run length `cnt` is
0, not at least 1, and the loop `for (i = 0; i < elem_cnt; i += cnt)` does not
end: for every fuel the counter values and the copy have no result. -/
theorem copy_loop_runs_forever :
    ∃ large small : SliceParams,
      WriteSlice_params RegulateSliceStart RegulateSliceStop
          ⟨SPLIT_AXIS_FOR_NON_SPLIT, 0, 0, 0⟩ [0, 0] [65536, 65536] [1, 1] [65536, 65536]
          [65536, 65536] = .ok (large, small) ∧
      0 < large.elem_cnt ∧
      ¬ 1 ≤ WriteSlice_cnt large.ndim large small ∧
      (∀ fuel : Nat,
        WriteSlice_loop_offsets large.elem_cnt (WriteSlice_cnt large.ndim large small) fuel 0
          = none) ∧
      ∀ (fuel : Nat) (src dst : Int → Int) (from_large_to_small : Bool),
        WriteSlice_copy_loop large.ndim large small from_large_to_small large.elem_cnt
          (WriteSlice_cnt large.ndim large small) src fuel 0 dst = none := by
  refine ⟨⟨2, [65536, 65536, 0, 0, 0, 0, 0, 0], [0, 0, 0, 0, 0, 0, 0, 0],
      [1, 1, 0, 0, 0, 0, 0, 0], [65536, 65536, 0, 0, 0, 0, 0, 0]⟩,
    ⟨2, [65536, 65536, 0, 0, 0, 0, 0, 0], [0, 0, 0, 0, 0, 0, 0, 0],
      [1, 1, 0, 0, 0, 0, 0, 0], [65536, 65536, 0, 0, 0, 0, 0, 0]⟩,
    by decide, by decide, by decide, ?_, ?_⟩
  · intro fuel
    exact WriteSlice_loop_offsets_never_ends _ _ (by decide) fuel 0 (by decide)
  · intro fuel src dst f2s
    rw [WriteSlice_copy_loop_eq_foldl,
      WriteSlice_loop_offsets_never_ends _ _ (by decide) fuel 0 (by decide)]
    rfl

/-- C27, the failing input. For the large parameter block that
`ConstructSliceParamsLarge` returns for a tensor of shape `(65536, 65536)`, not
split, sliced in full, with `elem_cnt = 2^32 > 0`, and the small block of the same
shape: the run length `cnt` of `WriteSlice` is 0; it is the product of
`large.size` over no trailing block of axes, it is not positive and does not
divide `elem_cnt`; the counter after a round at 0 is 0 again, so the offsets of
the rounds do not increase, and the loop does not end. -/
theorem run_length_is_no_product_of_sizes :
    ∃ large : SliceParams,
      ConstructSliceParamsLarge ⟨SPLIT_AXIS_FOR_NON_SPLIT, 0, 0, 0⟩ [0, 0] [65536, 65536]
          [1, 1] [65536, 65536] = .ok large ∧
      ConstructSliceParamsSmall ⟨SPLIT_AXIS_FOR_NON_SPLIT, 0, 0, 0⟩ [0, 0] [65536, 65536]
          [1, 1] [65536, 65536] = .ok large ∧
      0 < large.elem_cnt ∧
      WriteSlice_cnt large.ndim large large = 0 ∧
      (∀ m, m ≤ large.ndim →
        WriteSlice_cnt large.ndim large large
          ≠ ∏ t in Finset.Ico m large.ndim, large.size.getD t 0) ∧
      ¬ 0 < WriteSlice_cnt large.ndim large large ∧
      ¬ WriteSlice_cnt large.ndim large large ∣ large.elem_cnt ∧
      int32_wrap (0 + WriteSlice_cnt large.ndim large large) = 0 ∧
      ∀ fuel : Nat,
        WriteSlice_loop_offsets large.elem_cnt (WriteSlice_cnt large.ndim large large) fuel 0
          = none := by
  refine ⟨⟨2, [65536, 65536, 0, 0, 0, 0, 0, 0], [0, 0, 0, 0, 0, 0, 0, 0],
      [1, 1, 0, 0, 0, 0, 0, 0], [65536, 65536, 0, 0, 0, 0, 0, 0]⟩,
    by decide, by decide, by decide, by decide, ?_, by decide, by decide, by decide, ?_⟩
  · intro m hm
    have hm2 : m ≤ 2 := hm
    have hc : WriteSlice_cnt 2
        ⟨2, [65536, 65536, 0, 0, 0, 0, 0, 0], [0, 0, 0, 0, 0, 0, 0, 0],
          [1, 1, 0, 0, 0, 0, 0, 0], [65536, 65536, 0, 0, 0, 0, 0, 0]⟩
        ⟨2, [65536, 65536, 0, 0, 0, 0, 0, 0], [0, 0, 0, 0, 0, 0, 0, 0],
          [1, 1, 0, 0, 0, 0, 0, 0], [65536, 65536, 0, 0, 0, 0, 0, 0]⟩ = 0 := by decide
    show WriteSlice_cnt 2 _ _ ≠ ∏ t in Finset.Ico m 2, _
    rw [hc]
    interval_cases m
    · simp [Finset.prod_Ico_eq_prod_range, Finset.prod_range_succ]
    · simp [Finset.prod_Ico_eq_prod_range, Finset.prod_range_succ]
    · simp
  · intro fuel
    exact WriteSlice_loop_offsets_never_ends _ _ (by decide) fuel 0 (by decide)

/-- C5, the failing input. A logical tensor of shape `(131072, 65536)` split on axis
0 over two ranks, the shards `[0, 65536)` and `[65536, 131072)`, sliced in full
(`start = [0, 0]`, `stop = [131072, 65536]`, `step = [1, 1]`): on each rank
`WriteSlice` passes its checks with `elem_cnt = 2^32` and the run length 0, and
`LogicalSliceKernel::Compute` does not return, for any fuel and any buffers. -/
theorem sharded_logical_slice_does_not_return :
    (∃ large small : SliceParams,
      WriteSlice_params RegulateSliceStart RegulateSliceStop ⟨0, 0, 65536, 131072⟩
          [0, 0] [131072, 65536] [1, 1] [65536, 65536] [131072, 65536] = .ok (large, small) ∧
      large.elem_cnt = 4294967296 ∧ WriteSlice_cnt 2 large small = 0) ∧
    (∃ large small : SliceParams,
      WriteSlice_params RegulateSliceStart RegulateSliceStop ⟨0, 65536, 131072, 131072⟩
          [0, 0] [131072, 65536] [1, 1] [65536, 65536] [131072, 65536] = .ok (large, small) ∧
      large.elem_cnt = 4294967296 ∧ WriteSlice_cnt 2 large small = 0) ∧
    ∀ (fuel : Nat) (x y : Int → Int),
      LogicalSliceKernel_Compute RegulateSliceStart RegulateSliceStop fuel
          ⟨0, 0, 65536, 131072⟩ [0, 0] [131072, 65536] [1, 1] [65536, 65536] [131072, 65536]
          x y = .ok none ∧
      LogicalSliceKernel_Compute RegulateSliceStart RegulateSliceStop fuel
          ⟨0, 65536, 131072, 131072⟩ [0, 0] [131072, 65536] [1, 1] [65536, 65536]
          [131072, 65536] x y = .ok none := by
  have h0 : WriteSlice_params RegulateSliceStart RegulateSliceStop ⟨0, 0, 65536, 131072⟩
      [0, 0] [131072, 65536] [1, 1] [65536, 65536] [131072, 65536]
      = .ok (⟨2, [65536, 65536, 0, 0, 0, 0, 0, 0], [0, 0, 0, 0, 0, 0, 0, 0],
          [1, 1, 0, 0, 0, 0, 0, 0], [65536, 65536, 0, 0, 0, 0, 0, 0]⟩,
        ⟨2, [131072, 65536, 0, 0, 0, 0, 0, 0], [0, 0, 0, 0, 0, 0, 0, 0],
          [1, 1, 0, 0, 0, 0, 0, 0], [65536, 65536, 0, 0, 0, 0, 0, 0]⟩) := by decide
  have h1 : WriteSlice_params RegulateSliceStart RegulateSliceStop ⟨0, 65536, 131072, 131072⟩
      [0, 0] [131072, 65536] [1, 1] [65536, 65536] [131072, 65536]
      = .ok (⟨2, [65536, 65536, 0, 0, 0, 0, 0, 0], [0, 0, 0, 0, 0, 0, 0, 0],
          [1, 1, 0, 0, 0, 0, 0, 0], [65536, 65536, 0, 0, 0, 0, 0, 0]⟩,
        ⟨2, [131072, 65536, 0, 0, 0, 0, 0, 0], [65536, 0, 0, 0, 0, 0, 0, 0],
          [1, 1, 0, 0, 0, 0, 0, 0], [65536, 65536, 0, 0, 0, 0, 0, 0]⟩) := by decide
  refine ⟨⟨_, _, h0, by decide, by decide⟩, ⟨_, _, h1, by decide, by decide⟩, ?_⟩
  intro fuel x y
  exact ⟨WriteSlice_never_returns _ _ _ _ _ _ _ _ _ _ _ _ true _ _ h0 (by decide),
    WriteSlice_never_returns _ _ _ _ _ _ _ _ _ _ _ _ true _ _ h1 (by decide)⟩

/-- C25, the failing input. Logical slice-assign of a `value` of shape
`(65536, 65536)` to the whole of a `y` of the same shape, not split, `ref` and `y`
the same buffer or not: `WriteSlice` passes its checks with `elem_cnt = 2^32` and
the run length 0, and `LogicalSliceAssignKernel::Compute` does not return, for any
fuel and any buffers. -/
theorem logical_slice_assign_does_not_return :
    ∃ large small : SliceParams,
      WriteSlice_params RegulateSliceStart RegulateSliceStop
          ⟨SPLIT_AXIS_FOR_NON_SPLIT, 0, 0, 0⟩ [0, 0] [65536, 65536] [1, 1] [65536, 65536]
          [65536, 65536] = .ok (large, small) ∧
      large.elem_cnt = 4294967296 ∧ WriteSlice_cnt 2 large small = 0 ∧
      ∀ (fuel : Nat) (value ref y : Int → Int) (ref_is_y : Bool),
        LogicalSliceAssignKernel_Compute RegulateSliceStart RegulateSliceStop fuel
          ⟨SPLIT_AXIS_FOR_NON_SPLIT, 0, 0, 0⟩ [0, 0] [65536, 65536] [1, 1] [65536, 65536]
          [65536, 65536] value ref y ref_is_y = .ok none := by
  have h : WriteSlice_params RegulateSliceStart RegulateSliceStop
      ⟨SPLIT_AXIS_FOR_NON_SPLIT, 0, 0, 0⟩ [0, 0] [65536, 65536] [1, 1] [65536, 65536]
      [65536, 65536]
      = .ok (⟨2, [65536, 65536, 0, 0, 0, 0, 0, 0], [0, 0, 0, 0, 0, 0, 0, 0],
          [1, 1, 0, 0, 0, 0, 0, 0], [65536, 65536, 0, 0, 0, 0, 0, 0]⟩,
        ⟨2, [65536, 65536, 0, 0, 0, 0, 0, 0], [0, 0, 0, 0, 0, 0, 0, 0],
          [1, 1, 0, 0, 0, 0, 0, 0], [65536, 65536, 0, 0, 0, 0, 0, 0]⟩) := by decide
  refine ⟨_, _, h, by decide, by decide, ?_⟩
  intro fuel value ref y ref_is_y
  exact WriteSlice_never_returns _ _ _ _ _ _ _ _ _ _ _ _ false _ _ h (by decide)

/-- C7, the failing input. A tensor of shape `(2, 5905580033)`, not split, sliced
with `start = [0, 0]`, `stop = [2, 5905580032]`, `step = [1, 1]` to a tensor of
shape `(2, 5905580032)`: the two parameter blocks have equal sizes that are not
negative, and `small.step = 1`; the product of the multiplied sizes is
`5905580032`, and the run length `cnt` of the scan is `1610612736`. The offset
`i = 4831838208` is a multiple of `cnt` below `elem_cnt`, and for
`j = 1073741824 < cnt` the offset `i + j` of `large` is not the offset `i` of
`large` moved by `j`: the run passes the end of a row of the slice. -/
theorem wrapped_run_is_not_consecutive :
    ∃ large small : SliceParams,
      WriteSlice_params RegulateSliceStart RegulateSliceStop
          ⟨SPLIT_AXIS_FOR_NON_SPLIT, 0, 0, 0⟩ [0, 0] [2, 5905580032] [1, 1] [2, 5905580033]
          [2, 5905580032] = .ok (large, small) ∧
      large.ndim = 2 ∧
      (∀ t, t < 2 → large.size.getD t 0 = small.size.getD t 0) ∧
      (∀ t, t < 2 → 0 ≤ large.size.getD t 0) ∧
      (∀ t, t < 2 → small.step.getD t 0 = 1) ∧
      WriteSlice_cnt_exact 2 large small = 5905580032 ∧
      WriteSlice_cnt 2 large small = 1610612736 ∧
      (0 : Int) ≤ 4831838208 ∧ WriteSlice_cnt 2 large small ∣ 4831838208 ∧
      4831838208 < large.elem_cnt ∧
      (0 : Int) ≤ 1073741824 ∧ 1073741824 < WriteSlice_cnt 2 large small ∧
      SliceOffsetToEntireOffset 2 (4831838208 + 1073741824) large = 5905580033 ∧
      SliceOffsetToEntireOffset 2 4831838208 large + 1073741824 = 5905580032 := by
  refine ⟨⟨2, [2, 5905580033, 0, 0, 0, 0, 0, 0], [0, 0, 0, 0, 0, 0, 0, 0],
      [1, 1, 0, 0, 0, 0, 0, 0], [2, 5905580032, 0, 0, 0, 0, 0, 0]⟩,
    ⟨2, [2, 5905580032, 0, 0, 0, 0, 0, 0], [0, 0, 0, 0, 0, 0, 0, 0],
      [1, 1, 0, 0, 0, 0, 0, 0], [2, 5905580032, 0, 0, 0, 0, 0, 0]⟩,
    by decide, by decide, by decide, by decide, by decide, by decide, ?_⟩
  have hc : WriteSlice_cnt 2
      ⟨2, [2, 5905580033, 0, 0, 0, 0, 0, 0], [0, 0, 0, 0, 0, 0, 0, 0],
        [1, 1, 0, 0, 0, 0, 0, 0], [2, 5905580032, 0, 0, 0, 0, 0, 0]⟩
      ⟨2, [2, 5905580032, 0, 0, 0, 0, 0, 0], [0, 0, 0, 0, 0, 0, 0, 0],
        [1, 1, 0, 0, 0, 0, 0, 0], [2, 5905580032, 0, 0, 0, 0, 0, 0]⟩ = 1610612736 := by
    decide
  rw [hc]
  exact ⟨rfl, by decide, ⟨3, by decide⟩, by decide, by decide, by decide, by decide,
    by decide⟩

/-- C16, the failing input. A tensor of `5905580032` elements in one dimension, not
split, sliced in full with step 1 to a tensor of the same shape: the builders
return, the element counts agree, and the run length `cnt` of `WriteSlice` is
`1610612736`. The offset `i = 4831838208` is a multiple of `cnt` below `elem_cnt`,
and for `j = 1073741824 < cnt` the offset `offset + j` of the run is `5905580032`,
the number of elements of the buffer, on both sides: the run passes the end of the
two buffers. After the rounds at 0 and `1610612736` the sum `i + cnt` is past the
range of `int`, a signed overflow whose behaviour is undefined: a build that keeps
the counter in 64 bits runs the body at this `i`; with the two's complement value
`-1073741824` the test `i < elem_cnt` holds and the next run starts at the offset
`-1073741824` of both buffers. -/
theorem wrapped_run_leaves_the_buffer :
    ∃ large small : SliceParams,
      ConstructSliceParamsLarge ⟨SPLIT_AXIS_FOR_NON_SPLIT, 0, 0, 0⟩ [0] [5905580032] [1]
          [5905580032] = .ok large ∧
      ConstructSliceParamsSmall ⟨SPLIT_AXIS_FOR_NON_SPLIT, 0, 0, 0⟩ [0] [5905580032] [1]
          [5905580032] = .ok small ∧
      large.elem_cnt = small.elem_cnt ∧
      WriteSlice_cnt large.ndim large small = 1610612736 ∧
      (0 : Int) ≤ 4831838208 ∧ WriteSlice_cnt large.ndim large small ∣ 4831838208 ∧
      4831838208 < large.elem_cnt ∧
      (0 : Int) ≤ 1073741824 ∧ 1073741824 < WriteSlice_cnt large.ndim large small ∧
      SliceOffsetToEntireOffset large.ndim 4831838208 large + 1073741824
        = (first_entries large.ndim large.dims).prod ∧
      SliceOffsetToEntireOffset large.ndim 4831838208 small + 1073741824
        = (first_entries large.ndim small.dims).prod ∧
      int32_wrap (1610612736 + 1610612736) = -1073741824 ∧
      -1073741824 < large.elem_cnt ∧
      SliceOffsetToEntireOffset large.ndim (-1073741824) large = -1073741824 ∧
      SliceOffsetToEntireOffset large.ndim (-1073741824) small = -1073741824 := by
  refine ⟨⟨1, [5905580032, 0, 0, 0, 0, 0, 0, 0], [0, 0, 0, 0, 0, 0, 0, 0],
      [1, 0, 0, 0, 0, 0, 0, 0], [5905580032, 0, 0, 0, 0, 0, 0, 0]⟩,
    ⟨1, [5905580032, 0, 0, 0, 0, 0, 0, 0], [0, 0, 0, 0, 0, 0, 0, 0],
      [1, 0, 0, 0, 0, 0, 0, 0], [5905580032, 0, 0, 0, 0, 0, 0, 0]⟩,
    by decide, by decide, by decide, ?_⟩
  have hc : WriteSlice_cnt 1
      ⟨1, [5905580032, 0, 0, 0, 0, 0, 0, 0], [0, 0, 0, 0, 0, 0, 0, 0],
        [1, 0, 0, 0, 0, 0, 0, 0], [5905580032, 0, 0, 0, 0, 0, 0, 0]⟩
      ⟨1, [5905580032, 0, 0, 0, 0, 0, 0, 0], [0, 0, 0, 0, 0, 0, 0, 0],
        [1, 0, 0, 0, 0, 0, 0, 0], [5905580032, 0, 0, 0, 0, 0, 0, 0]⟩ = 1610612736 := by
    decide
  show WriteSlice_cnt 1 _ _ = _ ∧ _ ∧ WriteSlice_cnt 1 _ _ ∣ _ ∧ _ ∧ _ ∧
    _ < WriteSlice_cnt 1 _ _ ∧ _
  rw [hc]
  exact ⟨rfl, by decide, ⟨3, by decide⟩, by decide, by decide, by decide, by decide,
    by decide, by decide, by decide, by decide, by decide⟩

/-- C32, the failing input. A tensor of shape `(65536, 65536)`, not split, sliced
in full (`start = [0, 0]`, `stop = [65536, 65536]`, `step = [1, 1]`) to a tensor of
the same shape: `WriteSlice` passes its checks with `elem_cnt = 2^32`; the product
of the multiplied sizes is `2^32`, and `int cnt` holds 0. The loop counter then
stays at 0 and the loop does not end: for every fuel the counter values and the
copy have no result, where the loop over the integers runs its body once, at 0. -/
theorem run_length_wraps_to_zero :
    ∃ large small : SliceParams,
      WriteSlice_params RegulateSliceStart RegulateSliceStop
          ⟨SPLIT_AXIS_FOR_NON_SPLIT, 0, 0, 0⟩ [0, 0] [65536, 65536] [1, 1] [65536, 65536]
          [65536, 65536] = .ok (large, small) ∧
      large.elem_cnt = 4294967296 ∧
      WriteSlice_cnt_exact 2 large small = 4294967296 ∧
      WriteSlice_cnt 2 large small = 0 ∧
      int32_wrap (0 + WriteSlice_cnt 2 large small) = 0 ∧
      WriteSlice_loop_offsets_exact large.elem_cnt (WriteSlice_cnt_exact 2 large small) 1 0
        = some [0] ∧
      (∀ fuel : Nat,
        WriteSlice_loop_offsets large.elem_cnt (WriteSlice_cnt 2 large small) fuel 0 = none) ∧
      ∀ (fuel : Nat) (x y : Int → Int),
        WriteSlice RegulateSliceStart RegulateSliceStop fuel 2
          ⟨SPLIT_AXIS_FOR_NON_SPLIT, 0, 0, 0⟩ [0, 0] [65536, 65536] [1, 1] [65536, 65536]
          [65536, 65536] x y true = .ok none := by
  have hparams : WriteSlice_params RegulateSliceStart RegulateSliceStop
      ⟨SPLIT_AXIS_FOR_NON_SPLIT, 0, 0, 0⟩ [0, 0] [65536, 65536] [1, 1] [65536, 65536]
      [65536, 65536]
      = .ok (⟨2, [65536, 65536, 0, 0, 0, 0, 0, 0], [0, 0, 0, 0, 0, 0, 0, 0],
          [1, 1, 0, 0, 0, 0, 0, 0], [65536, 65536, 0, 0, 0, 0, 0, 0]⟩,
        ⟨2, [65536, 65536, 0, 0, 0, 0, 0, 0], [0, 0, 0, 0, 0, 0, 0, 0],
          [1, 1, 0, 0, 0, 0, 0, 0], [65536, 65536, 0, 0, 0, 0, 0, 0]⟩) := by decide
  have hcnt : WriteSlice_cnt 2
      ⟨2, [65536, 65536, 0, 0, 0, 0, 0, 0], [0, 0, 0, 0, 0, 0, 0, 0],
        [1, 1, 0, 0, 0, 0, 0, 0], [65536, 65536, 0, 0, 0, 0, 0, 0]⟩
      ⟨2, [65536, 65536, 0, 0, 0, 0, 0, 0], [0, 0, 0, 0, 0, 0, 0, 0],
        [1, 1, 0, 0, 0, 0, 0, 0], [65536, 65536, 0, 0, 0, 0, 0, 0]⟩ = 0 := by decide
  have hE : (⟨2, [65536, 65536, 0, 0, 0, 0, 0, 0], [0, 0, 0, 0, 0, 0, 0, 0],
      [1, 1, 0, 0, 0, 0, 0, 0], [65536, 65536, 0, 0, 0, 0, 0, 0]⟩ : SliceParams).elem_cnt
      = 4294967296 := by decide
  have hstall := WriteSlice_loop_offsets_stall 4294967296 (by decide)
  refine ⟨_, _, hparams, hE, by decide, hcnt, by decide, by decide, ?_, ?_⟩
  · intro fuel
    rw [hcnt, hE]
    exact hstall fuel
  · intro fuel x y
    simp only [WriteSlice, if_true, hparams, hcnt, hE,
      WriteSlice_copy_loop_eq_foldl, hstall fuel, Option.map_none']

/-! ## The builders in 64 bits -/

/-- A value of the range of `int64_t` is unchanged by the conversion to `int64_t`. -/
theorem int64_wrap_of_range (x : Int) (h0 : -9223372036854775808 ≤ x)
    (h1 : x < 9223372036854775808) : int64_wrap x = x := by
  unfold int64_wrap
  omega

theorem in_int64_iff (x : Int) :
    in_int64 x = true ↔ -9223372036854775808 ≤ x ∧ x < 9223372036854775808 := by
  simp only [in_int64, Bool.and_eq_true, decide_eq_true_eq]

/-- When the difference of the bounds is a value of `int64_t`, `GetSizeInSlice` in 64
bits is `GetSizeInSlice` over the integers. -/
theorem GetSizeInSlice_int64_eq (start end_ step : Int) (hstep : 0 < step)
    (hr : end_ - start < 9223372036854775808) :
    GetSizeInSlice_int64 start end_ step = GetSizeInSlice start end_ step := by
  unfold GetSizeInSlice_int64 GetSizeInSlice
  by_cases h : end_ ≤ start
  · rw [if_pos h, if_pos h]
  · rw [if_neg h, if_neg h]
    have h1 : int64_wrap (end_ - start) = end_ - start :=
      int64_wrap_of_range _ (by omega) hr
    have h2 : int64_wrap (end_ - start - 1) = end_ - start - 1 :=
      int64_wrap_of_range _ (by omega) (by omega)
    have hq0 : 0 ≤ Int.tdiv (end_ - start - 1) step :=
      Int.tdiv_nonneg (by omega) (le_of_lt hstep)
    have hq1 : Int.tdiv (end_ - start - 1) step ≤ end_ - start - 1 := by
      rw [Int.tdiv_eq_ediv (by omega : 0 ≤ end_ - start - 1) (le_of_lt hstep)]
      exact Int.ediv_le_self _ (by omega)
    have h3 : int64_wrap (Int.tdiv (end_ - start - 1) step) = Int.tdiv (end_ - start - 1) step :=
      int64_wrap_of_range _ (by omega) (by omega)
    rw [h1, h2, h3]
    exact int64_wrap_of_range _ (by omega) (by omega)

/-- Whether the cross-check `start + step * (slice_size - 1)` of `ConstructSliceParams`
stays in `int64_t` is decided by `cross_check_in_int64`; then its value in 64 bits is
its value over the integers. -/
theorem cross_check_lhs_int64_eq (start step slice_size : Int)
    (h : cross_check_in_int64 start step slice_size = true) :
    cross_check_lhs_int64 start step slice_size = start + step * (slice_size - 1) := by
  simp only [cross_check_in_int64, Bool.and_eq_true, in_int64_iff] at h
  obtain ⟨⟨h1, h2⟩, h3⟩ := h
  unfold cross_check_lhs_int64
  rw [int64_wrap_of_range _ h1.1 h1.2, int64_wrap_of_range _ h2.1 h2.2,
    int64_wrap_of_range _ h3.1 h3.2]

/-- Two loop bodies that agree on the axes below `n` give the same loop. -/
theorem FOR_RANGE_congr {σ : Type} (n : Nat) (body body' : Nat → σ → Except CheckFailure σ)
    (init : σ) (h : ∀ i, i < n → ∀ s, body i s = body' i s) :
    FOR_RANGE n body init = FOR_RANGE n body' init := by
  induction n with
  | zero => rfl
  | succ k ih =>
    have hk := ih (fun i hi s => h i (by omega) s)
    simp only [FOR_RANGE, hk]
    cases FOR_RANGE k body' init with
    | ok s => exact h k (by omega) s
    | error e => rfl

/-- On an axis whose cross-check stays in `int64_t` the loop body of
`ConstructSliceParams` in 64 bits is the loop body over the integers. -/
theorem ConstructSliceParams_body_int64_eq (rs re : Int → Int → Int)
    (start_vec stop_vec step_vec entire_shape sliced_shape : List Int) (i : Nat)
    (params : SliceParams)
    (h : cross_check_in_int64 (rs (start_vec.getD i 0) (entire_shape.getD i 0))
      (step_vec.getD i 0) (sliced_shape.getD i 0) = true) :
    ConstructSliceParams_body_int64 rs re start_vec stop_vec step_vec entire_shape sliced_shape
        i params
      = ConstructSliceParams_body rs re start_vec stop_vec step_vec entire_shape sliced_shape
          i params := by
  simp only [ConstructSliceParams_body_int64, ConstructSliceParams_body,
    cross_check_lhs_int64_eq _ _ _ h]

/-- When the cross-check stays in `int64_t` on every axis, `ConstructSliceParams` in
64 bits is `ConstructSliceParams` over the integers. -/
theorem ConstructSliceParams_int64_eq (rs re : Int → Int → Int)
    (start_vec stop_vec step_vec entire_shape sliced_shape : List Int)
    (h : ∀ i, i < entire_shape.length →
      cross_check_in_int64 (rs (start_vec.getD i 0) (entire_shape.getD i 0))
        (step_vec.getD i 0) (sliced_shape.getD i 0) = true) :
    ConstructSliceParams_int64 rs re start_vec stop_vec step_vec entire_shape sliced_shape
      = ConstructSliceParams rs re start_vec stop_vec step_vec entire_shape sliced_shape := by
  have e : ∀ init : SliceParams,
      FOR_RANGE entire_shape.length
          (ConstructSliceParams_body_int64 rs re start_vec stop_vec step_vec entire_shape
            sliced_shape) init
        = FOR_RANGE entire_shape.length
            (ConstructSliceParams_body rs re start_vec stop_vec step_vec entire_shape
              sliced_shape) init :=
    fun init => FOR_RANGE_congr entire_shape.length _ _ init
      (fun i hi s => ConstructSliceParams_body_int64_eq rs re start_vec stop_vec step_vec
        entire_shape sliced_shape i s (h i hi))
  simp only [ConstructSliceParams_int64, ConstructSliceParams, e]

/-- C8, counterexample. `GetSizeInSlice(-2, 2^63 - 1, 1)`: the difference
`end - start = 2^63 + 1` is past the range of `int64_t`; in 64 bits the function
returns `-9223372036854775807`, not the number `2^63 + 1` of `k ≥ 0` with
`-2 + k < 2^63 - 1`. With `start = -2^63`, `end = 2^63 - 1`, `step = 2^62` the
count is 4, a value of `int64_t`, and the function returns 1. -/
theorem GetSizeInSlice_int64_misses_count_past_range :
    (0 : Int) < 1 ∧
    GetSizeInSlice_int64 (-2) 9223372036854775807 1 = -9223372036854775807 ∧
    ((Set.ncard {k : Nat | (-2 : Int) + (k : Int) * 1 < 9223372036854775807} : Nat) : Int)
      = 9223372036854775809 ∧
    GetSizeInSlice_int64 (-9223372036854775808) 9223372036854775807 4611686018427387904 = 1 ∧
    ((Set.ncard {k : Nat | (-9223372036854775808 : Int) + (k : Int) * 4611686018427387904
        < 9223372036854775807} : Nat) : Int) = 4 := by
  refine ⟨by decide, by decide, ?_, by decide, ?_⟩
  · rw [← (GetSizeInSlice_counts_strided_positions (-2) 9223372036854775807 1 (by decide)).1]
    decide
  · rw [← (GetSizeInSlice_counts_strided_positions (-9223372036854775808) 9223372036854775807
      4611686018427387904 (by decide)).1]
    decide

/-- C8, as amended. For every positive step and all `start`, `end` whose difference
`end - start` is at most `2^63 - 1`, a value of `int64_t`, `GetSizeInSlice` in 64
bits is the number of `k ≥ 0` with `start + k * step < end`; it is `0` whenever
`end ≤ start`, whatever the difference. -/
theorem GetSizeInSlice_int64_counts_strided_positions (start end_ step : Int)
    (hstep : 0 < step) (hr : end_ - start ≤ 9223372036854775807) :
    GetSizeInSlice_int64 start end_ step
        = ((Set.ncard {k : Nat | start + (k : Int) * step < end_} : Nat) : Int) ∧
      (end_ ≤ start → GetSizeInSlice_int64 start end_ step = 0) := by
  constructor
  · rw [GetSizeInSlice_int64_eq start end_ step hstep (by omega)]
    exact (GetSizeInSlice_counts_strided_positions start end_ step hstep).1
  · intro h
    unfold GetSizeInSlice_int64
    rw [if_pos h]

theorem GetSizeInSlice_int64_counts_strided_positions_witness :
    (0 : Int) < 2 ∧ (7 : Int) - 1 ≤ 9223372036854775807 ∧
    GetSizeInSlice_int64 1 7 2
      = ((Set.ncard {k : Nat | (1 : Int) + (k : Int) * 2 < 7} : Nat) : Int) :=
  ⟨by decide, by decide,
    (GetSizeInSlice_int64_counts_strided_positions 1 7 2 (by decide) (by decide)).1⟩

/-- C9, counterexample. With entire shape `(10)`, `start = 0`, `stop = 10`,
`step = 1` the progression has 10 indices in `[0, 10)`, yet a declared output
extent of 3 passes the cross-check, which stays in `int64_t`: the builder returns
`size[0] = 3`. -/
theorem cross_check_accepts_smaller_extent :
    ConstructSliceParams_int64 RegulateSliceStart RegulateSliceStop [0] [10] [1] [10] [3]
        = .ok ⟨1, [10, 0, 0, 0, 0, 0, 0, 0], [0, 0, 0, 0, 0, 0, 0, 0], [1, 0, 0, 0, 0, 0, 0, 0],
            [3, 0, 0, 0, 0, 0, 0, 0]⟩ ∧
      cross_check_in_int64 (RegulateSliceStart 0 10) 1 3 = true ∧
      ([3] : List Int).getD 0 0 ≠
        ((Set.ncard {k : Nat | in_slice_range (RegulateSliceStart 0 10)
          (RegulateSliceStop 10 10) 1 (RegulateSliceStart 0 10 + (k : Int) * 1)} : Nat) : Int) := by
  refine ⟨by decide, by decide, ?_⟩
  rw [ncard_in_slice_range_pos _ _ _ (by decide)]
  decide

/-- C9, as amended. The cross-check of `ConstructSliceParams` against the declared
output shape is one-sided: outside the scalar-pick case, on an input whose
cross-check `start[i] + step[i] * (sliced.shape[i] - 1)` stays in `int64_t` on every
axis, the builder aborts whenever on some axis `i` the declared output extent
`sliced.shape[i]` is greater than the number of indices of the progression
`start[i], start[i] + step[i], …` that lie in `[start[i], stop[i])` for positive step
or in `(stop[i], start[i]]` for negative step, `start` and `stop` being the
normalised bounds; on success `size[i] = sliced.shape[i]` is at most that count on
every axis. -/
theorem cross_check_in_int64_bounds_size_by_count (regulateStart regulateStop : Int → Int → Int)
    (start_vec stop_vec step_vec entire_shape sliced_shape : List Int)
    (hnd : ¬ (entire_shape.length = 1 ∧ sliced_shape.length = 0))
    (hr : ∀ i, i < entire_shape.length →
      cross_check_in_int64 (regulateStart (start_vec.getD i 0) (entire_shape.getD i 0))
        (step_vec.getD i 0) (sliced_shape.getD i 0) = true) :
    ((∃ i, i < entire_shape.length ∧
        ((Set.ncard {k : Nat | in_slice_range
            (regulateStart (start_vec.getD i 0) (entire_shape.getD i 0))
            (regulateStop (stop_vec.getD i 0) (entire_shape.getD i 0)) (step_vec.getD i 0)
            (regulateStart (start_vec.getD i 0) (entire_shape.getD i 0)
              + (k : Int) * step_vec.getD i 0)} : Nat) : Int) < sliced_shape.getD i 0) →
      ∃ e, ConstructSliceParams_int64 regulateStart regulateStop start_vec stop_vec step_vec
        entire_shape sliced_shape = .error e) ∧
    (∀ p, ConstructSliceParams_int64 regulateStart regulateStop start_vec stop_vec step_vec
        entire_shape sliced_shape = .ok p →
      ∀ i, i < entire_shape.length →
        p.size.getD i 0 = sliced_shape.getD i 0 ∧
        p.size.getD i 0 ≤
          ((Set.ncard {k : Nat | in_slice_range
            (regulateStart (start_vec.getD i 0) (entire_shape.getD i 0))
            (regulateStop (stop_vec.getD i 0) (entire_shape.getD i 0)) (step_vec.getD i 0)
            (regulateStart (start_vec.getD i 0) (entire_shape.getD i 0)
              + (k : Int) * step_vec.getD i 0)} : Nat) : Int)) := by
  rw [ConstructSliceParams_int64_eq regulateStart regulateStop start_vec stop_vec step_vec
    entire_shape sliced_shape hr]
  exact cross_check_bounds_size_by_count regulateStart regulateStop start_vec stop_vec step_vec
    entire_shape sliced_shape hnd

theorem cross_check_in_int64_bounds_size_by_count_witness :
    ¬ (([10] : List Int).length = 1 ∧ ([11] : List Int).length = 0) ∧
    (∀ i, i < ([10] : List Int).length →
      cross_check_in_int64
        (RegulateSliceStart (([0] : List Int).getD i 0) (([10] : List Int).getD i 0))
        (([1] : List Int).getD i 0) (([11] : List Int).getD i 0) = true) ∧
    ∃ e, ConstructSliceParams_int64 RegulateSliceStart RegulateSliceStop [0] [10] [1] [10] [11]
      = .error e :=
  ⟨by decide, by decide,
    (cross_check_in_int64_bounds_size_by_count RegulateSliceStart RegulateSliceStop [0] [10] [1]
      [10] [11] (by decide) (by decide)).1
      ⟨0, by decide, by
        rw [ncard_in_slice_range_pos _ _ _ (by decide)]
        decide⟩⟩

/-- The cross-check stays in `int64_t` when the declared extent is that of a slice
that is not empty: with a start normalised into `[0, dim)`, a stop in `[-1, dim]`,
an extent `dim` of `int64_t` and `slice_size ≥ 1` indices of which the last,
`start + (slice_size - 1) * step`, lies in the range of the slice. -/
theorem cross_check_in_int64_of_last_index (start stop step slice_size dim : Int)
    (hstep : step ≠ 0) (hstart : 0 ≤ start ∧ start < dim) (hstop : -1 ≤ stop ∧ stop ≤ dim)
    (hdim : dim < 9223372036854775808) (hsize : 1 ≤ slice_size)
    (hlast : in_slice_range start stop step (start + (slice_size - 1) * step)) :
    cross_check_in_int64 start step slice_size = true := by
  have hx : -1 ≤ start + (slice_size - 1) * step ∧ start + (slice_size - 1) * step ≤ dim := by
    unfold in_slice_range at hlast
    split_ifs at hlast <;> omega
  have hq : -dim ≤ step * (slice_size - 1) ∧ step * (slice_size - 1) ≤ dim := by
    have e : step * (slice_size - 1) = (slice_size - 1) * step := by ring
    rw [e]
    omega
  have hp : slice_size - 1 ≤ dim := by
    rcases lt_or_gt_of_ne hstep with hneg | hpos
    · nlinarith [hq.1, hq.2]
    · nlinarith [hq.1, hq.2]
  simp only [cross_check_in_int64, Bool.and_eq_true, in_int64_iff]
  have e : step * (slice_size - 1) = (slice_size - 1) * step := by ring
  refine ⟨⟨⟨by omega, by omega⟩, ⟨by omega, by omega⟩⟩, ⟨?_, ?_⟩⟩
  · rw [e]; omega
  · rw [e]; omega

/-- When `lower - start`, `step` and `lower + step` stay in `int64_t`, the stride
alignment of line 82 in 64 bits is the alignment over the integers. -/
theorem advanced_start_int64_eq (lower start step : Int) (hstep : 0 < step)
    (hlt : start < lower) (h1 : lower - start < 9223372036854775808)
    (h2 : -9223372036854775808 ≤ lower) (h3 : step < 9223372036854775808)
    (h4 : lower + step ≤ 9223372036854775808) :
    advanced_start_int64 lower start step = advanced_start lower start step := by
  unfold advanced_start_int64 advanced_start
  have ha : int64_wrap (lower - start) = lower - start :=
    int64_wrap_of_range _ (by omega) h1
  rw [ha]
  have hb0 : 0 ≤ Int.tmod (lower - start) step := Int.tmod_nonneg _ (by omega)
  have hb1 : Int.tmod (lower - start) step < step := Int.tmod_lt_of_pos _ hstep
  have hc : int64_wrap (step - Int.tmod (lower - start) step)
      = step - Int.tmod (lower - start) step :=
    int64_wrap_of_range _ (by omega) (by omega)
  rw [hc]
  have hd0 : 0 ≤ Int.tmod (step - Int.tmod (lower - start) step) step :=
    Int.tmod_nonneg _ (by omega)
  have hd1 : Int.tmod (step - Int.tmod (lower - start) step) step < step :=
    Int.tmod_lt_of_pos _ hstep
  exact int64_wrap_of_range _ (by omega) (by omega)

/-- C3, the failing input. With `lower = 5`, `start = 3 < lower` and
`step = 2^63 - 1 > 0` the smallest `v ≥ lower` with `v ≡ start (mod step)` is
`start + step = 2^63 + 2`, past the range of `int64_t`; the expression
`lower + (step - (lower - start) % step) % step` of line 82 has that value over the
integers, and in 64 bits the value `-2^63 + 2`, which is below `lower`. -/
theorem advanced_start_int64_overflows :
    (0 : Int) < 9223372036854775807 ∧ (3 : Int) < 5 ∧
    advanced_start 5 3 9223372036854775807 = 9223372036854775810 ∧
    in_int64 9223372036854775810 = false ∧
    advanced_start_int64 5 3 9223372036854775807 = -9223372036854775806 ∧
    ¬ (5 ≤ advanced_start_int64 5 3 9223372036854775807) ∧
    ¬ IsLeast {v : Int | 5 ≤ v ∧ v ≡ 3 [ZMOD 9223372036854775807]}
      (advanced_start_int64 5 3 9223372036854775807) := by
  refine ⟨by decide, by decide, by decide, by decide, by decide, by decide, ?_⟩
  intro h
  have h5 := h.1.1
  revert h5
  decide

/-- C1, the failing input. `SliceContext(0, 5, 8, 8)`, `start = 3`, `stop = 8`,
`step = 2^63 - 1` and a shard of shape `(3)`: the bounds `0 ≤ lower ≤ upper ≤
logical_length` and `0 ≤ start, stop ≤ logical_length` hold and the step is
positive. The logical slice has the one index 3, which is not in the shard
`[5, 8)`. In 64 bits the sum of line 82 overflows, `ConstructSliceParamsLarge`
returns `start[0] = 0` and `size[0] = 1`, and the described set holds the logical
index `5`. Over the integers the builder returns `size[0] = 0`. -/
theorem alignment_overflow_selects_index_outside_slice :
    ∃ large : SliceParams,
      ConstructSliceParamsLarge_int64 ⟨0, 5, 8, 8⟩ [3] [8] [9223372036854775807] [3]
        = .ok large ∧
      large.start.getD 0 0 = 0 ∧ large.size.getD 0 0 = 1 ∧
      (5 : Int) ∈ {x : Int | ∃ k : Int, 0 ≤ k ∧ k < large.size.getD 0 0 ∧
          x = 5 + large.start.getD 0 0 + k * large.step.getD 0 0} ∧
      {x : Int | ∃ m : Int, 0 ≤ m ∧ x = 3 + m * 9223372036854775807 ∧ x < 8}
        ∩ Set.Ico 5 8 = ∅ ∧
      ∃ exact : SliceParams,
        ConstructSliceParamsLarge ⟨0, 5, 8, 8⟩ [3] [8] [9223372036854775807] [3] = .ok exact ∧
        exact.size.getD 0 0 = 0 := by
  refine ⟨⟨1, [3, 0, 0, 0, 0, 0, 0, 0], [0, 0, 0, 0, 0, 0, 0, 0],
      [9223372036854775807, 0, 0, 0, 0, 0, 0, 0], [1, 0, 0, 0, 0, 0, 0, 0]⟩,
    by decide, by decide, by decide, ⟨0, by decide, by decide, by decide⟩, ?_,
    ⟨⟨1, [3, 0, 0, 0, 0, 0, 0, 0], [3, 0, 0, 0, 0, 0, 0, 0],
      [9223372036854775807, 0, 0, 0, 0, 0, 0, 0], [0, 0, 0, 0, 0, 0, 0, 0]⟩,
      by decide, by decide⟩⟩
  ext x
  simp only [Set.mem_inter_iff, Set.mem_setOf_eq, Set.mem_Ico, Set.mem_empty_iff_false,
    iff_false, not_and]
  rintro ⟨m, hm0, hx, hlt⟩
  omega

/-- C4, the failing input. `SliceContext(0, 5, 8, 8)`, `start = [3]`, `stop = [8]`,
`step = [2^63 - 1]`, a large tensor of shape `(3) = (upper - lower)` and a small
tensor of shape `(1)`, which is `GetSizeInSlice(3, 8, step)`: the input is
well-formed. In 64 bits the sum of line 82 overflows: the large block has
`size[0] = 1`, the small block `size[0] = 0`, and `WriteSlice` aborts on
`CHECK_EQ(large.elem_cnt(), small.elem_cnt())`. -/
theorem elem_cnt_check_fires_after_alignment_overflow :
    (0 : Int) < 9223372036854775807 ∧ (5 : Int) ≤ 8 ∧
    RegulateSliceStart 3 8 = 3 ∧ RegulateSliceStop 8 8 = 8 ∧
    GetSizeInSlice 3 8 9223372036854775807 = 1 ∧
    GetSizeInSlice_int64 3 8 9223372036854775807 = 1 ∧
    (∃ large small : SliceParams,
      ConstructSliceParamsLarge_int64 ⟨0, 5, 8, 8⟩ [3] [8] [9223372036854775807] [3]
        = .ok large ∧
      ConstructSliceParamsSmall_int64 ⟨0, 5, 8, 8⟩ [3] [8] [9223372036854775807] [1]
        = .ok small ∧
      large.size.getD 0 0 = 1 ∧ small.size.getD 0 0 = 0 ∧
      large.elem_cnt = 1 ∧ small.elem_cnt = 0) ∧
    WriteSlice_params_int64 RegulateSliceStart RegulateSliceStop ⟨0, 5, 8, 8⟩ [3] [8]
      [9223372036854775807] [3] [1] = .error .elem_cnt_mismatch := by
  refine ⟨by decide, by decide, by decide, by decide, by decide, by decide,
    ⟨⟨1, [3, 0, 0, 0, 0, 0, 0, 0], [0, 0, 0, 0, 0, 0, 0, 0],
      [9223372036854775807, 0, 0, 0, 0, 0, 0, 0], [1, 0, 0, 0, 0, 0, 0, 0]⟩,
     ⟨1, [1, 0, 0, 0, 0, 0, 0, 0], [1, 0, 0, 0, 0, 0, 0, 0],
      [1, 0, 0, 0, 0, 0, 0, 0], [0, 0, 0, 0, 0, 0, 0, 0]⟩,
     by decide, by decide, by decide, by decide, by decide, by decide⟩, by decide⟩

/-- C15, the failing input. `ConstructSliceParams` with an entire shape `(10)`, a
sliced shape `(11)`, `start = [0]`, `stop = [10]`, `step = [2^60]`: the start is
normalised to 0 in `[0, 10)`, the stop to 10 in `[-1, 10]`. The product
`step * (slice_size - 1) = 10 * 2^60` is past the range of `int64_t`; in 64 bits it
is `-6 * 2^60`, `CHECK_LT` passes, and the builder returns `size[0] = 11` with
`dims[0] = 10`. Over the integers the check fails. The lower bound of `size[0]` is
that of the declared extent: with a sliced shape `(-3)` and step 1 the builder
returns `size[0] = -3`. -/
theorem size_exceeds_dims_after_cross_check_overflow :
    (0 ≤ RegulateSliceStart 0 10 ∧ RegulateSliceStart 0 10 < 10) ∧
    (-1 ≤ RegulateSliceStop 10 10 ∧ RegulateSliceStop 10 10 ≤ 10) ∧
    cross_check_lhs_int64 0 1152921504606846976 11 = -6917529027641081856 ∧
    (∃ p : SliceParams,
      ConstructSliceParams_int64 RegulateSliceStart RegulateSliceStop [0] [10]
        [1152921504606846976] [10] [11] = .ok p ∧
      p.size.getD 0 0 = 11 ∧ p.dims.getD 0 0 = 10 ∧
      ¬ (p.size.getD 0 0 ≤ p.dims.getD 0 0)) ∧
    ConstructSliceParams RegulateSliceStart RegulateSliceStop [0] [10]
      [1152921504606846976] [10] [11] = .error .size_cross_check ∧
    (∃ p : SliceParams,
      ConstructSliceParams_int64 RegulateSliceStart RegulateSliceStop [0] [10] [1] [10] [-3]
        = .ok p ∧
      p.size.getD 0 0 = -3) := by
  refine ⟨by decide, by decide, by decide,
    ⟨⟨1, [10, 0, 0, 0, 0, 0, 0, 0], [0, 0, 0, 0, 0, 0, 0, 0],
      [1152921504606846976, 0, 0, 0, 0, 0, 0, 0], [11, 0, 0, 0, 0, 0, 0, 0]⟩,
      by decide, by decide, by decide, by decide⟩, by decide,
    ⟨⟨1, [10, 0, 0, 0, 0, 0, 0, 0], [0, 0, 0, 0, 0, 0, 0, 0],
      [1, 0, 0, 0, 0, 0, 0, 0], [-3, 0, 0, 0, 0, 0, 0, 0]⟩, by decide, by decide⟩⟩

/-- C28, the failing input. `ConstructSliceParams` with an entire shape `(10)`, a
sliced shape `(5)`, `start = [0]`, `stop = [10]`, `step = [2^62]`: start and stop
are normalised to 0 and 10. The product `step * (slice_size - 1) = 2^64` is 0 in 64
bits, `CHECK_LT` passes, and the builder returns `step[0] = 2^62`, `size[0] = 5`.
The slice offsets 0 and 4 are below `elem_cnt = 5`; their entire-buffer offsets are
0 and `2^64`, the same value in 64 bits; the slice offset 1 has the entire-buffer
offset `2^62`, outside the 10 elements of the tensor. -/
theorem slice_offsets_alias_after_cross_check_overflow :
    (0 ≤ RegulateSliceStart 0 10 ∧ RegulateSliceStart 0 10 < 10) ∧
    (-1 ≤ RegulateSliceStop 10 10 ∧ RegulateSliceStop 10 10 ≤ 10) ∧
    cross_check_lhs_int64 0 4611686018427387904 5 = 0 ∧
    ∃ p : SliceParams,
      ConstructSliceParams_int64 RegulateSliceStart RegulateSliceStop [0] [10]
        [4611686018427387904] [10] [5] = .ok p ∧
      p.elem_cnt = 5 ∧
      SliceOffsetToEntireOffset p.ndim 0 p = 0 ∧
      SliceOffsetToEntireOffset p.ndim 4 p = 18446744073709551616 ∧
      int64_wrap (SliceOffsetToEntireOffset p.ndim 4 p)
        = int64_wrap (SliceOffsetToEntireOffset p.ndim 0 p) ∧
      SliceOffsetToEntireOffset p.ndim 1 p = 4611686018427387904 ∧
      ¬ (SliceOffsetToEntireOffset p.ndim 1 p < ([10] : List Int).prod) := by
  refine ⟨by decide, by decide, by decide,
    ⟨1, [10, 0, 0, 0, 0, 0, 0, 0], [0, 0, 0, 0, 0, 0, 0, 0],
      [4611686018427387904, 0, 0, 0, 0, 0, 0, 0], [5, 0, 0, 0, 0, 0, 0, 0]⟩,
    by decide, by decide, by decide, by decide, by decide, by decide, by decide⟩

/-- C29, the failing input. `ConstructSliceParams` with an entire shape `(10)`, a
sliced shape `(3)`, `start = [0]`, `stop = [10]`, `step = [2^62]`, outside the
scalar-pick case: start and stop are normalised to 0 and 10. The product
`step * (slice_size - 1) = 2^63` is `-2^63` in 64 bits, `CHECK_LT` passes, and the
builder returns `step[0] = 2^62`, `size[0] = 3`. The selected index
`start[0] + 1 * step[0] = 2^62` is not in `[0, 10)`. Over the integers the check
fails. -/
theorem plain_builder_selects_out_of_bounds_after_overflow :
    ¬ (([10] : List Int).length = 1 ∧ ([3] : List Int).length = 0) ∧
    (0 ≤ RegulateSliceStart 0 10 ∧ RegulateSliceStart 0 10 < 10) ∧
    (-1 ≤ RegulateSliceStop 10 10 ∧ RegulateSliceStop 10 10 ≤ 10) ∧
    cross_check_lhs_int64 0 4611686018427387904 3 = -9223372036854775808 ∧
    (∃ p : SliceParams,
      ConstructSliceParams_int64 RegulateSliceStart RegulateSliceStop [0] [10]
        [4611686018427387904] [10] [3] = .ok p ∧
      (0 : Int) ≤ 1 ∧ 1 < p.size.getD 0 0 ∧
      p.start.getD 0 0 + 1 * p.step.getD 0 0 = 4611686018427387904 ∧
      ¬ (p.start.getD 0 0 + 1 * p.step.getD 0 0 < p.dims.getD 0 0)) ∧
    ConstructSliceParams RegulateSliceStart RegulateSliceStop [0] [10]
      [4611686018427387904] [10] [3] = .error .size_cross_check := by
  refine ⟨by decide, by decide, by decide, by decide,
    ⟨⟨1, [10, 0, 0, 0, 0, 0, 0, 0], [0, 0, 0, 0, 0, 0, 0, 0],
      [4611686018427387904, 0, 0, 0, 0, 0, 0, 0], [3, 0, 0, 0, 0, 0, 0, 0]⟩,
      by decide, by decide, by decide, by decide, by decide⟩, by decide⟩

end oneflow
